import Mathlib

/-!
# Verification of three subsystems of the emulator

A shallow embedding of

* the OKI MSM9810 ADPCM sound chip (`src/emu/sound/okim9810.c`): the decoder
  helper `adpcm_stateCopy` and the voice manager of `okim9810_device`;
* the Video System sprite device (`src/mame/video/vsystem_spr.c`): attribute
  decoding, `common_sprite_drawgfx` and the sorting-list traversals;
* the peripherals of the GP32 driver (`src/mess/drivers/gp32.c`): the interrupt
  controller, the DMA controller, the PWM timers, the LCD controller, the IIS
  interface, the IIC interface and the address map,

followed by the properties of the specification that concern them.

Conventions of the embedding.

* C integers are `Int`/`Nat`; where a C assignment or a parameter passing
  converts to a fixed-width type the conversion is written out (`wrapS`,
  `wrapU32`, `% 256`).
* A C array is a function from the index to the element; every theorem that
  concerns an array access states the index bound explicitly. Where a property
  is about the bound itself, the access is checked and yields `none` outside the
  array (`mux_table`, `s3c240x_memcon_regs`, the IIS FIFO, the IIC data
  buffer).
* Static data of a class (`s_tables_computed`, `s_diff_lookup`) is a record
  that is passed to and returned from the functions using it.
* A `while` loop whose termination depends on the data is run with a bound on
  the number of iterations (its fuel) and returns `none` when the bound does not
  suffice; the theorems show that it returns with the stated fuel. A loop that
  counts a variable down to zero is a recursion on that variable.
* Calls into the emulation core that only produce output (draw calls, the CPU
  interrupt line, the timers, the screen configuration) are recorded: the
  drawing functions return the list of calls they issue, the interrupt
  controller keeps the last state of the line, a timer keeps its last
  programming. Calls between the peripherals of the GP32 driver are recorded as
  a list of `gp32_call`.
* A `double` that the source computes as the quotient of two integers is kept
  as the pair of its operands.
* The class declarations live in headers (`okim9810.h`, `vsystem_spr.h`,
  `includes/gp32.h`) that are not among the sources; the widths of the member
  variables follow the data model of the specification, the interrupt numbers of
  the GP32 are parameters.
-/

/-! ## Machine integers -/

/-- Conversion of an integer to the signed two's-complement type of `w` bits
(`w ≥ 1`), as performed by a C assignment to `INT16`/`INT32`. -/
def wrapS (w : Nat) (x : Int) : Int :=
  (x + 2 ^ (w - 1)) % 2 ^ w - 2 ^ (w - 1)

/-- Conversion of a natural number to `UINT32` (`offs_t`, `UINT32`). -/
def wrapU32 (x : Nat) : Nat := x % 4294967296

/-- Update of one element of an array modelled as a function. -/
def arraySet {α : Type} (a : Nat → α) (i : Nat) (v : α) : Nat → α :=
  fun j => if j = i then v else a j

/-! ## ADPCM state helper -/

/-- The static members of `adpcm_stateCopy`: `s_tables_computed` and
`s_diff_lookup[49*16]`. -/
structure adpcm_tables where
  s_tables_computed : Bool
  s_diff_lookup : Nat → Int

/-- Static initialisation: `s_tables_computed = false`, the lookup array
zero-initialised. -/
def adpcm_tables_init : adpcm_tables :=
  { s_tables_computed := false, s_diff_lookup := fun _ => 0 }

/-- Modelled from the spec: the member variables of `adpcm_stateCopy` are
declared in `okim9810.h`; the data model gives `signal: int16` and `step: int`. -/
structure adpcm_stateCopy where
  m_signal : Int
  m_step : Int
deriving DecidableEq

namespace adpcm_stateCopy

/-- The table `s_index_shift[8]`. -/
def s_index_shift : List Int := [-1, -1, -1, -1, 2, 4, 6, 8]

/-- The local table `nbl2bit[16][4]` of `compute_tables`. -/
def nbl2bit : List (List Int) :=
  [ [ 1, 0, 0, 0], [ 1, 0, 0, 1], [ 1, 0, 1, 0], [ 1, 0, 1, 1],
    [ 1, 1, 0, 0], [ 1, 1, 0, 1], [ 1, 1, 1, 0], [ 1, 1, 1, 1],
    [-1, 0, 0, 0], [-1, 0, 0, 1], [-1, 0, 1, 0], [-1, 0, 1, 1],
    [-1, 1, 0, 0], [-1, 1, 0, 1], [-1, 1, 1, 0], [-1, 1, 1, 1] ]

/-- The element `nbl2bit[nib][col]`. -/
def nbl2bit_at (nib col : Nat) : Int := (nbl2bit.getD nib []).getD col 0

/-- The line `int stepval = floor(16.0 * pow(11.0 / 10.0, (double)step));`.
The library function `pow` is not part of the sources: `pw step` stands for the
double that `pow(11.0 / 10.0, (double)step)` returns, as a rational number
(every finite double is one).  The product with `16.0` is exact in binary
floating point, `floor` is exact, and so is the conversion of the integral
result to `int`. -/
def stepval (pw : Nat → ℚ) (step : Nat) : Int := ⌊(16 : ℚ) * pw step⌋

/-- The right-hand side of the assignment to `s_diff_lookup[step*16 + nib]`;
`/` on C `int`s truncates toward zero. -/
def diff_value (sv : Int) (nib : Nat) : Int :=
  nbl2bit_at nib 0 *
    (sv * nbl2bit_at nib 1 +
     sv.tdiv 2 * nbl2bit_at nib 2 +
     sv.tdiv 4 * nbl2bit_at nib 3 +
     sv.tdiv 8)

/-- The inner loop `for (int nib = 0; nib < 16; nib++)` of `compute_tables`. -/
def compute_tables_nibs (sv : Int) (step : Nat) (tbl : Nat → Int) : Nat → Int :=
  (List.range 16).foldl
    (fun t nib => arraySet t (step * 16 + nib) (diff_value sv nib)) tbl

/-- The outer loop `for (int step = 0; step <= 48; step++)` of
`compute_tables`. -/
def compute_tables_steps (pw : Nat → ℚ) (tbl : Nat → Int) : Nat → Int :=
  (List.range 49).foldl
    (fun t step => compute_tables_nibs (stepval pw step) step t) tbl

/-- The function `adpcm_stateCopy::compute_tables`. -/
def compute_tables (pw : Nat → ℚ) (T : adpcm_tables) : adpcm_tables :=
  if T.s_tables_computed then T
  else
    { s_tables_computed := true
      s_diff_lookup := compute_tables_steps pw T.s_diff_lookup }

/-- The function `adpcm_stateCopy::reset`. -/
def reset (_st : adpcm_stateCopy) : adpcm_stateCopy :=
  { m_signal := -2, m_step := 0 }

/-- The index `m_step * 16 + (nibble & 15)` of the table access in `clock`. -/
def lookup_index (st : adpcm_stateCopy) (nibble : Nat) : Int :=
  st.m_step * 16 + (((nibble % 256) &&& 15 : Nat) : Int)

/-- The function `adpcm_stateCopy::clock`: the new state and the returned
`INT16`.  The parameter is a `UINT8`, hence `nibble % 256`; the sum is stored
in the 16-bit `m_signal` and the new step in the `int` `m_step` before each is
compared with its bounds. -/
def clock (T : adpcm_tables) (st : adpcm_stateCopy) (nibble : Nat) :
    adpcm_stateCopy × Int :=
  let nib := nibble % 256
  let sig1 := wrapS 16 (st.m_signal + T.s_diff_lookup (lookup_index st nibble).toNat)
  let sig2 := if sig1 > 2047 then 2047 else if sig1 < -2048 then -2048 else sig1
  let stp1 := wrapS 32 (st.m_step + s_index_shift.getD (nib &&& 7) 0)
  let stp2 := if stp1 > 48 then 48 else if stp1 < 0 then 0 else stp1
  ({ m_signal := sig2, m_step := stp2 }, wrapS 16 sig2)

/-- A sequence of `clock` calls: the final state and the returned values in
order. -/
def clocks (T : adpcm_tables) : adpcm_stateCopy → List Nat → adpcm_stateCopy × List Int
  | st, [] => (st, [])
  | st, n :: ns =>
    let r := clock T st n
    let rest := clocks T r.1 ns
    (rest.1, r.2 :: rest.2)

/-- The step value of the specification, `floor(16 * (11/10)^step)`, computed
exactly over the rationals. -/
def exact_stepval (step : Nat) : Int := ⌊(16 : ℚ) * (11 / 10) ^ step⌋

/-- Bit `k` of `n` as an integer `0` or `1`. -/
def bitOf (n k : Nat) : Int := ((n / 2 ^ k % 2 : Nat) : Int)

/-- The closed form of the specification for the table entry of step value
`v` and nibble `n`: `sign(n) * (v*b2 + (v/2)*b1 + (v/4)*b0 + v/8)`. -/
def closed_form (v : Int) (n : Nat) : Int :=
  (if n / 8 % 2 = 1 then -1 else 1) *
    (v * bitOf n 2 + v.tdiv 2 * bitOf n 1 + v.tdiv 4 * bitOf n 0 + v.tdiv 8)

/-- The clamp of the specification. -/
def clampTo (lo hi x : Int) : Int := if x > hi then hi else if x < lo then lo else x

end adpcm_stateCopy

/-! ## Voices and the device -/

/-- Modelled from the spec: the constant `OKIM9810_VOICES` is defined in
`okim9810.h`; the chip has a fixed array of 8 voices. -/
def OKIM9810_VOICES : Nat := 8

/-- Modelled from the spec: the class `okim_voice` is declared in `okim9810.h`;
the members are those initialised by the constructor and the widths follow the
data model (`sample_cursor: u32`, `sample_count: u32`, `volume: u8`; the base
offset is an `offs_t`, 32 bits, holding a 24-bit address). -/
structure okim_voice where
  m_adpcm : adpcm_stateCopy
  m_playing : Bool
  m_looping : Bool
  m_startFlags : Nat
  m_endFlags : Nat
  m_base_offset : Nat
  m_sample : Nat
  m_count : Nat
  m_volume : Nat
deriving DecidableEq

/-- The call `direct.read_raw_byte(address)`.  The class `direct_read_data` is
not part of the sources: `direct` is the content of the sample ROM as a
function of the address; the parameter is an `offs_t` and the result a
`UINT8`. -/
def read_raw_byte (direct : Nat → Nat) (address : Nat) : Nat :=
  direct (wrapU32 address) % 256

/-- The statement `*buffer++ += sample` applied for each produced sample in
turn, `stream_sample_t` being a 32-bit integer. -/
def accumulate : List Int → List Int → List Int
  | b :: bs, s :: ss => wrapS 32 (b + s) :: accumulate bs ss
  | bs, [] => bs
  | [], _ :: _ => []

namespace okim_voice

/-- The constructor `okim_voice::okim_voice()`.  Modelled from the spec: the
member `m_adpcm` is default-constructed by code of `okim9810.h`, the decoder
starting in its reset state `signal = -2, step = 0`. -/
def init : okim_voice :=
  { m_adpcm := adpcm_stateCopy.reset ⟨0, 0⟩
    m_playing := false
    m_looping := false
    m_startFlags := 0
    m_endFlags := 0
    m_base_offset := 0
    m_sample := 0
    m_count := 0
    m_volume := 0 }

/-- The value `nibble` computed at the top of the loop body of
`generate_adpcm`. -/
def fetch_nibble (direct : Nat → Nat) (v : okim_voice) : Nat :=
  read_raw_byte direct (v.m_base_offset + v.m_sample / 2)
    >>> (((v.m_sample &&& 1) <<< 2) ^^^ 4)

/-- The loop `while (samples-- != 0)` of `generate_adpcm`, for a request of
`samples ≥ 0` samples: the voice afterwards and the values added to the
buffer, in order. -/
def generate_loop (T : adpcm_tables) (direct : Nat → Nat) :
    okim_voice → Nat → okim_voice × List Int
  | v, 0 => (v, [])
  | v, samples + 1 =>
    let r := adpcm_stateCopy.clock T v.m_adpcm (fetch_nibble direct v)
    let v1 := { v with m_adpcm := r.1, m_sample := wrapU32 (v.m_sample + 1) }
    if v1.m_sample ≥ v1.m_count then
      (if !v1.m_looping then { v1 with m_playing := false }
        else { v1 with m_sample := 0 }, [r.2])
    else
      let rest := generate_loop T direct v1 samples
      (rest.1, r.2 :: rest.2)

/-- The function `generate_adpcm` up to the buffer: the voice afterwards and the
samples it adds to the buffer. -/
def generate_adpcm_samples (T : adpcm_tables) (direct : Nat → Nat) (v : okim_voice)
    (samples : Nat) : okim_voice × List Int :=
  if !v.m_playing then (v, []) else generate_loop T direct v samples

/-- The function `okim_voice::generate_adpcm`. -/
def generate_adpcm (T : adpcm_tables) (direct : Nat → Nat) (v : okim_voice)
    (buffer : List Int) (samples : Nat) : okim_voice × List Int :=
  let r := generate_adpcm_samples T direct v samples
  (r.1, accumulate buffer r.2)

/-- Successive `generate_adpcm` calls with the given sample requests: the voice
afterwards and all samples added, in order. -/
def generate_calls (T : adpcm_tables) (direct : Nat → Nat) :
    okim_voice → List Nat → okim_voice × List Int
  | v, [] => (v, [])
  | v, n :: ns =>
    let r := generate_adpcm_samples T direct v n
    let rest := generate_calls T direct r.1 ns
    (rest.1, r.2 ++ rest.2)

end okim_voice

/-- The members `m_TMP_register` and `m_voice[OKIM9810_VOICES]` of
`okim9810_device`. -/
structure okim9810_device where
  m_TMP_register : Nat
  m_voice : Nat → okim_voice

namespace okim9810_device

/-- The constructor of `okim9810_device`: `m_TMP_register(0x00)` and
default-constructed voices. -/
def init : okim9810_device :=
  { m_TMP_register := 0, m_voice := fun _ => okim_voice.init }

/-- The function `okim9810_device::device_reset`; the call `m_stream->update()`
belongs to the sound core and does not touch the members modelled here. -/
def device_reset (dev : okim9810_device) : okim9810_device :=
  { dev with
    m_voice := (List.range OKIM9810_VOICES).foldl
      (fun vs voicenum => arraySet vs voicenum { vs voicenum with m_playing := false })
      dev.m_voice }

/-- The function `okim9810_device::write_TMP_register`; the parameter is a
`UINT8`. -/
def write_TMP_register (dev : okim9810_device) (data : Nat) : okim9810_device :=
  { dev with m_TMP_register := data % 256 }

/-- The loop of the `START` case: the state is the voices and the `UINT8`
variable `channelMask`. -/
def start_loop (tmp : Nat) (vs : Nat → okim_voice) : (Nat → okim_voice) × Nat :=
  (List.range OKIM9810_VOICES).foldl
    (fun (p : (Nat → okim_voice) × Nat) i =>
      (if p.2 &&& tmp ≠ 0 then arraySet p.1 i { p.1 i with m_playing := true } else p.1,
       (p.2 <<< 1) % 256))
    (vs, 1)

/-- The loop of the `STOP` case. -/
def stop_loop (tmp : Nat) (vs : Nat → okim_voice) : (Nat → okim_voice) × Nat :=
  (List.range OKIM9810_VOICES).foldl
    (fun (p : (Nat → okim_voice) × Nat) i =>
      (if p.2 &&& tmp ≠ 0 then arraySet p.1 i { p.1 i with m_playing := false } else p.1,
       (p.2 <<< 1) % 256))
    (vs, 1)

/-- The loop of the `LOOP` case. -/
def loop_loop (tmp : Nat) (vs : Nat → okim_voice) : (Nat → okim_voice) × Nat :=
  (List.range OKIM9810_VOICES).foldl
    (fun (p : (Nat → okim_voice) × Nat) i =>
      (if p.2 &&& tmp ≠ 0 then arraySet p.1 i { p.1 i with m_looping := true }
        else arraySet p.1 i { p.1 i with m_looping := false },
       (p.2 <<< 1) % 256))
    (vs, 1)

/-- The address assembled from three bytes in the `FADR` case:
`b1 << 16 | b2 << 8 | b3 << 0`. -/
def fadr_addr (b1 b2 b3 : Nat) : Nat :=
  wrapU32 (((b1 <<< 16) ||| (b2 <<< 8)) ||| (b3 <<< 0))

/-- The `FADR` case of `write_command`. -/
def fadr (direct : Nat → Nat) (dev : okim9810_device) (channel : Nat) : okim9810_device :=
  let base := wrapU32 (dev.m_TMP_register * 8)
  let startFlags := read_raw_byte direct (base + 0)
  let startAddr := fadr_addr (read_raw_byte direct (base + 1))
    (read_raw_byte direct (base + 2)) (read_raw_byte direct (base + 3))
  let endFlags := read_raw_byte direct (base + 4)
  let endAddr := fadr_addr (read_raw_byte direct (base + 5))
    (read_raw_byte direct (base + 6)) (read_raw_byte direct (base + 7))
  { dev with
    m_voice := arraySet dev.m_voice channel
      { dev.m_voice channel with
        m_startFlags := startFlags
        m_base_offset := startAddr
        m_endFlags := endFlags
        m_sample := 0
        m_count := wrapU32 (2 * wrapU32 (wrapU32 (endAddr + 4294967296 - startAddr) + 1)) } }

/-- The function `okim9810_device::write_command`; `direct` is `m_direct`, the
parameter is a `UINT8`.  The logging calls have no effect on the state. -/
def write_command (direct : Nat → Nat) (dev : okim9810_device) (data : Nat) :
    okim9810_device :=
  let cmd := ((data % 256) &&& 0xf8) >>> 3
  let channel := (data % 256) &&& 0x07
  if cmd = 0x00 then { dev with m_voice := (start_loop dev.m_TMP_register dev.m_voice).1 }
  else if cmd = 0x01 then { dev with m_voice := (stop_loop dev.m_TMP_register dev.m_voice).1 }
  else if cmd = 0x02 then { dev with m_voice := (loop_loop dev.m_TMP_register dev.m_voice).1 }
  else if cmd = 0x03 then dev
  else if cmd = 0x04 then dev
  else if cmd = 0x05 then fadr direct dev channel
  else if cmd = 0x06 then dev
  else if cmd = 0x07 then
    { dev with
      m_voice := arraySet dev.m_voice channel
        { dev.m_voice channel with m_volume := dev.m_TMP_register } }
  else if cmd = 0x08 then dev
  else dev

/-- The function `okim9810_device::sound_stream_update`: the output buffer is
cleared and every voice adds its samples to it. -/
def sound_stream_update (T : adpcm_tables) (direct : Nat → Nat) (dev : okim9810_device)
    (samples : Nat) : okim9810_device × List Int :=
  let r := (List.range OKIM9810_VOICES).foldl
    (fun (p : (Nat → okim_voice) × List Int) voicenum =>
      let g := okim_voice.generate_adpcm T direct (p.1 voicenum) p.2 samples
      (arraySet p.1 voicenum g.1, g.2))
    (dev.m_voice, List.replicate samples 0)
  ({ dev with m_voice := r.1 }, r.2)

end okim9810_device

/-- The operations that drive the device from outside. -/
inductive okim_op where
  | write_TMP (data : Nat)
  | write_cmd (data : Nat)
  | generate (voice : Nat) (samples : Nat)
  | stream_update (samples : Nat)
  | reset
deriving DecidableEq

namespace okim9810_device

/-- One operation applied to the device: a TMP-register write, a command write,
a `generate_adpcm` call on one voice (with a scratch buffer), a stream update
or a device reset. -/
def apply_op (T : adpcm_tables) (direct : Nat → Nat) (dev : okim9810_device) :
    okim_op → okim9810_device
  | .write_TMP data => write_TMP_register dev data
  | .write_cmd data => write_command direct dev data
  | .generate i samples =>
    if i < OKIM9810_VOICES then
      { dev with
        m_voice := arraySet dev.m_voice i
          (okim_voice.generate_adpcm T direct (dev.m_voice i)
            (List.replicate samples 0) samples).1 }
    else dev
  | .stream_update samples => (sound_stream_update T direct dev samples).1
  | .reset => device_reset dev

/-- A sequence of operations applied from left to right. -/
def run (T : adpcm_tables) (direct : Nat → Nat) :
    okim9810_device → List okim_op → okim9810_device
  | dev, [] => dev
  | dev, op :: ops => run T direct (apply_op T direct dev op) ops

end okim9810_device

/-- The byte of the sample ROM at address `a`. -/
def rom_byte (direct : Nat → Nat) (a : Nat) : Nat := direct a % 256

/-- The big-endian 24-bit value of the three ROM bytes at `a`, `a+1`, `a+2`. -/
def be24 (direct : Nat → Nat) (a : Nat) : Nat :=
  rom_byte direct a * 65536 + rom_byte direct (a + 1) * 256 + rom_byte direct (a + 2)

/-- A sample ROM whose phrase-table entry 0 (addresses 0..7) holds start
address `0x000100` and end address `0x000105`, and whose entry 1 (addresses
8..15) holds start address `0x000100` and end address `0x0000FF`; all other
bytes are `0x5A`. -/
def example_rom : Nat → Nat := fun a =>
  if a = 0 then 0x00 else if a = 1 then 0x00 else if a = 2 then 0x01
  else if a = 3 then 0x00 else if a = 4 then 0x00 else if a = 5 then 0x00
  else if a = 6 then 0x01 else if a = 7 then 0x05
  else if a = 8 then 0x00 else if a = 9 then 0x00 else if a = 10 then 0x01
  else if a = 11 then 0x00 else if a = 12 then 0x00 else if a = 13 then 0x00
  else if a = 14 then 0x00 else if a = 15 then 0xFF else 0x5A

/-- A voice loaded with the 12-sample phrase of `example_rom` (base offset
`0x000100`) and started, at sample cursor `k`. -/
def example_voice (k : Nat) (looping : Bool) : okim_voice :=
  { okim_voice.init with
    m_playing := true, m_looping := looping, m_base_offset := 0x000100,
    m_sample := k, m_count := 12 }

/-- The decoder tables as `compute_tables` leaves them when `pow` is exact. -/
def example_tables : adpcm_tables :=
  adpcm_stateCopy.compute_tables (fun k => (11 / 10) ^ k) adpcm_tables_init

/-- The invariant of the data model for one voice: while playing, the sample
cursor is below the sample count. -/
def voice_inv (v : okim_voice) : Prop :=
  v.m_playing = true → v.m_sample < v.m_count

/-- The condition under which an operation keeps the voice invariant: a START
selects only voices whose cursor is below their count, and a FADR does not load
a count of 0 into a playing voice.  Every other operation is unrestricted. -/
def op_admissible (direct : Nat → Nat) (dev : okim9810_device) : okim_op → Prop
  | .write_cmd data =>
    ((((data % 256) &&& 0xf8) >>> 3 = 0) →
      ∀ i, i < 8 → dev.m_TMP_register.testBit i = true →
        (dev.m_voice i).m_sample < (dev.m_voice i).m_count) ∧
    ((((data % 256) &&& 0xf8) >>> 3 = 5) →
      (dev.m_voice ((data % 256) &&& 0x07)).m_playing = true →
      ((okim9810_device.fadr direct dev ((data % 256) &&& 0x07)).m_voice
        ((data % 256) &&& 0x07)).m_count ≠ 0)
  | _ => True

/-- Every operation of a sequence is admissible in the state it is applied
to. -/
def run_admissible (T : adpcm_tables) (direct : Nat → Nat) :
    okim9810_device → List okim_op → Prop
  | _, [] => True
  | dev, op :: ops =>
    op_admissible direct dev op ∧
      run_admissible T direct (okim9810_device.apply_op T direct dev op) ops

/-- An admissible session: load phrase 0 on voice 0, start voice 0, generate 5
samples on it, then update the stream by 3 samples. -/
def example_session : List okim_op :=
  [.write_TMP 0, .write_cmd 0x28, .write_TMP 1, .write_cmd 0x00, .generate 0 5,
   .stream_update 3]

/-! ## Video System sprites (`src/mame/video/vsystem_spr.c`) -/

/-- Modelled from the spec: the record `curr_sprite` is declared in
`vsystem_spr.h`, which is not among the sources; its fields are the ones
assigned by `get_sprite_attributes` (origin, size, zoom, flip, colour, priority,
tile-map pointer).  The fields are C `int`s, modelled on the integers: for a
decoded record and drawing offsets of magnitude below `2^30` no value computed
from them leaves the `int` range.  The map pointer is the `UINT32` handed to the
tile callback. -/
structure vsystem_sprite_attributes where
  ox : Int
  xsize : Int
  zoomx : Int
  oy : Int
  ysize : Int
  zoomy : Int
  flipx : Int
  flipy : Int
  color : Int
  pri : Int
  map : Nat
deriving DecidableEq

/-- The members of `vsystem_spr_device` used by the drawing code; `m_newtilecb`
is the tile-indirection delegate and `m_vram` the content of the video RAM that
`CG10103_set_ram` points the device to. -/
structure vsystem_spr_device where
  m_transpen : Int
  m_pal_base : Int
  m_xoffs : Int
  m_yoffs : Int
  m_pdraw : Bool
  m_gfx_region : Int
  m_newtilecb : Nat → Nat
  m_vram : Nat → Nat
  curr_sprite : vsystem_sprite_attributes

/-- One call of `drawgfxzoom_transpen` or `pdrawgfxzoom_transpen` (functions of
the video core): the arguments as the caller computes them.  `priority_mask` is
`none` for `drawgfxzoom_transpen`, which takes no priority mask. -/
structure tile_draw where
  gfxrgn : Int
  code : Int
  color : Int
  flipx : Int
  flipy : Int
  sx : Int
  sy : Int
  scalex : Int
  scaley : Int
  priority_mask : Option Int
  transpen : Int
deriving DecidableEq

/-- One iteration of the inner loop of `common_sprite_drawgfx`: the argument of
the tile callback, the loop counters and the draw calls issued. -/
structure tile_event where
  map_arg : Nat
  xcnt : Int
  ycnt : Int
  calls : List tile_draw
deriving DecidableEq

/-- One sprite taken from a sorting list: its position in the list, the word
index of its attribute record and the tiles drawn for it. -/
structure sprite_visit where
  pos : Nat
  attr_start : Nat
  tiles : List tile_event
deriving DecidableEq

/-- A read of one element of a `UINT16` array. -/
def read_word (ram : Nat → Nat) (i : Nat) : Nat := ram i % 65536

namespace vsystem_spr_device

/-- The function `vsystem_spr_device::tile_callback_noindirect`. -/
def tile_callback_noindirect (tile : Nat) : Nat := wrapU32 tile

/-- The constructor of `vsystem_spr_device`; the members it does not assign
(`m_gfx_region`, `m_vram`, `curr_sprite`) are taken as zero. -/
def init : vsystem_spr_device :=
  { m_transpen := 15
    m_pal_base := 0
    m_xoffs := 0
    m_yoffs := 0
    m_pdraw := false
    m_gfx_region := 0
    m_newtilecb := tile_callback_noindirect
    m_vram := fun _ => 0
    curr_sprite := ⟨0, 0, 0, 0, 0, 0, 0, 0, 0, 0, 0⟩ }

/-- The function `vsystem_spr_device::get_sprite_attributes`, applied to the
four words of `ram` that start at word index `base`. -/
def get_sprite_attributes (dev : vsystem_spr_device) (ram : Nat → Nat) (base : Nat) :
    vsystem_spr_device :=
  { dev with
    curr_sprite :=
      { oy := ((read_word ram (base + 0) &&& 0x01ff : Nat) : Int)
        ysize := (((read_word ram (base + 0) &&& 0x0e00) >>> 9 : Nat) : Int)
        zoomy := (((read_word ram (base + 0) &&& 0xf000) >>> 12 : Nat) : Int)
        ox := ((read_word ram (base + 1) &&& 0x01ff : Nat) : Int)
        xsize := (((read_word ram (base + 1) &&& 0x0e00) >>> 9 : Nat) : Int)
        zoomx := (((read_word ram (base + 1) &&& 0xf000) >>> 12 : Nat) : Int)
        flipx := ((read_word ram (base + 2) &&& 0x4000 : Nat) : Int)
        flipy := ((read_word ram (base + 2) &&& 0x8000 : Nat) : Int)
        color := (((read_word ram (base + 2) &&& 0x3f00) >>> 8 : Nat) : Int)
        pri := (((read_word ram (base + 2) &&& 0x3000) >>> 12 : Nat) : Int)
        map := wrapU32 (((read_word ram (base + 2) &&& 0x0001) <<< 16)
                 ||| (read_word ram (base + 3) &&& 0xffff)) } }

/-- The variable `priority_mask` of `common_sprite_drawgfx` after the
`switch (curr_sprite.pri)`. -/
def priority_mask_of (pdraw : Bool) (pri : Int) : Int :=
  if pdraw then
    (if pri = 0 then 0x00 else if pri = 3 then 0xfe else if pri = 2 then 0xfc
     else if pri = 1 then 0xf0 else 0x00)
  else 0x00

/-- The four draw calls of one tile, `startno` being the tile number returned by
the callback: `pdrawgfxzoom_transpen` with the priority mask when `m_pdraw` is
set, `drawgfxzoom_transpen` otherwise.  `a * b / 2` on `int`s truncates toward
zero and `z << 11` is `z * 2048`. -/
def tile_calls (dev : vsystem_spr_device) (gfxrgn priority_mask : Int) (startno : Int)
    (xcnt ycnt : Int) : List tile_draw :=
  let cs := dev.curr_sprite
  let pm : Option Int := if dev.m_pdraw then some priority_mask else none
  let call (sx sy : Int) : tile_draw :=
    { gfxrgn := gfxrgn, code := startno, color := cs.color + dev.m_pal_base,
      flipx := cs.flipx, flipy := cs.flipy, sx := sx, sy := sy,
      scalex := cs.zoomx * 2048, scaley := cs.zoomy * 2048,
      priority_mask := pm, transpen := dev.m_transpen }
  [ call (cs.ox + (xcnt * cs.zoomx).tdiv 2) (cs.oy + (ycnt * cs.zoomy).tdiv 2),
    call (-0x200 + cs.ox + (xcnt * cs.zoomx).tdiv 2) (cs.oy + (ycnt * cs.zoomy).tdiv 2),
    call (cs.ox + (xcnt * cs.zoomx).tdiv 2) (-0x200 + cs.oy + (ycnt * cs.zoomy).tdiv 2),
    call (-0x200 + cs.ox + (xcnt * cs.zoomx).tdiv 2)
      (-0x200 + cs.oy + (ycnt * cs.zoomy).tdiv 2) ]

/-- The body of the inner loop of `common_sprite_drawgfx`:
`int startno = m_newtilecb(curr_sprite.map++)` followed by the four draw
calls. -/
def tile_body (dev : vsystem_spr_device) (gfxrgn priority_mask : Int) (xcnt ycnt : Int) :
    vsystem_spr_device × tile_event :=
  let map_arg := wrapU32 dev.curr_sprite.map
  let startno := wrapS 32 ((wrapU32 (dev.m_newtilecb map_arg) : Nat) : Int)
  let dev1 := { dev with
    curr_sprite := { dev.curr_sprite with map := wrapU32 (dev.curr_sprite.map + 1) } }
  (dev1, { map_arg := map_arg, xcnt := xcnt, ycnt := ycnt,
           calls := tile_calls dev gfxrgn priority_mask startno xcnt ycnt })

/-- The loop `while (xcnt != xend) { ...; xcnt += xinc; }`, run for at most
`fuel` iterations: `none` when the fuel does not suffice. -/
def xloop (gfxrgn priority_mask : Int) (ycnt xend xinc : Int) :
    Nat → Int → vsystem_spr_device → Option (vsystem_spr_device × List tile_event)
  | 0, xcnt, dev => if xcnt = xend then some (dev, []) else none
  | fuel + 1, xcnt, dev =>
    if xcnt = xend then some (dev, [])
    else
      let r := tile_body dev gfxrgn priority_mask xcnt ycnt
      match xloop gfxrgn priority_mask ycnt xend xinc fuel (xcnt + xinc) r.1 with
      | none => none
      | some rest => some (rest.1, r.2 :: rest.2)

/-- The loop `while (ycnt != yend) { ...; ycnt += yinc; }`, run for at most
`fuel` iterations, each inner loop having `fuel` iterations at its disposal. -/
def yloop (gfxrgn priority_mask : Int) (fuel0 : Nat) (yend yinc : Int) :
    Nat → Int → vsystem_spr_device → Option (vsystem_spr_device × List tile_event)
  | 0, ycnt, dev => if ycnt = yend then some (dev, []) else none
  | fuel + 1, ycnt, dev =>
    if ycnt = yend then some (dev, [])
    else
      let xstart : Int := if dev.curr_sprite.flipx = 0 then 0 else dev.curr_sprite.xsize
      let xend : Int := if dev.curr_sprite.flipx = 0 then dev.curr_sprite.xsize + 1 else -1
      let xinc : Int := if dev.curr_sprite.flipx = 0 then 1 else -1
      match xloop gfxrgn priority_mask ycnt xend xinc fuel0 xstart dev with
      | none => none
      | some row =>
        match yloop gfxrgn priority_mask fuel0 yend yinc fuel (ycnt + yinc) row.1 with
        | none => none
        | some rest => some (rest.1, row.2 ++ rest.2)

/-- The function `vsystem_spr_device::common_sprite_drawgfx`, each loop being
allowed `fuel` iterations: the device afterwards and the tiles drawn, in
order. -/
def common_sprite_drawgfx (fuel : Nat) (gfxrgn : Int) (dev : vsystem_spr_device) :
    Option (vsystem_spr_device × List tile_event) :=
  let cs0 := dev.curr_sprite
  let cs1 := { cs0 with oy := cs0.oy + dev.m_yoffs, ox := cs0.ox + dev.m_xoffs }
  let priority_mask := priority_mask_of dev.m_pdraw cs1.pri
  let cs2 := { cs1 with zoomx := 32 - cs1.zoomx, zoomy := 32 - cs1.zoomy }
  let dev2 := { dev with curr_sprite := cs2 }
  let ystart : Int := if cs2.flipy = 0 then 0 else cs2.ysize
  let yend : Int := if cs2.flipy = 0 then cs2.ysize + 1 else -1
  let yinc : Int := if cs2.flipy = 0 then 1 else -1
  yloop gfxrgn priority_mask fuel yend yinc fuel ystart dev2

end vsystem_spr_device

namespace vsystem_spr_device

/-- The function `vsystem_spr_device::CG10103_draw_sprite`, `base` being the
word index of the attribute record `spr` within the video RAM. -/
def CG10103_draw_sprite (fuel : Nat) (dev : vsystem_spr_device) (base : Nat)
    (drawpri : Int) : Option (vsystem_spr_device × List tile_event) :=
  let dev1 := get_sprite_attributes dev dev.m_vram base
  let dev2 := { dev1 with
    curr_sprite := { dev1.curr_sprite with
      color := Int.land dev1.curr_sprite.color 0x1f
      pri := dev1.curr_sprite.pri >>> 1 } }
  if dev2.curr_sprite.pri ≠ drawpri then some (dev2, [])
  else common_sprite_drawgfx fuel dev2.m_gfx_region dev2

/-- The loop `for (i=0;i<0x400;i++)` of `CG10103_draw` with `n` iterations left
at index `i`. -/
def CG10103_draw_loop (fuel : Nat) (pri : Int) :
    Nat → Nat → vsystem_spr_device → Option (vsystem_spr_device × List sprite_visit)
  | 0, _, dev => some (dev, [])
  | n + 1, i, dev =>
    let cmd := read_word dev.m_vram i
    if cmd &&& 0x4000 ≠ 0 then some (dev, [])
    else if cmd &&& 0x8000 = 0 then
      let num := cmd &&& 0x3FF
      match CG10103_draw_sprite fuel dev (num * 4) pri with
      | none => none
      | some r =>
        match CG10103_draw_loop fuel pri n (i + 1) r.1 with
        | none => none
        | some rest =>
          some (rest.1, { pos := i, attr_start := num * 4, tiles := r.2 } :: rest.2)
    else CG10103_draw_loop fuel pri n (i + 1) dev

/-- The function `vsystem_spr_device::CG10103_draw`: the device afterwards and
the sprites taken from the sorting list, in order. -/
def CG10103_draw (fuel : Nat) (dev : vsystem_spr_device) (pri : Int) :
    Option (vsystem_spr_device × List sprite_visit) :=
  CG10103_draw_loop fuel pri 0x400 0 dev

/-- The first loop of `draw_sprites_inufuku`, with `n` iterations left at index
`offs`: the value of `offs` when the loop is left. -/
def inufuku_find_end (spriteram : Nat → Nat) : Nat → Nat → Nat
  | 0, offs => offs
  | n + 1, offs =>
    if read_word spriteram offs &&& 0x4000 ≠ 0 then offs
    else inufuku_find_end spriteram n (offs + 1)

/-- The second loop of `draw_sprites_inufuku`,
`for (offs = end - 1; offs >= 0; offs--)`, entered with `offs + 1 = k`. -/
def inufuku_draw_loop (fuel : Nat) (spriteram : Nat → Nat) :
    Nat → vsystem_spr_device → Option (vsystem_spr_device × List sprite_visit)
  | 0, dev => some (dev, [])
  | offs + 1, dev =>
    if read_word spriteram offs &&& 0x8000 = 0x0000 then
      let attr_start := 4 * (read_word spriteram offs &&& 0x03ff)
      let dev1 := get_sprite_attributes dev spriteram attr_start
      let dev2 := { dev1 with
        curr_sprite := { dev1.curr_sprite with map := dev1.curr_sprite.map &&& 0x7fff } }
      match common_sprite_drawgfx fuel 2 dev2 with
      | none => none
      | some r =>
        match inufuku_draw_loop fuel spriteram offs r.1 with
        | none => none
        | some rest =>
          some (rest.1, { pos := offs, attr_start := attr_start, tiles := r.2 } :: rest.2)
    else inufuku_draw_loop fuel spriteram offs dev

/-- The function `vsystem_spr_device::draw_sprites_inufuku`. -/
def draw_sprites_inufuku (fuel : Nat) (dev : vsystem_spr_device) (spriteram : Nat → Nat)
    (spriteram_bytes : Nat) : Option (vsystem_spr_device × List sprite_visit) :=
  let end_ := inufuku_find_end spriteram (spriteram_bytes / 16) 0
  inufuku_draw_loop fuel spriteram end_ dev

end vsystem_spr_device

/-- The positions of a sorting list of `n` entries that lie below the first entry
with bit `0x4000` set. -/
def list_before_end (ram : Nat → Nat) (n : Nat) : List Nat :=
  (List.range n).takeWhile (fun i => read_word ram i &&& 0x4000 = 0)

/-- The position `E` of the first entry with bit `0x4000` set, `n` if there is
none. -/
def list_end (ram : Nat → Nat) (n : Nat) : Nat := (list_before_end ram n).length

/-- The set `S`: the positions below `E` whose entry has bit `0x8000` clear, in
ascending order. -/
def list_enabled (ram : Nat → Nat) (n : Nat) : List Nat :=
  (List.range (list_end ram n)).filter (fun i => read_word ram i &&& 0x8000 = 0)

/-- A sample attribute record: the words `0x0005, 0x1003, 0xC200, 0x1234` at
word index 0. -/
def example_sprite_ram : Nat → Nat := fun a =>
  if a = 0 then 0x0005 else if a = 1 then 0x1003 else if a = 2 then 0xC200
  else if a = 3 then 0x1234 else 0

namespace vsystem_spr_device

/-- The device with the map pointer of `curr_sprite` replaced. -/
def with_map (dev : vsystem_spr_device) (m : Nat) : vsystem_spr_device :=
  { dev with curr_sprite := { dev.curr_sprite with map := m } }

/-- The device as `common_sprite_drawgfx` prepares it before its loops: the
offsets added to the origin and each zoom replaced by 32 minus its value. -/
def prepared (dev : vsystem_spr_device) : vsystem_spr_device :=
  { dev with
    curr_sprite := { dev.curr_sprite with
      oy := dev.curr_sprite.oy + dev.m_yoffs
      ox := dev.curr_sprite.ox + dev.m_xoffs
      zoomx := 32 - dev.curr_sprite.zoomx
      zoomy := 32 - dev.curr_sprite.zoomy } }

/-- The grid column of the `i`-th tile of a row: `i`, or `xsize - i` when the
sprite is flipped in x. -/
def grid_col (dev : vsystem_spr_device) (i : Nat) : Int :=
  if dev.curr_sprite.flipx = 0 then (i : Int) else dev.curr_sprite.xsize - i

/-- The grid row of the `j`-th row drawn: `j`, or `ysize - j` when the sprite is
flipped in y. -/
def grid_row (dev : vsystem_spr_device) (j : Nat) : Int :=
  if dev.curr_sprite.flipy = 0 then (j : Int) else dev.curr_sprite.ysize - j

/-- The tile drawn `k`-th (counting from 0) for a prepared sprite of `cx + 1`
columns: the callback argument is the map pointer advanced by `k`, the column is
that of `k mod (cx+1)` and the row that of `k / (cx+1)`. -/
def nth_tile (dev : vsystem_spr_device) (gfxrgn priority_mask : Int) (cx k : Nat) :
    tile_event :=
  (tile_body (with_map dev (dev.curr_sprite.map + k)) gfxrgn priority_mask
    (grid_col dev (k % (cx + 1))) (grid_row dev (k / (cx + 1)))).2

end vsystem_spr_device

/-- A sample device: offsets `(4, -2)`, and a current sprite of 3 by 2 tiles at
`(100, 50)`, stored zoom 16 on both axes, flipped in x, colour 2, priority 1,
map pointer `0x1234`. -/
def example_sprite_dev (pdraw : Bool) : vsystem_spr_device :=
  { vsystem_spr_device.init with
    m_xoffs := 4
    m_yoffs := -2
    m_pdraw := pdraw
    curr_sprite :=
      { ox := 100, xsize := 2, zoomx := 16, oy := 50, ysize := 1, zoomy := 16,
        flipx := 0x4000, flipy := 0, color := 2, pri := 1, map := 0x1234 } }

/-- A sample video RAM: the sorting list `0x0002, 0x8003, 0x0001, 0x4000`
(sprite 2, a disabled entry, sprite 1, end of list) at word index 0, all other
words zero. -/
def example_sorting_ram : Nat → Nat := fun a =>
  if a = 0 then 0x0002 else if a = 1 then 0x8003 else if a = 2 then 0x0001
  else if a = 3 then 0x4000 else 0

/-! ## GP32 interrupt controller (`src/mess/drivers/gp32.c`) -/

/-- The 32-bit complement `~x` of a `UINT32`. -/
def not32 (x : Nat) : Nat := 4294967295 - x % 4294967296

/-- Modelled from the spec: the macro `COMBINE_DATA` belongs to the emulation
core; a register write "merges `value` under `mask` into the register", that is
`*reg = (*reg & ~mem_mask) | (data & mem_mask)`. -/
def COMBINE_DATA (reg data mem_mask : Nat) : Nat :=
  (reg &&& not32 mem_mask) ||| (data &&& mem_mask)

/-- The static array `s3c240x_irq_regs[0x18/4]` of `UINT32` (word 0 is SRCPND,
word 2 the interrupt mask, word 4 INTPND, word 5 INTOFFSET) together with the
state of the CPU IRQ input line, the last value handed to `cpu_set_input_line`
(`true` for `ASSERT_LINE`, `false` for `CLEAR_LINE`). -/
structure s3c240x_irq where
  s3c240x_irq_regs : Nat → Nat
  irq_line : Bool

/-- The loop `while (!(temp & 1)) { int_type++; temp = temp >> 1; }` of
`s3c240x_check_pending_irq`, run for at most `fuel` iterations: the final value
of `int_type`, or `none` when the fuel does not suffice. -/
def s3c240x_irq_scan : Nat → Nat → Nat → Option Nat
  | 0, int_type, temp => if temp &&& 1 ≠ 0 then some int_type else none
  | fuel + 1, int_type, temp =>
    if temp &&& 1 ≠ 0 then some int_type
    else s3c240x_irq_scan fuel (wrapU32 (int_type + 1)) (temp >>> 1)

/-- The function `s3c240x_check_pending_irq`. -/
def s3c240x_check_pending_irq (fuel : Nat) (st : s3c240x_irq) : Option s3c240x_irq :=
  if st.s3c240x_irq_regs 0 ≠ 0 then
    match s3c240x_irq_scan fuel 0 (st.s3c240x_irq_regs 0) with
    | none => none
    | some int_type =>
      let regs1 := arraySet st.s3c240x_irq_regs 4
        (st.s3c240x_irq_regs 4 ||| wrapU32 (1 <<< int_type))
      let regs2 := arraySet regs1 5 int_type
      some { s3c240x_irq_regs := regs2, irq_line := true }
  else
    some { st with irq_line := false }

/-- The function `s3c240x_request_irq`; the logging calls have no effect. -/
def s3c240x_request_irq (fuel : Nat) (st : s3c240x_irq) (int_type : Nat) :
    Option s3c240x_irq :=
  if st.s3c240x_irq_regs 0 = 0 then
    let regs1 := arraySet st.s3c240x_irq_regs 0
      (st.s3c240x_irq_regs 0 ||| wrapU32 (1 <<< int_type))
    let regs2 := arraySet regs1 4 (regs1 4 ||| wrapU32 (1 <<< int_type))
    let regs3 := arraySet regs2 5 int_type
    some { s3c240x_irq_regs := regs3, irq_line := true }
  else
    let regs1 := arraySet st.s3c240x_irq_regs 0
      (st.s3c240x_irq_regs 0 ||| wrapU32 (1 <<< int_type))
    s3c240x_check_pending_irq fuel { st with s3c240x_irq_regs := regs1 }

/-- The handler `s3c240x_irq_r`. -/
def s3c240x_irq_r (st : s3c240x_irq) (offset : Nat) : Nat := st.s3c240x_irq_regs offset

/-- The handler `s3c240x_irq_w`. -/
def s3c240x_irq_w (fuel : Nat) (st : s3c240x_irq) (offset data mem_mask : Nat) :
    Option s3c240x_irq :=
  let old_value := st.s3c240x_irq_regs offset
  let regs1 := arraySet st.s3c240x_irq_regs offset
    (COMBINE_DATA (st.s3c240x_irq_regs offset) data mem_mask)
  if offset = 0x00 / 4 then
    let regs2 := arraySet regs1 0 (old_value &&& not32 data)
    s3c240x_check_pending_irq fuel { st with s3c240x_irq_regs := regs2 }
  else if offset = 0x10 / 4 then
    let regs2 := arraySet regs1 4 (old_value &&& not32 data)
    some { st with s3c240x_irq_regs := regs2 }
  else some { st with s3c240x_irq_regs := regs1 }

/-- The number `k` is the index of the lowest set bit of `x`. -/
def is_lowest_set_bit (x k : Nat) : Prop :=
  x.testBit k = true ∧ ∀ j, j < k → x.testBit j = false

/-- The interrupt controller with all registers zero and the IRQ line clear. -/
def s3c240x_irq_zero : s3c240x_irq :=
  { s3c240x_irq_regs := fun _ => 0, irq_line := false }

/-- An interrupt-controller state with the given SRCPND and interrupt mask, the
other registers zero and the IRQ line clear. -/
def example_irq (srcpnd mask : Nat) : s3c240x_irq :=
  { s3c240x_irq_regs := fun i => if i = 0 then srcpnd else if i = 2 then mask else 0
    irq_line := false }

/-! ## GP32 DMA controller (`src/mess/drivers/gp32.c`) -/

/-- The macro `BIT(x,n)`, `(((x)>>(n))&1)`. -/
def BIT (x n : Nat) : Nat := (x >>> n) &&& 1

/-- The macro `BITS(x,m,n)`, `(((x)>>(n))&((1<<((m)-(n)+1))-1))`; every use in
the driver has a field of at most 29 bits, so the `int` shift does not overflow. -/
def BITS (x m n : Nat) : Nat := (x >>> n) &&& ((1 <<< (m - n + 1)) - 1)

/-- The accessors of the CPU program address space (`memory_read_byte`,
`memory_write_byte` and their 16- and 32-bit forms). They belong to the
emulation core and are taken as parameters: `σ` is the state behind the address
space, a read yields a value, a write a new state. The model keeps the DMA
register array and the interrupt controller apart from `σ`, that is, it covers
transfers that do not write into these two register windows. -/
structure address_space (σ : Type) where
  memory_read_byte : σ → Nat → Nat
  memory_read_word : σ → Nat → Nat
  memory_read_dword : σ → Nat → Nat
  memory_write_byte : σ → Nat → Nat → σ
  memory_write_word : σ → Nat → Nat → σ
  memory_write_dword : σ → Nat → Nat → σ

/-- The calls between the peripherals of the driver that the model records, in
the order in which they are issued. -/
inductive gp32_call
  /-- One unit copy `memory_write_X( space, dst, memory_read_X( space, src))` of
  `s3c240x_dma_trigger`, with the size code `dsz`. -/
  | dma_copy (dsz src dst : Nat)
  /-- A call `s3c240x_request_irq( machine, int_type)`. -/
  | request_irq (int_type : Nat)
  /-- A call `s3c240x_dma_trigger( machine, dma)`. -/
  | dma_trigger (dma : Nat)
  /-- A call `s3c240x_dma_recalc( machine, dma)`. -/
  | dma_recalc (dma : Nat)
  /-- A call `s3c240x_pwm_recalc( machine, timer)`. -/
  | pwm_recalc (timer : Nat)
  /-- A call `s3c240x_lcd_recalc( machine)`. -/
  | lcd_recalc
  /-- A call `s3c240x_iis_recalc( machine)`. -/
  | iis_recalc
deriving DecidableEq

/-- The static array `s3c240x_dma_regs[0x7c/4]` (channel `dma` occupies the
words `8*dma ..`: 0 DISRC, 1 DIDST, 2 DCON, 3 DSTAT, 4 DCSRC, 5 DCDST,
6 DMASKTRIG), the state behind the program address space and the interrupt
controller. -/
structure s3c240x_dma (σ : Type) where
  s3c240x_dma_regs : Nat → Nat
  space : σ
  irq : s3c240x_irq

/-- The values of the locals `curr_tc`, `curr_src`, `curr_dst` and the address
space when the copy loop of `s3c240x_dma_trigger` is left, with the unit copies
it has made. -/
structure dma_loop_result (σ : Type) where
  curr_tc : Nat
  curr_src : Nat
  curr_dst : Nat
  space : σ
  calls : List gp32_call

/-- The `switch (dsz)` of the copy loop: one unit copy; no case for `dsz = 3`. -/
def dma_unit_copy {σ : Type} (as : address_space σ) (dsz : Nat) (sp : σ) (src dst : Nat) : σ :=
  if dsz = 0 then as.memory_write_byte sp dst (as.memory_read_byte sp src)
  else if dsz = 1 then as.memory_write_word sp dst (as.memory_read_word sp src)
  else if dsz = 2 then as.memory_write_dword sp dst (as.memory_read_dword sp src)
  else sp

/-- The copies recorded for one pass of the `switch (dsz)`. -/
def dma_unit_calls (dsz src dst : Nat) : List gp32_call :=
  if dsz = 0 ∨ dsz = 1 ∨ dsz = 2 then [gp32_call.dma_copy dsz src dst] else []

/-- The loop `while (curr_tc > 0) { curr_tc--; ...; if (servmode == 0) break; }`
of `s3c240x_dma_trigger`. Each iteration lowers `curr_tc` by one, so the
recursion is on `curr_tc`. -/
def s3c240x_dma_loop {σ : Type} (as : address_space σ)
    (dsz inc_src inc_dst servmode : Nat) :
    Nat → Nat → Nat → σ → dma_loop_result σ
  | 0, curr_src, curr_dst, sp =>
    { curr_tc := 0, curr_src := curr_src, curr_dst := curr_dst, space := sp, calls := [] }
  | curr_tc + 1, curr_src, curr_dst, sp =>
    let sp1 := dma_unit_copy as dsz sp curr_src curr_dst
    let src1 := if inc_src = 0 then wrapU32 (curr_src + (1 <<< dsz)) else curr_src
    let dst1 := if inc_dst = 0 then wrapU32 (curr_dst + (1 <<< dsz)) else curr_dst
    if servmode = 0 then
      { curr_tc := curr_tc, curr_src := src1, curr_dst := dst1, space := sp1
        calls := dma_unit_calls dsz curr_src curr_dst }
    else
      let r := s3c240x_dma_loop as dsz inc_src inc_dst servmode curr_tc src1 dst1 sp1
      { r with calls := dma_unit_calls dsz curr_src curr_dst ++ r.calls }

/-- The function `s3c240x_dma_reload`. -/
def s3c240x_dma_reload {σ : Type} (st : s3c240x_dma σ) (dma : Nat) : s3c240x_dma σ :=
  let base := dma <<< 3
  let regs := st.s3c240x_dma_regs
  let regs1 := arraySet regs (base + 3)
    ((regs (base + 3) &&& not32 0x000FFFFF) ||| BITS (regs (base + 2)) 19 0)
  let regs2 := arraySet regs1 (base + 4)
    ((regs1 (base + 4) &&& not32 0x1FFFFFFF) ||| BITS (regs1 (base + 0)) 28 0)
  let regs3 := arraySet regs2 (base + 5)
    ((regs2 (base + 5) &&& not32 0x1FFFFFFF) ||| BITS (regs2 (base + 1)) 28 0)
  { st with s3c240x_dma_regs := regs3 }

/-- The registers of channel `dma` after the three assignments "update
curr_src", "update curr_dst", "update curr_tc" of `s3c240x_dma_trigger`. -/
def dma_update_regs (regs : Nat → Nat) (dma curr_src curr_dst curr_tc : Nat) : Nat → Nat :=
  let base := dma <<< 3
  let regs1 := arraySet regs (base + 4) ((regs (base + 4) &&& not32 0x1FFFFFFF) ||| curr_src)
  let regs2 := arraySet regs1 (base + 5)
    ((regs1 (base + 5) &&& not32 0x1FFFFFFF) ||| curr_dst)
  arraySet regs2 (base + 3) ((regs2 (base + 3) &&& not32 0x000FFFFF) ||| curr_tc)

/-- The local `curr_tc` of `s3c240x_dma_trigger` at entry: the current transfer
count of channel `dma`. -/
def dma_curr_tc {σ : Type} (st : s3c240x_dma σ) (dma : Nat) : Nat :=
  BITS (st.s3c240x_dma_regs ((dma <<< 3) + 3)) 19 0

/-- The local `curr_src` at entry. -/
def dma_curr_src {σ : Type} (st : s3c240x_dma σ) (dma : Nat) : Nat :=
  BITS (st.s3c240x_dma_regs ((dma <<< 3) + 4)) 28 0

/-- The local `curr_dst` at entry. -/
def dma_curr_dst {σ : Type} (st : s3c240x_dma σ) (dma : Nat) : Nat :=
  BITS (st.s3c240x_dma_regs ((dma <<< 3) + 5)) 28 0

/-- The local `dsz`: the size field `DCON[21:20]`. -/
def dma_dsz {σ : Type} (st : s3c240x_dma σ) (dma : Nat) : Nat :=
  BITS (st.s3c240x_dma_regs ((dma <<< 3) + 2)) 21 20

/-- The local `servmode`: `DCON` bit 26. -/
def dma_servmode {σ : Type} (st : s3c240x_dma σ) (dma : Nat) : Nat :=
  BIT (st.s3c240x_dma_regs ((dma <<< 3) + 2)) 26

/-- The local `inc_src`: `DISRC` bit 29 (0 means the address increments). -/
def dma_inc_src {σ : Type} (st : s3c240x_dma σ) (dma : Nat) : Nat :=
  BIT (st.s3c240x_dma_regs ((dma <<< 3) + 0)) 29

/-- The local `inc_dst`: `DIDST` bit 29. -/
def dma_inc_dst {σ : Type} (st : s3c240x_dma σ) (dma : Nat) : Nat :=
  BIT (st.s3c240x_dma_regs ((dma <<< 3) + 1)) 29

/-- The copy loop of `s3c240x_dma_trigger` run from the locals as they are
initialised at entry. -/
def dma_loop_of {σ : Type} (as : address_space σ) (st : s3c240x_dma σ) (dma : Nat) :
    dma_loop_result σ :=
  s3c240x_dma_loop as (dma_dsz st dma) (dma_inc_src st dma) (dma_inc_dst st dma)
    (dma_servmode st dma) (dma_curr_tc st dma) (dma_curr_src st dma) (dma_curr_dst st dma)
    st.space

/-- The state of `s3c240x_dma_trigger` when it reaches `if (curr_tc == 0)`: the
copy loop has run and `DCSRC`, `DCDST`, `DSTAT` hold the new locals. -/
def dma_after_loop {σ : Type} (as : address_space σ) (st : s3c240x_dma σ) (dma : Nat) :
    s3c240x_dma σ :=
  { s3c240x_dma_regs := dma_update_regs st.s3c240x_dma_regs dma (dma_loop_of as st dma).curr_src
      (dma_loop_of as st dma).curr_dst (dma_loop_of as st dma).curr_tc
    space := (dma_loop_of as st dma).space
    irq := st.irq }

/-- The `if (!reload) ... else ...` of the completion handling of
`s3c240x_dma_trigger`: reload the channel, or clear its on/off bit. -/
def dma_completion {σ : Type} (st : s3c240x_dma σ) (dma : Nat) : s3c240x_dma σ :=
  let base := dma <<< 3
  let reload := BIT (st.s3c240x_dma_regs (base + 2)) 22
  if reload = 0 then s3c240x_dma_reload st dma
  else
    { st with s3c240x_dma_regs := (arraySet st.s3c240x_dma_regs (base + 6)
        (st.s3c240x_dma_regs (base + 6) &&& not32 (1 <<< 1))) }

/-- The function `s3c240x_dma_trigger`. The interrupt numbers `ch_int[]`
(`INT_DMA0` .. `INT_DMA3` of `includes/gp32.h`) are a parameter; `fuel` bounds
the bit scan of the interrupt controller. The result is the new state and the
recorded calls. -/
def s3c240x_dma_trigger {σ : Type} (as : address_space σ) (ch_int : Nat → Nat) (fuel : Nat)
    (st : s3c240x_dma σ) (dma : Nat) : Option (s3c240x_dma σ × List gp32_call) :=
  let r := dma_loop_of as st dma
  let st1 := dma_after_loop as st dma
  if r.curr_tc = 0 then
    let st2 := dma_completion st1 dma
    let _int := BIT (st2.s3c240x_dma_regs ((dma <<< 3) + 2)) 28
    if _int ≠ 0 then
      match s3c240x_request_irq fuel st2.irq (ch_int dma) with
      | none => none
      | some irq1 =>
        some ({ st2 with irq := irq1 }, r.calls ++ [gp32_call.request_irq (ch_int dma)])
    else some (st2, r.calls)
  else some (st1, r.calls)

/-- The handler `s3c240x_dma_r`. -/
def s3c240x_dma_r {σ : Type} (st : s3c240x_dma σ) (offset : Nat) : Nat :=
  st.s3c240x_dma_regs offset

/-- The callback `s3c240x_iis_timer_exp`. -/
def s3c240x_iis_timer_exp {σ : Type} (as : address_space σ) (ch_int : Nat → Nat) (fuel : Nat)
    (st : s3c240x_dma σ) : Option (s3c240x_dma σ × List gp32_call) :=
  let dcon := st.s3c240x_dma_regs (0x48 / 4)
  let hwsrcsel := BITS dcon 25 24
  let swhwsel := BIT dcon 23
  if swhwsel = 1 ∧ hwsrcsel = 0 then
    let dmasktrig := st.s3c240x_dma_regs (0x58 / 4)
    let on_off := BIT dmasktrig 1
    if on_off ≠ 0 then
      match s3c240x_dma_trigger as ch_int fuel st 2 with
      | none => none
      | some (st1, calls) => some (st1, gp32_call.dma_trigger 2 :: calls)
    else some (st, [])
  else some (st, [])

/-- A byte-addressed memory with little-endian 16- and 32-bit accesses, as a
sample address space. -/
def example_space : address_space (Nat → Nat) where
  memory_read_byte := fun m a => m a % 256
  memory_read_word := fun m a => m a % 256 + 256 * (m (a + 1) % 256)
  memory_read_dword := fun m a =>
    m a % 256 + 256 * (m (a + 1) % 256) + 65536 * (m (a + 2) % 256)
      + 16777216 * (m (a + 3) % 256)
  memory_write_byte := fun m a v => arraySet m a (v % 256)
  memory_write_word := fun m a v => arraySet (arraySet m a (v % 256)) (a + 1) (v / 256 % 256)
  memory_write_dword := fun m a v =>
    arraySet (arraySet (arraySet (arraySet m a (v % 256)) (a + 1) (v / 256 % 256))
      (a + 2) (v / 65536 % 256)) (a + 3) (v / 16777216 % 256)

/-- A sample numbering of the DMA interrupt sources. -/
def example_ch_int (dma : Nat) : Nat := 17 + dma

/-- A sample memory: byte `0x10 + a` at the addresses `0x100 ≤ a < 0x110`, zero
elsewhere. -/
def example_memory : Nat → Nat := fun a => if 0x100 ≤ a ∧ a < 0x110 then a - 0xf0 else 0

/-- A sample DMA state for channel 0: the given `DCON`, source `0x100` and
destination `0x200` (both incrementing), current count 4, channel switched on;
the interrupt controller is idle. -/
def example_dma (dcon : Nat) : s3c240x_dma (Nat → Nat) :=
  { s3c240x_dma_regs := fun i =>
      if i = 0 then 0x100 else if i = 1 then 0x200 else if i = 2 then dcon
      else if i = 3 then 4 else if i = 4 then 0x100 else if i = 5 then 0x200
      else if i = 6 then 2 else 0
    space := example_memory
    irq := s3c240x_irq_zero }

/-- A sample DMA state for channel 2: the given `DCON2` and `DMASKTRIG2`, source
`0x100` and destination `0x200` (both incrementing), current count 4. -/
def example_dma_ch2 (dcon masktrig : Nat) : s3c240x_dma (Nat → Nat) :=
  { s3c240x_dma_regs := fun i =>
      if i = 16 then 0x100 else if i = 17 then 0x200 else if i = 18 then dcon
      else if i = 19 then 4 else if i = 20 then 0x100 else if i = 21 then 0x200
      else if i = 22 then masktrig else 0
    space := example_memory
    irq := s3c240x_irq_zero }

/-- The address of unit `i` of a transfer that starts at `base`: `base` itself
for a fixed address (`inc ≠ 0`), `base + i * 2^dsz` for an incrementing one. -/
def dma_addr (inc base dsz i : Nat) : Nat :=
  if inc = 0 then base + i * (1 <<< dsz) else base

/-- The unit copies among the recorded calls. -/
def dma_copies (calls : List gp32_call) : List gp32_call :=
  calls.filter (fun c => match c with | gp32_call.dma_copy _ _ _ => true | _ => false)

/-- The interrupt requests among the recorded calls. -/
def irq_requests (calls : List gp32_call) : List gp32_call :=
  calls.filter (fun c => match c with | gp32_call.request_irq _ => true | _ => false)

/-! ## GP32 clock and PWM timers (`src/mess/drivers/gp32.c`) -/

/-- The constant `MPLLCON`: the index of the main PLL control word in
`s3c240x_clkpow_regs`. -/
def MPLLCON : Nat := 1

/-- The function `s3c240x_get_fclk` on the array `s3c240x_clkpow_regs[0x18/4]`.
The source divides in `double` and converts the quotient to `UINT32`; both
operands are integers below `2^32` (at most `263 * 12000000` and `65 * 8`), so
the truncated quotient is the integer quotient written here. -/
def s3c240x_get_fclk (clkpow : Nat → Nat) (reg : Nat) : Nat :=
  let data := clkpow reg
  let mdiv := BITS data 19 12
  let pdiv := BITS data 9 4
  let sdiv := BITS data 1 0
  wrapU32 ((mdiv + 8) * 12000000) / wrapU32 ((pdiv + 2) * (1 <<< sdiv))

/-- The function `s3c240x_get_pclk`. -/
def s3c240x_get_pclk (clkpow : Nat → Nat) (reg : Nat) : Nat :=
  if clkpow 5 &&& 0x3 = 0 then s3c240x_get_fclk clkpow reg / 1
  else if clkpow 5 &&& 0x3 = 1 then s3c240x_get_fclk clkpow reg / 2
  else if clkpow 5 &&& 0x3 = 2 then s3c240x_get_fclk clkpow reg / 2
  else if clkpow 5 &&& 0x3 = 3 then s3c240x_get_fclk clkpow reg / 4
  else 0

/-- A duration handed to the timer functions of the emulation core. The model
has no floating point: for `ATTOTIME_IN_HZ( hz)` it keeps the two integer
operands of the `double` division that yields `hz`. -/
inductive attotime
  /-- The constant `attotime_never`. -/
  | never
  /-- The value `ATTOTIME_IN_HZ( hz)` with `hz = (double)num / den`. -/
  | in_hz (num den : Nat)
  /-- The value `ATTOTIME_IN_MSEC( n)`. -/
  | in_msec (n : Nat)
  /-- The value `video_screen_get_time_until_pos( screen, vpos, hpos)`. -/
  | until_pos (vpos hpos : Nat)
deriving DecidableEq

/-- The programming of an `emu_timer` by its last `timer_adjust_oneshot`
(`period = none`) or `timer_adjust_periodic` call. -/
structure emu_timer where
  duration : attotime
  param : Nat
  period : Option attotime
deriving DecidableEq

/-- The call `timer_adjust_oneshot( timer, duration, param)`. -/
def timer_adjust_oneshot (duration : attotime) (param : Nat) : emu_timer :=
  { duration := duration, param := param, period := none }

/-- The call `timer_adjust_periodic( timer, start_delay, param, period)`. -/
def timer_adjust_periodic (start_delay : attotime) (param : Nat) (period : attotime) :
    emu_timer :=
  { duration := start_delay, param := param, period := some period }

/-- The static array `s3c240x_pwm_regs[0x44/4]` (word 0 TCFG0, 1 TCFG1, 2 TCON,
`3 + 3t` TCNTBt, `4 + 3t` TCMPBt) and the five timers `s3c240x_pwm_timer[5]`. -/
structure s3c240x_pwm where
  s3c240x_pwm_regs : Nat → Nat
  s3c240x_pwm_timer : Nat → emu_timer

/-- The table `mux_table[] = { 2, 4, 8, 16}` of `s3c240x_pwm_start`. -/
def mux_table : List Nat := [2, 4, 8, 16]

/-- The table `prescaler_shift[] = { 0, 0, 8, 8, 8}`. -/
def prescaler_shift : List Nat := [0, 0, 8, 8, 8]

/-- The table `mux_shift[] = { 0, 4, 8, 12, 16}`. -/
def mux_shift : List Nat := [0, 4, 8, 12, 16]

/-- The table `tcon_shift[] = { 0, 8, 12, 16, 20}`. -/
def tcon_shift : List Nat := [0, 8, 12, 16, 20]

/-- The function `s3c240x_pwm_start`. A table is read with a checked index: the
result is `none` when an index lies outside its table. The rate `hz` is kept as
the operands `freq` and `cnt - cmp + 1` (a `UINT32` expression) of its `double`
division. -/
def s3c240x_pwm_start (clkpow : Nat → Nat) (st : s3c240x_pwm) (timer : Nat) :
    Option s3c240x_pwm := do
  let regs := fun i => st.s3c240x_pwm_regs (3 + timer * 3 + i)
  let pshift ← prescaler_shift[timer]?
  let prescaler := (st.s3c240x_pwm_regs 0 >>> pshift) &&& 0xFF
  let mshift ← mux_shift[timer]?
  let mux := (st.s3c240x_pwm_regs 1 >>> mshift) &&& 0x0F
  let divisor ← mux_table[mux]?
  let freq := s3c240x_get_pclk clkpow MPLLCON / (prescaler + 1) / divisor
  let cnt := BITS (regs 0) 15 0
  let tshift ← tcon_shift[timer]?
  let cmp := if timer ≠ 4 then BITS (regs 1) 15 0 else 0
  let auto_reload :=
    if timer ≠ 4 then BIT (st.s3c240x_pwm_regs 2) (tshift + 3)
    else BIT (st.s3c240x_pwm_regs 2) (tshift + 2)
  let hz := attotime.in_hz freq (wrapU32 (cnt + 4294967296 - cmp + 1))
  if auto_reload ≠ 0 then
    some { st with s3c240x_pwm_timer :=
      (arraySet st.s3c240x_pwm_timer timer (timer_adjust_periodic hz timer hz)) }
  else
    some { st with s3c240x_pwm_timer :=
      (arraySet st.s3c240x_pwm_timer timer (timer_adjust_oneshot hz timer)) }

/-- The function `s3c240x_pwm_stop`. -/
def s3c240x_pwm_stop (st : s3c240x_pwm) (timer : Nat) : s3c240x_pwm :=
  { st with s3c240x_pwm_timer :=
    (arraySet st.s3c240x_pwm_timer timer (timer_adjust_oneshot attotime.never 0)) }

/-- The function `s3c240x_pwm_recalc`. -/
def s3c240x_pwm_recalc (clkpow : Nat → Nat) (st : s3c240x_pwm) (timer : Nat) :
    Option s3c240x_pwm := do
  let tshift ← tcon_shift[timer]?
  if st.s3c240x_pwm_regs 2 &&& (1 <<< tshift) ≠ 0 then s3c240x_pwm_start clkpow st timer
  else some (s3c240x_pwm_stop st timer)

/-- The handler `s3c240x_pwm_r`; a read leaves the state as it is. -/
def s3c240x_pwm_r (st : s3c240x_pwm) (offset : Nat) : Nat := st.s3c240x_pwm_regs offset

/-- One `if ((data & bit) != (old_value & bit)) s3c240x_pwm_recalc( machine, timer);`
of the `TCON` case of `s3c240x_pwm_w`. -/
def pwm_w_edge (clkpow : Nat → Nat) (data old_value bit timer : Nat)
    (acc : s3c240x_pwm × List gp32_call) : Option (s3c240x_pwm × List gp32_call) :=
  if data &&& bit ≠ old_value &&& bit then
    match s3c240x_pwm_recalc clkpow acc.1 timer with
    | none => none
    | some st1 => some (st1, acc.2 ++ [gp32_call.pwm_recalc timer])
  else some acc

/-- The handler `s3c240x_pwm_w`, with the recorded `s3c240x_pwm_recalc` calls. -/
def s3c240x_pwm_w (clkpow : Nat → Nat) (st : s3c240x_pwm) (offset data mem_mask : Nat) :
    Option (s3c240x_pwm × List gp32_call) :=
  let old_value := st.s3c240x_pwm_regs offset
  let st1 : s3c240x_pwm :=
    { st with s3c240x_pwm_regs := (arraySet st.s3c240x_pwm_regs offset
        (COMBINE_DATA (st.s3c240x_pwm_regs offset) data mem_mask)) }
  if offset = 0x08 / 4 then
    (((((some (st1, []) : Option (s3c240x_pwm × List gp32_call)).bind
      (pwm_w_edge clkpow data old_value 1 0)).bind
      (pwm_w_edge clkpow data old_value 0x100 1)).bind
      (pwm_w_edge clkpow data old_value 0x1000 2)).bind
      (pwm_w_edge clkpow data old_value 0x10000 3)).bind
      (pwm_w_edge clkpow data old_value 0x100000 4)
  else some (st1, [])

/-- The mux field of `timer` in `TCFG1`, as `s3c240x_pwm_start` extracts it. -/
def pwm_mux (st : s3c240x_pwm) (timer : Nat) : Nat :=
  (st.s3c240x_pwm_regs 1 >>> (mux_shift.getD timer 0)) &&& 0x0F

/-- The prescaler field of `timer` in `TCFG0`. -/
def pwm_prescaler (st : s3c240x_pwm) (timer : Nat) : Nat :=
  (st.s3c240x_pwm_regs 0 >>> (prescaler_shift.getD timer 0)) &&& 0xFF

/-- A sample clock register file: `MPLLCON = 0x5c042` (mdiv 92, pdiv 4, sdiv 2:
50 MHz), `CLKDIVN = 1` (`pclk = fclk / 2`). -/
def example_clkpow : Nat → Nat := fun i => if i = 1 then 0x5c042 else if i = 5 then 1 else 0

/-- A sample PWM state: the given `TCFG0`, `TCFG1`, `TCON`, count buffer 0 set to
1000, compare buffer 0 to 500, count buffer 4 to 250, all timers idle. -/
def example_pwm (tcfg0 tcfg1 tcon : Nat) : s3c240x_pwm :=
  { s3c240x_pwm_regs := fun i =>
      if i = 0 then tcfg0 else if i = 1 then tcfg1 else if i = 2 then tcon
      else if i = 3 then 1000 else if i = 4 then 500 else if i = 15 then 250 else 0
    s3c240x_pwm_timer := fun _ => timer_adjust_oneshot attotime.never 0 }

/-- The local `cnt` of `s3c240x_pwm_start`: the low 16 bits of the count buffer. -/
def pwm_cnt (st : s3c240x_pwm) (timer : Nat) : Nat :=
  BITS (st.s3c240x_pwm_regs (3 + timer * 3 + 0)) 15 0

/-- The local `cmp`: the low 16 bits of the compare buffer, 0 for timer 4. -/
def pwm_cmp (st : s3c240x_pwm) (timer : Nat) : Nat :=
  if timer ≠ 4 then BITS (st.s3c240x_pwm_regs (3 + timer * 3 + 1)) 15 0 else 0

/-- The local `auto_reload`: the bit `tcon_shift[timer] + 3` of `TCON`, for timer
4 the bit `tcon_shift[4] + 2`. -/
def pwm_auto_reload (st : s3c240x_pwm) (timer : Nat) : Nat :=
  if timer ≠ 4 then BIT (st.s3c240x_pwm_regs 2) (tcon_shift.getD timer 0 + 3)
  else BIT (st.s3c240x_pwm_regs 2) (tcon_shift.getD timer 0 + 2)

/-- The edge tests of the `TCON` case of `s3c240x_pwm_w`: the compared bit and
the timer whose `s3c240x_pwm_recalc` is called. -/
def pwm_tcon_bits : List (Nat × Nat) :=
  [(1, 0), (0x100, 1), (0x1000, 2), (0x10000, 3), (0x100000, 4)]

/-- The call recorded by one edge test of the `TCON` case of `s3c240x_pwm_w`. -/
def pwm_edge_calls (data old_value bit timer : Nat) : List gp32_call :=
  if data &&& bit ≠ old_value &&& bit then [gp32_call.pwm_recalc timer] else []

/-! ## GP32 address map and plain register banks (`src/mess/drivers/gp32.c`) -/

/-- A read of word `offset` of a static array of `size` words: `none` when the
index is outside the array. -/
def array_read (size : Nat) (a : Nat → Nat) (offset : Nat) : Option Nat :=
  if offset < size then some (a offset) else none

/-- A write of word `offset` of a static array of `size` words: `none` when the
index is outside the array. -/
def array_write (size : Nat) (a : Nat → Nat) (offset v : Nat) : Option (Nat → Nat) :=
  if offset < size then some (arraySet a offset v) else none

/-- The handler `s3c240x_memcon_r` on the array `s3c240x_memcon_regs[0x34/4]`,
with the array bound checked. -/
def s3c240x_memcon_r (regs : Nat → Nat) (offset : Nat) : Option Nat :=
  array_read (0x34 / 4) regs offset

/-- The handler `s3c240x_memcon_w`, with the array bound checked. -/
def s3c240x_memcon_w (regs : Nat → Nat) (offset data mem_mask : Nat) : Option (Nat → Nat) :=
  match array_read (0x34 / 4) regs offset with
  | none => none
  | some old => array_write (0x34 / 4) regs offset (COMBINE_DATA old data mem_mask)

/-- One line `AM_RANGE(addrstart, addrend) AM_READWRITE(r, w)` of `gp32_map`,
together with the number of words of the static array that the two handlers
index with their `offset`. -/
structure address_map_entry where
  addrstart : Nat
  addrend : Nat
  words : Nat
deriving DecidableEq

/-- The peripheral windows of `gp32_map`, in the order of the source, each with
the declared size of its register array. -/
def gp32_map : List address_map_entry :=
  [ -- s3c240x_memcon_regs[0x34/4]
    { addrstart := 0x14000000, addrend := 0x1400003b, words := 0x34 / 4 },
    -- s3c240x_usb_host_regs[0x5C/4]
    { addrstart := 0x14200000, addrend := 0x1420005b, words := 0x5C / 4 },
    -- s3c240x_irq_regs[0x18/4]
    { addrstart := 0x14400000, addrend := 0x14400017, words := 0x18 / 4 },
    -- s3c240x_dma_regs[0x7c/4]
    { addrstart := 0x14600000, addrend := 0x1460007b, words := 0x7c / 4 },
    -- s3c240x_clkpow_regs[0x18/4]
    { addrstart := 0x14800000, addrend := 0x14800017, words := 0x18 / 4 },
    -- s3c240x_lcd_regs[0x400/4]
    { addrstart := 0x14a00000, addrend := 0x14a003ff, words := 0x400 / 4 },
    -- s3c240x_lcd_palette[0x400/4]
    { addrstart := 0x14a00400, addrend := 0x14a007ff, words := 0x400 / 4 },
    -- s3c240x_uart_0_regs[0x2C/4]
    { addrstart := 0x15000000, addrend := 0x1500002b, words := 0x2C / 4 },
    -- s3c240x_uart_1_regs[0x2C/4]
    { addrstart := 0x15004000, addrend := 0x1500402b, words := 0x2C / 4 },
    -- s3c240x_pwm_regs[0x44/4]
    { addrstart := 0x15100000, addrend := 0x15100043, words := 0x44 / 4 },
    -- s3c240x_usb_device_regs[0xBC/4]
    { addrstart := 0x15200140, addrend := 0x152001fb, words := 0xBC / 4 },
    -- s3c240x_watchdog_regs[0x0C/4]
    { addrstart := 0x15300000, addrend := 0x1530000b, words := 0x0C / 4 },
    -- s3c240x_iic_regs[0x10/4]
    { addrstart := 0x15400000, addrend := 0x1540000f, words := 0x10 / 4 },
    -- s3c240x_iis_regs[0x14/4]
    { addrstart := 0x15508000, addrend := 0x15508013, words := 0x14 / 4 },
    -- s3c240x_gpio[0x60/4]
    { addrstart := 0x15600000, addrend := 0x1560005b, words := 0x60 / 4 },
    -- s3c240x_rtc_regs[0x4C/4]
    { addrstart := 0x15700040, addrend := 0x1570008b, words := 0x4C / 4 },
    -- s3c240x_adc_regs[0x08/4]
    { addrstart := 0x15800000, addrend := 0x15800007, words := 0x08 / 4 },
    -- s3c240x_spi_regs[0x18/4]
    { addrstart := 0x15900000, addrend := 0x15900017, words := 0x18 / 4 },
    -- s3c240x_mmc_regs[0x40/4]
    { addrstart := 0x15a00000, addrend := 0x15a0003f, words := 0x40 / 4 } ]

/-- The number of 32-bit words of a window. -/
def window_words (e : address_map_entry) : Nat := (e.addrend - e.addrstart + 1) / 4

/-- The word offset that a handler of the window receives for the byte address
`address` inside the window (the core passes the distance from the start of the
window, in 32-bit words). -/
def window_offset (e : address_map_entry) (address : Nat) : Nat := (address - e.addrstart) / 4

/-- The entry of `gp32_map` for the memory controller. -/
def memcon_entry : address_map_entry :=
  { addrstart := 0x14000000, addrend := 0x1400003b, words := 0x34 / 4 }

/-! ## GP32 LCD controller (`src/mess/drivers/gp32.c`) -/

/-- The static struct `s3c240x_lcd`. The two `int` members `vpos` and `hpos` only
take values that are not negative (a screen position, a remainder, a counter
from 0) and are natural numbers here. -/
structure s3c240x_lcd where
  vramaddr_cur : Nat
  vramaddr_max : Nat
  offsize : Nat
  pagewidth_cur : Nat
  pagewidth_max : Nat
  bppmode : Nat
  bswp : Nat
  hwswp : Nat
  hozval : Nat
  lineval : Nat
  vpos : Nat
  hpos : Nat

/-- The constant `BPPMODE_TFT_01`. -/
def BPPMODE_TFT_01 : Nat := 0x08

/-- The constant `BPPMODE_TFT_02` (no rendering routine exists for it). -/
def BPPMODE_TFT_02 : Nat := 0x09

/-- The constant `BPPMODE_TFT_04`. -/
def BPPMODE_TFT_04 : Nat := 0x0A

/-- The constant `BPPMODE_TFT_08`. -/
def BPPMODE_TFT_08 : Nat := 0x0B

/-- The constant `BPPMODE_TFT_16`. -/
def BPPMODE_TFT_16 : Nat := 0x0C

/-- The arguments of the last `video_screen_configure` call: width, height, the
visible area and the two operands `vclk`, `total` of the `double` division that
yields the frame rate. -/
structure screen_configuration where
  width : Nat
  height : Nat
  max_x : Nat
  max_y : Nat
  vclk : Nat
  total : Nat
deriving DecidableEq

/-- The colour functions of the emulation core used by the rendering routines
(`RGB_BLACK`, `RGB_WHITE`, `MAKE_RGB`, `palette_get_color`), taken as
parameters. -/
structure lcd_core where
  RGB_BLACK : Nat
  RGB_WHITE : Nat
  MAKE_RGB : Nat → Nat → Nat → Nat
  palette_get_color : Nat → Nat

/-- The state of the LCD controller: the array `s3c240x_lcd_regs[0x400/4]`, the
struct `s3c240x_lcd`, the timer `s3c240x_lcd_timer`, the bitmap
`machine->generic.tmpbitmap` as a function of the row and the column, and the
screen configuration. Pixels are addressed by `(vpos, hpos)`: the pointer
`scanline` of the rendering routines is `BITMAP_ADDR32( bitmap, vpos, hpos)` at
every store, since it is advanced and reset together with `hpos`. -/
structure lcd_state where
  s3c240x_lcd_regs : Nat → Nat
  lcd : s3c240x_lcd
  s3c240x_lcd_timer : emu_timer
  tmpbitmap : Nat → Nat → Nat
  screen : Option screen_configuration

/-- The function `s3c240x_lcd_dma_reload`. -/
def s3c240x_lcd_dma_reload (regs : Nat → Nat) (l : s3c240x_lcd) : s3c240x_lcd :=
  { l with
    vramaddr_cur := wrapU32 (regs 5 <<< 1)
    vramaddr_max := wrapU32 (((regs 5 &&& 0xFFE00000) ||| regs 6) <<< 1)
    offsize := BITS (regs 7) 21 11
    pagewidth_cur := 0
    pagewidth_max := BITS (regs 7) 10 0 }

/-- One pass of the `for` loop of `s3c240x_lcd_dma_read`: the two bytes read at
the cursor and the advanced cursor. The RAM `s3c240x_ram` is a function of the
byte offset `vramaddr_cur - 0x0C000000`. -/
def lcd_dma_read_pair (ram : Int → Nat) (l : s3c240x_lcd) : s3c240x_lcd × Nat × Nat :=
  let vram : Int := (l.vramaddr_cur : Int) - 0x0C000000
  let d0 := ram vram % 256
  let d1 := ram (vram + 1) % 256
  let cur1 := wrapU32 (l.vramaddr_cur + 2)
  let pw1 := wrapU32 (l.pagewidth_cur + 1)
  if pw1 ≥ l.pagewidth_max then
    ({ l with vramaddr_cur := wrapU32 (cur1 + wrapU32 (l.offsize <<< 1)), pagewidth_cur := 0 },
      d0, d1)
  else ({ l with vramaddr_cur := cur1, pagewidth_cur := pw1 }, d0, d1)

/-- The function `s3c240x_lcd_dma_read`. -/
def s3c240x_lcd_dma_read (ram : Int → Nat) (l : s3c240x_lcd) : s3c240x_lcd × Nat :=
  let r0 := lcd_dma_read_pair ram l
  let r1 := lcd_dma_read_pair ram r0.1
  let d0 := r0.2.1
  let d1 := r0.2.2
  let d2 := r1.2.1
  let d3 := r1.2.2
  let l2 := r1.1
  if l2.hwswp = 0 then
    if l2.bswp = 0 then (l2, (d3 <<< 24) ||| (d2 <<< 16) ||| (d1 <<< 8) ||| (d0 <<< 0))
    else (l2, (d0 <<< 24) ||| (d1 <<< 16) ||| (d2 <<< 8) ||| (d3 <<< 0))
  else
    if l2.bswp = 0 then (l2, (d1 <<< 24) ||| (d0 <<< 16) ||| (d3 <<< 8) ||| (d2 <<< 0))
    else (l2, (d2 <<< 24) ||| (d3 <<< 16) ||| (d0 <<< 8) ||| (d1 <<< 0))

/-- A store of one pixel. -/
def bitmap_set (b : Nat → Nat → Nat) (y x v : Nat) : Nat → Nat → Nat :=
  fun y' x' => if y' = y ∧ x' = x then v else b y' x'

/-- The common tail of the pixel loops: `hpos++` and the wrap to the next line
when `hpos >= (pagewidth_max << shift)`. -/
def lcd_advance (shift : Nat) (l : s3c240x_lcd) : s3c240x_lcd :=
  if l.hpos + 1 ≥ wrapU32 (l.pagewidth_max <<< shift) then
    { l with vpos := (l.vpos + 1) % wrapU32 (l.lineval + 1), hpos := 0 }
  else { l with hpos := l.hpos + 1 }

/-- One pass of an inner pixel loop: the pixel `color data` is stored at
`(vpos, hpos)`, `data` is shifted left by `dshift` bits and the position
advanced. The state is the struct, the bitmap and `data`. -/
def lcd_pixel (color : Nat → Nat) (dshift pshift : Nat)
    (s : s3c240x_lcd × (Nat → Nat → Nat) × Nat) : s3c240x_lcd × (Nat → Nat → Nat) × Nat :=
  (lcd_advance pshift s.1, bitmap_set s.2.1 s.1.vpos s.1.hpos (color s.2.2),
    wrapU32 (s.2.2 <<< dshift))

/-- One pass of an outer loop `for (i = 0; i < 4; i++)`: a DMA read followed by
`count` pixels. -/
def lcd_render_word (ram : Int → Nat) (color : Nat → Nat) (count dshift pshift : Nat)
    (s : s3c240x_lcd × (Nat → Nat → Nat)) : s3c240x_lcd × (Nat → Nat → Nat) :=
  let r := s3c240x_lcd_dma_read ram s.1
  let t := Nat.iterate (lcd_pixel color dshift pshift) count (r.1, s.2, r.2)
  (t.1, t.2.1)

/-- The function `s3c240x_lcd_render_01`. -/
def s3c240x_lcd_render_01 (core : lcd_core) (ram : Int → Nat)
    (s : s3c240x_lcd × (Nat → Nat → Nat)) : s3c240x_lcd × (Nat → Nat → Nat) :=
  Nat.iterate (lcd_render_word ram
    (fun data => if data &&& 0x80000000 ≠ 0 then core.RGB_BLACK else core.RGB_WHITE) 32 1 4) 4 s

/-- The function `s3c240x_lcd_render_04`. -/
def s3c240x_lcd_render_04 (core : lcd_core) (ram : Int → Nat)
    (s : s3c240x_lcd × (Nat → Nat → Nat)) : s3c240x_lcd × (Nat → Nat → Nat) :=
  Nat.iterate (lcd_render_word ram
    (fun data => core.palette_get_color ((data >>> 28) &&& 0xFF)) 8 4 2) 4 s

/-- The function `s3c240x_lcd_render_08`. -/
def s3c240x_lcd_render_08 (core : lcd_core) (ram : Int → Nat)
    (s : s3c240x_lcd × (Nat → Nat → Nat)) : s3c240x_lcd × (Nat → Nat → Nat) :=
  Nat.iterate (lcd_render_word ram
    (fun data => core.palette_get_color ((data >>> 24) &&& 0xFF)) 4 8 1) 4 s

/-- The function `s3c240x_lcd_render_16`. -/
def s3c240x_lcd_render_16 (core : lcd_core) (ram : Int → Nat)
    (s : s3c240x_lcd × (Nat → Nat → Nat)) : s3c240x_lcd × (Nat → Nat → Nat) :=
  Nat.iterate (lcd_render_word ram
    (fun data => core.MAKE_RGB ((BITS data 31 27 <<< 3) % 256) ((BITS data 26 22 <<< 3) % 256)
      ((BITS data 21 17 <<< 3) % 256)) 2 16 0) 4 s

/-- The `switch (s3c240x_lcd.bppmode)` of `s3c240x_lcd_timer_exp`; the `default`
case only logs. -/
def lcd_render_switch (core : lcd_core) (ram : Int → Nat)
    (s : s3c240x_lcd × (Nat → Nat → Nat)) : s3c240x_lcd × (Nat → Nat → Nat) :=
  if s.1.bppmode = BPPMODE_TFT_01 then s3c240x_lcd_render_01 core ram s
  else if s.1.bppmode = BPPMODE_TFT_04 then s3c240x_lcd_render_04 core ram s
  else if s.1.bppmode = BPPMODE_TFT_08 then s3c240x_lcd_render_08 core ram s
  else if s.1.bppmode = BPPMODE_TFT_16 then s3c240x_lcd_render_16 core ram s
  else s

/-- The loop `while (vramaddr_cur < vramaddr_max) { switch ...; if ((vpos == 0) &&
(hpos == 0)) break; }` of `s3c240x_lcd_timer_exp`, run for at most `fuel`
passes: `none` when the fuel does not suffice. -/
def lcd_render_loop (core : lcd_core) (ram : Int → Nat) :
    Nat → s3c240x_lcd × (Nat → Nat → Nat) → Option (s3c240x_lcd × (Nat → Nat → Nat))
  | 0, s => if s.1.vramaddr_cur < s.1.vramaddr_max then none else some s
  | fuel + 1, s =>
    if s.1.vramaddr_cur < s.1.vramaddr_max then
      let s1 := lcd_render_switch core ram s
      if s1.1.vpos = 0 ∧ s1.1.hpos = 0 then some s1
      else lcd_render_loop core ram fuel s1
    else some s

/-- The head of `s3c240x_lcd_timer_exp`: the scan position is stored in the
struct and the DMA window is reloaded if the cursor has reached its end. -/
def lcd_reload_check (st : lcd_state) (screen_vpos screen_hpos : Nat) : s3c240x_lcd :=
  let l0 := { st.lcd with vpos := screen_vpos, hpos := screen_hpos }
  if l0.vramaddr_cur ≥ l0.vramaddr_max then s3c240x_lcd_dma_reload st.s3c240x_lcd_regs l0
  else l0

/-- The callback `s3c240x_lcd_timer_exp`; `screen_vpos` and `screen_hpos` are the
values of `video_screen_get_vpos` and `video_screen_get_hpos`. -/
def s3c240x_lcd_timer_exp (core : lcd_core) (ram : Int → Nat) (fuel : Nat) (st : lcd_state)
    (screen_vpos screen_hpos : Nat) : Option lcd_state :=
  let l1 := lcd_reload_check st screen_vpos screen_hpos
  match lcd_render_loop core ram fuel (l1, st.tmpbitmap) with
  | none => none
  | some s =>
    some { st with
      lcd := s.1
      tmpbitmap := s.2
      s3c240x_lcd_timer := timer_adjust_oneshot (attotime.until_pos s.1.vpos s.1.hpos) 0 }

/-- The handler `s3c240x_lcd_r`; `screen_vpos` is the value of
`video_screen_get_vpos`. A read leaves the state as it is. -/
def s3c240x_lcd_r (st : lcd_state) (screen_vpos : Nat) (offset : Nat) : Nat :=
  let data := st.s3c240x_lcd_regs offset
  if offset = 0x00 / 4 then
    let lineval := BITS (st.s3c240x_lcd_regs 1) 23 14
    (data &&& not32 0xFFFC0000)
      ||| wrapU32 (wrapU32 (lineval + 4294967296 - wrapU32 screen_vpos) <<< 18)
  else data

/-- A sample colour model: black 0, white `0xffffff`, `MAKE_RGB` packing the
three bytes, the palette index as the colour. -/
def example_lcd_core : lcd_core :=
  { RGB_BLACK := 0, RGB_WHITE := 0xffffff
    MAKE_RGB := fun r g b => (r <<< 16) ||| (g <<< 8) ||| b
    palette_get_color := fun i => i }

/-- A sample LCD state: `LCDCON1 = lcdcon1`, `LCDCON2` with `lineval = 319`,
the frame buffer window `0x0C000000 .. 0x0C000010` in `LCDSADDR1/2`, a page width
of 4 half-words; the struct holds the bit-depth mode `bppmode` and the cursor
`cur` with the end address `0x0C000010`; the bitmap is blank. -/
def example_lcd (lcdcon1 bppmode cur : Nat) : lcd_state :=
  { s3c240x_lcd_regs := fun i =>
      if i = 0 then lcdcon1 else if i = 1 then 319 <<< 14
      else if i = 5 then 0x06000000 else if i = 6 then 0x00000008
      else if i = 7 then 4 else 0
    lcd :=
      { vramaddr_cur := cur, vramaddr_max := 0x0C000010, offsize := 0, pagewidth_cur := 0
        pagewidth_max := 4, bppmode := bppmode, bswp := 0, hwswp := 0, hozval := 239
        lineval := 319, vpos := 0, hpos := 0 }
    s3c240x_lcd_timer := timer_adjust_oneshot attotime.never 0
    tmpbitmap := fun _ _ => 0
    screen := none }

/-- A sample RAM content: byte `a % 251` at offset `a`. -/
def example_ram : Int → Nat := fun a => (a % 251).toNat

/-! ## GP32 IIS interface (`src/mess/drivers/gp32.c`) -/

/-- The static struct `s3c240x_iis`: the sample FIFO `fifo[16/2]` of `UINT16` and
its index. -/
structure s3c240x_iis where
  fifo : Nat → Nat
  fifo_index : Nat

/-- The state of the IIS interface: the array `s3c240x_iis_regs[0x14/4]`, the
struct `s3c240x_iis`, the timer `s3c240x_iis_timer` and the samples handed to
`dac_signed_data_16_w` (the number of the DAC and the value), oldest first. -/
structure iis_state where
  s3c240x_iis_regs : Nat → Nat
  iis : s3c240x_iis
  s3c240x_iis_timer : emu_timer
  dac : List (Nat × Nat)

/-- Modelled from the spec: the macro `ACCESSING_BITS_16_31` belongs to the
emulation core; a write reaches the upper half of the word when its access mask
selects bits there. -/
def ACCESSING_BITS_16_31 (mem_mask : Nat) : Bool := mem_mask &&& 0xffff0000 ≠ 0

/-- Modelled from the spec: the macro `ACCESSING_BITS_0_15` of the emulation
core; a write reaches the lower half of the word when its access mask selects
bits there. -/
def ACCESSING_BITS_0_15 (mem_mask : Nat) : Bool := mem_mask &&& 0x0000ffff ≠ 0

/-- The table `codeclk_table[] = { 256, 384}` of `s3c240x_iis_start`. -/
def codeclk_table : List Nat := [256, 384]

/-- The function `s3c240x_iis_start`; the table is read with a checked index.
The rate is `(double)(pclk / (a + 1) / codeclk) * 2`, kept as that integer over
1. -/
def s3c240x_iis_start (clkpow : Nat → Nat) (st : iis_state) : Option iis_state := do
  let prescaler_control_a := BITS (st.s3c240x_iis_regs 2) 9 5
  let codeclk := BIT (st.s3c240x_iis_regs 1) 2
  let clk ← codeclk_table[codeclk]?
  let freq := s3c240x_get_pclk clkpow MPLLCON / (prescaler_control_a + 1) / clk * 2
  some { st with s3c240x_iis_timer :=
    timer_adjust_periodic (attotime.in_hz freq 1) 0 (attotime.in_hz freq 1) }

/-- The function `s3c240x_iis_stop`. -/
def s3c240x_iis_stop (st : iis_state) : iis_state :=
  { st with s3c240x_iis_timer := timer_adjust_oneshot attotime.never 0 }

/-- The function `s3c240x_iis_recalc`. -/
def s3c240x_iis_recalc (clkpow : Nat → Nat) (st : iis_state) : Option iis_state :=
  if st.s3c240x_iis_regs 0 &&& 1 ≠ 0 then s3c240x_iis_start clkpow st
  else some (s3c240x_iis_stop st)

/-- The handler `s3c240x_iis_r`; a read leaves the state as it is. -/
def s3c240x_iis_r (st : iis_state) (offset : Nat) : Nat := st.s3c240x_iis_regs offset

/-- The statement `s3c240x_iis.fifo[s3c240x_iis.fifo_index++] = v`, with the
bound of the 8-entry array checked. -/
def iis_fifo_push (s : s3c240x_iis) (v : Nat) : Option s3c240x_iis :=
  if s.fifo_index < 16 / 2 then
    some { fifo := arraySet s.fifo s.fifo_index v, fifo_index := s.fifo_index + 1 }
  else none

/-- The `IISFIF` case of `s3c240x_iis_w`. -/
def iis_w_fifo (st : iis_state) (data mem_mask : Nat) : Option iis_state := do
  let s1 ← if ACCESSING_BITS_16_31 mem_mask then iis_fifo_push st.iis (BITS data 31 16)
    else some st.iis
  let s2 ← if ACCESSING_BITS_0_15 mem_mask then iis_fifo_push s1 (BITS data 15 0)
    else some s1
  if s2.fifo_index = 2 then
    some { st with
      iis := { s2 with fifo_index := 0 }
      dac := st.dac ++ [(0, (s2.fifo 0 + 0x8000) % 65536), (1, (s2.fifo 1 + 0x8000) % 65536)] }
  else some { st with iis := s2 }

/-- The handler `s3c240x_iis_w`, with the recorded `s3c240x_iis_recalc` call. -/
def s3c240x_iis_w (clkpow : Nat → Nat) (st : iis_state) (offset data mem_mask : Nat) :
    Option (iis_state × List gp32_call) :=
  let old_value := st.s3c240x_iis_regs offset
  let st1 : iis_state :=
    { st with s3c240x_iis_regs := (arraySet st.s3c240x_iis_regs offset
        (COMBINE_DATA (st.s3c240x_iis_regs offset) data mem_mask)) }
  if offset = 0x00 / 4 then
    if old_value &&& 1 ≠ data &&& 1 then
      match s3c240x_iis_recalc clkpow st1 with
      | none => none
      | some st2 => some (st2, [gp32_call.iis_recalc])
    else some (st1, [])
  else if offset = 0x10 / 4 then
    match iis_w_fifo st1 data mem_mask with
    | none => none
    | some st2 => some (st2, [])
  else some (st1, [])

/-- A sample IIS state: `IISCON = iiscon`, the other registers zero, the FIFO
empty, the timer idle. -/
def example_iis (iiscon : Nat) : iis_state :=
  { s3c240x_iis_regs := fun i => if i = 0 then iiscon else 0
    iis := { fifo := fun _ => 0, fifo_index := 0 }
    s3c240x_iis_timer := timer_adjust_oneshot attotime.never 0
    dac := [] }

/-! ## Edge detection in the control-register writes -/

namespace vsystem_spr_device

/-- The statements of `CG10103_draw_sprite` before its priority test: the
record at word index `base` of the video RAM is decoded, the colour masked
with `0x1f` and the priority shifted right by one. -/
def CG10103_decode (dev : vsystem_spr_device) (base : Nat) : vsystem_spr_device :=
  let dev1 := get_sprite_attributes dev dev.m_vram base
  { dev1 with
    curr_sprite := { dev1.curr_sprite with
      color := Int.land dev1.curr_sprite.color 0x1f
      pri := dev1.curr_sprite.pri >>> 1 } }

/-- The statements of the second loop of `draw_sprites_inufuku` before its draw
call: the record at word index `attr_start` of `spriteram` is decoded and the
map pointer masked with `0x7fff`. -/
def inufuku_decode (dev : vsystem_spr_device) (spriteram : Nat → Nat) (attr_start : Nat) :
    vsystem_spr_device :=
  let dev1 := get_sprite_attributes dev spriteram attr_start
  { dev1 with
    curr_sprite := { dev1.curr_sprite with map := dev1.curr_sprite.map &&& 0x7fff } }

/-- The tiles that the two loops of `common_sprite_drawgfx` issue for the sprite
held in `curr_sprite`, in the order drawn: `(ysize+1)*(xsize+1)` tiles, the
`k`-th being `nth_tile` of the prepared sprite. -/
def drawn_tiles (dev : vsystem_spr_device) (g : Int) : List tile_event :=
  (List.range ((dev.curr_sprite.ysize.toNat + 1) * (dev.curr_sprite.xsize.toNat + 1))).map
    (nth_tile (prepared dev) g (priority_mask_of dev.m_pdraw dev.curr_sprite.pri)
      dev.curr_sprite.xsize.toNat)

end vsystem_spr_device

/-! ## Further definitions for the LCD byte order and the DMA service modes -/

/-- The 32-bit word `w` with its four bytes in reverse order, as the
specification words the effect of the byte-swap flag. -/
def byte_reverse32 (w : Nat) : Nat :=
  w % 256 * 16777216 + w / 256 % 256 * 65536 + w / 65536 % 256 * 256 + w / 16777216 % 256

/-- The 32-bit word `w` with its two 16-bit halves exchanged, as the
specification words the effect of the half-word-swap flag. -/
def halves_exchange32 (w : Nat) : Nat :=
  w % 65536 * 65536 + w / 65536 % 65536

/-- The word whose bytes are `a`, `b`, `c`, `d`, most significant first. -/
def word_of_bytes (a b c d : Nat) : Nat := a * 16777216 + b * 65536 + c * 256 + d

/-- The tail of `s3c240x_dma_trigger` from `if (curr_tc == 0)` on, for the state
`st1` reached after the register updates, the final `curr_tc` and the copies
recorded by the loop. -/
def dma_finish {σ : Type} (ch_int : Nat → Nat) (fuel : Nat) (dma : Nat)
    (st1 : s3c240x_dma σ) (curr_tc : Nat) (calls : List gp32_call) :
    Option (s3c240x_dma σ × List gp32_call) :=
  if curr_tc = 0 then
    let st2 := dma_completion st1 dma
    let _int := BIT (st2.s3c240x_dma_regs ((dma <<< 3) + 2)) 28
    if _int ≠ 0 then
      match s3c240x_request_irq fuel st2.irq (ch_int dma) with
      | none => none
      | some irq1 =>
        some ({ st2 with irq := irq1 }, calls ++ [gp32_call.request_irq (ch_int dma)])
    else some (st2, calls)
  else some (st1, calls)

/-- The result of `n` successive `s3c240x_dma_trigger` calls for channel `dma`:
the final state and the calls recorded by all of them, in order. -/
def dma_triggers {σ : Type} (as : address_space σ) (ch_int : Nat → Nat) (fuel : Nat)
    (dma : Nat) : Nat → s3c240x_dma σ → Option (s3c240x_dma σ × List gp32_call)
  | 0, st => some (st, [])
  | n + 1, st =>
    match s3c240x_dma_trigger as ch_int fuel st dma with
    | none => none
    | some r =>
      match dma_triggers as ch_int fuel dma n r.1 with
      | none => none
      | some r2 => some (r2.1, r.2 ++ r2.2)

/-- The state `st` with the service-mode bit (`DCON` bit 26) of channel `dma`
set. -/
def dma_set_servmode {σ : Type} (st : s3c240x_dma σ) (dma : Nat) : s3c240x_dma σ :=
  { st with s3c240x_dma_regs := (arraySet st.s3c240x_dma_regs ((dma <<< 3) + 2)
      (st.s3c240x_dma_regs ((dma <<< 3) + 2) ||| (1 <<< 26))) }

/-- A sample memory around the address `2^29`: byte `0x55` at `0x1FFFFFFF`,
byte `0xAA` at `0x20000000`, zero elsewhere. -/
def example_memory_edge : Nat → Nat := fun a =>
  if a = 0x1FFFFFFF then 0x55 else if a = 0x20000000 then 0xAA else 0

/-- A sample DMA state for channel 0 whose source reaches the end of the 29-bit
address range: the given `DCON`, source `0x1FFFFFFF` and destination `0x200`
(both incrementing), current count 2, channel switched on. -/
def example_dma_edge (dcon : Nat) : s3c240x_dma (Nat → Nat) :=
  { s3c240x_dma_regs := fun i =>
      if i = 0 then 0x1FFFFFFF else if i = 1 then 0x200 else if i = 2 then dcon
      else if i = 3 then 2 else if i = 4 then 0x1FFFFFFF else if i = 5 then 0x200
      else if i = 6 then 2 else 0
    space := example_memory_edge
    irq := s3c240x_irq_zero }

/-! ## GP32 IIC interface and machine reset (`src/mess/drivers/gp32.c`) -/

/-- The static struct `s3c240x_iic`: the buffer `data[4]` of `UINT8`, the index
`data_index` (an `int` that starts at 0 and only counts up) and the `UINT16`
EEPROM address. -/
structure s3c240x_iic where
  data : Nat → Nat
  data_index : Nat
  address : Nat

/-- The state of the IIC interface: the array `s3c240x_iic_regs[0x10/4]` (word 0
IICCON, 1 IICSTAT, 2 IICADD, 3 IICDS), the struct `s3c240x_iic`, the timer
`s3c240x_iic_timer`, the EEPROM content `eeprom_data` (a function of the
`UINT16` address) and the interrupt controller. -/
structure iic_state where
  s3c240x_iic_regs : Nat → Nat
  iic : s3c240x_iic
  s3c240x_iic_timer : emu_timer
  eeprom_data : Nat → Nat
  irq : s3c240x_irq

/-- The function `eeprom_read`; the result is a `UINT8`. -/
def eeprom_read (st : iic_state) (address : Nat) : Nat := st.eeprom_data address % 256

/-- The function `eeprom_write`. -/
def eeprom_write (st : iic_state) (address data : Nat) : iic_state :=
  { st with eeprom_data := arraySet st.eeprom_data address (data % 256) }

/-- The function `iic_start`. -/
def iic_start (st : iic_state) : iic_state :=
  { st with
    iic := { st.iic with data_index := 0 }
    s3c240x_iic_timer := timer_adjust_oneshot (attotime.in_msec 1) 0 }

/-- The function `iic_stop`. -/
def iic_stop (st : iic_state) : iic_state :=
  { st with s3c240x_iic_timer := timer_adjust_oneshot attotime.never 0 }

/-- The function `iic_resume`. -/
def iic_resume (st : iic_state) : iic_state :=
  { st with s3c240x_iic_timer := timer_adjust_oneshot (attotime.in_msec 1) 0 }

/-- The handler `s3c240x_iic_r`; a read leaves the state as it is. -/
def s3c240x_iic_r (st : iic_state) (offset : Nat) : Nat :=
  if offset = 0x04 / 4 then st.s3c240x_iic_regs offset &&& not32 0x0000000F
  else st.s3c240x_iic_regs offset

/-- The handler `s3c240x_iic_w`. -/
def s3c240x_iic_w (st : iic_state) (offset data mem_mask : Nat) : iic_state :=
  let st1 : iic_state :=
    { st with s3c240x_iic_regs := (arraySet st.s3c240x_iic_regs offset
        (COMBINE_DATA (st.s3c240x_iic_regs offset) data mem_mask)) }
  if offset = 0x00 / 4 then
    let interrupt_pending_flag := BIT data 4
    if interrupt_pending_flag = 0 then
      let start_stop_condition := BIT (st1.s3c240x_iic_regs 1) 5
      if start_stop_condition ≠ 0 then iic_resume st1 else st1
    else st1
  else if offset = 0x04 / 4 then
    let start_stop_condition := BIT data 5
    if start_stop_condition ≠ 0 then iic_start st1 else iic_stop st1
  else st1

/-- The statement `s3c240x_iic.data[s3c240x_iic.data_index++] = data_shift`,
with the bound of the 4-entry array checked. -/
def iic_data_store (s : s3c240x_iic) (data_shift : Nat) : Option s3c240x_iic :=
  if s.data_index < 4 then
    some { s with data := arraySet s.data s.data_index data_shift
                  data_index := s.data_index + 1 }
  else none

/-- The `switch (mode_selection)` of `s3c240x_iic_timer_exp`. -/
def iic_timer_mode (st : iic_state) : Option iic_state :=
  let mode_selection := BITS (st.s3c240x_iic_regs 1) 7 6
  if mode_selection = 2 then
    if st.iic.data_index = 0 then
      some { st with iic := { st.iic with data_index := st.iic.data_index + 1 } }
    else
      let data_shift := eeprom_read st st.iic.address
      some { st with
        s3c240x_iic_regs := (arraySet st.s3c240x_iic_regs 3
          ((st.s3c240x_iic_regs 3 &&& not32 0xFF) ||| data_shift))
        iic := { st.iic with data_index := st.iic.data_index + 1 } }
  else if mode_selection = 3 then
    let data_shift := (st.s3c240x_iic_regs 3 &&& 0xFF) % 256
    match iic_data_store st.iic data_shift with
    | none => none
    | some i1 =>
      let i2 : s3c240x_iic :=
        if i1.data_index = 3 then
          { i1 with address := ((i1.data 1 <<< 8) ||| i1.data 2) % 65536 }
        else i1
      let st1 : iic_state := { st with iic := i2 }
      if i2.data_index = 4 ∧ i2.data 0 = 0xA0 then
        some (eeprom_write st1 i2.address data_shift)
      else some st1
  else some st

/-- The callback `s3c240x_iic_timer_exp`. The interrupt number `INT_IIC` (of
`includes/gp32.h`) is a parameter; `fuel` bounds the bit scan of the interrupt
controller. -/
def s3c240x_iic_timer_exp (INT_IIC fuel : Nat) (st : iic_state) : Option iic_state :=
  match iic_timer_mode st with
  | none => none
  | some st1 =>
    let enable_interrupt := BIT (st1.s3c240x_iic_regs 0) 5
    if enable_interrupt ≠ 0 then
      match s3c240x_request_irq fuel st1.irq INT_IIC with
      | none => none
      | some irq1 => some { st1 with irq := irq1 }
    else some st1

/-- The function `s3c240x_machine_reset` on the IIS and IIC parts of the state;
the calls `smc_reset` and `i2s_reset` touch neither. -/
def s3c240x_machine_reset (s : iis_state × iic_state) : iis_state × iic_state :=
  ({ s.1 with iis := { s.1.iis with fifo_index := 0 } },
   { s.2 with iic := { s.2.iic with data_index := 0 } })

/-- The IIC state at start-up: the static registers and the struct are zero, the
timer is idle, the EEPROM holds `0xFF` as the NVRAM handler leaves it without a
file, the interrupt controller is idle. -/
def iic_state_init : iic_state :=
  { s3c240x_iic_regs := fun _ => 0
    iic := { data := fun _ => 0, data_index := 0, address := 0 }
    s3c240x_iic_timer := timer_adjust_oneshot attotime.never 0
    eeprom_data := fun _ => 0xFF
    irq := s3c240x_irq_zero }

/-- A sequence of writes `(offset, data, mem_mask)` to the IIS registers through
`s3c240x_iis_w`: the state afterwards, `none` when a store leaves the FIFO. -/
def iis_writes (clkpow : Nat → Nat) : iis_state → List (Nat × Nat × Nat) → Option iis_state
  | st, [] => some st
  | st, w :: ws =>
    match s3c240x_iis_w clkpow st w.1 w.2.1 w.2.2 with
    | none => none
    | some r => iis_writes clkpow r.1 ws

/-- An event seen by the IIC interface: a register write or the expiry of its
timer. -/
inductive iic_event
  /-- A call of `s3c240x_iic_w`. -/
  | write (offset data mem_mask : Nat)
  /-- A call of `s3c240x_iic_timer_exp`. -/
  | timer_expiry
deriving DecidableEq

/-- One event. Modelled from the spec: the timers are callback registrations
of the emulation core and "cancellation = re-arming a timer to never fire"; the
expiry of an idle timer is not delivered, and a one-shot timer is idle once its
callback has been delivered. -/
def iic_step (INT_IIC fuel : Nat) (st : iic_state) : iic_event → Option iic_state
  | iic_event.write offset data mem_mask => some (s3c240x_iic_w st offset data mem_mask)
  | iic_event.timer_expiry =>
    if st.s3c240x_iic_timer.duration = attotime.never then some st
    else
      s3c240x_iic_timer_exp INT_IIC fuel
        { st with s3c240x_iic_timer := timer_adjust_oneshot attotime.never 0 }

/-- A sequence of events: the state afterwards, `none` when a store leaves the
data buffer. -/
def iic_run (INT_IIC fuel : Nat) : iic_state → List iic_event → Option iic_state
  | st, [] => some st
  | st, e :: es =>
    match iic_step INT_IIC fuel st e with
    | none => none
    | some st1 => iic_run INT_IIC fuel st1 es

/-! # Theorems -/

theorem arraySet_same {α : Type} (a : Nat → α) (i : Nat) (v : α) :
    arraySet a i v i = v := by
  simp [arraySet]

theorem arraySet_other {α : Type} (a : Nat → α) (i j : Nat) (v : α) (h : j ≠ i) :
    arraySet a i v j = a j := by
  simp [arraySet, h]

namespace adpcm_stateCopy

/-! ## Lemmas on the table computation -/

/-- Effect of a loop writing `e 0, …, e (k-1)` to the consecutive cells
`b, …, b + k - 1`. -/
theorem foldl_write_run (b : Nat) (e : Nat → Int) (t0 : Nat → Int) (k j : Nat) :
    ((List.range k).foldl (fun t nib => arraySet t (b + nib) (e nib)) t0) j
      = if b ≤ j ∧ j < b + k then e (j - b) else t0 j := by
  induction k with
  | zero =>
    have : ¬ (b ≤ j ∧ j < b) := by omega
    simp [this]
  | succ k ih =>
    rw [List.range_succ, List.foldl_append]
    simp only [List.foldl_cons, List.foldl_nil]
    by_cases hj : j = b + k
    · subst hj
      rw [arraySet_same]
      have : b ≤ b + k ∧ b + k < b + (k + 1) := by omega
      simp [this]
    · rw [arraySet_other _ _ _ _ hj, ih]
      by_cases h1 : b ≤ j ∧ j < b + k
      · have h2 : b ≤ j ∧ j < b + (k + 1) := by omega
        simp [h1, h2]
      · have h2 : ¬ (b ≤ j ∧ j < b + (k + 1)) := by omega
        simp [h1, h2]

theorem compute_tables_nibs_apply (sv : Int) (step : Nat) (tbl : Nat → Int) (j : Nat) :
    compute_tables_nibs sv step tbl j
      = if step * 16 ≤ j ∧ j < step * 16 + 16 then diff_value sv (j - step * 16)
        else tbl j := by
  unfold compute_tables_nibs
  exact foldl_write_run (step * 16) (fun nib => diff_value sv nib) tbl 16 j

/-- After the first `m` iterations of the outer loop the rows of the steps
below `m` hold their values and the other rows are untouched. -/
theorem foldl_steps_apply (sv : Nat → Int) (tbl : Nat → Int) (m s n : Nat) (hn : n < 16) :
    ((List.range m).foldl (fun t step => compute_tables_nibs (sv step) step t) tbl)
        (s * 16 + n)
      = if s < m then diff_value (sv s) n else tbl (s * 16 + n) := by
  induction m with
  | zero => simp
  | succ m ih =>
    rw [List.range_succ, List.foldl_append]
    simp only [List.foldl_cons, List.foldl_nil]
    rw [compute_tables_nibs_apply]
    by_cases hs : s = m
    · subst hs
      have h1 : s * 16 ≤ s * 16 + n ∧ s * 16 + n < s * 16 + 16 := by omega
      have h2 : s * 16 + n - s * 16 = n := by omega
      simp [h1, h2]
    · have h1 : ¬ (m * 16 ≤ s * 16 + n ∧ s * 16 + n < m * 16 + 16) := by omega
      rw [if_neg h1, ih]
      by_cases h3 : s < m
      · have h4 : s < m + 1 := by omega
        simp [h3, h4]
      · have h4 : ¬ s < m + 1 := by omega
        simp [h3, h4]

theorem compute_tables_steps_apply (pw : Nat → ℚ) (tbl : Nat → Int) (s n : Nat)
    (hs : s ≤ 48) (hn : n < 16) :
    compute_tables_steps pw tbl (s * 16 + n) = diff_value (stepval pw s) n := by
  unfold compute_tables_steps
  rw [foldl_steps_apply (fun step => stepval pw step) tbl 49 s n hn]
  have : s < 49 := by omega
  simp [this]

/-- The table `nbl2bit` decomposes a nibble into its sign and its three
magnitude bits. -/
theorem diff_value_eq_closed_form (v : Int) (n : Nat) (hn : n < 16) :
    diff_value v n = closed_form v n := by
  interval_cases n <;> simp [diff_value, closed_form, nbl2bit_at, nbl2bit, bitOf]


theorem floor_stable (x c : ℚ) (z : ℤ) (hl : -(c / 2 ^ 20) ≤ x - c)
    (hu : x - c ≤ c / 2 ^ 20)
    (h1 : (z : ℚ) ≤ 16 * (c - c / 2 ^ 20)) (h2 : 16 * (c + c / 2 ^ 20) < z + 1) :
    ⌊16 * x⌋ = ⌊16 * c⌋ := by
  have hx : ⌊16 * x⌋ = z := by
    rw [Int.floor_eq_iff]; constructor <;> linarith
  have hc : ⌊16 * c⌋ = z := by
    rw [Int.floor_eq_iff]; constructor <;> linarith
  rw [hx, hc]

set_option maxHeartbeats 1000000 in
/-- A `pow` that is exact at exponent 0 and accurate to a relative error of
`2^-20` elsewhere yields the exact step values: no `16 * (11/10)^s` with
`1 ≤ s ≤ 48` lies that close to an integer. -/
theorem stepval_eq_exact (pw : Nat → ℚ) (s : Nat) (hs : s ≤ 48)
    (h0 : pw 0 = 1)
    (hacc : ∀ k, 1 ≤ k → k ≤ 48 → |pw k - (11 / 10) ^ k| ≤ (11 / 10) ^ k / 2 ^ 20) :
    stepval pw s = exact_stepval s := by
  unfold stepval exact_stepval
  rcases Nat.eq_zero_or_pos s with h | h
  · subst h; rw [h0]; norm_num
  · have := hacc s h hs
    rw [abs_le] at this
    obtain ⟨hl, hu⟩ := this
    refine floor_stable _ _ ((16 * 11 ^ s / 10 ^ s : ℕ) : ℤ) hl hu ?_ ?_
    · clear hl hu hacc h0
      interval_cases s <;> norm_num
    · clear hl hu hacc h0
      interval_cases s <;> norm_num

/-- The computed table in closed form (shared by the theorems below). -/
theorem computed_entry (pw : Nat → ℚ) (T : adpcm_tables) (s n : Nat)
    (hT : T.s_tables_computed = false)
    (h0 : pw 0 = 1)
    (hacc : ∀ k, 1 ≤ k → k ≤ 48 → |pw k - (11 / 10) ^ k| ≤ (11 / 10) ^ k / 2 ^ 20)
    (hs : s ≤ 48) (hn : n ≤ 15) :
    (compute_tables pw T).s_diff_lookup (s * 16 + n)
      = closed_form (exact_stepval s) n := by
  have hn16 : n < 16 := by omega
  simp only [compute_tables, hT, Bool.false_eq_true, if_false]
  rw [compute_tables_steps_apply pw _ s n hs hn16, stepval_eq_exact pw s hs h0 hacc,
    diff_value_eq_closed_form _ n hn16]

/-- Claim C1: after `compute_tables` (run on tables not yet computed, with a
`pow` that returns exactly 1 at exponent 0 and is accurate to a relative error
of `2^-20` at the exponents 1..48), for every step `s` in 0..48 and every nibble
`n` in 0..15 the entry `s_diff_lookup[s*16+n]` equals
`sign(n) * (v*b2 + (v/2)*b1 + (v/4)*b0 + v/8)` with `v = floor(16*(11/10)^s)`
computed exactly. -/
theorem C1_diff_lookup_closed_form (pw : Nat → ℚ) (T : adpcm_tables) (s n : Nat)
    (hT : T.s_tables_computed = false)
    (h0 : pw 0 = 1)
    (hacc : ∀ k, 1 ≤ k → k ≤ 48 → |pw k - (11 / 10) ^ k| ≤ (11 / 10) ^ k / 2 ^ 20)
    (hs : s ≤ 48) (hn : n ≤ 15) :
    (compute_tables pw T).s_diff_lookup (s * 16 + n)
      = closed_form (exact_stepval s) n :=
  computed_entry pw T s n hT h0 hacc hs hn

/-- Witness for C1: with the exact power function, the entry of step 48 and
nibble 15 is `-(1552 + 776 + 388 + 194) = -2910`. -/
theorem C1_diff_lookup_closed_form_witness :
    (compute_tables (fun k => (11 / 10) ^ k) adpcm_tables_init).s_diff_lookup (48 * 16 + 15)
      = -2910 :=
  (C1_diff_lookup_closed_form (fun k => (11 / 10) ^ k) adpcm_tables_init 48 15 rfl
    (by norm_num) (fun k _ _ => by simp; positivity) (by decide) (by decide)).trans
    (by
      have hv : exact_stepval 48 = 1552 := by
        unfold exact_stepval
        rw [Int.floor_eq_iff]
        norm_num
      rw [hv]
      decide)

/-! ## The decoder step -/

theorem wrapS16_id (x : Int) (h1 : -32768 ≤ x) (h2 : x ≤ 32767) : wrapS 16 x = x := by
  unfold wrapS
  norm_num
  omega

theorem wrapS32_id (x : Int) (h1 : -2147483648 ≤ x) (h2 : x ≤ 2147483647) :
    wrapS 32 x = x := by
  unfold wrapS
  norm_num
  omega

theorem byte_and_15 (n : Nat) : (n % 256) &&& 15 = n % 16 := by
  have h := Nat.and_pow_two_sub_one_eq_mod (n % 256) 4
  norm_num at h
  exact h

theorem byte_and_7 (n : Nat) : (n % 256) &&& 7 = n % 8 := by
  have h := Nat.and_pow_two_sub_one_eq_mod (n % 256) 3
  norm_num at h
  exact h

theorem and_15 (n : Nat) : n &&& 15 = n % 16 := by
  simpa using Nat.and_pow_two_sub_one_eq_mod n 4

theorem and_7 (n : Nat) : n &&& 7 = n % 8 := by
  simpa using Nat.and_pow_two_sub_one_eq_mod n 3

theorem index_shift_bounds (k : Nat) :
    -1 ≤ s_index_shift.getD k 0 ∧ s_index_shift.getD k 0 ≤ 8 := by
  unfold s_index_shift
  rcases k with _ | _ | _ | _ | _ | _ | _ | _ | k <;> simp

theorem clock_signal_range (T : adpcm_tables) (st : adpcm_stateCopy) (n : Nat) :
    -2048 ≤ (clock T st n).1.m_signal ∧ (clock T st n).1.m_signal ≤ 2047 := by
  simp only [clock]
  split_ifs <;> omega

theorem clock_returns_signal (T : adpcm_tables) (st : adpcm_stateCopy) (n : Nat) :
    (clock T st n).2 = (clock T st n).1.m_signal := by
  have h := clock_signal_range T st n
  have : (clock T st n).2 = wrapS 16 (clock T st n).1.m_signal := rfl
  rw [this, wrapS16_id _ (by omega) (by omega)]

theorem clock_step_range (T : adpcm_tables) (st : adpcm_stateCopy) (n : Nat) :
    0 ≤ (clock T st n).1.m_step ∧ (clock T st n).1.m_step ≤ 48 := by
  simp only [clock]
  split_ifs <;> omega

theorem clocks_signal_range (T : adpcm_tables) (ns : List Nat) (st : adpcm_stateCopy)
    (h : -2048 ≤ st.m_signal ∧ st.m_signal ≤ 2047) :
    (∀ y ∈ (clocks T st ns).2, -2048 ≤ y ∧ y ≤ 2047) ∧
      -2048 ≤ (clocks T st ns).1.m_signal ∧ (clocks T st ns).1.m_signal ≤ 2047 := by
  induction ns generalizing st with
  | nil => simpa [clocks] using h
  | cons n ns ih =>
    have hr := clock_signal_range T st n
    have ih2 := ih (clock T st n).1 hr
    simp only [clocks, List.mem_cons]
    refine ⟨?_, ih2.2⟩
    intro y hy
    rcases hy with hy | hy
    · rw [hy, clock_returns_signal]; exact hr
    · exact ih2.1 y hy

theorem clocks_step_range (T : adpcm_tables) (ns : List Nat) (st : adpcm_stateCopy)
    (h : 0 ≤ st.m_step ∧ st.m_step ≤ 48) :
    0 ≤ (clocks T st ns).1.m_step ∧ (clocks T st ns).1.m_step ≤ 48 := by
  induction ns generalizing st with
  | nil => simpa [clocks] using h
  | cons n ns ih =>
    simp only [clocks]
    exact ih (clock T st n).1 (clock_step_range T st n)

/-- Claim C2: for every table content and every sequence of nibble inputs (any
byte values, indeed any naturals, which the `UINT8` parameter reduces) applied
with `clock` from the reset state `signal = -2, step = 0`, every value returned
by `clock` lies in `[-2048, 2047]`, and so does the stored signal after the
sequence (hence after each of its prefixes). -/
theorem C2_clock_output_in_range (T : adpcm_tables) (st0 : adpcm_stateCopy)
    (ns : List Nat) :
    (reset st0).m_signal = -2 ∧ (reset st0).m_step = 0 ∧
    (∀ y ∈ (clocks T (reset st0) ns).2, -2048 ≤ y ∧ y ≤ 2047) ∧
      -2048 ≤ (clocks T (reset st0) ns).1.m_signal ∧
      (clocks T (reset st0) ns).1.m_signal ≤ 2047 :=
  ⟨rfl, rfl, clocks_signal_range T ns (reset st0) (by simp [reset])⟩

/-- Claim C3: for every sequence of nibble inputs applied with `clock` from the
reset state, the step index lies in `[0, 48]` after the sequence (hence after
every clock), so the table index `step*16 + (nibble & 15)` used by the next
clock, for any next nibble, is at least 0 and below `49*16 = 784`. -/
theorem C3_step_index_in_range (T : adpcm_tables) (st0 : adpcm_stateCopy)
    (ns : List Nat) (next : Nat) :
    0 ≤ (clocks T (reset st0) ns).1.m_step ∧
    (clocks T (reset st0) ns).1.m_step ≤ 48 ∧
    0 ≤ lookup_index (clocks T (reset st0) ns).1 next ∧
    lookup_index (clocks T (reset st0) ns).1 next < 49 * 16 ∧
    (lookup_index (clocks T (reset st0) ns).1 next).toNat < 784 := by
  have h := clocks_step_range T ns (reset st0) (by simp [reset])
  have hb : ((next % 256) &&& 15) < 16 := by
    rw [byte_and_15]; omega
  unfold lookup_index
  refine ⟨h.1, h.2, by omega, by omega, by omega⟩

theorem exact_stepval_bounds (s : Nat) (hs : s ≤ 48) :
    16 ≤ exact_stepval s ∧ exact_stepval s < 1553 := by
  unfold exact_stepval
  rw [Int.le_floor, Int.floor_lt]
  interval_cases s <;> norm_num

theorem closed_form_bound (v : Int) (n : Nat) (hv : 16 ≤ v ∧ v < 1553) (hn : n ≤ 15) :
    -2910 ≤ closed_form v n ∧ closed_form v n ≤ 2910 := by
  have h2 : v.tdiv 2 = v / 2 := Int.tdiv_eq_ediv (by omega) (by omega)
  have h4 : v.tdiv 4 = v / 4 := Int.tdiv_eq_ediv (by omega) (by omega)
  have h8 : v.tdiv 8 = v / 8 := Int.tdiv_eq_ediv (by omega) (by omega)
  unfold closed_form bitOf
  rw [h2, h4, h8]
  interval_cases n <;> norm_num <;> omega

/-- Every entry of the computed table lies in `[-2910, 2910]`. -/
theorem computed_entry_bound (pw : Nat → ℚ) (T : adpcm_tables) (s n : Nat)
    (hT : T.s_tables_computed = false)
    (h0 : pw 0 = 1)
    (hacc : ∀ k, 1 ≤ k → k ≤ 48 → |pw k - (11 / 10) ^ k| ≤ (11 / 10) ^ k / 2 ^ 20)
    (hs : s ≤ 48) (hn : n ≤ 15) :
    -2910 ≤ (compute_tables pw T).s_diff_lookup (s * 16 + n) ∧
      (compute_tables pw T).s_diff_lookup (s * 16 + n) ≤ 2910 := by
  rw [computed_entry pw T s n hT h0 hacc hs hn]
  exact closed_form_bound _ n (exact_stepval_bounds s hs) hn

/-- With the computed table, every state that satisfies the invariants of the
data model (`signal` in `[-2048, 2047]`, `step` in `[0, 48]`) has a sum
`signal + s_diff_lookup[step*16 + (n & 15)]` that fits the 16-bit signal. -/
theorem clock_sum_representable (pw : Nat → ℚ) (T : adpcm_tables)
    (st : adpcm_stateCopy) (n : Nat)
    (hT : T.s_tables_computed = false)
    (h0 : pw 0 = 1)
    (hacc : ∀ k, 1 ≤ k → k ≤ 48 → |pw k - (11 / 10) ^ k| ≤ (11 / 10) ^ k / 2 ^ 20)
    (hlo : 0 ≤ st.m_step) (hhi : st.m_step ≤ 48)
    (hs : -2048 ≤ st.m_signal ∧ st.m_signal ≤ 2047) :
    -32768 ≤ st.m_signal
        + (compute_tables pw T).s_diff_lookup (st.m_step.toNat * 16 + (n &&& 15)) ∧
      st.m_signal
        + (compute_tables pw T).s_diff_lookup (st.m_step.toNat * 16 + (n &&& 15)) ≤ 32767 := by
  have hn : n &&& 15 ≤ 15 := by rw [and_15]; omega
  have h := computed_entry_bound pw T st.m_step.toNat (n &&& 15) hT h0 hacc (by omega) hn
  omega

/-- Claim C4: for every decoder state with `step` in 0..48 and every nibble
`n`, provided the sum `signal + s_diff_lookup[step*16 + (n & 15)]` is
representable in the 16-bit signal variable (as it is for every signal in
`[-2048, 2047]` with the computed table, whose entries lie in `[-2910, 2910]`),
`clock(n)` sets `signal' = clamp(signal + s_diff_lookup[step*16 + (n & 15)],
-2048, 2047)` using the step from before the call, sets
`step' = clamp(step + T[n & 7], 0, 48)` with `T = {-1,-1,-1,-1,2,4,6,8}`, and
returns `signal'`; the new step is the same for any two nibbles that agree on
their low three bits, so it does not depend on the sign bit. -/
theorem C4_clock_update (T : adpcm_tables) (st : adpcm_stateCopy) (n : Nat)
    (hlo : 0 ≤ st.m_step) (hhi : st.m_step ≤ 48)
    (hfit : -32768 ≤ st.m_signal + T.s_diff_lookup (st.m_step.toNat * 16 + (n &&& 15)) ∧
      st.m_signal + T.s_diff_lookup (st.m_step.toNat * 16 + (n &&& 15)) ≤ 32767) :
    (clock T st n).1.m_signal
        = clampTo (-2048) 2047
            (st.m_signal + T.s_diff_lookup (st.m_step.toNat * 16 + (n &&& 15))) ∧
    (clock T st n).1.m_step
        = clampTo 0 48 (st.m_step + [-1, -1, -1, -1, 2, 4, 6, 8].getD (n &&& 7) 0) ∧
    (clock T st n).2 = (clock T st n).1.m_signal ∧
    (∀ m : Nat, m &&& 7 = n &&& 7 → (clock T st m).1.m_step = (clock T st n).1.m_step) := by
  have hidx : (lookup_index st n).toNat = st.m_step.toNat * 16 + (n &&& 15) := by
    unfold lookup_index
    rw [byte_and_15, and_15]
    omega
  have hsh := index_shift_bounds (n &&& 7)
  have hstep : ∀ m : Nat, (clock T st m).1.m_step
      = clampTo 0 48 (st.m_step + s_index_shift.getD (m &&& 7) 0) := by
    intro m
    have hm := index_shift_bounds (m &&& 7)
    have e7 : (m % 256) &&& 7 = m &&& 7 := by rw [byte_and_7, and_7]
    simp only [clock, clampTo, e7]
    rw [wrapS32_id _ (by omega) (by omega)]
  refine ⟨?_, hstep n, clock_returns_signal T st n, ?_⟩
  · simp only [clock, clampTo, hidx]
    rw [wrapS16_id _ hfit.1 hfit.2]
  · intro m hm
    rw [hstep m, hstep n, hm]

/-- Witness for C4: the reset state, the computed table and the nibble 15. -/
theorem C4_clock_update_witness :
    (clock (compute_tables (fun k => (11 / 10) ^ k) adpcm_tables_init)
        (reset ⟨0, 0⟩) 15).1.m_signal
      = clampTo (-2048) 2047
          ((-2 : Int) + (compute_tables (fun k => (11 / 10) ^ k)
            adpcm_tables_init).s_diff_lookup (0 * 16 + (15 &&& 15))) :=
  (C4_clock_update (compute_tables (fun k => (11 / 10) ^ k) adpcm_tables_init)
    (reset ⟨0, 0⟩) 15 (by decide) (by decide)
    (by
      have h := computed_entry_bound (fun k => (11 / 10) ^ k) adpcm_tables_init 0 15 rfl
        (by norm_num) (fun k _ _ => by simp; positivity) (by decide) (by decide)
      have e : (reset ⟨0, 0⟩).m_step.toNat * 16 + (15 &&& 15) = 0 * 16 + 15 := by decide
      have e2 : (reset ⟨0, 0⟩).m_signal = -2 := rfl
      rw [e, e2]
      omega)).1

end adpcm_stateCopy

namespace okim9810_device

/-! ## The voice manager: commands -/

theorem rom_byte_lt (direct : Nat → Nat) (a : Nat) : rom_byte direct a < 256 := by
  unfold rom_byte; omega

theorem read_raw_byte_eq (direct : Nat → Nat) (a : Nat) (h : a < 4294967296) :
    read_raw_byte direct a = rom_byte direct a := by
  unfold read_raw_byte rom_byte wrapU32
  rw [Nat.mod_eq_of_lt h]

theorem fadr_addr_eq (b1 b2 b3 : Nat) (h1 : b1 < 256) (h2 : b2 < 256) (h3 : b3 < 256) :
    fadr_addr b1 b2 b3 = b1 * 65536 + b2 * 256 + b3 := by
  unfold fadr_addr wrapU32
  rw [Nat.shiftLeft_eq, Nat.shiftLeft_eq, Nat.shiftLeft_eq]
  have e1 : b1 * 2 ^ 16 ||| b2 * 2 ^ 8 = b1 * 2 ^ 16 + b2 * 2 ^ 8 := by
    have h := Nat.mul_add_lt_is_or (i := 16) (b := b2 * 2 ^ 8) (by omega) b1
    rw [Nat.mul_comm (2 ^ 16) b1] at h
    exact h.symm
  have e2 : (b1 * 2 ^ 16 + b2 * 2 ^ 8) ||| b3 * 2 ^ 0 = b1 * 2 ^ 16 + b2 * 2 ^ 8 + b3 := by
    have h := Nat.mul_add_lt_is_or (i := 8) (b := b3) (by omega) (b1 * 2 ^ 8 + b2)
    have e : 2 ^ 8 * (b1 * 2 ^ 8 + b2) = b1 * 2 ^ 16 + b2 * 2 ^ 8 := by ring
    rw [e] at h
    rw [Nat.pow_zero, Nat.mul_one]
    exact h.symm
  rw [e1, e2]
  omega

theorem write_command_fadr (direct : Nat → Nat) (dev : okim9810_device) (data : Nat)
    (hcmd : ((data % 256) &&& 0xf8) >>> 3 = 5) :
    write_command direct dev data = fadr direct dev ((data % 256) &&& 0x07) := by
  simp [write_command, hcmd]

/-- Claim C5: for every ROM content and TMP value `t` (a byte), the FADR
command (upper five command bits = 5) on channel `c` (the low three command
bits) reads the ROM bytes at `8*t .. 8*t+7`, takes `start` = big-endian 24-bit
value of bytes 1..3 and `end` = that of bytes 5..7, and sets voice `c` to
`base_offset = start`, sample cursor 0 and sample count `2*(end - start + 1)`,
evaluated in 32-bit unsigned arithmetic, which is the exact value whenever
`start ≤ end`; with `start = 0x000100` and `end = 0x000105` the count is 12. -/
theorem C5_fadr_load (direct : Nat → Nat) (dev : okim9810_device) (data : Nat)
    (hcmd : ((data % 256) &&& 0xf8) >>> 3 = 5) (ht : dev.m_TMP_register < 256) :
    ((data % 256) &&& 0x07) < 8 ∧
    ((write_command direct dev data).m_voice ((data % 256) &&& 0x07)).m_startFlags
      = rom_byte direct (8 * dev.m_TMP_register) ∧
    ((write_command direct dev data).m_voice ((data % 256) &&& 0x07)).m_endFlags
      = rom_byte direct (8 * dev.m_TMP_register + 4) ∧
    ((write_command direct dev data).m_voice ((data % 256) &&& 0x07)).m_base_offset
      = be24 direct (8 * dev.m_TMP_register + 1) ∧
    ((write_command direct dev data).m_voice ((data % 256) &&& 0x07)).m_sample = 0 ∧
    ((((write_command direct dev data).m_voice ((data % 256) &&& 0x07)).m_count : Nat) : Int)
      = (2 * ((be24 direct (8 * dev.m_TMP_register + 5) : Int)
              - (be24 direct (8 * dev.m_TMP_register + 1) : Int) + 1)) % 4294967296 ∧
    (be24 direct (8 * dev.m_TMP_register + 1) ≤ be24 direct (8 * dev.m_TMP_register + 5) →
      ((write_command direct dev data).m_voice ((data % 256) &&& 0x07)).m_count
        = 2 * (be24 direct (8 * dev.m_TMP_register + 5)
                - be24 direct (8 * dev.m_TMP_register + 1) + 1)) ∧
    (be24 direct (8 * dev.m_TMP_register + 1) = 0x000100 →
      be24 direct (8 * dev.m_TMP_register + 5) = 0x000105 →
      ((write_command direct dev data).m_voice ((data % 256) &&& 0x07)).m_count = 12) := by
  have hc : ((data % 256) &&& 0x07) < 8 := by
    rw [adpcm_stateCopy.byte_and_7]; omega
  have hbase : wrapU32 (dev.m_TMP_register * 8) = 8 * dev.m_TMP_register := by
    unfold wrapU32; omega
  have rd : ∀ k, k < 8 → read_raw_byte direct (8 * dev.m_TMP_register + k)
      = rom_byte direct (8 * dev.m_TMP_register + k) :=
    fun k hk => read_raw_byte_eq direct _ (by omega)
  have hs : fadr_addr (read_raw_byte direct (8 * dev.m_TMP_register + 1))
      (read_raw_byte direct (8 * dev.m_TMP_register + 2))
      (read_raw_byte direct (8 * dev.m_TMP_register + 3))
      = be24 direct (8 * dev.m_TMP_register + 1) := by
    rw [rd 1 (by omega), rd 2 (by omega), rd 3 (by omega),
      fadr_addr_eq _ _ _ (rom_byte_lt _ _) (rom_byte_lt _ _) (rom_byte_lt _ _)]
    rfl
  have he : fadr_addr (read_raw_byte direct (8 * dev.m_TMP_register + 5))
      (read_raw_byte direct (8 * dev.m_TMP_register + 6))
      (read_raw_byte direct (8 * dev.m_TMP_register + 7))
      = be24 direct (8 * dev.m_TMP_register + 5) := by
    rw [rd 5 (by omega), rd 6 (by omega), rd 7 (by omega),
      fadr_addr_eq _ _ _ (rom_byte_lt _ _) (rom_byte_lt _ _) (rom_byte_lt _ _)]
    rfl
  have hsb : be24 direct (8 * dev.m_TMP_register + 1) < 16777216 := by
    have h1 := rom_byte_lt direct (8 * dev.m_TMP_register + 1)
    have h2 := rom_byte_lt direct (8 * dev.m_TMP_register + 1 + 1)
    have h3 := rom_byte_lt direct (8 * dev.m_TMP_register + 1 + 2)
    unfold be24; omega
  have heb : be24 direct (8 * dev.m_TMP_register + 5) < 16777216 := by
    have h1 := rom_byte_lt direct (8 * dev.m_TMP_register + 5)
    have h2 := rom_byte_lt direct (8 * dev.m_TMP_register + 5 + 1)
    have h3 := rom_byte_lt direct (8 * dev.m_TMP_register + 5 + 2)
    unfold be24; omega
  rw [write_command_fadr direct dev data hcmd]
  simp only [fadr, hbase, arraySet_same, hs, he]
  refine ⟨hc, ?_, ?_, trivial, trivial, ?_, ?_, ?_⟩
  · exact rd 0 (by omega)
  · exact rd 4 (by omega)
  · unfold wrapU32; omega
  · intro hle; unfold wrapU32; omega
  · intro h1 h2; rw [h1, h2]; rfl

/-- Witness for C5: the example ROM, TMP = 0, FADR on channel 3 (command byte
`0x2b`) gives a count of 12. -/
theorem C5_fadr_load_witness :
    ((write_command example_rom init 0x2b).m_voice 3).m_base_offset = 0x000100 ∧
    ((write_command example_rom init 0x2b).m_voice 3).m_sample = 0 ∧
    ((write_command example_rom init 0x2b).m_voice 3).m_count = 12 :=
  have h := C5_fadr_load example_rom init 0x2b (by decide) (by decide)
  ⟨h.2.2.2.1, h.2.2.2.2.1, h.2.2.2.2.2.2.2 (by decide) (by decide)⟩

/-- The test `channelMask & m_TMP_register` with `channelMask = 1 << i` reads
bit `i` of the TMP register. -/
theorem mask_test (i tmp : Nat) : (2 ^ i &&& tmp ≠ 0) ↔ tmp.testBit i = true := by
  rw [Nat.two_pow_and]
  have hp : 0 < 2 ^ i := Nat.pow_pos (by decide)
  cases h : tmp.testBit i
  · simp
  · simp

theorem mask_value (n : Nat) (hn : n ≤ 7) : 2 ^ n % 256 = 2 ^ n := by
  interval_cases n <;> rfl

/-- A loop over the first `n` voices that applies `g` to the voices selected by
the channel mask and `h` to the others. -/
theorem mask_loop_prefix (g h : okim_voice → okim_voice) (tmp : Nat)
    (vs : Nat → okim_voice) (n : Nat) (hn : n ≤ 8) :
    (List.range n).foldl
      (fun (p : (Nat → okim_voice) × Nat) i =>
        (if p.2 &&& tmp ≠ 0 then arraySet p.1 i (g (p.1 i)) else arraySet p.1 i (h (p.1 i)),
         (p.2 <<< 1) % 256))
      (vs, 1)
    = (fun i => if i < n then (if tmp.testBit i = true then g (vs i) else h (vs i))
        else vs i, 2 ^ n % 256) := by
  induction n with
  | zero => simp
  | succ n ih =>
    rw [List.range_succ, List.foldl_append, ih (by omega)]
    simp only [List.foldl_cons, List.foldl_nil]
    rw [mask_value n (by omega)]
    refine Prod.ext ?_ ?_
    · funext j
      have hnn : ¬ n < n := by omega
      by_cases hb : tmp.testBit n = true
      · have hm : 2 ^ n &&& tmp ≠ 0 := (mask_test n tmp).mpr hb
        simp only [if_pos hm]
        by_cases hj : j = n
        · subst hj
          have : j < j + 1 := by omega
          simp [arraySet, hb, this]
        · have e : (j < n + 1) = (j < n) := by apply propext; omega
          simp [arraySet, hj, e]
      · have hm : ¬ (2 ^ n &&& tmp ≠ 0) := fun hc => hb ((mask_test n tmp).mp hc)
        simp only [if_neg hm]
        by_cases hj : j = n
        · subst hj
          have : j < j + 1 := by omega
          simp [arraySet, hb, this]
        · have e : (j < n + 1) = (j < n) := by apply propext; omega
          simp [arraySet, hj, e]
    · simp only [Nat.shiftLeft_eq]
      rw [pow_succ]
      omega

theorem arraySet_self {α : Type} (a : Nat → α) (i : Nat) : arraySet a i (a i) = a := by
  funext j
  by_cases hj : j = i
  · subst hj; simp [arraySet]
  · simp [arraySet, hj]

theorem start_loop_apply (tmp : Nat) (vs : Nat → okim_voice) (i : Nat) :
    (start_loop tmp vs).1 i
      = if i < 8 ∧ tmp.testBit i = true then { vs i with m_playing := true } else vs i := by
  have h := mask_loop_prefix (fun v => { v with m_playing := true }) (fun v => v) tmp vs 8
    (by omega)
  simp only [arraySet_self] at h
  unfold start_loop OKIM9810_VOICES
  rw [h]
  by_cases h1 : i < 8 <;> by_cases h2 : tmp.testBit i = true <;> simp [h1, h2]

theorem stop_loop_apply (tmp : Nat) (vs : Nat → okim_voice) (i : Nat) :
    (stop_loop tmp vs).1 i
      = if i < 8 ∧ tmp.testBit i = true then { vs i with m_playing := false } else vs i := by
  have h := mask_loop_prefix (fun v => { v with m_playing := false }) (fun v => v) tmp vs 8
    (by omega)
  simp only [arraySet_self] at h
  unfold stop_loop OKIM9810_VOICES
  rw [h]
  by_cases h1 : i < 8 <;> by_cases h2 : tmp.testBit i = true <;> simp [h1, h2]

theorem loop_loop_apply (tmp : Nat) (vs : Nat → okim_voice) (i : Nat) :
    (loop_loop tmp vs).1 i
      = if i < 8 then { vs i with m_looping := tmp.testBit i } else vs i := by
  have h := mask_loop_prefix (fun v => { v with m_looping := true })
    (fun v => { v with m_looping := false }) tmp vs 8 (by omega)
  unfold loop_loop OKIM9810_VOICES
  rw [h]
  by_cases h1 : i < 8 <;> by_cases h2 : tmp.testBit i = true <;> simp [h1, h2]

/-- Claim C10: for every TMP value and every voice `i` in 0..7, after START
(command code 0) voice `i` is the old voice with `playing' = playing OR bit i of
TMP`; after STOP (code 1) with `playing' = playing AND NOT bit i of TMP`; after
LOOP (code 2) with `looping' = bit i of TMP` (so LOOP clears looping on the
unselected voices).  The statement holds for every command byte with that code,
whatever its low three bits, and since the new voice is the old one with only
that flag replaced, no other field of any voice changes; the TMP register is
unchanged too. -/
theorem C10_start_stop_loop (direct : Nat → Nat) (dev : okim9810_device) (data i : Nat)
    (hi : i < 8) :
    (((data % 256) &&& 0xf8) >>> 3 = 0 →
      (write_command direct dev data).m_voice i
        = { dev.m_voice i with
            m_playing := (dev.m_voice i).m_playing || dev.m_TMP_register.testBit i } ∧
      (write_command direct dev data).m_TMP_register = dev.m_TMP_register) ∧
    (((data % 256) &&& 0xf8) >>> 3 = 1 →
      (write_command direct dev data).m_voice i
        = { dev.m_voice i with
            m_playing := (dev.m_voice i).m_playing && !dev.m_TMP_register.testBit i } ∧
      (write_command direct dev data).m_TMP_register = dev.m_TMP_register) ∧
    (((data % 256) &&& 0xf8) >>> 3 = 2 →
      (write_command direct dev data).m_voice i
        = { dev.m_voice i with m_looping := dev.m_TMP_register.testBit i } ∧
      (write_command direct dev data).m_TMP_register = dev.m_TMP_register) := by
  refine ⟨?_, ?_, ?_⟩
  · intro hcmd
    simp only [write_command, hcmd, if_true]
    rw [start_loop_apply]
    refine ⟨?_, trivial⟩
    cases hb : dev.m_TMP_register.testBit i <;> simp [hi]
  · intro hcmd
    simp only [write_command, hcmd, if_true]
    simp only [show (1 : Nat) = 0 ↔ False from by decide, if_false]
    rw [stop_loop_apply]
    refine ⟨?_, trivial⟩
    cases hb : dev.m_TMP_register.testBit i <;> simp [hi]
  · intro hcmd
    simp only [write_command, hcmd, if_true]
    simp only [show (2 : Nat) = 0 ↔ False from by decide,
      show (2 : Nat) = 1 ↔ False from by decide, if_false]
    rw [loop_loop_apply]
    exact ⟨by simp [hi], trivial⟩

/-- Witness for C10: TMP = `0x05`, START written with low command bits 3: voices
0 and 2 start, voice 1 does not. -/
theorem C10_start_stop_loop_witness :
    ((write_command example_rom (write_TMP_register init 0x05) 0x03).m_voice 2).m_playing
        = true ∧
    ((write_command example_rom (write_TMP_register init 0x05) 0x03).m_voice 1).m_playing
        = false :=
  ⟨by
    rw [((C10_start_stop_loop example_rom (write_TMP_register init 0x05) 0x03 2
      (by decide)).1 (by decide)).1]
    decide,
   by
    rw [((C10_start_stop_loop example_rom (write_TMP_register init 0x05) 0x03 1
      (by decide)).1 (by decide)).1]
    decide⟩

end okim9810_device

namespace okim_voice

/-! ## Sample generation -/

theorem and_1 (k : Nat) : k &&& 1 = k % 2 := by
  simp

/-- The shift amount `((m_sample & 1) << 2) ^ 4` is 4 at an even cursor and 0
at an odd one. -/
theorem fetch_nibble_eq (direct : Nat → Nat) (v : okim_voice)
    (hb : v.m_base_offset < 16777216) (hk : v.m_sample < 4294967296) :
    fetch_nibble direct v
      = if v.m_sample % 2 = 0 then rom_byte direct (v.m_base_offset + v.m_sample / 2) >>> 4
        else rom_byte direct (v.m_base_offset + v.m_sample / 2) := by
  unfold fetch_nibble
  rw [okim9810_device.read_raw_byte_eq direct _ (by omega), and_1]
  rcases Nat.mod_two_eq_zero_or_one v.m_sample with h | h
  · rw [h]; simp
  · rw [h]; simp

/-- The decoder looks only at the low four bits of its argument. -/
theorem clock_low_bits (T : adpcm_tables) (st : adpcm_stateCopy) (n : Nat) :
    adpcm_stateCopy.clock T st (n &&& 15) = adpcm_stateCopy.clock T st n := by
  have e1 : ((n &&& 15) % 256) &&& 15 = (n % 256) &&& 15 := by
    rw [adpcm_stateCopy.byte_and_15, adpcm_stateCopy.byte_and_15, adpcm_stateCopy.and_15]
    omega
  have e2 : ((n &&& 15) % 256) &&& 7 = (n % 256) &&& 7 := by
    rw [adpcm_stateCopy.byte_and_7, adpcm_stateCopy.byte_and_7, adpcm_stateCopy.and_15]
    omega
  simp only [adpcm_stateCopy.clock, adpcm_stateCopy.lookup_index, e1, e2]

theorem generate_loop_head (T : adpcm_tables) (direct : Nat → Nat) (v : okim_voice) (n : Nat) :
    (generate_loop T direct v (n + 1)).2.head?
      = some (adpcm_stateCopy.clock T v.m_adpcm (fetch_nibble direct v)).2 := by
  simp only [generate_loop]
  split_ifs <;> rfl

/-- Claim C9: for every playing voice with sample cursor `k` (a 32-bit value;
the base offset a 24-bit address) the sample produced next by `generate_adpcm`
is `clock` applied to a nibble of the ROM byte `b` at address
`base_offset + floor(k/2)`: the high nibble `b >> 4` when `k` is even, the low
nibble `b & 0x0F` when `k` is odd, although the value handed to `clock` for odd
`k` is the unmasked byte `b`. -/
theorem C9_nibble_selection (T : adpcm_tables) (direct : Nat → Nat) (v : okim_voice)
    (n : Nat) (hplay : v.m_playing = true)
    (hb : v.m_base_offset < 16777216) (hk : v.m_sample < 4294967296) :
    (generate_adpcm_samples T direct v (n + 1)).2.head?
      = some (adpcm_stateCopy.clock T v.m_adpcm
          (if v.m_sample % 2 = 0
            then rom_byte direct (v.m_base_offset + v.m_sample / 2) >>> 4
            else rom_byte direct (v.m_base_offset + v.m_sample / 2) &&& 0x0F)).2 ∧
    (v.m_sample % 2 = 0 →
      fetch_nibble direct v = rom_byte direct (v.m_base_offset + v.m_sample / 2) >>> 4) ∧
    (v.m_sample % 2 = 1 →
      fetch_nibble direct v = rom_byte direct (v.m_base_offset + v.m_sample / 2)) := by
  have hf := fetch_nibble_eq direct v hb hk
  refine ⟨?_, ?_, ?_⟩
  · simp only [generate_adpcm_samples, hplay, Bool.not_true, Bool.false_eq_true, if_false]
    rw [generate_loop_head, hf]
    by_cases h : v.m_sample % 2 = 0
    · simp only [h, if_true]
    · simp only [h, if_false]
      rw [clock_low_bits]
  · intro h; rw [hf]; simp [h]
  · intro h; rw [hf]; simp [h]

/-- Witness for C9: the example voice at the odd cursor 3 decodes the low nibble
of the byte at `0x000101`. -/
theorem C9_nibble_selection_witness :
    (generate_adpcm_samples example_tables example_rom (example_voice 3 false) (0 + 1)).2.head?
      = some (adpcm_stateCopy.clock example_tables (example_voice 3 false).m_adpcm
          (rom_byte example_rom 0x000101 &&& 0x0F)).2 :=
  (C9_nibble_selection example_tables example_rom (example_voice 3 false) 0 rfl
    (by decide) (by decide)).1

/-- One call on a playing, non-looping voice whose cursor is below its count. -/
theorem generate_loop_nonloop (T : adpcm_tables) (direct : Nat → Nat) (n : Nat) :
    ∀ v : okim_voice, v.m_playing = true → v.m_looping = false →
      v.m_sample < v.m_count → v.m_count < 4294967296 →
      (generate_loop T direct v n).2.length = min n (v.m_count - v.m_sample) ∧
      (generate_loop T direct v n).1.m_looping = false ∧
      (generate_loop T direct v n).1.m_count = v.m_count ∧
      (generate_loop T direct v n).1.m_sample
        = v.m_sample + min n (v.m_count - v.m_sample) ∧
      ((generate_loop T direct v n).1.m_playing = true ↔ n < v.m_count - v.m_sample) := by
  induction n with
  | zero =>
    intro v hp hl hk hc
    simp only [generate_loop]
    refine ⟨by simp, hl, trivial, by simp, ?_⟩
    rw [hp]; simp; omega
  | succ n ih =>
    intro v hp hl hk hc
    have hw : wrapU32 (v.m_sample + 1) = v.m_sample + 1 := by unfold wrapU32; omega
    simp only [generate_loop, hw]
    by_cases hend : v.m_sample + 1 ≥ v.m_count
    · simp only [hend, if_true, hl]
      refine ⟨?_, ?_, ?_, ?_, ?_⟩ <;> simp <;> omega
    · simp only [hend, if_false]
      have h := ih { v with
        m_adpcm := (adpcm_stateCopy.clock T v.m_adpcm (fetch_nibble direct v)).1,
        m_sample := v.m_sample + 1 } hp hl (by simp; omega) hc
      simp only [List.length_cons]
      obtain ⟨h1, h2, h3, h4, h5⟩ := h
      simp only at h1 h2 h3 h4 h5
      refine ⟨?_, h2, h3, ?_, ?_⟩
      · rw [h1]; omega
      · rw [h4]; omega
      · rw [h5]; omega

/-- A voice that is not playing generates nothing and does not change. -/
theorem generate_calls_stopped (T : adpcm_tables) (direct : Nat → Nat) (ns : List Nat) :
    ∀ v : okim_voice, v.m_playing = false → generate_calls T direct v ns = (v, []) := by
  induction ns with
  | nil => intro v _; rfl
  | cons n ns ih =>
    intro v hv
    have h1 : generate_adpcm_samples T direct v n = (v, []) := by
      simp [generate_adpcm_samples, hv]
    simp only [generate_calls, h1, ih v hv, List.nil_append]

/-- Successive calls on a playing, non-looping voice. -/
theorem generate_calls_nonloop (T : adpcm_tables) (direct : Nat → Nat) (ns : List Nat) :
    ∀ v : okim_voice, v.m_playing = true → v.m_looping = false →
      v.m_sample < v.m_count → v.m_count < 4294967296 →
      (generate_calls T direct v ns).2.length = min ns.sum (v.m_count - v.m_sample) ∧
      ((generate_calls T direct v ns).1.m_playing = true ↔
        ns.sum < v.m_count - v.m_sample) := by
  induction ns with
  | nil =>
    intro v hp hl hk hc
    simp only [generate_calls, List.length_nil, List.sum_nil, hp]
    constructor
    · omega
    · simp; omega
  | cons n ns ih =>
    intro v hp hl hk hc
    have hg : generate_adpcm_samples T direct v n = generate_loop T direct v n := by
      simp [generate_adpcm_samples, hp]
    obtain ⟨h1, h2, h3, h4, h5⟩ := generate_loop_nonloop T direct n v hp hl hk hc
    simp only [generate_calls, hg, List.length_append, List.sum_cons]
    by_cases hn : n < v.m_count - v.m_sample
    · have hp2 := h5.mpr hn
      have hk2 : (generate_loop T direct v n).1.m_sample
          < (generate_loop T direct v n).1.m_count := by rw [h3, h4]; omega
      obtain ⟨i1, i2⟩ := ih (generate_loop T direct v n).1 hp2 h2 hk2 (by rw [h3]; exact hc)
      rw [h3, h4] at i1 i2
      constructor
      · rw [h1, i1]; omega
      · rw [i2]; omega
    · have hp2 : (generate_loop T direct v n).1.m_playing = false := by
        cases hq : (generate_loop T direct v n).1.m_playing
        · rfl
        · exact absurd (h5.mp hq) hn
      rw [generate_calls_stopped T direct ns _ hp2]
      constructor
      · rw [h1]; simp; omega
      · rw [hp2]; simp; omega

/-- Claim C6: for every voice that is playing, not looping, with sample cursor 0
and sample count `c ≥ 1` (a 32-bit value), `generate_adpcm` calls with any
per-call sample requests add `min(total requested, c)` samples in total, hence
never more than `c` and exactly `c` once `c` have been requested; `playing` is
true exactly while fewer than `c` samples have been generated and false from the
call that generates the `c`-th sample on, after which further calls add nothing
and leave the voice unchanged. -/
theorem C6_nonlooping_stops_at_count (T : adpcm_tables) (direct : Nat → Nat)
    (v : okim_voice) (reqs : List Nat)
    (hp : v.m_playing = true) (hl : v.m_looping = false) (hs : v.m_sample = 0)
    (hc1 : 1 ≤ v.m_count) (hc2 : v.m_count < 4294967296) :
    (generate_calls T direct v reqs).2.length = min reqs.sum v.m_count ∧
    ((generate_calls T direct v reqs).1.m_playing = true ↔
      (generate_calls T direct v reqs).2.length < v.m_count) ∧
    (v.m_count ≤ reqs.sum →
      (generate_calls T direct v reqs).2.length = v.m_count ∧
      (generate_calls T direct v reqs).1.m_playing = false ∧
      ∀ more : List Nat,
        generate_calls T direct (generate_calls T direct v reqs).1 more
          = ((generate_calls T direct v reqs).1, [])) := by
  obtain ⟨h1, h2⟩ := generate_calls_nonloop T direct reqs v hp hl (by omega) hc2
  rw [hs] at h1 h2
  simp only [Nat.sub_zero] at h1 h2
  refine ⟨h1, ?_, ?_⟩
  · rw [h2, h1]; omega
  · intro hge
    have hstop : (generate_calls T direct v reqs).1.m_playing = false := by
      cases hq : (generate_calls T direct v reqs).1.m_playing
      · rfl
      · have := h2.mp hq; omega
    exact ⟨by rw [h1]; omega, hstop, fun more => generate_calls_stopped T direct more _ hstop⟩

/-- Witness for C6: the 12-sample example voice with the requests 5, 4, 3, 7. -/
theorem C6_nonlooping_stops_at_count_witness :
    (generate_calls example_tables example_rom (example_voice 0 false) [5, 4, 3, 7]).2.length
      = 12 ∧
    (generate_calls example_tables example_rom (example_voice 0 false) [5, 4, 3, 7]).1.m_playing
      = false :=
  have h := (C6_nonlooping_stops_at_count example_tables example_rom (example_voice 0 false)
    [5, 4, 3, 7] rfl rfl rfl (by decide) (by decide)).2.2 (by decide)
  ⟨h.1, h.2.1⟩

/-- One call on a playing, looping voice whose cursor is below its count. -/
theorem generate_loop_looping (T : adpcm_tables) (direct : Nat → Nat) (n : Nat) :
    ∀ v : okim_voice, v.m_playing = true → v.m_looping = true →
      v.m_sample < v.m_count → v.m_count < 4294967296 →
      (generate_loop T direct v n).2.length = min n (v.m_count - v.m_sample) ∧
      (generate_loop T direct v n).1.m_playing = true ∧
      (generate_loop T direct v n).1.m_looping = true ∧
      (generate_loop T direct v n).1.m_count = v.m_count ∧
      (generate_loop T direct v n).1.m_base_offset = v.m_base_offset ∧
      (generate_loop T direct v n).1.m_sample
        = (if n < v.m_count - v.m_sample then v.m_sample + n else 0) := by
  induction n with
  | zero =>
    intro v hp hl hk hc
    simp only [generate_loop]
    refine ⟨by simp, hp, hl, trivial, trivial, ?_⟩
    have : 0 < v.m_count - v.m_sample := by omega
    simp [this]
  | succ n ih =>
    intro v hp hl hk hc
    have hw : wrapU32 (v.m_sample + 1) = v.m_sample + 1 := by unfold wrapU32; omega
    simp only [generate_loop, hw]
    by_cases hend : v.m_sample + 1 ≥ v.m_count
    · simp only [hend, if_true, hl]
      have hn : ¬ (n + 1 < v.m_count - v.m_sample) := by omega
      refine ⟨?_, ?_, ?_, ?_, ?_, ?_⟩
      · simp; omega
      · simpa using hp
      · simp
      · simp
      · simp
      · simp [hn]
    · simp only [hend, if_false]
      have h := ih { v with
        m_adpcm := (adpcm_stateCopy.clock T v.m_adpcm (fetch_nibble direct v)).1,
        m_sample := v.m_sample + 1 } hp hl (by simp; omega) hc
      simp only [List.length_cons]
      obtain ⟨h1, h2, h3, h4, h5, h6⟩ := h
      simp only at h1 h2 h3 h4 h5 h6
      refine ⟨?_, h2, h3, h4, h5, ?_⟩
      · rw [h1]; omega
      · rw [h6]
        by_cases hn : n < v.m_count - (v.m_sample + 1)
        · have hn2 : n + 1 < v.m_count - v.m_sample := by omega
          rw [if_pos hn, if_pos hn2]; omega
        · have hn2 : ¬ (n + 1 < v.m_count - v.m_sample) := by omega
          rw [if_neg hn, if_neg hn2]

/-- Successive calls on a playing, looping voice: it keeps playing, and its
cursor follows the number of samples generated up to the first wrap. -/
theorem generate_calls_looping (T : adpcm_tables) (direct : Nat → Nat) (ns : List Nat) :
    ∀ v : okim_voice, v.m_playing = true → v.m_looping = true →
      v.m_sample < v.m_count → v.m_count < 4294967296 →
      (generate_calls T direct v ns).1.m_playing = true ∧
      (generate_calls T direct v ns).1.m_looping = true ∧
      (generate_calls T direct v ns).1.m_count = v.m_count ∧
      (generate_calls T direct v ns).1.m_base_offset = v.m_base_offset ∧
      (v.m_sample + (generate_calls T direct v ns).2.length < v.m_count →
        (generate_calls T direct v ns).1.m_sample
          = v.m_sample + (generate_calls T direct v ns).2.length) ∧
      (v.m_sample + (generate_calls T direct v ns).2.length = v.m_count →
        (generate_calls T direct v ns).1.m_sample = 0) := by
  induction ns with
  | nil =>
    intro v hp hl hk hc
    simp only [generate_calls, List.length_nil]
    exact ⟨hp, hl, trivial, trivial, fun _ => rfl, fun h => by omega⟩
  | cons n ns ih =>
    intro v hp hl hk hc
    have hg : generate_adpcm_samples T direct v n = generate_loop T direct v n := by
      simp [generate_adpcm_samples, hp]
    obtain ⟨h1, h2, h3, h4, h5, h6⟩ := generate_loop_looping T direct n v hp hl hk hc
    have hk2 : (generate_loop T direct v n).1.m_sample
        < (generate_loop T direct v n).1.m_count := by
      rw [h4, h6]; split_ifs <;> omega
    obtain ⟨i1, i2, i3, i4, i5, i6⟩ :=
      ih (generate_loop T direct v n).1 h2 h3 hk2 (by rw [h4]; exact hc)
    simp only [generate_calls, hg, List.length_append]
    rw [h4] at i3 i5 i6
    refine ⟨i1, i2, i3, i4.trans h5, ?_, ?_⟩
    · intro hlt
      have hn : n < v.m_count - v.m_sample := by
        by_contra hcon
        have : min n (v.m_count - v.m_sample) = v.m_count - v.m_sample := by omega
        omega
      rw [h6, if_pos hn] at i5
      have hm : min n (v.m_count - v.m_sample) = n := by omega
      rw [h1, hm] at hlt ⊢
      rw [i5 (by omega)]; omega
    · intro heq
      rw [h1] at heq
      by_cases hn : n < v.m_count - v.m_sample
      · rw [h6, if_pos hn] at i6
        have hm : min n (v.m_count - v.m_sample) = n := by omega
        exact i6 (by omega)
      · rw [h6, if_neg hn] at i5
        have hm : min n (v.m_count - v.m_sample) = v.m_count - v.m_sample := by omega
        have hz : (generate_calls T direct (generate_loop T direct v n).1 ns).2.length = 0 := by
          omega
        have := i5 (by omega)
        omega

/-- Claim C7: for every voice that is playing and looping with sample cursor 0
and sample count `c ≥ 1` (a 32-bit value; the base offset a 24-bit address),
whenever a series of `generate_adpcm` calls has generated `c` samples in total
(as the single request `c` does) the voice is still playing with sample cursor
0, and the next generated sample, the `(c+1)`-th, is decoded from the nibble at
cursor 0, the high nibble of the ROM byte at `base_offset`. -/
theorem C7_looping_wraps_to_zero (T : adpcm_tables) (direct : Nat → Nat)
    (v : okim_voice)
    (hp : v.m_playing = true) (hl : v.m_looping = true) (hs : v.m_sample = 0)
    (hc1 : 1 ≤ v.m_count) (hc2 : v.m_count < 4294967296)
    (hb : v.m_base_offset < 16777216) :
    (generate_calls T direct v [v.m_count]).2.length = v.m_count ∧
    ∀ reqs : List Nat, (generate_calls T direct v reqs).2.length = v.m_count →
      (generate_calls T direct v reqs).1.m_playing = true ∧
      (generate_calls T direct v reqs).1.m_sample = 0 ∧
      ∀ n : Nat,
        (generate_adpcm_samples T direct (generate_calls T direct v reqs).1 (n + 1)).2.head?
          = some (adpcm_stateCopy.clock T (generate_calls T direct v reqs).1.m_adpcm
              (rom_byte direct v.m_base_offset >>> 4)).2 := by
  constructor
  · have hg : generate_adpcm_samples T direct v v.m_count
        = generate_loop T direct v v.m_count := by
      simp [generate_adpcm_samples, hp]
    have h := (generate_loop_looping T direct v.m_count v hp hl (by omega) hc2).1
    simp only [generate_calls, hg, List.append_nil, h]
    omega
  · intro reqs hlen
    obtain ⟨i1, i2, i3, i4, i5, i6⟩ :=
      generate_calls_looping T direct reqs v hp hl (by omega) hc2
    have hz : (generate_calls T direct v reqs).1.m_sample = 0 := i6 (by omega)
    refine ⟨i1, hz, ?_⟩
    intro n
    have hf := fetch_nibble_eq direct (generate_calls T direct v reqs).1
      (by rw [i4]; exact hb) (by rw [hz]; decide)
    rw [hz, i4] at hf
    simp only [generate_adpcm_samples, i1, Bool.not_true, Bool.false_eq_true, if_false]
    rw [generate_loop_head, hf]
    simp

/-- Witness for C7: the looping 12-sample example voice; after the requests 5
and 7 the cursor is back at 0 and the 13th sample is decoded from the high
nibble of the byte at `0x000100`. -/
theorem C7_looping_wraps_to_zero_witness :
    (generate_calls example_tables example_rom (example_voice 0 true) [5, 7]).1.m_playing
      = true ∧
    (generate_calls example_tables example_rom (example_voice 0 true) [5, 7]).1.m_sample = 0 ∧
    (generate_adpcm_samples example_tables example_rom
        (generate_calls example_tables example_rom (example_voice 0 true) [5, 7]).1
        (0 + 1)).2.head?
      = some (adpcm_stateCopy.clock example_tables
          (generate_calls example_tables example_rom (example_voice 0 true) [5, 7]).1.m_adpcm
          (rom_byte example_rom 0x000100 >>> 4)).2 :=
  have h := (C7_looping_wraps_to_zero example_tables example_rom (example_voice 0 true)
    rfl rfl rfl (by decide) (by decide) (by decide)).2 [5, 7] (by decide)
  ⟨h.1, h.2.1, h.2.2 0⟩

end okim_voice

namespace okim9810_device

/-! ## The cursor invariant -/

theorem generate_loop_inv (T : adpcm_tables) (direct : Nat → Nat) (n : Nat) :
    ∀ v : okim_voice, v.m_sample < v.m_count →
      voice_inv (okim_voice.generate_loop T direct v n).1 := by
  induction n with
  | zero =>
    intro v hk _
    simpa [okim_voice.generate_loop] using hk
  | succ n ih =>
    intro v hk
    simp only [okim_voice.generate_loop]
    by_cases hend : wrapU32 (v.m_sample + 1) ≥ v.m_count
    · simp only [hend, if_true]
      cases hl : v.m_looping
      · intro hplay
        simp at hplay
      · intro _
        simp
        omega
    · simp only [hend, if_false]
      exact ih _ (by simp; omega)

theorem generate_adpcm_inv (T : adpcm_tables) (direct : Nat → Nat) (v : okim_voice)
    (buffer : List Int) (n : Nat) (h : voice_inv v) :
    voice_inv (okim_voice.generate_adpcm T direct v buffer n).1 := by
  simp only [okim_voice.generate_adpcm, okim_voice.generate_adpcm_samples]
  cases hp : v.m_playing
  · simpa using h
  · simpa using generate_loop_inv T direct n v (h hp)

theorem stream_fold_inv (T : adpcm_tables) (direct : Nat → Nat) (samples : Nat)
    (l : List Nat) :
    ∀ p : (Nat → okim_voice) × List Int, (∀ i, voice_inv (p.1 i)) →
      ∀ i, voice_inv ((l.foldl
        (fun (p : (Nat → okim_voice) × List Int) voicenum =>
          let g := okim_voice.generate_adpcm T direct (p.1 voicenum) p.2 samples
          (arraySet p.1 voicenum g.1, g.2)) p).1 i) := by
  induction l with
  | nil => intro p hp i; simpa using hp i
  | cons a l ih =>
    intro p hp
    simp only [List.foldl_cons]
    apply ih
    intro j
    by_cases hj : j = a
    · subst hj
      simp only [arraySet_same]
      exact generate_adpcm_inv T direct _ _ _ (hp j)
    · simp only [arraySet_other _ _ _ _ hj]
      exact hp j

theorem reset_fold_inv (l : List Nat) :
    ∀ vs : Nat → okim_voice, (∀ i, voice_inv (vs i)) →
      ∀ i, voice_inv ((l.foldl
        (fun vs voicenum => arraySet vs voicenum { vs voicenum with m_playing := false })
        vs) i) := by
  induction l with
  | nil => intro vs h i; simpa using h i
  | cons a l ih =>
    intro vs h
    simp only [List.foldl_cons]
    apply ih
    intro j
    by_cases hj : j = a
    · subst hj
      simp only [arraySet_same]
      intro hplay
      simp at hplay
    · simp only [arraySet_other _ _ _ _ hj]
      exact h j

theorem write_command_inv (direct : Nat → Nat) (dev : okim9810_device) (data : Nat)
    (h : ∀ i, voice_inv (dev.m_voice i))
    (hadm : op_admissible direct dev (.write_cmd data)) :
    ∀ i, voice_inv ((write_command direct dev data).m_voice i) := by
  obtain ⟨hstart, hfadr⟩ := hadm
  intro i
  simp only [write_command]
  split_ifs with c0 c1 c2 c3 c4 c5 c6 c7 c8
  · simp only [start_loop_apply]
    by_cases hb : i < 8 ∧ dev.m_TMP_register.testBit i = true
    · rw [if_pos hb]
      intro _
      exact hstart c0 i hb.1 hb.2
    · rw [if_neg hb]; exact h i
  · simp only [stop_loop_apply]
    by_cases hb : i < 8 ∧ dev.m_TMP_register.testBit i = true
    · rw [if_pos hb]
      intro hplay
      simp at hplay
    · rw [if_neg hb]; exact h i
  · simp only [loop_loop_apply]
    by_cases hb : i < 8
    · rw [if_pos hb]; exact h i
    · rw [if_neg hb]; exact h i
  · exact h i
  · exact h i
  · by_cases hi : i = (data % 256) &&& 0x07
    · subst hi
      intro hplay
      have hp : (dev.m_voice ((data % 256) &&& 0x07)).m_playing = true := by
        simpa [fadr, arraySet] using hplay
      have hne := hfadr c5 hp
      have hz : ((fadr direct dev ((data % 256) &&& 0x07)).m_voice
          ((data % 256) &&& 0x07)).m_sample = 0 := by
        simp [fadr, arraySet]
      rw [hz]
      omega
    · have : (fadr direct dev ((data % 256) &&& 0x07)).m_voice i = dev.m_voice i := by
        simp [fadr, arraySet, hi]
      rw [this]; exact h i
  · exact h i
  · by_cases hi : i = (data % 256) &&& 0x07
    · subst hi
      simp only [arraySet_same]
      exact h _
    · simp only [arraySet_other _ _ _ _ hi]
      exact h i
  · exact h i
  · exact h i

theorem apply_op_inv (T : adpcm_tables) (direct : Nat → Nat) (dev : okim9810_device)
    (op : okim_op) (h : ∀ i, voice_inv (dev.m_voice i))
    (hadm : op_admissible direct dev op) :
    ∀ i, voice_inv ((apply_op T direct dev op).m_voice i) := by
  cases op with
  | write_TMP data => exact h
  | write_cmd data => exact write_command_inv direct dev data h hadm
  | generate k samples =>
    intro i
    simp only [apply_op]
    split_ifs with hk
    · by_cases hi : i = k
      · subst hi
        simp only [arraySet_same]
        exact generate_adpcm_inv T direct _ _ _ (h i)
      · simp only [arraySet_other _ _ _ _ hi]
        exact h i
    · exact h i
  | stream_update samples =>
    intro i
    simp only [apply_op, sound_stream_update]
    exact stream_fold_inv T direct samples (List.range OKIM9810_VOICES)
      (dev.m_voice, List.replicate samples 0) h i
  | reset =>
    intro i
    simp only [apply_op, device_reset]
    exact reset_fold_inv (List.range OKIM9810_VOICES) dev.m_voice h i

theorem run_inv (T : adpcm_tables) (direct : Nat → Nat) (ops : List okim_op) :
    ∀ dev : okim9810_device, (∀ i, voice_inv (dev.m_voice i)) →
      run_admissible T direct dev ops →
      ∀ i, voice_inv ((run T direct dev ops).m_voice i) := by
  induction ops with
  | nil => intro dev h _; exact h
  | cons op ops ih =>
    intro dev h hadm
    exact ih _ (apply_op_inv T direct dev op h hadm.1) hadm.2

theorem init_inv : ∀ i, voice_inv (init.m_voice i) := by
  intro i hplay
  simp [init, okim_voice.init] at hplay

/-- Claim C8, refuted as stated: from the constructed device, writing TMP = 1
and the START command leaves voice 0 playing with cursor 0 and count 0; and
after loading and starting the 12-sample phrase on voice 0, a FADR of phrase 1
(end address = start address - 1) leaves voice 0 playing with cursor 0 and
count 0.  In both states the voice invariant fails. -/
theorem C8_cursor_below_count_counterexample :
    (((run example_tables example_rom init
        [.write_TMP 1, .write_cmd 0x00]).m_voice 0).m_playing = true ∧
     ((run example_tables example_rom init
        [.write_TMP 1, .write_cmd 0x00]).m_voice 0).m_sample = 0 ∧
     ((run example_tables example_rom init
        [.write_TMP 1, .write_cmd 0x00]).m_voice 0).m_count = 0 ∧
     ¬ voice_inv ((run example_tables example_rom init
        [.write_TMP 1, .write_cmd 0x00]).m_voice 0)) ∧
    (((run example_tables example_rom init
        [.write_TMP 0, .write_cmd 0x28, .write_TMP 1, .write_cmd 0x00,
         .write_cmd 0x28]).m_voice 0).m_playing = true ∧
     ((run example_tables example_rom init
        [.write_TMP 0, .write_cmd 0x28, .write_TMP 1, .write_cmd 0x00,
         .write_cmd 0x28]).m_voice 0).m_sample = 0 ∧
     ((run example_tables example_rom init
        [.write_TMP 0, .write_cmd 0x28, .write_TMP 1, .write_cmd 0x00,
         .write_cmd 0x28]).m_voice 0).m_count = 0 ∧
     ¬ voice_inv ((run example_tables example_rom init
        [.write_TMP 0, .write_cmd 0x28, .write_TMP 1, .write_cmd 0x00,
         .write_cmd 0x28]).m_voice 0)) := by
  have a1 : ((run example_tables example_rom init
      [.write_TMP 1, .write_cmd 0x00]).m_voice 0).m_playing = true := by decide
  have a2 : ((run example_tables example_rom init
      [.write_TMP 1, .write_cmd 0x00]).m_voice 0).m_sample = 0 := by decide
  have a3 : ((run example_tables example_rom init
      [.write_TMP 1, .write_cmd 0x00]).m_voice 0).m_count = 0 := by decide
  have b1 : ((run example_tables example_rom init
      [.write_TMP 0, .write_cmd 0x28, .write_TMP 1, .write_cmd 0x00,
       .write_cmd 0x28]).m_voice 0).m_playing = true := by decide
  have b2 : ((run example_tables example_rom init
      [.write_TMP 0, .write_cmd 0x28, .write_TMP 1, .write_cmd 0x00,
       .write_cmd 0x28]).m_voice 0).m_sample = 0 := by decide
  have b3 : ((run example_tables example_rom init
      [.write_TMP 0, .write_cmd 0x28, .write_TMP 1, .write_cmd 0x00,
       .write_cmd 0x28]).m_voice 0).m_count = 0 := by decide
  refine ⟨⟨a1, a2, a3, ?_⟩, ⟨b1, b2, b3, ?_⟩⟩
  · intro h
    have := h a1
    rw [a2, a3] at this
    exact Nat.lt_irrefl 0 this
  · intro h
    have := h b1
    rw [b2, b3] at this
    exact Nat.lt_irrefl 0 this

/-- Claim C8 as amended: in every state reached from the constructed device
through any sequence of TMP-register writes, command writes, `generate_adpcm`
calls, stream updates and device resets in which every START selects only
voices whose cursor is below their count and no FADR loads a count of 0 into a
playing voice, every voice with `playing = true` has sample cursor below sample
count. -/
theorem C8_cursor_below_count_amended (T : adpcm_tables) (direct : Nat → Nat)
    (ops : List okim_op) (hadm : run_admissible T direct init ops) (i : Nat) :
    ((run T direct init ops).m_voice i).m_playing = true →
      ((run T direct init ops).m_voice i).m_sample
        < ((run T direct init ops).m_voice i).m_count :=
  run_inv T direct ops init init_inv hadm i

theorem example_session_admissible :
    run_admissible example_tables example_rom init example_session := by
  unfold example_session
  simp only [run_admissible, op_admissible, and_true, true_and]
  refine ⟨?_, ?_⟩
  · decide
  · decide

/-- Witness for the amended C8: the example session is admissible; after it
voice 0 is playing and its cursor is below its count. -/
theorem C8_cursor_below_count_amended_witness :
    ((run example_tables example_rom init example_session).m_voice 0).m_playing = true ∧
    ((run example_tables example_rom init example_session).m_voice 0).m_sample
      < ((run example_tables example_rom init example_session).m_voice 0).m_count :=
  ⟨by decide,
   C8_cursor_below_count_amended example_tables example_rom example_session
    example_session_admissible 0 (by decide)⟩

/-! ## Stub commands and the frame of FADR and CVOL -/

/-- Claim C11: for every device state and every command byte whose upper five
bits select OPT (3), MUON (4), DADR (6), PAN (8) or an undefined code (9..31),
`write_command` returns (it is a total function) the device unchanged: the TMP
register and every field of every voice are as before. -/
theorem C11_stub_commands_no_effect (direct : Nat → Nat) (dev : okim9810_device)
    (data : Nat)
    (hcmd : ((data % 256) &&& 0xf8) >>> 3 = 3 ∨ ((data % 256) &&& 0xf8) >>> 3 = 4 ∨
      ((data % 256) &&& 0xf8) >>> 3 = 6 ∨ ((data % 256) &&& 0xf8) >>> 3 = 8 ∨
      9 ≤ ((data % 256) &&& 0xf8) >>> 3) :
    write_command direct dev data = dev := by
  simp only [write_command]
  generalize ((data % 256) &&& 0xf8) >>> 3 = cmd at hcmd
  split_ifs <;> first | rfl | omega

/-- Witness for C11: the PAN command byte `0x43` and the undefined command byte
`0xff` (code 31) leave a started, loaded device as it is. -/
theorem C11_stub_commands_no_effect_witness :
    write_command example_rom (run example_tables example_rom init example_session) 0x43
      = run example_tables example_rom init example_session ∧
    write_command example_rom (run example_tables example_rom init example_session) 0xff
      = run example_tables example_rom init example_session :=
  ⟨C11_stub_commands_no_effect example_rom _ 0x43 (by decide),
   C11_stub_commands_no_effect example_rom _ 0xff (by decide)⟩

/-- Claim C12: FADR (code 5) and CVOL (code 7) act only on the voice numbered by
the low three bits of the command byte.  CVOL replaces that voice's volume by
TMP and nothing else; FADR leaves that voice's playing flag, looping flag,
volume and ADPCM signal/step as they are (it replaces the start/end flags, the
base offset, the sample cursor and the sample count); both leave every other
voice and the TMP register unchanged. -/
theorem C12_fadr_cvol_frame (direct : Nat → Nat) (dev : okim9810_device) (data : Nat) :
    ((data % 256) &&& 0x07) < 8 ∧
    (((data % 256) &&& 0xf8) >>> 3 = 7 →
      (write_command direct dev data).m_voice ((data % 256) &&& 0x07)
        = { dev.m_voice ((data % 256) &&& 0x07) with m_volume := dev.m_TMP_register } ∧
      (∀ j, j ≠ (data % 256) &&& 0x07 →
        (write_command direct dev data).m_voice j = dev.m_voice j) ∧
      (write_command direct dev data).m_TMP_register = dev.m_TMP_register) ∧
    (((data % 256) &&& 0xf8) >>> 3 = 5 →
      ((write_command direct dev data).m_voice ((data % 256) &&& 0x07)).m_playing
        = (dev.m_voice ((data % 256) &&& 0x07)).m_playing ∧
      ((write_command direct dev data).m_voice ((data % 256) &&& 0x07)).m_looping
        = (dev.m_voice ((data % 256) &&& 0x07)).m_looping ∧
      ((write_command direct dev data).m_voice ((data % 256) &&& 0x07)).m_adpcm
        = (dev.m_voice ((data % 256) &&& 0x07)).m_adpcm ∧
      ((write_command direct dev data).m_voice ((data % 256) &&& 0x07)).m_volume
        = (dev.m_voice ((data % 256) &&& 0x07)).m_volume ∧
      (∀ j, j ≠ (data % 256) &&& 0x07 →
        (write_command direct dev data).m_voice j = dev.m_voice j) ∧
      (write_command direct dev data).m_TMP_register = dev.m_TMP_register) := by
  refine ⟨by rw [adpcm_stateCopy.byte_and_7]; omega, ?_, ?_⟩
  · intro hcmd
    simp only [write_command, hcmd]
    simp only [show (7 : Nat) = 0 ↔ False from by decide,
      show (7 : Nat) = 1 ↔ False from by decide, show (7 : Nat) = 2 ↔ False from by decide,
      show (7 : Nat) = 3 ↔ False from by decide, show (7 : Nat) = 4 ↔ False from by decide,
      show (7 : Nat) = 5 ↔ False from by decide, show (7 : Nat) = 6 ↔ False from by decide,
      if_false, if_true, arraySet_same]
    exact ⟨trivial, fun j hj => arraySet_other _ _ _ _ hj, trivial⟩
  · intro hcmd
    rw [write_command_fadr direct dev data hcmd]
    simp only [fadr, arraySet_same]
    exact ⟨trivial, trivial, trivial, trivial, fun j hj => arraySet_other _ _ _ _ hj, trivial⟩

/-- Witness for C12: with TMP = `0x1f`, CVOL on channel 2 (command byte `0x3a`)
sets the volume of voice 2 and leaves voice 0 as it is; FADR on channel 2
(command byte `0x2a`) leaves voice 0 as it is. -/
theorem C12_fadr_cvol_frame_witness :
    ((write_command example_rom (write_TMP_register init 0x1f) 0x3a).m_voice
        ((0x3a % 256) &&& 0x07)).m_volume = 0x1f ∧
    (write_command example_rom (write_TMP_register init 0x1f) 0x3a).m_voice 0
      = (write_TMP_register init 0x1f).m_voice 0 ∧
    (write_command example_rom (write_TMP_register init 0x1f) 0x2a).m_voice 0
      = (write_TMP_register init 0x1f).m_voice 0 :=
  have h := (C12_fadr_cvol_frame example_rom (write_TMP_register init 0x1f) 0x3a).2.1
    (by decide)
  have g := (C12_fadr_cvol_frame example_rom (write_TMP_register init 0x1f) 0x2a).2.2
    (by decide)
  ⟨by rw [h.1]; rfl, h.2.1 0 (by decide), g.2.2.2.2.1 0 (by decide)⟩

end okim9810_device

namespace vsystem_spr_device

/-! ## Sprite attribute decoding -/

theorem and_shiftRight (a b k : Nat) : (a &&& b) >>> k = (a >>> k) &&& (b >>> k) := by
  apply Nat.eq_of_testBit_eq
  intro i
  simp [Nat.testBit_shiftRight, Nat.testBit_and]

theorem read_word_lt (ram : Nat → Nat) (i : Nat) : read_word ram i < 65536 := by
  unfold read_word; omega

theorem word_and_ffff (w : Nat) (h : w < 65536) : w &&& 0xffff = w := by
  have e := Nat.and_pow_two_sub_one_eq_mod w 16
  norm_num at e
  rw [e]
  omega

theorem word_shr12 (w : Nat) (h : w < 65536) : (w &&& 0xf000) >>> 12 = w >>> 12 := by
  rw [and_shiftRight]
  have e := Nat.and_pow_two_sub_one_eq_mod (w >>> 12) 4
  norm_num at e
  have h2 : w >>> 12 < 16 := by
    rw [Nat.shiftRight_eq_div_pow]; omega
  have e3 : (0xf000 : Nat) >>> 12 = 15 := by decide
  rw [e3, e, Nat.mod_eq_of_lt h2]

theorem flag_test (w k : Nat) : (w &&& 2 ^ k ≠ 0) ↔ w.testBit k = true := by
  rw [Nat.and_two_pow]
  have hp : 0 < 2 ^ k := Nat.pow_pos (by decide)
  cases h : w.testBit k
  · simp
  · simp

end vsystem_spr_device

namespace vsystem_spr_device

/-- The decoded map pointer is `((w2 & 1) << 16) | w3`, a 17-bit value. -/
theorem decoded_map (dev : vsystem_spr_device) (ram : Nat → Nat) (base : Nat) :
    (get_sprite_attributes dev ram base).curr_sprite.map
      = ((read_word ram (base + 2) &&& 1) <<< 16) ||| read_word ram (base + 3) ∧
    (get_sprite_attributes dev ram base).curr_sprite.map < 131072 := by
  have h3 := read_word_lt ram (base + 3)
  have ha : read_word ram (base + 2) &&& 1 ≤ 1 := Nat.and_le_right
  have hb : (read_word ram (base + 2) &&& 1) <<< 16 < 2 ^ 17 := by
    rw [Nat.shiftLeft_eq]; omega
  have hc : read_word ram (base + 3) < 2 ^ 17 := by omega
  have hlt := Nat.or_lt_two_pow hb hc
  have e : (get_sprite_attributes dev ram base).curr_sprite.map
      = ((read_word ram (base + 2) &&& 1) <<< 16) ||| read_word ram (base + 3) := by
    simp only [get_sprite_attributes]
    rw [word_and_ffff _ h3]
    unfold wrapU32
    apply Nat.mod_eq_of_lt
    omega
  refine ⟨e, ?_⟩
  rw [e]
  omega

/-- Claim C13: for every four 16-bit words `w0..w3`, `get_sprite_attributes`
yields `oy = w0 & 0x1ff`, `ysize = (w0 >> 9) & 7`, `zoomy = w0 >> 12`,
`ox = w1 & 0x1ff`, `xsize = (w1 >> 9) & 7`, `zoomx = w1 >> 12`, `flipx` set iff
bit 14 of `w2`, `flipy` set iff bit 15 of `w2`, `color = (w2 >> 8) & 0x3f`,
`pri = (w2 >> 12) & 3` and `map = ((w2 & 1) << 16) | w3`; the words
`0x0005, 0x1003, 0xC200, 0x1234` give `oy=5, ysize=0, zoomy=0, ox=3, xsize=0,
zoomx=1`, both flips set, `color=2, pri=0, map=0x1234`. -/
theorem C13_sprite_attribute_decode (dev : vsystem_spr_device) (ram : Nat → Nat)
    (base : Nat) :
    (get_sprite_attributes dev ram base).curr_sprite.oy
      = ((read_word ram (base + 0) &&& 0x1ff : Nat) : Int) ∧
    (get_sprite_attributes dev ram base).curr_sprite.ysize
      = (((read_word ram (base + 0) >>> 9) &&& 7 : Nat) : Int) ∧
    (get_sprite_attributes dev ram base).curr_sprite.zoomy
      = ((read_word ram (base + 0) >>> 12 : Nat) : Int) ∧
    (get_sprite_attributes dev ram base).curr_sprite.ox
      = ((read_word ram (base + 1) &&& 0x1ff : Nat) : Int) ∧
    (get_sprite_attributes dev ram base).curr_sprite.xsize
      = (((read_word ram (base + 1) >>> 9) &&& 7 : Nat) : Int) ∧
    (get_sprite_attributes dev ram base).curr_sprite.zoomx
      = ((read_word ram (base + 1) >>> 12 : Nat) : Int) ∧
    ((get_sprite_attributes dev ram base).curr_sprite.flipx ≠ 0
      ↔ (read_word ram (base + 2)).testBit 14 = true) ∧
    ((get_sprite_attributes dev ram base).curr_sprite.flipy ≠ 0
      ↔ (read_word ram (base + 2)).testBit 15 = true) ∧
    (get_sprite_attributes dev ram base).curr_sprite.color
      = (((read_word ram (base + 2) >>> 8) &&& 0x3f : Nat) : Int) ∧
    (get_sprite_attributes dev ram base).curr_sprite.pri
      = (((read_word ram (base + 2) >>> 12) &&& 3 : Nat) : Int) ∧
    (get_sprite_attributes dev ram base).curr_sprite.map
      = ((read_word ram (base + 2) &&& 1) <<< 16) ||| read_word ram (base + 3) ∧
    (get_sprite_attributes dev example_sprite_ram 0).curr_sprite
      = { oy := 5, ysize := 0, zoomy := 0, ox := 3, xsize := 0, zoomx := 1,
          flipx := 0x4000, flipy := 0x8000, color := 2, pri := 0, map := 0x1234 } := by
  have h0 := read_word_lt ram (base + 0)
  have h1 := read_word_lt ram (base + 1)
  have h2 := read_word_lt ram (base + 2)
  have h3 := read_word_lt ram (base + 3)
  simp only [get_sprite_attributes]
  refine ⟨trivial, ?_, ?_, trivial, ?_, ?_, ?_, ?_, ?_, ?_, ?_, ?_⟩
  · rw [and_shiftRight]; rfl
  · rw [word_shr12 _ h0]
  · rw [and_shiftRight]; rfl
  · rw [word_shr12 _ h1]
  · have := flag_test (read_word ram (base + 2)) 14
    norm_num at this
    rw [← this]
    exact Int.natCast_ne_zero
  · have := flag_test (read_word ram (base + 2)) 15
    norm_num at this
    rw [← this]
    exact Int.natCast_ne_zero
  · rw [and_shiftRight]; rfl
  · rw [and_shiftRight]; rfl
  · exact (decoded_map dev ram base).1
  · decide

end vsystem_spr_device

namespace vsystem_spr_device

/-! ## The tile loops of `common_sprite_drawgfx` -/

theorem with_map_with_map (dev : vsystem_spr_device) (a b : Nat) :
    with_map (with_map dev a) b = with_map dev b := rfl

theorem with_map_self (dev : vsystem_spr_device) :
    with_map dev dev.curr_sprite.map = dev := rfl

theorem tile_body_fst (dev : vsystem_spr_device) (g pm x y : Int) :
    (tile_body dev g pm x y).1 = with_map dev (wrapU32 (dev.curr_sprite.map + 1)) := rfl

/-- The inner loop with enough fuel: `n` tiles at the counters
`xcnt, xcnt + xinc, …`, the map pointer advancing by one per tile. -/
theorem xloop_run (g pm ycnt xend xinc : Int) (hinc : xinc = 1 ∨ xinc = -1) (n : Nat) :
    ∀ (fuel : Nat) (xcnt : Int) (dev : vsystem_spr_device),
      n ≤ fuel → xend = xcnt + n * xinc → dev.curr_sprite.map + n < 4294967296 →
      xloop g pm ycnt xend xinc fuel xcnt dev
        = some (with_map dev (dev.curr_sprite.map + n),
            (List.range n).map (fun i =>
              (tile_body (with_map dev (dev.curr_sprite.map + i)) g pm
                (xcnt + i * xinc) ycnt).2)) := by
  induction n with
  | zero =>
    intro fuel xcnt dev _ hend _
    have he : xcnt = xend := by rw [hend]; simp
    cases fuel <;> simp [xloop, he, with_map_self]
  | succ n ih =>
    intro fuel xcnt dev hf hend hmap
    obtain ⟨f, rfl⟩ : ∃ f, fuel = f + 1 := ⟨fuel - 1, by omega⟩
    have hne : xcnt ≠ xend := by
      rw [hend]; push_cast
      rcases hinc with h | h <;> rw [h] <;> omega
    have hw : wrapU32 (dev.curr_sprite.map + 1) = dev.curr_sprite.map + 1 := by
      unfold wrapU32; omega
    have hrec := ih f (xcnt + xinc) (with_map dev (dev.curr_sprite.map + 1)) (by omega)
      (by rw [hend]; push_cast; ring)
      (by show dev.curr_sprite.map + 1 + n < 4294967296; omega)
    simp only [xloop, hne, if_false, tile_body_fst, hw, hrec]
    rw [List.range_succ_eq_map, List.map_cons, List.map_map]
    simp only [with_map_with_map, Option.some.injEq, Prod.mk.injEq]
    have ehead : (tile_body (with_map dev (dev.curr_sprite.map + 0)) g pm
        (xcnt + ((0 : Nat) : Int) * xinc) ycnt).2 = (tile_body dev g pm xcnt ycnt).2 := by
      simp [with_map_self]
    rw [ehead]
    refine ⟨?_, ?_⟩
    · show with_map dev (dev.curr_sprite.map + 1 + n) = _
      rw [Nat.add_right_comm, Nat.add_assoc]
    · congr 1
      apply List.map_congr_left
      intro i _
      simp only [Function.comp]
      have e1 : (with_map dev (dev.curr_sprite.map + 1)).curr_sprite.map + i
          = dev.curr_sprite.map + Nat.succ i := by
        show dev.curr_sprite.map + 1 + i = _
        omega
      have e2 : xcnt + xinc + (i : Int) * xinc = xcnt + ((Nat.succ i : Nat) : Int) * xinc := by
        push_cast; ring
      rw [e1, e2]

end vsystem_spr_device

namespace vsystem_spr_device

theorem grid_col_with_map (dev : vsystem_spr_device) (a i : Nat) :
    grid_col (with_map dev a) i = grid_col dev i := rfl

/-- The outer loop with enough fuel: `m` rows of `cx + 1` tiles each. -/
theorem yloop_run (g pm : Int) (fuel0 : Nat) (yend yinc : Int)
    (hinc : yinc = 1 ∨ yinc = -1) (cx : Nat) (hcx : cx + 1 ≤ fuel0) (m : Nat) :
    ∀ (fuel : Nat) (ycnt : Int) (dev : vsystem_spr_device),
      m ≤ fuel → yend = ycnt + m * yinc → dev.curr_sprite.xsize = (cx : Int) →
      dev.curr_sprite.map + m * (cx + 1) < 4294967296 →
      yloop g pm fuel0 yend yinc fuel ycnt dev
        = some (with_map dev (dev.curr_sprite.map + m * (cx + 1)),
            (List.range m).flatMap (fun j =>
              (List.range (cx + 1)).map (fun i =>
                (tile_body (with_map dev (dev.curr_sprite.map + j * (cx + 1) + i)) g pm
                  (grid_col dev i) (ycnt + j * yinc)).2))) := by
  induction m with
  | zero =>
    intro fuel ycnt dev _ hend _ _
    have he : ycnt = yend := by rw [hend]; simp
    cases fuel <;> simp [yloop, he, with_map_self]
  | succ m ih =>
    intro fuel ycnt dev hf hend hxs hmap
    obtain ⟨f, rfl⟩ : ∃ f, fuel = f + 1 := ⟨fuel - 1, by omega⟩
    have hne : ycnt ≠ yend := by
      rw [hend]; push_cast
      rcases hinc with h | h <;> rw [h] <;> omega
    have hmul : (m + 1) * (cx + 1) = m * (cx + 1) + (cx + 1) := Nat.succ_mul m (cx + 1)
    -- the row
    have hrow : xloop g pm ycnt
        (if dev.curr_sprite.flipx = 0 then dev.curr_sprite.xsize + 1 else -1)
        (if dev.curr_sprite.flipx = 0 then 1 else -1) fuel0
        (if dev.curr_sprite.flipx = 0 then 0 else dev.curr_sprite.xsize) dev
        = some (with_map dev (dev.curr_sprite.map + (cx + 1)),
            (List.range (cx + 1)).map (fun i =>
              (tile_body (with_map dev (dev.curr_sprite.map + i)) g pm
                (grid_col dev i) ycnt).2)) := by
      by_cases hfx : dev.curr_sprite.flipx = 0
      · simp only [hfx, if_true]
        rw [xloop_run g pm ycnt _ 1 (Or.inl rfl) (cx + 1) fuel0 0 dev hcx
          (by rw [hxs]; push_cast; ring) (by omega)]
        simp [grid_col, hfx]
      · simp only [hfx, if_false]
        rw [xloop_run g pm ycnt _ (-1) (Or.inr rfl) (cx + 1) fuel0 _ dev hcx
          (by rw [hxs]; push_cast; ring) (by omega)]
        simp only [grid_col, hfx, if_false, Option.some.injEq, Prod.mk.injEq, true_and]
        apply List.map_congr_left
        intro i _
        have : dev.curr_sprite.xsize + (i : Int) * -1 = dev.curr_sprite.xsize - i := by ring
        rw [this]
    have hrec := ih f (ycnt + yinc) (with_map dev (dev.curr_sprite.map + (cx + 1))) (by omega)
      (by rw [hend]; push_cast; ring) hxs
      (by show dev.curr_sprite.map + (cx + 1) + m * (cx + 1) < 4294967296; omega)
    simp only [yloop, hne, if_false, hrow, hrec]
    rw [List.range_succ_eq_map m, List.flatMap_cons, List.flatMap_map]
    simp only [with_map_with_map, grid_col_with_map, Option.some.injEq, Prod.mk.injEq]
    refine ⟨?_, ?_⟩
    · show with_map dev (dev.curr_sprite.map + (cx + 1) + m * (cx + 1)) = _
      have : dev.curr_sprite.map + (cx + 1) + m * (cx + 1)
          = dev.curr_sprite.map + (m + 1) * (cx + 1) := by omega
      rw [this]
    · congr 1
      · apply List.map_congr_left
        intro i _
        simp
      · apply List.flatMap_congr
        intro j _
        apply List.map_congr_left
        intro i _
        have e1 : (with_map dev (dev.curr_sprite.map + (cx + 1))).curr_sprite.map
            + j * (cx + 1) + i = dev.curr_sprite.map + Nat.succ j * (cx + 1) + i := by
          show dev.curr_sprite.map + (cx + 1) + j * (cx + 1) + i = _
          have := Nat.succ_mul j (cx + 1)
          omega
        have e2 : ycnt + yinc + (j : Int) * yinc = ycnt + ((Nat.succ j : Nat) : Int) * yinc := by
          push_cast; ring
        rw [e1, e2]

end vsystem_spr_device

namespace vsystem_spr_device

theorem grid_flatten {β : Type} (f : Nat → Nat → β) (n : Nat) (hn : 0 < n) (m : Nat) :
    (List.range m).flatMap (fun j => (List.range n).map (f j))
      = (List.range (m * n)).map (fun k => f (k / n) (k % n)) := by
  induction m with
  | zero => simp
  | succ m ih =>
    rw [List.range_succ, List.flatMap_append, ih, Nat.succ_mul, List.range_add,
      List.map_append, List.map_map]
    congr 1
    simp only [List.flatMap_cons, List.flatMap_nil, List.append_nil]
    apply List.map_congr_left
    intro i hi
    have hi' : i < n := List.mem_range.mp hi
    simp only [Function.comp]
    have e1 : (m * n + i) / n = m := by
      rw [Nat.mul_comm, Nat.mul_add_div hn, Nat.div_eq_of_lt hi']; rfl
    have e2 : (m * n + i) % n = i := by
      rw [Nat.mul_comm, Nat.mul_add_mod, Nat.mod_eq_of_lt hi']
    rw [e1, e2]

/-- With fuel for `cx + 1` columns and `cy + 1` rows, `common_sprite_drawgfx`
returns: the tiles are `nth_tile 0, nth_tile 1, …` of the prepared device and
the map pointer has advanced by their number. -/
theorem common_sprite_drawgfx_run (fuel : Nat) (g : Int) (dev : vsystem_spr_device)
    (cx cy : Nat) (hx : dev.curr_sprite.xsize = (cx : Int))
    (hy : dev.curr_sprite.ysize = (cy : Int)) (hfx : cx + 1 ≤ fuel) (hfy : cy + 1 ≤ fuel)
    (hmap : dev.curr_sprite.map + (cy + 1) * (cx + 1) < 4294967296) :
    common_sprite_drawgfx fuel g dev
      = some (with_map (prepared dev) (dev.curr_sprite.map + (cy + 1) * (cx + 1)),
          (List.range ((cy + 1) * (cx + 1))).map
            (nth_tile (prepared dev) g
              (priority_mask_of dev.m_pdraw dev.curr_sprite.pri) cx)) := by
  have hrun : ∀ (yend yinc ystart : Int), (yinc = 1 ∨ yinc = -1) →
      yend = ystart + ((cy + 1 : Nat) : Int) * yinc →
      (∀ j : Nat, ystart + (j : Int) * yinc = grid_row (prepared dev) j) →
      yloop g (priority_mask_of dev.m_pdraw dev.curr_sprite.pri) fuel yend yinc fuel ystart
          (prepared dev)
        = some (with_map (prepared dev) (dev.curr_sprite.map + (cy + 1) * (cx + 1)),
            (List.range ((cy + 1) * (cx + 1))).map
              (nth_tile (prepared dev) g
                (priority_mask_of dev.m_pdraw dev.curr_sprite.pri) cx)) := by
    intro yend yinc ystart hinc hend hrow
    rw [yloop_run g _ fuel yend yinc hinc cx hfx (cy + 1) fuel ystart (prepared dev) hfy hend
      hx hmap]
    simp only [hrow]
    rw [grid_flatten (fun j i =>
      (tile_body (with_map (prepared dev) ((prepared dev).curr_sprite.map + j * (cx + 1) + i)) g
        (priority_mask_of dev.m_pdraw dev.curr_sprite.pri)
        (grid_col (prepared dev) i) (grid_row (prepared dev) j)).2) (cx + 1) (by omega) (cy + 1)]
    simp only [Option.some.injEq, Prod.mk.injEq]
    refine ⟨rfl, ?_⟩
    apply List.map_congr_left
    intro k _
    have e : (prepared dev).curr_sprite.map + k / (cx + 1) * (cx + 1) + k % (cx + 1)
        = (prepared dev).curr_sprite.map + k := by
      have := Nat.div_add_mod k (cx + 1)
      rw [Nat.mul_comm] at this
      omega
    simp only [nth_tile, e]
  have hfy0 : (prepared dev).curr_sprite.flipy = dev.curr_sprite.flipy := rfl
  have hys : (prepared dev).curr_sprite.ysize = dev.curr_sprite.ysize := rfl
  show yloop g (priority_mask_of dev.m_pdraw dev.curr_sprite.pri) fuel
      (if (prepared dev).curr_sprite.flipy = 0 then (prepared dev).curr_sprite.ysize + 1 else -1)
      (if (prepared dev).curr_sprite.flipy = 0 then 1 else -1) fuel
      (if (prepared dev).curr_sprite.flipy = 0 then 0 else (prepared dev).curr_sprite.ysize)
      (prepared dev) = _
  by_cases hf : dev.curr_sprite.flipy = 0
  · simp only [hfy0, hf, if_true]
    exact hrun _ 1 0 (Or.inl rfl) (by rw [hys, hy]; push_cast; ring)
      (fun j => by simp [grid_row, hfy0, hf])
  · simp only [hfy0, hf, if_false]
    exact hrun _ (-1) _ (Or.inr rfl) (by rw [hys, hy]; push_cast; ring)
      (fun j => by simp only [grid_row, hfy0, hf, if_false]; ring)

end vsystem_spr_device

namespace vsystem_spr_device

/-! ## Properties of `common_sprite_drawgfx` -/

theorem grid_size_le (cx cy : Nat) (hcx : cx ≤ 7) (hcy : cy ≤ 7) :
    (cy + 1) * (cx + 1) ≤ 64 :=
  Nat.mul_le_mul (by omega : cy + 1 ≤ 8) (by omega : cx + 1 ≤ 8)

theorem nth_tile_map_arg (dev : vsystem_spr_device) (g pm : Int) (cx k : Nat)
    (h : dev.curr_sprite.map + k < 4294967296) :
    (nth_tile dev g pm cx k).map_arg = dev.curr_sprite.map + k := by
  show wrapU32 (dev.curr_sprite.map + k) = _
  unfold wrapU32
  exact Nat.mod_eq_of_lt h

theorem grid_col_nonneg (dev : vsystem_spr_device) (cx i : Nat)
    (hx : dev.curr_sprite.xsize = (cx : Int)) (hi : i ≤ cx) : 0 ≤ grid_col dev i := by
  unfold grid_col
  split_ifs <;> omega

theorem grid_row_nonneg (dev : vsystem_spr_device) (cy j : Nat)
    (hy : dev.curr_sprite.ysize = (cy : Int)) (hj : j ≤ cy) : 0 ≤ grid_row dev j := by
  unfold grid_row
  split_ifs <;> omega

theorem index_col_le (cx k : Nat) : k % (cx + 1) ≤ cx := by
  have : k % (cx + 1) < cx + 1 := Nat.mod_lt k (Nat.succ_pos cx)
  omega

theorem index_row_le (cx cy k : Nat) (hk : k < (cy + 1) * (cx + 1)) : k / (cx + 1) ≤ cy := by
  have : k / (cx + 1) < cy + 1 := (Nat.div_lt_iff_lt_mul (Nat.succ_pos cx)).mpr hk
  omega

end vsystem_spr_device

namespace vsystem_spr_device

theorem mem_tiles (d : vsystem_spr_device) (g pm : Int) (cx N : Nat) (t : tile_event)
    (ht : t ∈ (List.range N).map (nth_tile d g pm cx)) :
    ∃ k, k < N ∧ t = nth_tile d g pm cx k := by
  obtain ⟨k, hk, rfl⟩ := List.mem_map.mp ht
  exact ⟨k, List.mem_range.mp hk, rfl⟩

/-- Claim C14: for every sprite record (sizes in 0..7, stored zooms at most 32,
map pointer at least 64 below `2^32`), `common_sprite_drawgfx` replaces each zoom
field by 32 minus its stored value, draws `(xsize+1)*(ysize+1)` tiles with four
draw calls each, gives every draw call of every tile the
scale factor `(effective zoom) << 11` per axis, and places the tile of grid
column `x` and row `y` at `ox + xoffs + floor(x * effective_zoomx / 2)`,
`oy + yoffs + floor(y * effective_zoomy / 2)`.  For a stored zoom of 16 the
scale factor is `0x8000` and the tile of column `x` is at `ox + xoffs + 8*x`;
for a stored zoom of 0 (effective zoom 32) the factor is `0x10000` and the tile
is at `ox + xoffs + 16*x`; likewise in y. -/
theorem C14_zoom_and_placement (fuel : Nat) (g : Int) (dev : vsystem_spr_device)
    (cx cy : Nat) (hx : dev.curr_sprite.xsize = (cx : Int))
    (hy : dev.curr_sprite.ysize = (cy : Int)) (hcx : cx ≤ 7) (hcy : cy ≤ 7)
    (hfuel : 8 ≤ fuel) (hmap : dev.curr_sprite.map + 64 < 4294967296)
    (hzx : dev.curr_sprite.zoomx ≤ 32) (hzy : dev.curr_sprite.zoomy ≤ 32) :
    ∃ r, common_sprite_drawgfx fuel g dev = some r ∧
      r.1.curr_sprite.zoomx = 32 - dev.curr_sprite.zoomx ∧
      r.1.curr_sprite.zoomy = 32 - dev.curr_sprite.zoomy ∧
      r.2.length = (cx + 1) * (cy + 1) ∧
      ∀ t ∈ r.2,
        t.calls.length = 4 ∧
        (∀ c ∈ t.calls,
          c.scalex = (32 - dev.curr_sprite.zoomx) * 2048 ∧
          c.scaley = (32 - dev.curr_sprite.zoomy) * 2048 ∧
          (dev.curr_sprite.zoomx = 16 → c.scalex = 0x8000) ∧
          (dev.curr_sprite.zoomy = 16 → c.scaley = 0x8000) ∧
          (dev.curr_sprite.zoomx = 0 → c.scalex = 0x10000) ∧
          (dev.curr_sprite.zoomy = 0 → c.scaley = 0x10000)) ∧
        ∃ c, t.calls.head? = some c ∧
          c.sx = dev.curr_sprite.ox + dev.m_xoffs
                  + (t.xcnt * (32 - dev.curr_sprite.zoomx)) / 2 ∧
          c.sy = dev.curr_sprite.oy + dev.m_yoffs
                  + (t.ycnt * (32 - dev.curr_sprite.zoomy)) / 2 ∧
          (dev.curr_sprite.zoomx = 16 →
            c.sx = dev.curr_sprite.ox + dev.m_xoffs + 8 * t.xcnt) ∧
          (dev.curr_sprite.zoomy = 16 →
            c.sy = dev.curr_sprite.oy + dev.m_yoffs + 8 * t.ycnt) ∧
          (dev.curr_sprite.zoomx = 0 →
            c.sx = dev.curr_sprite.ox + dev.m_xoffs + 16 * t.xcnt) ∧
          (dev.curr_sprite.zoomy = 0 →
            c.sy = dev.curr_sprite.oy + dev.m_yoffs + 16 * t.ycnt) := by
  have hN := grid_size_le cx cy hcx hcy
  refine ⟨_, common_sprite_drawgfx_run fuel g dev cx cy hx hy (by omega) (by omega)
    (by omega), rfl, rfl, ?_, ?_⟩
  · simp only [List.length_map, List.length_range]
    exact Nat.mul_comm _ _
  intro t ht
  obtain ⟨k, hk, rfl⟩ := mem_tiles _ _ _ _ _ _ ht
  have hxc : 0 ≤ grid_col (prepared dev) (k % (cx + 1)) :=
    grid_col_nonneg (prepared dev) cx _ hx (index_col_le cx k)
  have hyc : 0 ≤ grid_row (prepared dev) (k / (cx + 1)) :=
    grid_row_nonneg (prepared dev) cy _ hy (index_row_le cx cy k hk)
  have hzx' : 0 ≤ 32 - dev.curr_sprite.zoomx := by omega
  have hzy' : 0 ≤ 32 - dev.curr_sprite.zoomy := by omega
  have hdx : (grid_col (prepared dev) (k % (cx + 1)) * (32 - dev.curr_sprite.zoomx)).tdiv 2
      = (grid_col (prepared dev) (k % (cx + 1)) * (32 - dev.curr_sprite.zoomx)) / 2 :=
    Int.tdiv_eq_ediv (mul_nonneg hxc hzx') (by decide)
  have hdy : (grid_row (prepared dev) (k / (cx + 1)) * (32 - dev.curr_sprite.zoomy)).tdiv 2
      = (grid_row (prepared dev) (k / (cx + 1)) * (32 - dev.curr_sprite.zoomy)) / 2 :=
    Int.tdiv_eq_ediv (mul_nonneg hyc hzy') (by decide)
  refine ⟨rfl, ?_, ?_⟩
  · intro c hc
    simp only [nth_tile, tile_body, tile_calls, List.mem_cons, List.mem_singleton,
      List.not_mem_nil, or_false] at hc
    rcases hc with rfl | rfl | rfl | rfl <;>
      refine ⟨rfl, rfl, ?_, ?_, ?_, ?_⟩ <;> intro h <;>
      simp [with_map, prepared, h]
  · refine ⟨_, rfl, ?_, ?_, ?_, ?_, ?_, ?_⟩
    · exact congrArg (fun z => dev.curr_sprite.ox + dev.m_xoffs + z) hdx
    · exact congrArg (fun z => dev.curr_sprite.oy + dev.m_yoffs + z) hdy
    · intro h
      show dev.curr_sprite.ox + dev.m_xoffs
        + (grid_col (prepared dev) (k % (cx + 1)) * (32 - dev.curr_sprite.zoomx)).tdiv 2 = _
      rw [hdx, h]
      show _ = dev.curr_sprite.ox + dev.m_xoffs + 8 * grid_col (prepared dev) (k % (cx + 1))
      omega
    · intro h
      show dev.curr_sprite.oy + dev.m_yoffs
        + (grid_row (prepared dev) (k / (cx + 1)) * (32 - dev.curr_sprite.zoomy)).tdiv 2 = _
      rw [hdy, h]
      show _ = dev.curr_sprite.oy + dev.m_yoffs + 8 * grid_row (prepared dev) (k / (cx + 1))
      omega
    · intro h
      show dev.curr_sprite.ox + dev.m_xoffs
        + (grid_col (prepared dev) (k % (cx + 1)) * (32 - dev.curr_sprite.zoomx)).tdiv 2 = _
      rw [hdx, h]
      show _ = dev.curr_sprite.ox + dev.m_xoffs + 16 * grid_col (prepared dev) (k % (cx + 1))
      omega
    · intro h
      show dev.curr_sprite.oy + dev.m_yoffs
        + (grid_row (prepared dev) (k / (cx + 1)) * (32 - dev.curr_sprite.zoomy)).tdiv 2 = _
      rw [hdy, h]
      show _ = dev.curr_sprite.oy + dev.m_yoffs + 16 * grid_row (prepared dev) (k / (cx + 1))
      omega

end vsystem_spr_device

namespace vsystem_spr_device

/-- Witness for C14: the example sprite (stored zoom 16 on both axes) is drawn
with effective zoom 16: six tiles of four draw calls each, all with the scale
factor `0x8000`. -/
theorem C14_zoom_and_placement_witness :
    ∃ r, common_sprite_drawgfx 8 2 (example_sprite_dev false) = some r ∧
      r.1.curr_sprite.zoomx = 32 - (example_sprite_dev false).curr_sprite.zoomx ∧
      r.1.curr_sprite.zoomy = 32 - (example_sprite_dev false).curr_sprite.zoomy ∧
      r.2.length = 6 ∧
      ∀ t ∈ r.2, t.calls.length = 4 ∧
        ∀ c ∈ t.calls, c.scalex = 0x8000 ∧ c.scaley = 0x8000 :=
  (C14_zoom_and_placement 8 2 (example_sprite_dev false) 2 1 rfl rfl (by decide) (by decide)
    (by decide) (by decide) (by decide) (by decide)).imp
    (fun _ h => ⟨h.1, h.2.1, h.2.2.1, h.2.2.2.1, fun t ht => ⟨(h.2.2.2.2 t ht).1, fun c hc =>
      ⟨(((h.2.2.2.2 t ht).2.1 c hc).2.2.1) rfl,
        (((h.2.2.2.2 t ht).2.1 c hc).2.2.2.1) rfl⟩⟩⟩)

/-- Claim C16: for a sprite record with sizes in 0..7, `common_sprite_drawgfx`
issues `(xsize+1)*(ysize+1)` tiles of four draw calls each; when priority-draw mode
(`m_pdraw`) is enabled every draw call of every tile receives the priority mask
`0x00`, `0xf0`, `0xfc`, `0xfe` for the sprite priority 0, 1, 2, 3 (`0x00` for
any other value); when priority-draw mode is disabled no draw call takes a
priority mask, and replacing the priority field by any other value leaves the
draw calls issued unchanged. -/
theorem C16_priority_mask (fuel : Nat) (g : Int) (dev : vsystem_spr_device)
    (cx cy : Nat) (hx : dev.curr_sprite.xsize = (cx : Int))
    (hy : dev.curr_sprite.ysize = (cy : Int)) (hcx : cx ≤ 7) (hcy : cy ≤ 7)
    (hfuel : 8 ≤ fuel) (hmap : dev.curr_sprite.map + 64 < 4294967296) :
    (dev.m_pdraw = true →
      ∃ r, common_sprite_drawgfx fuel g dev = some r ∧
        r.2.length = (cx + 1) * (cy + 1) ∧
        ∀ t ∈ r.2, t.calls.length = 4 ∧ ∀ c ∈ t.calls,
          c.priority_mask
            = some (if dev.curr_sprite.pri = 1 then 0xf0
                    else if dev.curr_sprite.pri = 2 then 0xfc
                    else if dev.curr_sprite.pri = 3 then 0xfe else 0x00)) ∧
    (dev.m_pdraw = false →
      ∀ p : Int, ∃ r r',
        common_sprite_drawgfx fuel g dev = some r ∧
        common_sprite_drawgfx fuel g
          { dev with curr_sprite := { dev.curr_sprite with pri := p } } = some r' ∧
        r'.2 = r.2 ∧
        r.2.length = (cx + 1) * (cy + 1) ∧
        ∀ t ∈ r.2, t.calls.length = 4 ∧ ∀ c ∈ t.calls, c.priority_mask = none) := by
  have hN := grid_size_le cx cy hcx hcy
  have hrun := common_sprite_drawgfx_run fuel g dev cx cy hx hy (by omega) (by omega)
    (by omega)
  have hlen : ((List.range ((cy + 1) * (cx + 1))).map
      (nth_tile (prepared dev) g (priority_mask_of dev.m_pdraw dev.curr_sprite.pri) cx)).length
      = (cx + 1) * (cy + 1) := by
    simp only [List.length_map, List.length_range]
    exact Nat.mul_comm _ _
  constructor
  · intro hpd
    refine ⟨_, hrun, hlen, ?_⟩
    intro t ht
    obtain ⟨k, hk, rfl⟩ := mem_tiles _ _ _ _ _ _ ht
    refine ⟨rfl, ?_⟩
    intro c hc
    simp only [nth_tile, tile_body, tile_calls, List.mem_cons, List.mem_singleton,
      List.not_mem_nil, or_false] at hc
    have hp : (with_map (prepared dev) ((prepared dev).curr_sprite.map + k)).m_pdraw = true :=
      hpd
    have hm : priority_mask_of true dev.curr_sprite.pri
        = (if dev.curr_sprite.pri = 1 then 0xf0
           else if dev.curr_sprite.pri = 2 then 0xfc
           else if dev.curr_sprite.pri = 3 then 0xfe else 0x00) := by
      unfold priority_mask_of
      simp only [if_true]
      split_ifs <;> first | rfl | omega
    rcases hc with rfl | rfl | rfl | rfl <;> simp only [hp, if_true, hpd, hm]
  · intro hpd p
    have hrun' := common_sprite_drawgfx_run fuel g
      { dev with curr_sprite := { dev.curr_sprite with pri := p } } cx cy hx hy
      (by omega) (by omega) (by show dev.curr_sprite.map + _ < _; omega)
    refine ⟨_, _, hrun, hrun', ?_, hlen, ?_⟩
    · apply List.map_congr_left
      intro k _
      simp [nth_tile, tile_body, tile_calls, with_map, prepared, grid_col, grid_row, hpd]
    · intro t ht
      obtain ⟨k, hk, rfl⟩ := mem_tiles _ _ _ _ _ _ ht
      refine ⟨rfl, ?_⟩
      intro c hc
      simp only [nth_tile, tile_body, tile_calls, List.mem_cons, List.mem_singleton,
        List.not_mem_nil, or_false] at hc
      have hp : (with_map (prepared dev) ((prepared dev).curr_sprite.map + k)).m_pdraw
          = false := hpd
      rcases hc with rfl | rfl | rfl | rfl <;> simp [hp]

/-- Witness for C16: the example sprite has priority 1; with priority-draw mode
enabled it is drawn as six tiles of four draw calls each, and every draw call
carries the mask `0xf0`. -/
theorem C16_priority_mask_witness :
    ∃ r, common_sprite_drawgfx 8 2 (example_sprite_dev true) = some r ∧
      r.2.length = 6 ∧
      ∀ t ∈ r.2, t.calls.length = 4 ∧ ∀ c ∈ t.calls, c.priority_mask = some 0xf0 :=
  (C16_priority_mask 8 2 (example_sprite_dev true) 2 1 rfl rfl (by decide) (by decide)
    (by decide) (by decide)).1 rfl

end vsystem_spr_device

namespace vsystem_spr_device

/-! ## Sorting-list traversal -/

theorem three_bits_le (w : Nat) : (w &&& 0x0e00) >>> 9 ≤ 7 := by
  rw [and_shiftRight]
  exact Nat.and_le_right

/-- A decoded record has sizes in 0..7 and a 17-bit map pointer. -/
theorem decoded_sizes (dev : vsystem_spr_device) (ram : Nat → Nat) (base : Nat) :
    ∃ cx cy : Nat, cx ≤ 7 ∧ cy ≤ 7 ∧
      (get_sprite_attributes dev ram base).curr_sprite.xsize = (cx : Int) ∧
      (get_sprite_attributes dev ram base).curr_sprite.ysize = (cy : Int) ∧
      (get_sprite_attributes dev ram base).curr_sprite.map < 131072 := by
  refine ⟨(read_word ram (base + 1) &&& 0x0e00) >>> 9,
    (read_word ram (base + 0) &&& 0x0e00) >>> 9, three_bits_le _, three_bits_le _, rfl, rfl, ?_⟩
  exact (decoded_map dev ram base).2

end vsystem_spr_device

namespace vsystem_spr_device

/-- With at least 8 iterations per loop a sprite with sizes in 0..7 is drawn to
the end, and the video RAM pointer of the device is as before. -/
theorem common_sprite_drawgfx_total (fuel : Nat) (hfuel : 8 ≤ fuel) (g : Int)
    (dev : vsystem_spr_device) (cx cy : Nat) (hcx : cx ≤ 7) (hcy : cy ≤ 7)
    (hx : dev.curr_sprite.xsize = (cx : Int)) (hy : dev.curr_sprite.ysize = (cy : Int))
    (hmap : dev.curr_sprite.map < 131072) :
    ∃ r, common_sprite_drawgfx fuel g dev = some r ∧ r.1.m_vram = dev.m_vram := by
  have hN := grid_size_le cx cy hcx hcy
  exact ⟨_, common_sprite_drawgfx_run fuel g dev cx cy hx hy (by omega) (by omega)
    (by omega), rfl⟩

theorem CG10103_draw_sprite_total (fuel : Nat) (hfuel : 8 ≤ fuel)
    (dev : vsystem_spr_device) (base : Nat) (drawpri : Int) :
    ∃ r, CG10103_draw_sprite fuel dev base drawpri = some r ∧ r.1.m_vram = dev.m_vram := by
  obtain ⟨cx, cy, hcx, hcy, hx, hy, hm⟩ := decoded_sizes dev dev.m_vram base
  unfold CG10103_draw_sprite
  simp only []
  split_ifs with hp
  · exact ⟨_, rfl, rfl⟩
  · exact common_sprite_drawgfx_total fuel hfuel _ _ cx cy hcx hcy hx hy hm

/-- The entries of a list that precede the first one failing `p` are an initial
segment of the positions. -/
theorem takeWhile_range' (p : Nat → Bool) (n : Nat) :
    ∀ s : Nat,
      (List.range' s n).takeWhile p
          = List.range' s ((List.range' s n).takeWhile p).length ∧
      ((List.range' s n).takeWhile p).length ≤ n ∧
      (∀ i, s ≤ i → i < s + ((List.range' s n).takeWhile p).length → p i = true) ∧
      (((List.range' s n).takeWhile p).length < n →
        p (s + ((List.range' s n).takeWhile p).length) = false) := by
  induction n with
  | zero =>
    intro s
    simp
    intro i h1 h2
    omega
  | succ n ih =>
    intro s
    rw [List.range'_succ, List.takeWhile_cons]
    cases hp : p s
    · simp [hp]
      intro i h1 h2
      omega
    · obtain ⟨h1, h2, h3, h4⟩ := ih (s + 1)
      simp only [if_true, List.length_cons]
      refine ⟨?_, by omega, ?_, ?_⟩
      · rw [List.range'_succ]
        exact congrArg (fun l => s :: l) h1
      · intro i hi1 hi2
        by_cases hs : i = s
        · rw [hs]; exact hp
        · exact h3 i (by omega) (by omega)
      · intro hlt
        have := h4 (by omega)
        rw [← this]
        congr 1
        omega

end vsystem_spr_device

namespace vsystem_spr_device

/-- The loop of `CG10103_draw` from index `i` with `n` iterations left: it
returns, and takes the enabled entries that precede the first end mark, in
ascending order. -/
theorem CG10103_draw_loop_run (fuel : Nat) (hfuel : 8 ≤ fuel) (pri : Int) (n : Nat) :
    ∀ (i : Nat) (dev : vsystem_spr_device),
      ∃ r, CG10103_draw_loop fuel pri n i dev = some r ∧ r.1.m_vram = dev.m_vram ∧
        r.2.map (fun v => (v.pos, v.attr_start))
          = (((List.range' i n).takeWhile
                (fun j => read_word dev.m_vram j &&& 0x4000 = 0)).filter
                (fun j => read_word dev.m_vram j &&& 0x8000 = 0)).map
              (fun j => (j, 4 * (read_word dev.m_vram j &&& 0x3ff))) := by
  induction n with
  | zero => intro i dev; exact ⟨_, rfl, rfl, by simp⟩
  | succ n ih =>
    intro i dev
    rw [List.range'_succ, List.takeWhile_cons]
    simp only [CG10103_draw_loop]
    by_cases hend : read_word dev.m_vram i &&& 0x4000 = 0
    · by_cases hen : read_word dev.m_vram i &&& 0x8000 = 0
      · obtain ⟨r1, hr1, hv1⟩ := CG10103_draw_sprite_total fuel hfuel dev
          ((read_word dev.m_vram i &&& 0x3FF) * 4) pri
        obtain ⟨r2, hr2, hv2, hl2⟩ := ih (i + 1) r1.1
        rw [hv1] at hv2 hl2
        refine ⟨(r2.1, { pos := i, attr_start := (read_word dev.m_vram i &&& 0x3FF) * 4,
                          tiles := r1.2 } :: r2.2), ?_, hv2, ?_⟩
        · simp [hend, hen, hr1, hr2]
        · simp only [List.map_cons, hl2, hend, hen, decide_True, if_true, List.filter_cons]
          rw [Nat.mul_comm]
      · obtain ⟨r2, hr2, hv2, hl2⟩ := ih (i + 1) dev
        refine ⟨r2, ?_, hv2, ?_⟩
        · simp [hend, hen, hr2]
        · simp only [hl2, hend, hen, decide_True, decide_False, if_true, List.filter_cons]
          simp
    · refine ⟨(dev, []), ?_, rfl, ?_⟩
      · simp [hend]
      · simp [hend]

/-- The first loop of `draw_sprites_inufuku` stops at the first end mark. -/
theorem inufuku_find_end_eq (spriteram : Nat → Nat) (n : Nat) :
    ∀ offs : Nat, inufuku_find_end spriteram n offs
      = offs + ((List.range' offs n).takeWhile
          (fun j => read_word spriteram j &&& 0x4000 = 0)).length := by
  induction n with
  | zero => intro offs; simp [inufuku_find_end]
  | succ n ih =>
    intro offs
    rw [List.range'_succ, List.takeWhile_cons]
    simp only [inufuku_find_end]
    by_cases hend : read_word spriteram offs &&& 0x4000 = 0
    · simp only [hend, ne_eq, not_true_eq_false, if_false, decide_True, if_true,
        List.length_cons, ih (offs + 1)]
      omega
    · simp [hend]

/-- The second loop of `draw_sprites_inufuku` entered with `offs + 1 = k`: it
returns, and takes the enabled entries below `k` in descending order. -/
theorem inufuku_draw_loop_run (fuel : Nat) (hfuel : 8 ≤ fuel) (spriteram : Nat → Nat)
    (k : Nat) :
    ∀ dev : vsystem_spr_device,
      ∃ r, inufuku_draw_loop fuel spriteram k dev = some r ∧
        r.2.map (fun v => (v.pos, v.attr_start))
          = (((List.range k).filter
                (fun j => read_word spriteram j &&& 0x8000 = 0)).reverse).map
              (fun j => (j, 4 * (read_word spriteram j &&& 0x3ff))) := by
  induction k with
  | zero => intro dev; exact ⟨_, rfl, by simp⟩
  | succ k ih =>
    intro dev
    rw [List.range_succ, List.filter_append, List.reverse_append]
    simp only [inufuku_draw_loop]
    by_cases hen : read_word spriteram k &&& 0x8000 = 0
    · obtain ⟨cx, cy, hcx, hcy, hx, hy, hm⟩ :=
        decoded_sizes dev spriteram (4 * (read_word spriteram k &&& 0x03ff))
      have hm' : ((get_sprite_attributes dev spriteram
          (4 * (read_word spriteram k &&& 0x03ff))).curr_sprite.map &&& 0x7fff) < 131072 :=
        lt_of_le_of_lt Nat.and_le_left hm
      obtain ⟨r1, hr1, _⟩ := common_sprite_drawgfx_total fuel hfuel 2
        { get_sprite_attributes dev spriteram (4 * (read_word spriteram k &&& 0x03ff)) with
          curr_sprite :=
            { (get_sprite_attributes dev spriteram
                (4 * (read_word spriteram k &&& 0x03ff))).curr_sprite with
              map := (get_sprite_attributes dev spriteram
                (4 * (read_word spriteram k &&& 0x03ff))).curr_sprite.map &&& 0x7fff } }
        cx cy hcx hcy hx hy hm'
      obtain ⟨r2, hr2, hl2⟩ := ih r1.1
      refine ⟨(r2.1, { pos := k, attr_start := 4 * (read_word spriteram k &&& 0x03ff),
                        tiles := r1.2 } :: r2.2), ?_, ?_⟩
      · simp [hen, hr1, hr2]
      · simp [hl2, hen]
    · obtain ⟨r2, hr2, hl2⟩ := ih dev
      refine ⟨r2, ?_, ?_⟩
      · simp [hen, hr2]
      · simp [hl2, hen]

end vsystem_spr_device

namespace vsystem_spr_device

theorem list_before_end_eq (ram : Nat → Nat) (n : Nat) :
    list_before_end ram n = List.range (list_end ram n) := by
  unfold list_end list_before_end
  rw [List.range_eq_range', List.range_eq_range']
  exact (takeWhile_range' (fun i => read_word ram i &&& 0x4000 = 0) n 0).1

/-- The trace of `common_sprite_drawgfx` on a record with sizes in 0..7 is
`drawn_tiles`; the device afterwards differs from the one before in
`curr_sprite` only. -/
theorem common_sprite_drawgfx_tiles (fuel : Nat) (hfuel : 8 ≤ fuel) (g : Int)
    (dev : vsystem_spr_device) (cx cy : Nat) (hcx : cx ≤ 7) (hcy : cy ≤ 7)
    (hx : dev.curr_sprite.xsize = (cx : Int)) (hy : dev.curr_sprite.ysize = (cy : Int))
    (hmap : dev.curr_sprite.map < 131072) :
    ∃ cs, common_sprite_drawgfx fuel g dev
      = some ({ dev with curr_sprite := cs }, drawn_tiles dev g) := by
  have hN := grid_size_le cx cy hcx hcy
  have hrun := common_sprite_drawgfx_run fuel g dev cx cy hx hy (by omega) (by omega)
    (by omega)
  refine ⟨(with_map (prepared dev) (dev.curr_sprite.map + (cy + 1) * (cx + 1))).curr_sprite,
    ?_⟩
  rw [hrun]
  unfold drawn_tiles
  rw [hx, hy, Int.toNat_ofNat, Int.toNat_ofNat]
  rfl

/-- The sizes of a decoded record in terms of its words. -/
theorem decoded_sizes_words (dev : vsystem_spr_device) (ram : Nat → Nat) (base : Nat) :
    (get_sprite_attributes dev ram base).curr_sprite.xsize
      = (((read_word ram (base + 1) &&& 0x0e00) >>> 9 : Nat) : Int) ∧
    (get_sprite_attributes dev ram base).curr_sprite.ysize
      = (((read_word ram (base + 0) &&& 0x0e00) >>> 9 : Nat) : Int) :=
  ⟨rfl, rfl⟩

theorem CG10103_draw_sprite_eq (fuel : Nat) (dev : vsystem_spr_device) (base : Nat)
    (drawpri : Int) :
    CG10103_draw_sprite fuel dev base drawpri
      = if (CG10103_decode dev base).curr_sprite.pri ≠ drawpri
        then some (CG10103_decode dev base, [])
        else common_sprite_drawgfx fuel (CG10103_decode dev base).m_gfx_region
          (CG10103_decode dev base) := by
  unfold CG10103_draw_sprite CG10103_decode
  rfl

theorem CG10103_decode_frame (dev : vsystem_spr_device) (base : Nat) :
    CG10103_decode dev base
      = { dev with curr_sprite := (CG10103_decode dev base).curr_sprite } := rfl

/-- The function `CG10103_draw_sprite` returns; it draws nothing when the decoded
priority is not the requested one and the tiles of the decoded record
otherwise; the device afterwards differs in `curr_sprite` only. -/
theorem CG10103_draw_sprite_run (fuel : Nat) (hfuel : 8 ≤ fuel) (dev : vsystem_spr_device)
    (base : Nat) (drawpri : Int) :
    ∃ cs, CG10103_draw_sprite fuel dev base drawpri
      = some ({ dev with curr_sprite := cs },
          if (CG10103_decode dev base).curr_sprite.pri ≠ drawpri then []
          else drawn_tiles (CG10103_decode dev base) dev.m_gfx_region) := by
  rw [CG10103_draw_sprite_eq]
  by_cases hp : (CG10103_decode dev base).curr_sprite.pri ≠ drawpri
  · refine ⟨(CG10103_decode dev base).curr_sprite, ?_⟩
    rw [if_pos hp, if_pos hp, ← CG10103_decode_frame]
  · have hx : (CG10103_decode dev base).curr_sprite.xsize
        = (((read_word dev.m_vram (base + 1) &&& 0x0e00) >>> 9 : Nat) : Int) := rfl
    have hy : (CG10103_decode dev base).curr_sprite.ysize
        = (((read_word dev.m_vram (base + 0) &&& 0x0e00) >>> 9 : Nat) : Int) := rfl
    have hm : (CG10103_decode dev base).curr_sprite.map < 131072 :=
      (decoded_map dev dev.m_vram base).2
    obtain ⟨cs, hcs⟩ := common_sprite_drawgfx_tiles fuel hfuel
      (CG10103_decode dev base).m_gfx_region (CG10103_decode dev base) _ _
      (three_bits_le _) (three_bits_le _) hx hy hm
    refine ⟨cs, ?_⟩
    rw [if_neg hp, if_neg hp, hcs]
    rfl

/-- The same for a device whose `curr_sprite` holds any earlier record: the
decoding overwrites it. -/
theorem CG10103_draw_sprite_frame (fuel : Nat) (hfuel : 8 ≤ fuel) (dev : vsystem_spr_device)
    (cs : vsystem_sprite_attributes) (base : Nat) (drawpri : Int) :
    ∃ cs', CG10103_draw_sprite fuel { dev with curr_sprite := cs } base drawpri
      = some ({ dev with curr_sprite := cs' },
          if (CG10103_decode dev base).curr_sprite.pri ≠ drawpri then []
          else drawn_tiles (CG10103_decode dev base) dev.m_gfx_region) :=
  by
  have e : CG10103_decode { dev with curr_sprite := cs } base = CG10103_decode dev base := rfl
  have h := CG10103_draw_sprite_run fuel hfuel { dev with curr_sprite := cs } base drawpri
  rw [e] at h
  exact h

/-- The loop of `CG10103_draw` from index `i` with `n` iterations left: it
returns, and records for the enabled entries that precede the first end mark,
in ascending order, the tiles of the record each entry selects. -/
theorem CG10103_draw_loop_visits (fuel : Nat) (hfuel : 8 ≤ fuel) (pri : Int)
    (dev : vsystem_spr_device) (n : Nat) :
    ∀ (i : Nat) (cs : vsystem_sprite_attributes),
      ∃ r cs', CG10103_draw_loop fuel pri n i { dev with curr_sprite := cs } = some r ∧
        r.1 = { dev with curr_sprite := cs' } ∧
        r.2 = (((List.range' i n).takeWhile
                (fun j => read_word dev.m_vram j &&& 0x4000 = 0)).filter
                (fun j => read_word dev.m_vram j &&& 0x8000 = 0)).map
              (fun j =>
                { pos := j, attr_start := 4 * (read_word dev.m_vram j &&& 0x3ff),
                  tiles :=
                    if (CG10103_decode dev (4 * (read_word dev.m_vram j &&& 0x3ff))).curr_sprite.pri
                        ≠ pri then []
                    else drawn_tiles (CG10103_decode dev (4 * (read_word dev.m_vram j &&& 0x3ff)))
                      dev.m_gfx_region }) := by
  induction n with
  | zero => intro i cs; exact ⟨_, cs, rfl, rfl, by simp⟩
  | succ n ih =>
    intro i cs
    rw [List.range'_succ, List.takeWhile_cons]
    simp only [CG10103_draw_loop]
    have hv : ({ dev with curr_sprite := cs } : vsystem_spr_device).m_vram = dev.m_vram := rfl
    rw [hv]
    by_cases hend : read_word dev.m_vram i &&& 0x4000 = 0
    · by_cases hen : read_word dev.m_vram i &&& 0x8000 = 0
      · obtain ⟨cs1, hr1⟩ := CG10103_draw_sprite_frame fuel hfuel dev cs
          ((read_word dev.m_vram i &&& 0x3FF) * 4) pri
        obtain ⟨r2, cs2, hr2, hf2, hl2⟩ := ih (i + 1) cs1
        refine ⟨(r2.1, { pos := i, attr_start := (read_word dev.m_vram i &&& 0x3FF) * 4,
                          tiles :=
                            if (CG10103_decode dev ((read_word dev.m_vram i &&& 0x3FF) * 4)).curr_sprite.pri
                                ≠ pri then []
                            else drawn_tiles
                              (CG10103_decode dev ((read_word dev.m_vram i &&& 0x3FF) * 4))
                              dev.m_gfx_region } :: r2.2), cs2, ?_, hf2, ?_⟩
        · simp only [hend, hen, hr1, hr2, ne_eq, not_true_eq_false, if_false, if_true]
        · simp only [List.map_cons, hl2, hend, hen, decide_True, if_true, List.filter_cons]
          rw [Nat.mul_comm]
      · obtain ⟨r2, cs2, hr2, hf2, hl2⟩ := ih (i + 1) cs
        refine ⟨r2, cs2, ?_, hf2, ?_⟩
        · simp [hend, hen, hr2]
        · simp only [hl2, hend, hen, decide_True, decide_False, if_true, List.filter_cons]
          simp
    · refine ⟨({ dev with curr_sprite := cs }, []), cs, ?_, rfl, ?_⟩
      · simp [hend]
      · simp [hend]

theorem inufuku_draw_loop_succ (fuel : Nat) (spriteram : Nat → Nat) (offs : Nat)
    (dev : vsystem_spr_device) :
    inufuku_draw_loop fuel spriteram (offs + 1) dev
      = if read_word spriteram offs &&& 0x8000 = 0x0000 then
          match common_sprite_drawgfx fuel 2
              (inufuku_decode dev spriteram (4 * (read_word spriteram offs &&& 0x03ff))) with
          | none => none
          | some r =>
            match inufuku_draw_loop fuel spriteram offs r.1 with
            | none => none
            | some rest =>
              some (rest.1, { pos := offs,
                              attr_start := 4 * (read_word spriteram offs &&& 0x03ff),
                              tiles := r.2 } :: rest.2)
        else inufuku_draw_loop fuel spriteram offs dev := by
  rw [inufuku_draw_loop]
  rfl

/-- The draw call of `draw_sprites_inufuku` for one record returns with the tiles
of the decoded record; the device afterwards differs in `curr_sprite` only. -/
theorem inufuku_sprite_run (fuel : Nat) (hfuel : 8 ≤ fuel) (dev : vsystem_spr_device)
    (cs : vsystem_sprite_attributes) (spriteram : Nat → Nat) (attr_start : Nat) :
    ∃ cs', common_sprite_drawgfx fuel 2
        (inufuku_decode { dev with curr_sprite := cs } spriteram attr_start)
      = some ({ dev with curr_sprite := cs' },
          drawn_tiles (inufuku_decode dev spriteram attr_start) 2) := by
  have e : inufuku_decode { dev with curr_sprite := cs } spriteram attr_start
      = inufuku_decode dev spriteram attr_start := rfl
  have hx : (inufuku_decode dev spriteram attr_start).curr_sprite.xsize
      = (((read_word spriteram (attr_start + 1) &&& 0x0e00) >>> 9 : Nat) : Int) := rfl
  have hy : (inufuku_decode dev spriteram attr_start).curr_sprite.ysize
      = (((read_word spriteram (attr_start + 0) &&& 0x0e00) >>> 9 : Nat) : Int) := rfl
  have hm : (inufuku_decode dev spriteram attr_start).curr_sprite.map < 131072 :=
    lt_of_le_of_lt Nat.and_le_left (decoded_map dev spriteram attr_start).2
  obtain ⟨cs1, hcs⟩ := common_sprite_drawgfx_tiles fuel hfuel 2
    (inufuku_decode dev spriteram attr_start) _ _ (three_bits_le _) (three_bits_le _) hx hy hm
  refine ⟨cs1, ?_⟩
  rw [e, hcs]
  rfl

/-- The second loop of `draw_sprites_inufuku` entered with `offs + 1 = k`: it
returns, and records for the enabled entries below `k`, in descending order,
the tiles of the record each entry selects. -/
theorem inufuku_draw_loop_visits (fuel : Nat) (hfuel : 8 ≤ fuel) (spriteram : Nat → Nat)
    (dev : vsystem_spr_device) (k : Nat) :
    ∀ cs : vsystem_sprite_attributes,
      ∃ r cs', inufuku_draw_loop fuel spriteram k { dev with curr_sprite := cs } = some r ∧
        r.1 = { dev with curr_sprite := cs' } ∧
        r.2 = (((List.range k).filter
                (fun j => read_word spriteram j &&& 0x8000 = 0)).reverse).map
              (fun j =>
                { pos := j, attr_start := 4 * (read_word spriteram j &&& 0x3ff),
                  tiles := drawn_tiles
                    (inufuku_decode dev spriteram (4 * (read_word spriteram j &&& 0x3ff))) 2 }) := by
  induction k with
  | zero => intro cs; exact ⟨_, cs, rfl, rfl, by simp⟩
  | succ k ih =>
    intro cs
    rw [List.range_succ, List.filter_append, List.reverse_append, inufuku_draw_loop_succ]
    by_cases hen : read_word spriteram k &&& 0x8000 = 0
    · obtain ⟨cs1, hr1⟩ := inufuku_sprite_run fuel hfuel dev cs spriteram
        (4 * (read_word spriteram k &&& 0x03ff))
      obtain ⟨r2, cs2, hr2, hf2, hl2⟩ := ih cs1
      refine ⟨(r2.1, { pos := k, attr_start := 4 * (read_word spriteram k &&& 0x03ff),
                        tiles := drawn_tiles
                          (inufuku_decode dev spriteram (4 * (read_word spriteram k &&& 0x03ff)))
                          2 } :: r2.2), cs2, ?_, hf2, ?_⟩
      · simp only [hen, hr1, hr2, if_true]
      · simp [hl2, hen]
    · obtain ⟨r2, cs2, hr2, hf2, hl2⟩ := ih cs
      refine ⟨r2, cs2, ?_, hf2, ?_⟩
      · simp only [hen, if_false, hr2]
      · simp [hl2, hen]

/-- The tiles of a record with sizes `cx`, `cy` in 0..7 and a map pointer below
`2^17`: their number and the arguments of the tile callback. -/
theorem drawn_tiles_shape (dev : vsystem_spr_device) (g : Int) (cx cy : Nat)
    (hcx : cx ≤ 7) (hcy : cy ≤ 7)
    (hx : dev.curr_sprite.xsize = (cx : Int)) (hy : dev.curr_sprite.ysize = (cy : Int))
    (hmap : dev.curr_sprite.map < 131072) :
    (drawn_tiles dev g).length = (cy + 1) * (cx + 1) ∧
    (drawn_tiles dev g).map (fun t => t.map_arg)
      = (List.range ((cy + 1) * (cx + 1))).map (fun k => dev.curr_sprite.map + k) ∧
    ∀ t ∈ drawn_tiles dev g, t.calls.length = 4 := by
  have hN := grid_size_le cx cy hcx hcy
  unfold drawn_tiles
  rw [hx, hy, Int.toNat_ofNat, Int.toNat_ofNat]
  refine ⟨by simp only [List.length_map, List.length_range], ?_, ?_⟩
  · rw [List.map_map]
    apply List.map_congr_left
    intro k hk
    have hk' := List.mem_range.mp hk
    exact nth_tile_map_arg (prepared dev) g _ cx k
      (by show dev.curr_sprite.map + k < 4294967296; omega)
  · intro t ht
    obtain ⟨k, _, rfl⟩ := mem_tiles _ _ _ _ _ _ ht
    rfl

/-- Claim C17: for every sorting list of `0x400` entries, with `E = list_end` the
position of the first entry with bit `0x4000` set (`0x400` if none) and
`S = list_enabled` the positions below `E` whose entry has bit `0x8000` clear:
`CG10103_draw` returns and takes exactly the positions of `S` in ascending
order; `draw_sprites_inufuku` (with `spriteram_bytes / 16 = 0x400`) returns and
takes exactly the positions of `S` in descending order. Each sprite taken is
decoded from the attribute record at word index `4 * (entry & 0x3ff)`: the
tiles recorded for it are those of the record decoded there (none when
`CG10103_draw` finds another priority than the requested one), their number is
`(ysize+1)*(xsize+1)` with the sizes read from the words `0` and `1` of that
record, each has four draw calls, and the tile callback receives the map
pointer of the words `2` and `3` of that record, advanced by one per tile. -/
theorem C17_sorting_list_traversal (fuel : Nat) (hfuel : 8 ≤ fuel)
    (dev : vsystem_spr_device) (pri : Int) (spriteram : Nat → Nat) (spriteram_bytes : Nat)
    (hbytes : spriteram_bytes / 16 = 0x400) :
    (∃ r, CG10103_draw fuel dev pri = some r ∧
      r.2.map (fun v => (v.pos, v.attr_start))
        = (list_enabled dev.m_vram 0x400).map
            (fun i => (i, 4 * (read_word dev.m_vram i &&& 0x3ff))) ∧
      r.2 = (list_enabled dev.m_vram 0x400).map
          (fun i =>
            { pos := i, attr_start := 4 * (read_word dev.m_vram i &&& 0x3ff),
              tiles :=
                if (CG10103_decode dev (4 * (read_word dev.m_vram i &&& 0x3ff))).curr_sprite.pri
                    ≠ pri then []
                else drawn_tiles (CG10103_decode dev (4 * (read_word dev.m_vram i &&& 0x3ff)))
                  dev.m_gfx_region })) ∧
    (∃ r, draw_sprites_inufuku fuel dev spriteram spriteram_bytes = some r ∧
      r.2.map (fun v => (v.pos, v.attr_start))
        = (list_enabled spriteram 0x400).reverse.map
            (fun i => (i, 4 * (read_word spriteram i &&& 0x3ff))) ∧
      r.2 = (list_enabled spriteram 0x400).reverse.map
          (fun i =>
            { pos := i, attr_start := 4 * (read_word spriteram i &&& 0x3ff),
              tiles := drawn_tiles
                (inufuku_decode dev spriteram (4 * (read_word spriteram i &&& 0x3ff))) 2 })) ∧
    (∀ ram : Nat → Nat,
      list_end ram 0x400 ≤ 0x400 ∧
      (∀ i, i < list_end ram 0x400 → read_word ram i &&& 0x4000 = 0) ∧
      (list_end ram 0x400 < 0x400 → read_word ram (list_end ram 0x400) &&& 0x4000 ≠ 0)) ∧
    (∀ base : Nat,
      (drawn_tiles (CG10103_decode dev base) dev.m_gfx_region).length
        = (((read_word dev.m_vram (base + 0) &&& 0x0e00) >>> 9) + 1)
          * (((read_word dev.m_vram (base + 1) &&& 0x0e00) >>> 9) + 1) ∧
      (drawn_tiles (CG10103_decode dev base) dev.m_gfx_region).map (fun t => t.map_arg)
        = (List.range ((((read_word dev.m_vram (base + 0) &&& 0x0e00) >>> 9) + 1)
            * (((read_word dev.m_vram (base + 1) &&& 0x0e00) >>> 9) + 1))).map
          (fun k => (((read_word dev.m_vram (base + 2) &&& 1) <<< 16)
            ||| read_word dev.m_vram (base + 3)) + k) ∧
      (∀ t ∈ drawn_tiles (CG10103_decode dev base) dev.m_gfx_region, t.calls.length = 4) ∧
      (drawn_tiles (inufuku_decode dev spriteram base) 2).length
        = (((read_word spriteram (base + 0) &&& 0x0e00) >>> 9) + 1)
          * (((read_word spriteram (base + 1) &&& 0x0e00) >>> 9) + 1) ∧
      (drawn_tiles (inufuku_decode dev spriteram base) 2).map (fun t => t.map_arg)
        = (List.range ((((read_word spriteram (base + 0) &&& 0x0e00) >>> 9) + 1)
            * (((read_word spriteram (base + 1) &&& 0x0e00) >>> 9) + 1))).map
          (fun k => ((((read_word spriteram (base + 2) &&& 1) <<< 16)
            ||| read_word spriteram (base + 3)) &&& 0x7fff) + k) ∧
      (∀ t ∈ drawn_tiles (inufuku_decode dev spriteram base) 2, t.calls.length = 4)) := by
  refine ⟨?_, ?_, ?_, ?_⟩
  · obtain ⟨r, cs', hr, _, hl⟩ := CG10103_draw_loop_visits fuel hfuel pri dev 0x400 0
      dev.curr_sprite
    have hlist : (List.range' 0 0x400).takeWhile
        (fun j => decide (read_word dev.m_vram j &&& 0x4000 = 0))
        = List.range (list_end dev.m_vram 0x400) := by
      rw [← List.range_eq_range']
      exact list_before_end_eq dev.m_vram 0x400
    rw [hlist] at hl
    refine ⟨r, hr, ?_, hl⟩
    rw [hl, List.map_map]
    rfl
  · obtain ⟨r, cs', hr, _, hl⟩ := inufuku_draw_loop_visits fuel hfuel spriteram dev
      (inufuku_find_end spriteram (spriteram_bytes / 16) 0) dev.curr_sprite
    have hend : inufuku_find_end spriteram (spriteram_bytes / 16) 0
        = list_end spriteram 0x400 := by
      rw [hbytes, inufuku_find_end_eq, Nat.zero_add, ← List.range_eq_range']
      rfl
    rw [hend] at hl
    refine ⟨r, hr, ?_, hl⟩
    rw [hl, List.map_map]
    rfl
  · intro ram
    obtain ⟨_, h2, h3, h4⟩ := takeWhile_range' (fun i => read_word ram i &&& 0x4000 = 0) 0x400 0
    rw [← List.range_eq_range'] at h2 h3 h4
    refine ⟨h2, ?_, ?_⟩
    · intro i hi
      have := h3 i (Nat.zero_le i) (by rw [Nat.zero_add]; exact hi)
      simpa using this
    · intro hlt
      have := h4 hlt
      rw [Nat.zero_add] at this
      simpa using this
  · intro base
    have hc := drawn_tiles_shape (CG10103_decode dev base) dev.m_gfx_region
      ((read_word dev.m_vram (base + 1) &&& 0x0e00) >>> 9)
      ((read_word dev.m_vram (base + 0) &&& 0x0e00) >>> 9)
      (three_bits_le _) (three_bits_le _) rfl rfl (decoded_map dev dev.m_vram base).2
    have hi := drawn_tiles_shape (inufuku_decode dev spriteram base) 2
      ((read_word spriteram (base + 1) &&& 0x0e00) >>> 9)
      ((read_word spriteram (base + 0) &&& 0x0e00) >>> 9)
      (three_bits_le _) (three_bits_le _) rfl rfl
      (lt_of_le_of_lt Nat.and_le_left (decoded_map dev spriteram base).2)
    have hmc : (CG10103_decode dev base).curr_sprite.map
        = ((read_word dev.m_vram (base + 2) &&& 1) <<< 16) ||| read_word dev.m_vram (base + 3) :=
      (decoded_map dev dev.m_vram base).1
    have hmi : (inufuku_decode dev spriteram base).curr_sprite.map
        = (((read_word spriteram (base + 2) &&& 1) <<< 16) ||| read_word spriteram (base + 3))
          &&& 0x7fff := by
      show (get_sprite_attributes dev spriteram base).curr_sprite.map &&& 0x7fff = _
      rw [(decoded_map dev spriteram base).1]
    rw [hmc] at hc
    rw [hmi] at hi
    exact ⟨hc.1, hc.2.1, hc.2.2, hi.1, hi.2.1, hi.2.2⟩

end vsystem_spr_device

namespace vsystem_spr_device

set_option maxRecDepth 20000 in
theorem example_list_enabled : list_enabled example_sorting_ram 0x400 = [0, 2] := by
  decide

/-- Witness for C17: on the example list `CG10103_draw` takes positions 0 and 2
(records at word indices 8 and 4) in this order and `draw_sprites_inufuku` in
the opposite order; each of the two records (all words zero) is drawn as one
tile of four draw calls whose callback argument is 0. -/
theorem C17_sorting_list_traversal_witness :
    (∃ r, CG10103_draw 8 { init with m_vram := example_sorting_ram } 0 = some r ∧
      r.2.map (fun v => (v.pos, v.attr_start)) = [(0, 8), (2, 4)] ∧
      r.2.map (fun v => v.tiles.map (fun t => (t.map_arg, t.calls.length)))
        = [[(0, 4)], [(0, 4)]]) ∧
    (∃ r, draw_sprites_inufuku 8 { init with m_vram := example_sorting_ram }
        example_sorting_ram 0x4000 = some r ∧
      r.2.map (fun v => (v.pos, v.attr_start)) = [(2, 4), (0, 8)] ∧
      r.2.map (fun v => v.tiles.map (fun t => (t.map_arg, t.calls.length)))
        = [[(0, 4)], [(0, 4)]]) :=
  have h := C17_sorting_list_traversal 8 (by decide) { init with m_vram := example_sorting_ram }
    0 example_sorting_ram 0x4000 (by decide)
  ⟨h.1.imp (fun _ hr => ⟨hr.1, hr.2.1.trans (by
      show (list_enabled example_sorting_ram 0x400).map _ = _
      rw [example_list_enabled]; decide), by
      rw [hr.2.2]
      show ((list_enabled example_sorting_ram 0x400).map _).map _ = _
      rw [example_list_enabled]; decide⟩),
   h.2.1.imp (fun _ hr => ⟨hr.1, hr.2.1.trans (by
      rw [example_list_enabled]; decide), by
      rw [hr.2.2, example_list_enabled]; decide⟩)⟩

end vsystem_spr_device

/-! ## GP32 interrupt controller -/

theorem and_one_eq_mod (x : Nat) : x &&& 1 = x % 2 := by
  simp

/-- With fuel for the `b + 1` bits of a nonzero `temp`, the scan returns the
index of the lowest set bit of `temp`, counted from `int_type`. -/
theorem s3c240x_irq_scan_run (b : Nat) :
    ∀ (fuel int_type temp : Nat), b ≤ fuel → temp ≠ 0 → temp < 2 ^ (b + 1) →
      int_type + b < 4294967296 →
      ∃ k, k ≤ b ∧ s3c240x_irq_scan fuel int_type temp = some (int_type + k) ∧
        is_lowest_set_bit temp k := by
  induction b with
  | zero =>
    intro fuel it temp _ h0 hlt _
    have h1 : temp = 1 := by omega
    subst h1
    refine ⟨0, le_refl 0, ?_, by decide, fun j hj => by omega⟩
    cases fuel <;> (rw [s3c240x_irq_scan, if_pos (by decide)]; rfl)
  | succ b ih =>
    intro fuel it temp hf h0 hlt hit
    obtain ⟨f, rfl⟩ : ∃ f, fuel = f + 1 := ⟨fuel - 1, by omega⟩
    by_cases hb : temp &&& 1 ≠ 0
    · refine ⟨0, by omega, by rw [s3c240x_irq_scan, if_pos hb]; rfl, ?_,
        fun j hj => by omega⟩
      rw [and_one_eq_mod] at hb
      rw [Nat.testBit_zero]
      simp
      omega
    · have hb' : temp % 2 = 0 := by
        rw [and_one_eq_mod] at hb
        omega
      have hw : wrapU32 (it + 1) = it + 1 := by unfold wrapU32; omega
      have hhalf : temp >>> 1 = temp / 2 := by
        simp [Nat.shiftRight_eq_div_pow]
      have hpow : 2 ^ (b + 1 + 1) = 2 * 2 ^ (b + 1) := by rw [pow_succ]; ring
      obtain ⟨k, hk, hs, hl1, hl2⟩ :=
        ih f (it + 1) (temp / 2) (by omega) (by omega) (by omega) (by omega)
      refine ⟨k + 1, by omega, ?_, ?_, ?_⟩
      · rw [s3c240x_irq_scan, if_neg hb, hw, hhalf, hs]
        congr 1
        omega
      · rw [Nat.testBit_succ]; exact hl1
      · intro j hj
        cases j with
        | zero =>
          rw [Nat.testBit_zero]
          simp
          omega
        | succ j =>
          rw [Nat.testBit_succ]
          exact hl2 j (by omega)

/-- The function `s3c240x_check_pending_irq` on a nonzero SRCPND: it returns,
having set the lowest pending bit in INTPND, recorded its index in INTOFFSET and
asserted the IRQ line. -/
theorem s3c240x_check_pending_irq_run (fuel : Nat) (hfuel : 31 ≤ fuel) (st : s3c240x_irq)
    (h0 : st.s3c240x_irq_regs 0 ≠ 0) (hlt : st.s3c240x_irq_regs 0 < 4294967296) :
    ∃ k, k ≤ 31 ∧ is_lowest_set_bit (st.s3c240x_irq_regs 0) k ∧
      s3c240x_check_pending_irq fuel st
        = some { s3c240x_irq_regs :=
                   arraySet (arraySet st.s3c240x_irq_regs 4
                     (st.s3c240x_irq_regs 4 ||| 1 <<< k)) 5 k
                 irq_line := true } := by
  obtain ⟨k, hk, hs, hl⟩ := s3c240x_irq_scan_run 31 fuel 0 (st.s3c240x_irq_regs 0) hfuel h0
    (by norm_num; exact hlt) (by decide)
  rw [Nat.zero_add] at hs
  refine ⟨k, hk, hl, ?_⟩
  have hw : wrapU32 (1 <<< k) = 1 <<< k := by
    unfold wrapU32
    apply Nat.mod_eq_of_lt
    rw [Nat.shiftLeft_eq, Nat.one_mul]
    calc 2 ^ k ≤ 2 ^ 31 := Nat.pow_le_pow_right (by decide) hk
      _ < 4294967296 := by decide
  simp only [s3c240x_check_pending_irq, h0, ne_eq, not_false_eq_true, if_true, hs, hw]

theorem or_ne_zero_left (a b : Nat) (h : a ≠ 0) : a ||| b ≠ 0 := by
  intro h0
  apply h
  apply Nat.eq_of_testBit_eq
  intro i
  have := congrArg (fun x => x.testBit i) h0
  simp only [Nat.testBit_or, Nat.zero_testBit, Bool.or_eq_false_iff] at this
  rw [this.1, Nat.zero_testBit]

theorem lowest_set_bit_two_pow (n : Nat) : is_lowest_set_bit (0 ||| 1 <<< n) n := by
  rw [Nat.zero_or, Nat.one_shiftLeft]
  refine ⟨Nat.testBit_two_pow_self, ?_⟩
  intro j hj
  rw [Nat.testBit_two_pow]
  simp
  omega

theorem one_shiftLeft_lt (n : Nat) (hn : n ≤ 31) : 1 <<< n < 4294967296 := by
  rw [Nat.one_shiftLeft]
  calc 2 ^ n ≤ 2 ^ 31 := Nat.pow_le_pow_right (by decide) hn
    _ < 4294967296 := by decide

/-- The function `s3c240x_request_irq` in full: it returns, SRCPND gains the bit
`1 << n`, INTOFFSET is the index of the lowest set bit of the new SRCPND, that
bit is set in INTPND, the other registers keep their values and the IRQ line is
asserted. -/
theorem s3c240x_request_irq_run (fuel : Nat) (hfuel : 31 ≤ fuel) (st : s3c240x_irq)
    (n : Nat) (hn : n ≤ 31) (hlt : st.s3c240x_irq_regs 0 < 4294967296) :
    ∃ st', s3c240x_request_irq fuel st n = some st' ∧
      st'.s3c240x_irq_regs 0 = st.s3c240x_irq_regs 0 ||| 1 <<< n ∧
      is_lowest_set_bit (st'.s3c240x_irq_regs 0) (st'.s3c240x_irq_regs 5) ∧
      st'.s3c240x_irq_regs 4 = st.s3c240x_irq_regs 4 ||| 1 <<< st'.s3c240x_irq_regs 5 ∧
      st'.s3c240x_irq_regs 5 ≤ 31 ∧
      (∀ i, i ≠ 0 → i ≠ 4 → i ≠ 5 → st'.s3c240x_irq_regs i = st.s3c240x_irq_regs i) ∧
      st'.irq_line = true := by
  have hw : wrapU32 (1 <<< n) = 1 <<< n := by
    unfold wrapU32; exact Nat.mod_eq_of_lt (one_shiftLeft_lt n hn)
  by_cases h0 : st.s3c240x_irq_regs 0 = 0
  · rw [s3c240x_request_irq, if_pos h0]
    refine ⟨_, rfl, ?_, ?_, ?_, ?_, ?_, rfl⟩
    · simp [arraySet, hw]
    · simp only [arraySet, hw, h0]
      simpa using lowest_set_bit_two_pow n
    · simp [arraySet, hw]
    · simpa [arraySet] using hn
    · intro i h1 h2 h3
      simp [arraySet, h1, h2, h3]
  · have hne : (arraySet st.s3c240x_irq_regs 0 (st.s3c240x_irq_regs 0 ||| 1 <<< n)) 0 ≠ 0 := by
      rw [arraySet_same]; exact or_ne_zero_left _ _ h0
    have hlt' : (arraySet st.s3c240x_irq_regs 0 (st.s3c240x_irq_regs 0 ||| 1 <<< n)) 0
        < 4294967296 := by
      rw [arraySet_same]
      exact Nat.or_lt_two_pow (n := 32) hlt (one_shiftLeft_lt n hn)
    obtain ⟨k, hk, hl, hs⟩ := s3c240x_check_pending_irq_run fuel hfuel
      { st with s3c240x_irq_regs :=
          arraySet st.s3c240x_irq_regs 0 (st.s3c240x_irq_regs 0 ||| 1 <<< n) } hne hlt'
    rw [s3c240x_request_irq, if_neg h0]
    simp only [hw]
    rw [hs]
    refine ⟨_, rfl, ?_, ?_, ?_, ?_, ?_, rfl⟩
    · simp [arraySet]
    · simpa [arraySet] using hl
    · simp [arraySet]
    · simpa [arraySet] using hk
    · intro i h1 h2 h3
      simp [arraySet, h1, h2, h3]

/-- Claim C18: for every interrupt-controller state (SRCPND a 32-bit value) and
every source number `n` in 0..31, `s3c240x_request_irq(n)` returns with
`SRCPND' = SRCPND | (1 << n)`, INTOFFSET the index of the lowest set bit of
`SRCPND'`, that same bit set in INTPND, and the CPU IRQ line asserted. -/
theorem C18_request_irq (fuel : Nat) (hfuel : 31 ≤ fuel) (st : s3c240x_irq)
    (n : Nat) (hn : n ≤ 31) (hlt : st.s3c240x_irq_regs 0 < 4294967296) :
    ∃ st', s3c240x_request_irq fuel st n = some st' ∧
      st'.s3c240x_irq_regs 0 = st.s3c240x_irq_regs 0 ||| 1 <<< n ∧
      is_lowest_set_bit (st'.s3c240x_irq_regs 0) (st'.s3c240x_irq_regs 5) ∧
      st'.s3c240x_irq_regs 4 = st.s3c240x_irq_regs 4 ||| 1 <<< st'.s3c240x_irq_regs 5 ∧
      (st'.s3c240x_irq_regs 4).testBit (st'.s3c240x_irq_regs 5) = true ∧
      st'.irq_line = true := by
  obtain ⟨st', h1, h2, h3, h4, _, _, h7⟩ := s3c240x_request_irq_run fuel hfuel st n hn hlt
  refine ⟨st', h1, h2, h3, h4, ?_, h7⟩
  rw [h4, Nat.testBit_or, Nat.one_shiftLeft, Nat.testBit_two_pow_self, Bool.or_true]

/-- Witness for C18: from the zero state, requesting source 3 gives offset 3;
requesting source 1 afterwards (3 still pending) gives offset 1. -/
theorem C18_request_irq_witness :
    (∃ st', s3c240x_request_irq 31 s3c240x_irq_zero 3 = some st' ∧
      st'.s3c240x_irq_regs 0 = s3c240x_irq_zero.s3c240x_irq_regs 0 ||| 1 <<< 3 ∧
      is_lowest_set_bit (st'.s3c240x_irq_regs 0) (st'.s3c240x_irq_regs 5) ∧
      st'.s3c240x_irq_regs 4
        = s3c240x_irq_zero.s3c240x_irq_regs 4 ||| 1 <<< st'.s3c240x_irq_regs 5 ∧
      (st'.s3c240x_irq_regs 4).testBit (st'.s3c240x_irq_regs 5) = true ∧
      st'.irq_line = true) ∧
    (s3c240x_request_irq 31 s3c240x_irq_zero 3).map (fun s => s.s3c240x_irq_regs 5)
      = some 3 ∧
    ((s3c240x_request_irq 31 s3c240x_irq_zero 3).bind
        (fun s => s3c240x_request_irq 31 s 1)).map
        (fun s => (s.s3c240x_irq_regs 0, s.s3c240x_irq_regs 5, s.irq_line))
      = some (10, 1, true) :=
  ⟨C18_request_irq 31 (by decide) s3c240x_irq_zero 3 (by decide) (by decide),
   by decide, by decide⟩

theorem lowest_set_bit_unique (x k k' : Nat) (h : is_lowest_set_bit x k)
    (h' : is_lowest_set_bit x k') : k = k' := by
  rcases Nat.lt_trichotomy k k' with hlt | heq | hgt
  · have := h'.2 k hlt
    rw [h.1] at this
    exact absurd this (by decide)
  · exact heq
  · have := h.2 k' hgt
    rw [h'.1] at this
    exact absurd this (by decide)

/-- Claim C19, refuted as stated: with source 3 masked and nothing pending,
`s3c240x_request_irq(3)` asserts the IRQ line although no unmasked source is
pending; with source 1 pending and masked, `s3c240x_request_irq(3)` records
offset 1 although the lowest set bit of `pending AND NOT mask = 8` is bit 3, and
`s3c240x_check_pending_irq` asserts the line although no unmasked source is
pending. -/
theorem C19_offset_ignores_mask_counterexample :
    (s3c240x_request_irq 31 (example_irq 0 8) 3).map
        (fun s => (s.s3c240x_irq_regs 0 &&& not32 (s.s3c240x_irq_regs 2), s.irq_line))
      = some (0, true) ∧
    (s3c240x_request_irq 31 (example_irq 2 2) 3).map
        (fun s => (s.s3c240x_irq_regs 0 &&& not32 (s.s3c240x_irq_regs 2),
                   s.s3c240x_irq_regs 5))
      = some (8, 1) ∧
    ¬ is_lowest_set_bit 8 1 ∧
    (s3c240x_check_pending_irq 31 (example_irq 2 2)).map
        (fun s => (s.s3c240x_irq_regs 0 &&& not32 (s.s3c240x_irq_regs 2), s.irq_line))
      = some (0, true) := by
  refine ⟨by decide, by decide, ?_, by decide⟩
  intro h
  exact absurd h.1 (by decide)

/-- Claim C19 as amended: for every interrupt-controller state (SRCPND a 32-bit
value), after `s3c240x_request_irq`, and after `s3c240x_check_pending_irq` in a
state with SRCPND nonzero, the recorded offset is the index of the lowest set
bit of SRCPND and the CPU IRQ line is asserted; after
`s3c240x_check_pending_irq` in a state with SRCPND zero the line is deasserted
and the registers are unchanged.  The interrupt mask register is not consulted:
replacing it by any value changes neither the new SRCPND, nor the recorded
offset, nor the line. -/
theorem C19_offset_of_srcpnd_amended (fuel : Nat) (hfuel : 31 ≤ fuel) (st : s3c240x_irq)
    (hlt : st.s3c240x_irq_regs 0 < 4294967296) :
    (∀ n, n ≤ 31 → ∃ st', s3c240x_request_irq fuel st n = some st' ∧
      is_lowest_set_bit (st'.s3c240x_irq_regs 0) (st'.s3c240x_irq_regs 5) ∧
      st'.irq_line = true) ∧
    (st.s3c240x_irq_regs 0 ≠ 0 → ∃ st', s3c240x_check_pending_irq fuel st = some st' ∧
      st'.s3c240x_irq_regs 0 = st.s3c240x_irq_regs 0 ∧
      is_lowest_set_bit (st'.s3c240x_irq_regs 0) (st'.s3c240x_irq_regs 5) ∧
      st'.irq_line = true) ∧
    (st.s3c240x_irq_regs 0 = 0 →
      s3c240x_check_pending_irq fuel st = some { st with irq_line := false }) ∧
    (∀ n m, n ≤ 31 →
      (s3c240x_request_irq fuel
          { st with s3c240x_irq_regs := arraySet st.s3c240x_irq_regs 2 m } n).map
          (fun s => (s.s3c240x_irq_regs 0, s.s3c240x_irq_regs 5, s.irq_line))
        = (s3c240x_request_irq fuel st n).map
          (fun s => (s.s3c240x_irq_regs 0, s.s3c240x_irq_regs 5, s.irq_line))) := by
  refine ⟨?_, ?_, ?_, ?_⟩
  · intro n hn
    obtain ⟨st', h1, _, h3, _, _, _, h7⟩ := s3c240x_request_irq_run fuel hfuel st n hn hlt
    exact ⟨st', h1, h3, h7⟩
  · intro h0
    obtain ⟨k, _, hl, hs⟩ := s3c240x_check_pending_irq_run fuel hfuel st h0 hlt
    refine ⟨_, hs, ?_, ?_, rfl⟩
    · simp [arraySet]
    · simpa [arraySet] using hl
  · intro h0
    simp [s3c240x_check_pending_irq, h0]
  · intro n m hn
    obtain ⟨s1, e1, a1, b1, _, _, _, d1⟩ := s3c240x_request_irq_run fuel hfuel st n hn hlt
    obtain ⟨s2, e2, a2, b2, _, _, _, d2⟩ := s3c240x_request_irq_run fuel hfuel
      { st with s3c240x_irq_regs := arraySet st.s3c240x_irq_regs 2 m } n hn
      (by simpa [arraySet] using hlt)
    have a2' : s2.s3c240x_irq_regs 0 = st.s3c240x_irq_regs 0 ||| 1 <<< n := by
      simpa [arraySet] using a2
    rw [e1, e2]
    simp only [Option.map_some', Option.some.injEq, Prod.mk.injEq]
    refine ⟨a2'.trans a1.symm, ?_, d2.trans d1.symm⟩
    apply lowest_set_bit_unique (s1.s3c240x_irq_regs 0)
    · rw [← a1.trans a2'.symm] at b2
      exact b2
    · exact b1

/-- Witness for the amended C19: with bits 1 and 3 pending and bit 1 masked,
`s3c240x_check_pending_irq` records offset 1 and asserts the line. -/
theorem C19_offset_of_srcpnd_amended_witness :
    ∃ st', s3c240x_check_pending_irq 31 (example_irq 10 2) = some st' ∧
      st'.s3c240x_irq_regs 0 = (example_irq 10 2).s3c240x_irq_regs 0 ∧
      is_lowest_set_bit (st'.s3c240x_irq_regs 0) (st'.s3c240x_irq_regs 5) ∧
      st'.irq_line = true :=
  (C19_offset_of_srcpnd_amended 31 (by decide) (example_irq 10 2) (by decide)).2.1
    (by decide)

/-- Claim C20: for every interrupt-controller state (SRCPND a 32-bit value),
every written value `v` and every access mask: a write to SRCPND returns with
`SRCPND' = old SRCPND AND NOT v`, the CPU IRQ line deasserted if `SRCPND' = 0`
and otherwise asserted with INTOFFSET the index of the lowest set bit of
`SRCPND'`; a write to INTPND returns with `INTPND' = old INTPND AND NOT v` and
changes neither SRCPND, nor INTOFFSET, nor the IRQ line. -/
theorem C20_irq_register_write (fuel : Nat) (hfuel : 31 ≤ fuel) (st : s3c240x_irq)
    (data mem_mask : Nat) (hlt : st.s3c240x_irq_regs 0 < 4294967296) :
    (∃ st', s3c240x_irq_w fuel st 0 data mem_mask = some st' ∧
      st'.s3c240x_irq_regs 0 = st.s3c240x_irq_regs 0 &&& not32 data ∧
      (st'.s3c240x_irq_regs 0 = 0 → st'.irq_line = false) ∧
      (st'.s3c240x_irq_regs 0 ≠ 0 → st'.irq_line = true ∧
        is_lowest_set_bit (st'.s3c240x_irq_regs 0) (st'.s3c240x_irq_regs 5))) ∧
    (∃ st', s3c240x_irq_w fuel st 4 data mem_mask = some st' ∧
      st'.s3c240x_irq_regs 4 = st.s3c240x_irq_regs 4 &&& not32 data ∧
      st'.s3c240x_irq_regs 0 = st.s3c240x_irq_regs 0 ∧
      st'.s3c240x_irq_regs 5 = st.s3c240x_irq_regs 5 ∧
      st'.irq_line = st.irq_line) := by
  constructor
  · have hle : st.s3c240x_irq_regs 0 &&& not32 data < 4294967296 :=
      lt_of_le_of_lt Nat.and_le_left hlt
    have hw : s3c240x_irq_w fuel st 0 data mem_mask
        = s3c240x_check_pending_irq fuel
            { st with s3c240x_irq_regs :=
                (arraySet (arraySet st.s3c240x_irq_regs 0
                  (COMBINE_DATA (st.s3c240x_irq_regs 0) data mem_mask)) 0
                  (st.s3c240x_irq_regs 0 &&& not32 data)) } := by
      simp [s3c240x_irq_w]
    rw [hw]
    by_cases hz : st.s3c240x_irq_regs 0 &&& not32 data = 0
    · have hcp : s3c240x_check_pending_irq fuel
          { st with s3c240x_irq_regs :=
              (arraySet (arraySet st.s3c240x_irq_regs 0
                (COMBINE_DATA (st.s3c240x_irq_regs 0) data mem_mask)) 0
                (st.s3c240x_irq_regs 0 &&& not32 data)) }
          = some { s3c240x_irq_regs :=
                     (arraySet (arraySet st.s3c240x_irq_regs 0
                       (COMBINE_DATA (st.s3c240x_irq_regs 0) data mem_mask)) 0
                       (st.s3c240x_irq_regs 0 &&& not32 data))
                   irq_line := false } := by
        rw [s3c240x_check_pending_irq, if_neg]
        simp only [arraySet_same, hz, ne_eq, not_true_eq_false, not_false_eq_true]
      rw [hcp]
      refine ⟨_, rfl, ?_, ?_, ?_⟩
      · simp [arraySet]
      · intro _; rfl
      · intro h; exact absurd (by simp [arraySet, hz]) h
    · obtain ⟨k, _, hl, hs⟩ := s3c240x_check_pending_irq_run fuel hfuel
        { st with s3c240x_irq_regs :=
            (arraySet (arraySet st.s3c240x_irq_regs 0
              (COMBINE_DATA (st.s3c240x_irq_regs 0) data mem_mask)) 0
              (st.s3c240x_irq_regs 0 &&& not32 data)) }
        (by simpa [arraySet] using hz) (by simpa [arraySet] using hle)
      rw [hs]
      refine ⟨_, rfl, ?_, ?_, ?_⟩
      · simp [arraySet]
      · intro h; exact absurd (by simpa [arraySet] using h) hz
      · intro _
        exact ⟨rfl, by simpa [arraySet] using hl⟩
  · have hw : s3c240x_irq_w fuel st 4 data mem_mask
        = some { st with s3c240x_irq_regs :=
            (arraySet (arraySet st.s3c240x_irq_regs 4
              (COMBINE_DATA (st.s3c240x_irq_regs 4) data mem_mask)) 4
              (st.s3c240x_irq_regs 4 &&& not32 data)) } := by
      simp [s3c240x_irq_w]
    rw [hw]
    refine ⟨_, rfl, ?_, ?_, ?_, rfl⟩
    · simp [arraySet]
    · simp [arraySet]
    · simp [arraySet]

/-- Witness for C20: with bits 1 and 3 pending, writing `0x2` to SRCPND leaves
bit 3 pending with offset 3 and the line asserted; writing `0xA` clears SRCPND
and deasserts the line. -/
theorem C20_irq_register_write_witness :
    (∃ st', s3c240x_irq_w 31 (example_irq 10 0) 0 0x2 0xffffffff = some st' ∧
      st'.s3c240x_irq_regs 0 = (example_irq 10 0).s3c240x_irq_regs 0 &&& not32 0x2 ∧
      (st'.s3c240x_irq_regs 0 = 0 → st'.irq_line = false) ∧
      (st'.s3c240x_irq_regs 0 ≠ 0 → st'.irq_line = true ∧
        is_lowest_set_bit (st'.s3c240x_irq_regs 0) (st'.s3c240x_irq_regs 5))) ∧
    (s3c240x_irq_w 31 (example_irq 10 0) 0 0x2 0xffffffff).map
        (fun s => (s.s3c240x_irq_regs 0, s.s3c240x_irq_regs 5, s.irq_line))
      = some (8, 3, true) ∧
    (s3c240x_irq_w 31 (example_irq 10 0) 0 0xA 0xffffffff).map
        (fun s => (s.s3c240x_irq_regs 0, s.irq_line))
      = some (0, false) :=
  ⟨(C20_irq_register_write 31 (by decide) (example_irq 10 0) 0x2 0xffffffff (by decide)).1,
   by decide, by decide⟩

/-! ## GP32 DMA controller -/

theorem BITS_low (x k : Nat) : BITS x k 0 = x % 2 ^ (k + 1) := by
  simp only [BITS, Nat.sub_zero, Nat.shiftRight_zero, Nat.one_shiftLeft]
  exact Nat.and_pow_two_sub_one_eq_mod x (k + 1)

theorem BITS_low_lt (x k : Nat) : BITS x k 0 < 2 ^ (k + 1) := by
  rw [BITS_low]
  exact Nat.mod_lt _ (Nat.pow_pos (by decide))

theorem BIT_le_one (x n : Nat) : BIT x n ≤ 1 := by
  unfold BIT
  exact Nat.and_le_right

/-- A value below `2^n` merged into a word whose low `n` bits are masked off is
read back from the low `n` bits. -/
theorem low_field_merge (x c y n : Nat) (hy : y < 2 ^ n) :
    ((x &&& (c <<< n)) ||| y) % 2 ^ n = y := by
  apply Nat.eq_of_testBit_eq
  intro i
  rw [Nat.testBit_mod_two_pow, Nat.testBit_or, Nat.testBit_and, Nat.testBit_shiftLeft]
  by_cases hi : i < n
  · have : ¬ (i ≥ n) := by omega
    simp [hi, this]
  · have hlt : y < 2 ^ i := lt_of_lt_of_le hy (Nat.pow_le_pow_right (by decide) (by omega))
    simp [hi, Nat.testBit_lt_two_pow hlt]

theorem not32_src_mask : not32 0x1FFFFFFF = 7 <<< 29 := by decide

theorem not32_tc_mask : not32 0x000FFFFF = 4095 <<< 20 := by decide

/-- The copy loop in single service mode: one pass. -/
theorem s3c240x_dma_loop_single {σ : Type} (as : address_space σ)
    (dsz inc_src inc_dst tc src dst : Nat) (sp : σ) :
    s3c240x_dma_loop as dsz inc_src inc_dst 0 (tc + 1) src dst sp
      = { curr_tc := tc
          curr_src := if inc_src = 0 then wrapU32 (src + (1 <<< dsz)) else src
          curr_dst := if inc_dst = 0 then wrapU32 (dst + (1 <<< dsz)) else dst
          space := dma_unit_copy as dsz sp src dst
          calls := dma_unit_calls dsz src dst } := by
  simp [s3c240x_dma_loop]

/-- The copy loop in whole service mode: it runs `tc` passes, unit `i` being
copied from `dma_addr inc_src src dsz i` to `dma_addr inc_dst dst dsz i`. -/
theorem s3c240x_dma_loop_block {σ : Type} (as : address_space σ)
    (dsz inc_src inc_dst servmode : Nat) (hserv : servmode ≠ 0) :
    ∀ (tc src dst : Nat) (sp : σ), src + tc * (1 <<< dsz) < 4294967296 →
      dst + tc * (1 <<< dsz) < 4294967296 →
      s3c240x_dma_loop as dsz inc_src inc_dst servmode tc src dst sp
        = { curr_tc := 0
            curr_src := dma_addr inc_src src dsz tc
            curr_dst := dma_addr inc_dst dst dsz tc
            space := (List.range tc).foldl (fun s i =>
              dma_unit_copy as dsz s (dma_addr inc_src src dsz i) (dma_addr inc_dst dst dsz i)) sp
            calls := (List.range tc).flatMap (fun i =>
              dma_unit_calls dsz (dma_addr inc_src src dsz i) (dma_addr inc_dst dst dsz i)) } := by
  intro tc
  induction tc with
  | zero =>
    intro src dst sp _ _
    simp [s3c240x_dma_loop, dma_addr]
  | succ tc ih =>
    intro src dst sp hs hd
    have hs1 : (if inc_src = 0 then wrapU32 (src + (1 <<< dsz)) else src)
        = dma_addr inc_src src dsz 1 := by
      unfold dma_addr wrapU32
      split_ifs
      · rw [Nat.one_mul]; apply Nat.mod_eq_of_lt
        have : (tc + 1) * (1 <<< dsz) = tc * (1 <<< dsz) + 1 <<< dsz := by ring
        generalize 1 <<< dsz = u at *
        omega
      · rfl
    have hd1 : (if inc_dst = 0 then wrapU32 (dst + (1 <<< dsz)) else dst)
        = dma_addr inc_dst dst dsz 1 := by
      unfold dma_addr wrapU32
      split_ifs
      · rw [Nat.one_mul]; apply Nat.mod_eq_of_lt
        have : (tc + 1) * (1 <<< dsz) = tc * (1 <<< dsz) + 1 <<< dsz := by ring
        generalize 1 <<< dsz = u at *
        omega
      · rfl
    have hshift : ∀ inc base i, dma_addr inc (dma_addr inc base dsz 1) dsz i
        = dma_addr inc base dsz (i + 1) := by
      intro inc base i
      unfold dma_addr
      split_ifs
      · ring
      · rfl
    have hz : ∀ inc base, dma_addr inc base dsz 0 = base := by
      intro inc base
      unfold dma_addr
      split_ifs <;> simp
    have hmul : (tc + 1) * (1 <<< dsz) = tc * (1 <<< dsz) + 1 <<< dsz := by ring
    have hb1 : dma_addr inc_src src dsz 1 + tc * (1 <<< dsz) < 4294967296 := by
      unfold dma_addr
      split_ifs <;> (generalize 1 <<< dsz = u at *; omega)
    have hb2 : dma_addr inc_dst dst dsz 1 + tc * (1 <<< dsz) < 4294967296 := by
      unfold dma_addr
      split_ifs <;> (generalize 1 <<< dsz = u at *; omega)
    rw [s3c240x_dma_loop]
    simp only [if_neg hserv, hs1, hd1]
    rw [ih _ _ _ hb1 hb2]
    simp only [hshift]
    rw [List.range_succ_eq_map tc]
    simp only [List.foldl_cons, List.foldl_map, List.flatMap_cons, List.flatMap_map, hz,
      Function.comp]


theorem BIT_eq_zero_iff (x n : Nat) : BIT x n = 0 ↔ x.testBit n = false := by
  simp [BIT, Nat.testBit, Nat.and_comm]

/-- Every call recorded by the copy loop is a unit copy. -/
theorem s3c240x_dma_loop_calls {σ : Type} (as : address_space σ)
    (dsz inc_src inc_dst servmode : Nat) :
    ∀ (tc src dst : Nat) (sp : σ),
      ∀ c ∈ (s3c240x_dma_loop as dsz inc_src inc_dst servmode tc src dst sp).calls,
        ∃ d s t, c = gp32_call.dma_copy d s t := by
  intro tc
  induction tc with
  | zero =>
    intro src dst sp c hc
    simp [s3c240x_dma_loop] at hc
  | succ tc ih =>
    intro src dst sp c hc
    have hunit : ∀ c ∈ dma_unit_calls dsz src dst, ∃ d s t, c = gp32_call.dma_copy d s t := by
      intro c hc
      unfold dma_unit_calls at hc
      split_ifs at hc
      · rw [List.mem_singleton] at hc
        exact ⟨_, _, _, hc⟩
      · simp at hc
    rw [s3c240x_dma_loop] at hc
    by_cases hs : servmode = 0
    · simp only [if_pos hs] at hc
      exact hunit c hc
    · simp only [if_neg hs, List.mem_append] at hc
      rcases hc with hc | hc
      · exact hunit c hc
      · exact ih _ _ _ c hc

theorem irq_requests_of_copies (calls : List gp32_call)
    (h : ∀ c ∈ calls, ∃ d s t, c = gp32_call.dma_copy d s t) : irq_requests calls = [] := by
  unfold irq_requests
  rw [List.filter_eq_nil_iff]
  intro c hc
  obtain ⟨d, s, t, rfl⟩ := h c hc
  simp

theorem dma_copies_of_copies (calls : List gp32_call)
    (h : ∀ c ∈ calls, ∃ d s t, c = gp32_call.dma_copy d s t) : dma_copies calls = calls := by
  unfold dma_copies
  rw [List.filter_eq_self]
  intro c hc
  obtain ⟨d, s, t, rfl⟩ := h c hc
  rfl

/-- The count left by the copy loop: one less in single service mode, zero in
whole service mode. -/
theorem s3c240x_dma_loop_curr_tc {σ : Type} (as : address_space σ)
    (dsz inc_src inc_dst servmode : Nat) :
    ∀ (tc src dst : Nat) (sp : σ),
      (s3c240x_dma_loop as dsz inc_src inc_dst servmode tc src dst sp).curr_tc
        = if servmode = 0 then tc - 1 else 0 := by
  intro tc
  induction tc with
  | zero =>
    intro src dst sp
    simp [s3c240x_dma_loop]
  | succ tc ih =>
    intro src dst sp
    rw [s3c240x_dma_loop]
    by_cases hs : servmode = 0
    · simp [hs]
    · simp only [if_neg hs]
      rw [ih]
      simp [hs]

theorem dma_loop_of_curr_tc {σ : Type} (as : address_space σ) (st : s3c240x_dma σ) (dma : Nat) :
    (dma_loop_of as st dma).curr_tc
      = if dma_servmode st dma = 0 then dma_curr_tc st dma - 1 else 0 :=
  s3c240x_dma_loop_curr_tc as _ _ _ _ _ _ _ _

theorem dma_loop_of_calls {σ : Type} (as : address_space σ) (st : s3c240x_dma σ) (dma : Nat) :
    ∀ c ∈ (dma_loop_of as st dma).calls, ∃ d s t, c = gp32_call.dma_copy d s t :=
  s3c240x_dma_loop_calls as _ _ _ _ _ _ _ _

/-- The copy loop and the three register updates leave the words `DISRC`,
`DIDST`, `DCON` and `DMASKTRIG` of the channel as they were. -/
theorem dma_after_loop_regs {σ : Type} (as : address_space σ) (st : s3c240x_dma σ)
    (dma k : Nat) (h3 : k ≠ 3) (h4 : k ≠ 4) (h5 : k ≠ 5) :
    (dma_after_loop as st dma).s3c240x_dma_regs ((dma <<< 3) + k)
      = st.s3c240x_dma_regs ((dma <<< 3) + k) := by
  simp [dma_after_loop, dma_update_regs, arraySet, h3, h4, h5]

theorem merge_tc (x y : Nat) (hy : y < 2 ^ 20) :
    BITS ((x &&& not32 0x000FFFFF) ||| y) 19 0 = y := by
  rw [BITS_low, not32_tc_mask]
  exact low_field_merge x 4095 y 20 hy

theorem merge_addr (x y : Nat) (hy : y < 2 ^ 29) :
    BITS ((x &&& not32 0x1FFFFFFF) ||| y) 28 0 = y := by
  rw [BITS_low, not32_src_mask]
  exact low_field_merge x 7 y 29 hy

theorem dma_after_loop_curr_tc {σ : Type} (as : address_space σ) (st : s3c240x_dma σ)
    (dma : Nat) (h : (dma_loop_of as st dma).curr_tc < 2 ^ 20) :
    dma_curr_tc (dma_after_loop as st dma) dma = (dma_loop_of as st dma).curr_tc := by
  unfold dma_curr_tc
  simp only [dma_after_loop, dma_update_regs, arraySet_same]
  exact merge_tc _ _ h

/-- The reload branch of the completion handling. -/
theorem dma_completion_reload {σ : Type} (st : s3c240x_dma σ) (dma : Nat)
    (h : BIT (st.s3c240x_dma_regs ((dma <<< 3) + 2)) 22 = 0) :
    dma_curr_tc (dma_completion st dma) dma = BITS (st.s3c240x_dma_regs ((dma <<< 3) + 2)) 19 0 ∧
    dma_curr_src (dma_completion st dma) dma
      = BITS (st.s3c240x_dma_regs ((dma <<< 3) + 0)) 28 0 ∧
    dma_curr_dst (dma_completion st dma) dma
      = BITS (st.s3c240x_dma_regs ((dma <<< 3) + 1)) 28 0 ∧
    (∀ k, k ≠ 3 → k ≠ 4 → k ≠ 5 →
      (dma_completion st dma).s3c240x_dma_regs ((dma <<< 3) + k)
        = st.s3c240x_dma_regs ((dma <<< 3) + k)) ∧
    (dma_completion st dma).space = st.space ∧ (dma_completion st dma).irq = st.irq := by
  have e : dma_completion st dma = s3c240x_dma_reload st dma := by
    simp only [dma_completion, h, if_true]
  rw [e]
  refine ⟨?_, ?_, ?_, ?_, rfl, rfl⟩
  · unfold dma_curr_tc
    simp only [s3c240x_dma_reload]
    rw [arraySet_other _ _ _ _ (by omega), arraySet_other _ _ _ _ (by omega), arraySet_same]
    exact merge_tc _ _ (BITS_low_lt _ 19)
  · unfold dma_curr_src
    simp only [s3c240x_dma_reload]
    rw [arraySet_other _ _ _ _ (by omega), arraySet_same, merge_addr _ _ (BITS_low_lt _ 28)]
    repeat rw [arraySet_other _ _ _ _ (by omega)]
  · unfold dma_curr_dst
    simp only [s3c240x_dma_reload]
    rw [arraySet_same, merge_addr _ _ (BITS_low_lt _ 28)]
    repeat rw [arraySet_other _ _ _ _ (by omega)]
  · intro k h3 h4 h5
    simp [s3c240x_dma_reload, arraySet, h3, h4, h5]

theorem BIT_and_not32_two (x : Nat) : BIT (x &&& not32 (1 <<< 1)) 1 = 0 := by
  rw [BIT_eq_zero_iff, Nat.testBit_and]
  have : (not32 (1 <<< 1)).testBit 1 = false := by decide
  rw [this, Bool.and_false]

/-- The branch of the completion handling that clears the on/off bit. -/
theorem dma_completion_clear {σ : Type} (st : s3c240x_dma σ) (dma : Nat)
    (h : BIT (st.s3c240x_dma_regs ((dma <<< 3) + 2)) 22 ≠ 0) :
    (dma_completion st dma).s3c240x_dma_regs ((dma <<< 3) + 6)
      = st.s3c240x_dma_regs ((dma <<< 3) + 6) &&& not32 (1 <<< 1) ∧
    BIT ((dma_completion st dma).s3c240x_dma_regs ((dma <<< 3) + 6)) 1 = 0 ∧
    (∀ k, k ≠ 6 → (dma_completion st dma).s3c240x_dma_regs ((dma <<< 3) + k)
        = st.s3c240x_dma_regs ((dma <<< 3) + k)) ∧
    (dma_completion st dma).space = st.space ∧ (dma_completion st dma).irq = st.irq := by
  have e : dma_completion st dma = { st with s3c240x_dma_regs :=
      (arraySet st.s3c240x_dma_regs ((dma <<< 3) + 6)
        (st.s3c240x_dma_regs ((dma <<< 3) + 6) &&& not32 (1 <<< 1))) } := by
    simp only [dma_completion, h, if_false]
  rw [e]
  refine ⟨arraySet_same _ _ _, ?_, ?_, rfl, rfl⟩
  · simp only [arraySet_same]
    exact BIT_and_not32_two _
  · intro k h6
    exact arraySet_other _ _ _ _ (by omega)


theorem dma_completion_frame {σ : Type} (st : s3c240x_dma σ) (dma : Nat) :
    (∀ k, k ≠ 3 → k ≠ 4 → k ≠ 5 → k ≠ 6 →
      (dma_completion st dma).s3c240x_dma_regs ((dma <<< 3) + k)
        = st.s3c240x_dma_regs ((dma <<< 3) + k)) ∧
    (dma_completion st dma).space = st.space ∧ (dma_completion st dma).irq = st.irq := by
  by_cases h : BIT (st.s3c240x_dma_regs ((dma <<< 3) + 2)) 22 = 0
  · obtain ⟨_, _, _, hk, hs, hi⟩ := dma_completion_reload st dma h
    exact ⟨fun k h3 h4 h5 _ => hk k h3 h4 h5, hs, hi⟩
  · obtain ⟨_, _, hk, hs, hi⟩ := dma_completion_clear st dma h
    exact ⟨fun k _ _ _ h6 => hk k h6, hs, hi⟩

theorem dma_completion_dcon {σ : Type} (as : address_space σ) (st : s3c240x_dma σ) (dma : Nat) :
    (dma_completion (dma_after_loop as st dma) dma).s3c240x_dma_regs ((dma <<< 3) + 2)
      = st.s3c240x_dma_regs ((dma <<< 3) + 2) := by
  rw [(dma_completion_frame (dma_after_loop as st dma) dma).1 2 (by decide) (by decide)
    (by decide) (by decide)]
  exact dma_after_loop_regs as st dma 2 (by decide) (by decide) (by decide)

/-- The function `s3c240x_dma_trigger` when the copy loop leaves a nonzero count. -/
theorem s3c240x_dma_trigger_incomplete {σ : Type} (as : address_space σ) (ch_int : Nat → Nat)
    (fuel : Nat) (st : s3c240x_dma σ) (dma : Nat) (h0 : (dma_loop_of as st dma).curr_tc ≠ 0) :
    s3c240x_dma_trigger as ch_int fuel st dma
      = some (dma_after_loop as st dma, (dma_loop_of as st dma).calls) := by
  simp only [s3c240x_dma_trigger, if_neg h0]

/-- The function `s3c240x_dma_trigger` when the count is left at 0 and `DCON` bit
28 is clear. -/
theorem s3c240x_dma_trigger_complete_quiet {σ : Type} (as : address_space σ)
    (ch_int : Nat → Nat) (fuel : Nat) (st : s3c240x_dma σ) (dma : Nat)
    (h0 : (dma_loop_of as st dma).curr_tc = 0)
    (h28 : BIT (st.s3c240x_dma_regs ((dma <<< 3) + 2)) 28 = 0) :
    s3c240x_dma_trigger as ch_int fuel st dma
      = some (dma_completion (dma_after_loop as st dma) dma, (dma_loop_of as st dma).calls) := by
  simp only [s3c240x_dma_trigger, if_pos h0, dma_completion_dcon, h28, ne_eq, not_true_eq_false,
    if_false]

/-- The function `s3c240x_dma_trigger` when the count is left at 0 and `DCON` bit
28 is set. -/
theorem s3c240x_dma_trigger_complete_irq {σ : Type} (as : address_space σ)
    (ch_int : Nat → Nat) (fuel : Nat) (st : s3c240x_dma σ) (dma : Nat)
    (h0 : (dma_loop_of as st dma).curr_tc = 0)
    (h28 : BIT (st.s3c240x_dma_regs ((dma <<< 3) + 2)) 28 ≠ 0) (irq1 : s3c240x_irq)
    (hreq : s3c240x_request_irq fuel st.irq (ch_int dma) = some irq1) :
    s3c240x_dma_trigger as ch_int fuel st dma
      = some ({ dma_completion (dma_after_loop as st dma) dma with irq := irq1 },
          (dma_loop_of as st dma).calls ++ [gp32_call.request_irq (ch_int dma)]) := by
  have hi : (dma_completion (dma_after_loop as st dma) dma).irq = st.irq := by
    rw [(dma_completion_frame (dma_after_loop as st dma) dma).2.2]
    rfl
  simp only [s3c240x_dma_trigger, if_pos h0, dma_completion_dcon, h28, ne_eq,
    not_false_eq_true, if_true, hi, hreq]

/-- Claim C23: for every DMA channel state, when an `s3c240x_dma_trigger` call
leaves the transfer count at 0: if `DCON` bit 22 is 0 the current count, source
and destination are reloaded from `DCON[19:0]`, `DISRC[28:0]`, `DIDST[28:0]` and the
on/off bit is left unchanged; if bit 22 is 1 bit 1 of `DMASKTRIG` is cleared and
nothing is reloaded; the channel's interrupt is requested if and only if `DCON`
bit 28 is set. When the count is left nonzero there is no reload, no clearing of
the on/off bit and no interrupt request. The count is left at `c - 1` in single
service mode and at 0 in whole service mode. -/
theorem C23_dma_completion {σ : Type} (as : address_space σ) (ch_int : Nat → Nat)
    (fuel : Nat) (hfuel : 31 ≤ fuel) (st : s3c240x_dma σ) (dma : Nat)
    (hirq : st.irq.s3c240x_irq_regs 0 < 4294967296) (hint : ch_int dma ≤ 31) :
    ∃ st' calls, s3c240x_dma_trigger as ch_int fuel st dma = some (st', calls) ∧
      (dma_loop_of as st dma).curr_tc
        = (if dma_servmode st dma = 0 then dma_curr_tc st dma - 1 else 0) ∧
      ((dma_loop_of as st dma).curr_tc = 0 →
        (BIT (st.s3c240x_dma_regs ((dma <<< 3) + 2)) 22 = 0 →
          dma_curr_tc st' dma = BITS (st.s3c240x_dma_regs ((dma <<< 3) + 2)) 19 0 ∧
          dma_curr_src st' dma = BITS (st.s3c240x_dma_regs ((dma <<< 3) + 0)) 28 0 ∧
          dma_curr_dst st' dma = BITS (st.s3c240x_dma_regs ((dma <<< 3) + 1)) 28 0 ∧
          st'.s3c240x_dma_regs ((dma <<< 3) + 6) = st.s3c240x_dma_regs ((dma <<< 3) + 6)) ∧
        (BIT (st.s3c240x_dma_regs ((dma <<< 3) + 2)) 22 ≠ 0 →
          st'.s3c240x_dma_regs ((dma <<< 3) + 6)
            = st.s3c240x_dma_regs ((dma <<< 3) + 6) &&& not32 (1 <<< 1) ∧
          BIT (st'.s3c240x_dma_regs ((dma <<< 3) + 6)) 1 = 0 ∧
          ∀ k, k ≠ 6 → st'.s3c240x_dma_regs ((dma <<< 3) + k)
            = (dma_after_loop as st dma).s3c240x_dma_regs ((dma <<< 3) + k)) ∧
        (gp32_call.request_irq (ch_int dma) ∈ calls
          ↔ BIT (st.s3c240x_dma_regs ((dma <<< 3) + 2)) 28 ≠ 0) ∧
        (BIT (st.s3c240x_dma_regs ((dma <<< 3) + 2)) 28 ≠ 0 →
          s3c240x_request_irq fuel st.irq (ch_int dma) = some st'.irq ∧
          irq_requests calls = [gp32_call.request_irq (ch_int dma)]) ∧
        (BIT (st.s3c240x_dma_regs ((dma <<< 3) + 2)) 28 = 0 →
          st'.irq = st.irq ∧ irq_requests calls = [])) ∧
      ((dma_loop_of as st dma).curr_tc ≠ 0 →
        st'.s3c240x_dma_regs = (dma_after_loop as st dma).s3c240x_dma_regs ∧
        st'.s3c240x_dma_regs ((dma <<< 3) + 6) = st.s3c240x_dma_regs ((dma <<< 3) + 6) ∧
        st'.irq = st.irq ∧ irq_requests calls = []) := by
  have hcalls := dma_loop_of_calls as st dma
  have hnoreq : gp32_call.request_irq (ch_int dma) ∉ (dma_loop_of as st dma).calls := by
    intro hm
    obtain ⟨d, s, t, e⟩ := hcalls _ hm
    cases e
  have hal6 := dma_after_loop_regs as st dma 6 (by decide) (by decide) (by decide)
  have hal2 := dma_after_loop_regs as st dma 2 (by decide) (by decide) (by decide)
  have hal0 := dma_after_loop_regs as st dma 0 (by decide) (by decide) (by decide)
  have hal1 := dma_after_loop_regs as st dma 1 (by decide) (by decide) (by decide)
  by_cases h0 : (dma_loop_of as st dma).curr_tc = 0
  · by_cases h28 : BIT (st.s3c240x_dma_regs ((dma <<< 3) + 2)) 28 = 0
    · refine ⟨_, _, s3c240x_dma_trigger_complete_quiet as ch_int fuel st dma h0 h28,
        dma_loop_of_curr_tc as st dma, ?_, fun h => absurd h0 h⟩
      intro _
      refine ⟨?_, ?_, ?_, fun h => absurd h28 h, fun _ => ⟨?_, ?_⟩⟩
      · intro h22
        rw [← hal2] at h22
        obtain ⟨h1, h2, h3, hk, _, _⟩ := dma_completion_reload (dma_after_loop as st dma) dma h22
        rw [hal2] at h1
        rw [hal0] at h2
        rw [hal1] at h3
        exact ⟨h1, h2, h3, by rw [hk 6 (by decide) (by decide) (by decide), hal6]⟩
      · intro h22
        rw [← hal2] at h22
        obtain ⟨h1, h2, hk, _, _⟩ := dma_completion_clear (dma_after_loop as st dma) dma h22
        rw [hal6] at h1
        exact ⟨h1, h2, hk⟩
      · exact ⟨fun hm => absurd hm hnoreq, fun h => absurd h28 h⟩
      · rw [(dma_completion_frame (dma_after_loop as st dma) dma).2.2]
        rfl
      · exact irq_requests_of_copies _ hcalls
    · obtain ⟨irq1, hreq, _⟩ := s3c240x_request_irq_run fuel hfuel st.irq (ch_int dma) hint hirq
      refine ⟨_, _, s3c240x_dma_trigger_complete_irq as ch_int fuel st dma h0 h28 irq1 hreq,
        dma_loop_of_curr_tc as st dma, ?_, fun h => absurd h0 h⟩
      intro _
      refine ⟨?_, ?_, ?_, fun _ => ⟨hreq, ?_⟩, fun h => absurd h h28⟩
      · intro h22
        rw [← hal2] at h22
        obtain ⟨h1, h2, h3, hk, _, _⟩ := dma_completion_reload (dma_after_loop as st dma) dma h22
        rw [hal2] at h1
        rw [hal0] at h2
        rw [hal1] at h3
        exact ⟨h1, h2, h3, by
          show (dma_completion (dma_after_loop as st dma) dma).s3c240x_dma_regs _ = _
          rw [hk 6 (by decide) (by decide) (by decide), hal6]⟩
      · intro h22
        rw [← hal2] at h22
        obtain ⟨h1, h2, hk, _, _⟩ := dma_completion_clear (dma_after_loop as st dma) dma h22
        rw [hal6] at h1
        exact ⟨h1, h2, hk⟩
      · exact ⟨fun _ => h28, fun _ => List.mem_append_right _ (List.mem_singleton.mpr rfl)⟩
      · unfold irq_requests
        rw [List.filter_append]
        have := irq_requests_of_copies _ hcalls
        unfold irq_requests at this
        rw [this]
        rfl
  · refine ⟨_, _, s3c240x_dma_trigger_incomplete as ch_int fuel st dma h0,
      dma_loop_of_curr_tc as st dma, fun h => absurd h h0, fun _ => ⟨rfl, hal6, rfl, ?_⟩⟩
    exact irq_requests_of_copies _ hcalls


/-- The function `s3c240x_dma_trigger` returns; its memory is the one left by
the copy loop and the calls it records are those of the loop, followed by the
interrupt request if one is made. -/
theorem s3c240x_dma_trigger_run {σ : Type} (as : address_space σ) (ch_int : Nat → Nat)
    (fuel : Nat) (hfuel : 31 ≤ fuel) (st : s3c240x_dma σ) (dma : Nat)
    (hirq : st.irq.s3c240x_irq_regs 0 < 4294967296) (hint : ch_int dma ≤ 31) :
    ∃ st' calls, s3c240x_dma_trigger as ch_int fuel st dma = some (st', calls) ∧
      st'.space = (dma_loop_of as st dma).space ∧
      (calls = (dma_loop_of as st dma).calls ∨
        calls = (dma_loop_of as st dma).calls ++ [gp32_call.request_irq (ch_int dma)]) ∧
      ((dma_loop_of as st dma).curr_tc ≠ 0 →
        st' = dma_after_loop as st dma ∧ calls = (dma_loop_of as st dma).calls) := by
  by_cases h0 : (dma_loop_of as st dma).curr_tc = 0
  · by_cases h28 : BIT (st.s3c240x_dma_regs ((dma <<< 3) + 2)) 28 = 0
    · refine ⟨_, _, s3c240x_dma_trigger_complete_quiet as ch_int fuel st dma h0 h28, ?_,
        Or.inl rfl, fun h => absurd h0 h⟩
      rw [(dma_completion_frame (dma_after_loop as st dma) dma).2.1]
      rfl
    · obtain ⟨irq1, hreq, _⟩ := s3c240x_request_irq_run fuel hfuel st.irq (ch_int dma) hint hirq
      refine ⟨_, _, s3c240x_dma_trigger_complete_irq as ch_int fuel st dma h0 h28 irq1 hreq, ?_,
        Or.inr rfl, fun h => absurd h0 h⟩
      show (dma_completion (dma_after_loop as st dma) dma).space = _
      rw [(dma_completion_frame (dma_after_loop as st dma) dma).2.1]
      rfl
  · exact ⟨_, _, s3c240x_dma_trigger_incomplete as ch_int fuel st dma h0, rfl, Or.inl rfl,
      fun _ => ⟨rfl, rfl⟩⟩

theorem dma_copies_append_request (calls : List gp32_call) (n : Nat) :
    dma_copies (calls ++ [gp32_call.request_irq n]) = dma_copies calls := by
  unfold dma_copies
  rw [List.filter_append]
  simp

theorem dma_dsz_le (x : Nat) : BITS x 21 20 ≤ 3 := by
  unfold BITS
  exact Nat.and_le_right

theorem dma_unit_calls_of_le (dsz src dst : Nat) (h : dsz ≤ 2) :
    dma_unit_calls dsz src dst = [gp32_call.dma_copy dsz src dst] := by
  unfold dma_unit_calls
  rw [if_pos (by omega)]

theorem dma_addr_eq (inc base dsz i : Nat) :
    dma_addr inc base dsz i = if inc = 0 then base + i * 2 ^ dsz else base := by
  unfold dma_addr
  rw [Nat.one_shiftLeft]

theorem one_shiftLeft_dsz_le (dsz : Nat) (h : dsz ≤ 3) : 1 <<< dsz ≤ 8 := by
  rw [Nat.one_shiftLeft]
  calc 2 ^ dsz ≤ 2 ^ 3 := Nat.pow_le_pow_right (by decide) h
    _ = 8 := by decide

/-- The copy loop of a channel in whole service mode, in closed form. -/
theorem dma_loop_of_block {σ : Type} (as : address_space σ) (st : s3c240x_dma σ) (dma : Nat)
    (hserv : dma_servmode st dma ≠ 0) :
    dma_loop_of as st dma
      = { curr_tc := 0
          curr_src := dma_addr (dma_inc_src st dma) (dma_curr_src st dma) (dma_dsz st dma)
            (dma_curr_tc st dma)
          curr_dst := dma_addr (dma_inc_dst st dma) (dma_curr_dst st dma) (dma_dsz st dma)
            (dma_curr_tc st dma)
          space := (List.range (dma_curr_tc st dma)).foldl (fun s i =>
            dma_unit_copy as (dma_dsz st dma) s
              (dma_addr (dma_inc_src st dma) (dma_curr_src st dma) (dma_dsz st dma) i)
              (dma_addr (dma_inc_dst st dma) (dma_curr_dst st dma) (dma_dsz st dma) i)) st.space
          calls := (List.range (dma_curr_tc st dma)).flatMap (fun i =>
            dma_unit_calls (dma_dsz st dma)
              (dma_addr (dma_inc_src st dma) (dma_curr_src st dma) (dma_dsz st dma) i)
              (dma_addr (dma_inc_dst st dma) (dma_curr_dst st dma) (dma_dsz st dma) i)) } := by
  have hu : 1 <<< dma_dsz st dma ≤ 8 := one_shiftLeft_dsz_le _ (dma_dsz_le _)
  have htc : dma_curr_tc st dma < 2 ^ 20 := BITS_low_lt _ 19
  have hsrc : dma_curr_src st dma < 2 ^ 29 := BITS_low_lt _ 28
  have hdst : dma_curr_dst st dma < 2 ^ 29 := BITS_low_lt _ 28
  have hmul : dma_curr_tc st dma * (1 <<< dma_dsz st dma) ≤ 2 ^ 20 * 8 :=
    Nat.mul_le_mul (le_of_lt htc) hu
  have e1 : (2 : Nat) ^ 20 = 1048576 := by decide
  have e2 : (2 : Nat) ^ 29 = 536870912 := by decide
  rw [e1] at htc hmul
  rw [e2] at hsrc hdst
  exact s3c240x_dma_loop_block as _ _ _ _ hserv _ _ _ _ (by omega) (by omega)

/-- The copy loop of a channel in single service mode with a nonzero count. -/
theorem dma_loop_of_single {σ : Type} (as : address_space σ) (st : s3c240x_dma σ) (dma : Nat)
    (hserv : dma_servmode st dma = 0) (hc : 1 ≤ dma_curr_tc st dma) :
    dma_loop_of as st dma
      = { curr_tc := dma_curr_tc st dma - 1
          curr_src := dma_addr (dma_inc_src st dma) (dma_curr_src st dma) (dma_dsz st dma) 1
          curr_dst := dma_addr (dma_inc_dst st dma) (dma_curr_dst st dma) (dma_dsz st dma) 1
          space := dma_unit_copy as (dma_dsz st dma) st.space (dma_curr_src st dma)
            (dma_curr_dst st dma)
          calls := dma_unit_calls (dma_dsz st dma) (dma_curr_src st dma)
            (dma_curr_dst st dma) } := by
  have hu : 1 <<< dma_dsz st dma ≤ 8 := one_shiftLeft_dsz_le _ (dma_dsz_le _)
  have hsrc : dma_curr_src st dma < 2 ^ 29 := BITS_low_lt _ 28
  have hdst : dma_curr_dst st dma < 2 ^ 29 := BITS_low_lt _ 28
  have e2 : (2 : Nat) ^ 29 = 536870912 := by decide
  rw [e2] at hsrc hdst
  have hw : ∀ inc base, base < 536870912 →
      (if inc = 0 then wrapU32 (base + 1 <<< dma_dsz st dma) else base)
        = dma_addr inc base (dma_dsz st dma) 1 := by
    intro inc base hb
    unfold dma_addr wrapU32
    split_ifs
    · rw [Nat.one_mul]
      apply Nat.mod_eq_of_lt
      omega
    · rfl
  obtain ⟨n, hn⟩ : ∃ n, dma_curr_tc st dma = n + 1 := ⟨dma_curr_tc st dma - 1, by omega⟩
  unfold dma_loop_of
  rw [hserv, hn, s3c240x_dma_loop_single, hw _ _ hsrc, hw _ _ hdst]
  rfl


/-- Claim C21 fails as stated: with the size field `DCON[21:20] = 3` (service
mode bit clear, current count 4) a trigger call lowers the count to 3 but makes
no copy at all: no unit copy is recorded and the memory is the one before the
call. -/
theorem C21_no_copy_for_size_three_counterexample :
    dma_servmode (example_dma 0x300000) 0 = 0 ∧
    dma_curr_tc (example_dma 0x300000) 0 = 4 ∧
    dma_dsz (example_dma 0x300000) 0 = 3 ∧
    (s3c240x_dma_trigger example_space example_ch_int 31 (example_dma 0x300000) 0).map
        (fun p => (dma_copies p.2, dma_curr_tc p.1 0)) = some ([], 3) ∧
    (s3c240x_dma_trigger example_space example_ch_int 31 (example_dma 0x300000) 0).map
        (fun p => p.1.space) = some example_memory := by
  refine ⟨by decide, by decide, by decide, by decide, ?_⟩
  rfl

/-- Claim C21, amended: for every DMA channel whose service-mode bit (`DCON` bit
26) is 0, whose current transfer count `c` is at least 1 and whose size field is
0, 1 or 2, one `s3c240x_dma_trigger` call returns having made exactly one unit
copy, from the current source to the current destination, and having lowered
the count by one: for `c ≥ 2` the count field holds `c - 1`, the on/off bit is
unchanged and no interrupt is requested; for `c = 1` the count reaches 0 and the
completion handling applies (with reload disabled the count field stays 0). -/
theorem C21_single_service_one_unit_amended {σ : Type} (as : address_space σ)
    (ch_int : Nat → Nat) (fuel : Nat) (hfuel : 31 ≤ fuel) (st : s3c240x_dma σ) (dma : Nat)
    (hirq : st.irq.s3c240x_irq_regs 0 < 4294967296) (hint : ch_int dma ≤ 31)
    (hserv : dma_servmode st dma = 0) (hc : 1 ≤ dma_curr_tc st dma)
    (hd : dma_dsz st dma ≤ 2) :
    ∃ st' calls, s3c240x_dma_trigger as ch_int fuel st dma = some (st', calls) ∧
      dma_copies calls
        = [gp32_call.dma_copy (dma_dsz st dma) (dma_curr_src st dma) (dma_curr_dst st dma)] ∧
      st'.space = dma_unit_copy as (dma_dsz st dma) st.space (dma_curr_src st dma)
        (dma_curr_dst st dma) ∧
      (dma_loop_of as st dma).curr_tc = dma_curr_tc st dma - 1 ∧
      (2 ≤ dma_curr_tc st dma →
        dma_curr_tc st' dma = dma_curr_tc st dma - 1 ∧
        st'.s3c240x_dma_regs ((dma <<< 3) + 6) = st.s3c240x_dma_regs ((dma <<< 3) + 6) ∧
        st'.irq = st.irq ∧ irq_requests calls = []) ∧
      (dma_curr_tc st dma = 1 → BIT (st.s3c240x_dma_regs ((dma <<< 3) + 2)) 22 ≠ 0 →
        dma_curr_tc st' dma = 0) := by
  have hloop := dma_loop_of_single as st dma hserv hc
  have hcalls : (dma_loop_of as st dma).calls
      = [gp32_call.dma_copy (dma_dsz st dma) (dma_curr_src st dma) (dma_curr_dst st dma)] := by
    rw [hloop]
    exact dma_unit_calls_of_le _ _ _ hd
  have htc : (dma_loop_of as st dma).curr_tc = dma_curr_tc st dma - 1 := by rw [hloop]
  have hlt : dma_curr_tc st dma < 2 ^ 20 := BITS_low_lt _ 19
  have hlt' : (dma_loop_of as st dma).curr_tc < 2 ^ 20 := by rw [htc]; omega
  obtain ⟨st', calls, hrun, hsp, hcl, hne⟩ :=
    s3c240x_dma_trigger_run as ch_int fuel hfuel st dma hirq hint
  refine ⟨st', calls, hrun, ?_, ?_, htc, ?_, ?_⟩
  · rcases hcl with h | h
    · rw [h, hcalls]; rfl
    · rw [h, dma_copies_append_request, hcalls]; rfl
  · rw [hsp, hloop]
  · intro h2
    obtain ⟨e1, e2⟩ := hne (by rw [htc]; omega)
    subst e1
    refine ⟨?_, dma_after_loop_regs as st dma 6 (by decide) (by decide) (by decide), rfl, ?_⟩
    · rw [dma_after_loop_curr_tc as st dma hlt', htc]
    · rw [e2]
      exact irq_requests_of_copies _ (dma_loop_of_calls as st dma)
  · intro h1 h22
    have h0 : (dma_loop_of as st dma).curr_tc = 0 := by rw [htc, h1]
    have hal2 := dma_after_loop_regs as st dma 2 (by decide) (by decide) (by decide)
    rw [← hal2] at h22
    obtain ⟨_, _, hk, _, _⟩ := dma_completion_clear (dma_after_loop as st dma) dma h22
    have hz : dma_curr_tc (dma_completion (dma_after_loop as st dma) dma) dma = 0 := by
      unfold dma_curr_tc
      rw [hk 3 (by decide)]
      have := dma_after_loop_curr_tc as st dma hlt'
      unfold dma_curr_tc at this
      rw [this, h0]
    by_cases h28 : BIT (st.s3c240x_dma_regs ((dma <<< 3) + 2)) 28 = 0
    · rw [s3c240x_dma_trigger_complete_quiet as ch_int fuel st dma h0 h28] at hrun
      cases hrun
      exact hz
    · obtain ⟨irq1, hreq, _⟩ := s3c240x_request_irq_run fuel hfuel st.irq (ch_int dma) hint hirq
      rw [s3c240x_dma_trigger_complete_irq as ch_int fuel st dma h0 h28 irq1 hreq] at hrun
      cases hrun
      exact hz

/-- Witness for C21: count 4, byte units, reload disabled, single service. Four
calls copy one byte each, the count going 3, 2, 1, 0. -/
theorem C21_single_service_one_unit_amended_witness :
    (∃ st' calls,
      s3c240x_dma_trigger example_space example_ch_int 31 (example_dma 0x400000) 0
        = some (st', calls) ∧
      dma_copies calls
        = [gp32_call.dma_copy (dma_dsz (example_dma 0x400000) 0)
            (dma_curr_src (example_dma 0x400000) 0) (dma_curr_dst (example_dma 0x400000) 0)]) ∧
    ((s3c240x_dma_trigger example_space example_ch_int 31 (example_dma 0x400000) 0).bind
      fun p1 => (s3c240x_dma_trigger example_space example_ch_int 31 p1.1 0).bind
      fun p2 => (s3c240x_dma_trigger example_space example_ch_int 31 p2.1 0).bind
      fun p3 => (s3c240x_dma_trigger example_space example_ch_int 31 p3.1 0).map
      fun p4 => ([p1.2, p2.2, p3.2, p4.2],
        [dma_curr_tc p1.1 0, dma_curr_tc p2.1 0, dma_curr_tc p3.1 0, dma_curr_tc p4.1 0],
        (List.range 5).map (fun a => p4.1.space (0x200 + a))))
      = some ([[gp32_call.dma_copy 0 0x100 0x200], [gp32_call.dma_copy 0 0x101 0x201],
               [gp32_call.dma_copy 0 0x102 0x202], [gp32_call.dma_copy 0 0x103 0x203]],
              [3, 2, 1, 0], [0x10, 0x11, 0x12, 0x13, 0]) := by
  refine ⟨?_, by decide⟩
  obtain ⟨st', calls, h, hc, _⟩ := C21_single_service_one_unit_amended example_space
    example_ch_int 31 (by decide) (example_dma 0x400000) 0 (by decide) (by decide) (by decide)
    (by decide) (by decide)
  exact ⟨st', calls, h, hc⟩


/-- Claim C22: for every DMA channel whose service-mode bit (`DCON` bit 26) is 1,
with current count `c ≥ 1` and size field `d` in {0, 1, 2}, one
`s3c240x_dma_trigger` call returns after exactly `c` unit copies of `2^d` bytes,
made in the order `i = 0 .. c-1` from `s_i` to `t_i`, where `s_i = src + i * 2^d`
if `DISRC` bit 29 is 0 and `s_i = src` otherwise, likewise `t_i` from `dst` and
`DIDST` bit 29; the count reaches 0. -/
theorem C22_whole_service_drains {σ : Type} (as : address_space σ)
    (ch_int : Nat → Nat) (fuel : Nat) (hfuel : 31 ≤ fuel) (st : s3c240x_dma σ) (dma : Nat)
    (hirq : st.irq.s3c240x_irq_regs 0 < 4294967296) (hint : ch_int dma ≤ 31)
    (hserv : dma_servmode st dma = 1) (_hc : 1 ≤ dma_curr_tc st dma)
    (hd : dma_dsz st dma ≤ 2) :
    ∃ st' calls, s3c240x_dma_trigger as ch_int fuel st dma = some (st', calls) ∧
      dma_copies calls = (List.range (dma_curr_tc st dma)).map (fun i =>
        gp32_call.dma_copy (dma_dsz st dma)
          (if BIT (st.s3c240x_dma_regs ((dma <<< 3) + 0)) 29 = 0
            then dma_curr_src st dma + i * 2 ^ dma_dsz st dma else dma_curr_src st dma)
          (if BIT (st.s3c240x_dma_regs ((dma <<< 3) + 1)) 29 = 0
            then dma_curr_dst st dma + i * 2 ^ dma_dsz st dma else dma_curr_dst st dma)) ∧
      (dma_copies calls).length = dma_curr_tc st dma ∧
      st'.space = (List.range (dma_curr_tc st dma)).foldl (fun s i =>
        dma_unit_copy as (dma_dsz st dma) s
          (if BIT (st.s3c240x_dma_regs ((dma <<< 3) + 0)) 29 = 0
            then dma_curr_src st dma + i * 2 ^ dma_dsz st dma else dma_curr_src st dma)
          (if BIT (st.s3c240x_dma_regs ((dma <<< 3) + 1)) 29 = 0
            then dma_curr_dst st dma + i * 2 ^ dma_dsz st dma else dma_curr_dst st dma))
        st.space ∧
      (dma_loop_of as st dma).curr_tc = 0 ∧
      dma_curr_tc (dma_after_loop as st dma) dma = 0 := by
  have hserv' : dma_servmode st dma ≠ 0 := by rw [hserv]; decide
  have hloop := dma_loop_of_block as st dma hserv'
  have htc : (dma_loop_of as st dma).curr_tc = 0 := by rw [hloop]
  have hcalls : (dma_loop_of as st dma).calls
      = (List.range (dma_curr_tc st dma)).map (fun i =>
        gp32_call.dma_copy (dma_dsz st dma)
          (if BIT (st.s3c240x_dma_regs ((dma <<< 3) + 0)) 29 = 0
            then dma_curr_src st dma + i * 2 ^ dma_dsz st dma else dma_curr_src st dma)
          (if BIT (st.s3c240x_dma_regs ((dma <<< 3) + 1)) 29 = 0
            then dma_curr_dst st dma + i * 2 ^ dma_dsz st dma else dma_curr_dst st dma)) := by
    rw [hloop]
    simp only [dma_unit_calls_of_le _ _ _ hd, dma_addr_eq]
    induction (List.range (dma_curr_tc st dma)) with
    | nil => rfl
    | cons a l ih => simp only [List.flatMap_cons, List.map_cons, ih, List.singleton_append]; rfl
  have hcop : dma_copies (dma_loop_of as st dma).calls = (dma_loop_of as st dma).calls :=
    dma_copies_of_copies _ (dma_loop_of_calls as st dma)
  obtain ⟨st', calls, hrun, hsp, hcl, _⟩ :=
    s3c240x_dma_trigger_run as ch_int fuel hfuel st dma hirq hint
  have hcc : dma_copies calls = (dma_loop_of as st dma).calls := by
    rcases hcl with h | h
    · rw [h, hcop]
    · rw [h, dma_copies_append_request, hcop]
  refine ⟨st', calls, hrun, by rw [hcc, hcalls], ?_, ?_, htc, ?_⟩
  · rw [hcc, hcalls, List.length_map, List.length_range]
  · rw [hsp, hloop]
    simp only [dma_addr_eq]
    rfl
  · rw [dma_after_loop_curr_tc as st dma (by rw [htc]; exact Nat.pow_pos (by decide)), htc]

/-- Witness for C22: count 4, byte units, whole service mode: one call copies
all four bytes, in address order. -/
theorem C22_whole_service_drains_witness :
    (∃ st' calls,
      s3c240x_dma_trigger example_space example_ch_int 31 (example_dma 0x4400000) 0
        = some (st', calls) ∧
      (dma_copies calls).length = dma_curr_tc (example_dma 0x4400000) 0) ∧
    (s3c240x_dma_trigger example_space example_ch_int 31 (example_dma 0x4400000) 0).map
      (fun p => (p.2, (List.range 5).map (fun a => p.1.space (0x200 + a))))
      = some ([gp32_call.dma_copy 0 0x100 0x200, gp32_call.dma_copy 0 0x101 0x201,
               gp32_call.dma_copy 0 0x102 0x202, gp32_call.dma_copy 0 0x103 0x203],
              [0x10, 0x11, 0x12, 0x13, 0]) := by
  refine ⟨?_, by decide⟩
  obtain ⟨st', calls, h, _, hl, _⟩ := C22_whole_service_drains example_space
    example_ch_int 31 (by decide) (example_dma 0x4400000) 0 (by decide) (by decide) (by decide)
    (by decide) (by decide)
  exact ⟨st', calls, h, hl⟩

/-- Witness for C23: a whole-service transfer of 4 bytes with the interrupt
enabled. With reload enabled (`DCON = 0x14000004`) the count is reloaded to 4 and
the channel stays on; with reload disabled (`DCON = 0x14400004`) the count stays 0
and the channel is switched off; in both cases interrupt 17 is requested. -/
theorem C23_dma_completion_witness :
    (∃ st' calls,
      s3c240x_dma_trigger example_space example_ch_int 31 (example_dma 0x14000004) 0
        = some (st', calls) ∧
      (gp32_call.request_irq (example_ch_int 0) ∈ calls
        ↔ BIT ((example_dma 0x14000004).s3c240x_dma_regs ((0 <<< 3) + 2)) 28 ≠ 0)) ∧
    (s3c240x_dma_trigger example_space example_ch_int 31 (example_dma 0x14000004) 0).map
      (fun p => (dma_curr_tc p.1 0, p.1.s3c240x_dma_regs 6, irq_requests p.2,
        p.1.irq.s3c240x_irq_regs 0, p.1.irq.irq_line))
      = some (4, 2, [gp32_call.request_irq 17], 0x20000, true) ∧
    (s3c240x_dma_trigger example_space example_ch_int 31 (example_dma 0x14400004) 0).map
      (fun p => (dma_curr_tc p.1 0, p.1.s3c240x_dma_regs 6, irq_requests p.2,
        p.1.irq.s3c240x_irq_regs 0, p.1.irq.irq_line))
      = some (0, 0, [gp32_call.request_irq 17], 0x20000, true) := by
  refine ⟨?_, by decide, by decide⟩
  obtain ⟨st', calls, h, _, hz, _⟩ := C23_dma_completion example_space
    example_ch_int 31 (by decide) (example_dma 0x14000004) 0 (by decide) (by decide)
  exact ⟨st', calls, h, (hz (by decide)).2.2.1⟩

/-- Claim C30: an IIS timer expiry calls `s3c240x_dma_trigger` for channel 2 if
and only if `DCON2` selects hardware request mode (bit 23 = 1) with hardware
source 0 (bits 25..24 = 0) and bit 1 of `DMASKTRIG2` is set; in that case the
expiry does what the trigger call does; in every other configuration it changes
no DMA register, no memory and no interrupt state and makes no call. -/
theorem C30_iis_timer_dma_request {σ : Type} (as : address_space σ)
    (ch_int : Nat → Nat) (fuel : Nat) (hfuel : 31 ≤ fuel) (st : s3c240x_dma σ)
    (hirq : st.irq.s3c240x_irq_regs 0 < 4294967296) (hint : ch_int 2 ≤ 31) :
    ∃ st' calls, s3c240x_iis_timer_exp as ch_int fuel st = some (st', calls) ∧
      (gp32_call.dma_trigger 2 ∈ calls ↔
        (BIT (st.s3c240x_dma_regs (0x48 / 4)) 23 = 1 ∧
         BITS (st.s3c240x_dma_regs (0x48 / 4)) 25 24 = 0 ∧
         BIT (st.s3c240x_dma_regs (0x58 / 4)) 1 = 1)) ∧
      ((BIT (st.s3c240x_dma_regs (0x48 / 4)) 23 = 1 ∧
         BITS (st.s3c240x_dma_regs (0x48 / 4)) 25 24 = 0 ∧
         BIT (st.s3c240x_dma_regs (0x58 / 4)) 1 = 1) →
        ∃ tcalls, s3c240x_dma_trigger as ch_int fuel st 2 = some (st', tcalls) ∧
          calls = gp32_call.dma_trigger 2 :: tcalls) ∧
      (¬ (BIT (st.s3c240x_dma_regs (0x48 / 4)) 23 = 1 ∧
         BITS (st.s3c240x_dma_regs (0x48 / 4)) 25 24 = 0 ∧
         BIT (st.s3c240x_dma_regs (0x58 / 4)) 1 = 1) →
        st' = st ∧ calls = []) := by
  have hb : BIT (st.s3c240x_dma_regs (0x58 / 4)) 1 ≠ 0
      ↔ BIT (st.s3c240x_dma_regs (0x58 / 4)) 1 = 1 := by
    have := BIT_le_one (st.s3c240x_dma_regs (0x58 / 4)) 1
    omega
  by_cases hc : BIT (st.s3c240x_dma_regs (0x48 / 4)) 23 = 1 ∧
      BITS (st.s3c240x_dma_regs (0x48 / 4)) 25 24 = 0
  · by_cases ho : BIT (st.s3c240x_dma_regs (0x58 / 4)) 1 ≠ 0
    · obtain ⟨st', tcalls, hrun, _, _, _⟩ :=
        s3c240x_dma_trigger_run as ch_int fuel hfuel st 2 hirq hint
      refine ⟨st', gp32_call.dma_trigger 2 :: tcalls, ?_, ?_, ?_, ?_⟩
      · simp only [s3c240x_iis_timer_exp, if_pos hc, if_pos ho, hrun]
      · exact ⟨fun _ => ⟨hc.1, hc.2, hb.mp ho⟩, fun _ => List.mem_cons_self _ _⟩
      · exact fun _ => ⟨tcalls, hrun, rfl⟩
      · exact fun hn => absurd ⟨hc.1, hc.2, hb.mp ho⟩ hn
    · refine ⟨st, [], ?_, ?_, ?_, fun _ => ⟨rfl, rfl⟩⟩
      · simp only [s3c240x_iis_timer_exp, if_pos hc, if_neg ho]
      · exact ⟨fun h => absurd h (List.not_mem_nil _), fun h => absurd (hb.mpr h.2.2) ho⟩
      · exact fun h => absurd (hb.mpr h.2.2) ho
  · refine ⟨st, [], ?_, ?_, ?_, fun _ => ⟨rfl, rfl⟩⟩
    · simp only [s3c240x_iis_timer_exp, if_neg hc]
    · exact ⟨fun h => absurd h (List.not_mem_nil _), fun h => absurd ⟨h.1, h.2.1⟩ hc⟩
    · exact fun h => absurd ⟨h.1, h.2.1⟩ hc

/-- Witness for C30: channel 2 switched on with `DCON2 = 0x4C00000` (hardware
request, source 0, whole service, reload disabled): the expiry triggers the
channel, which copies its four bytes. With `DCON2 = 0x4400000` (software
request) the expiry does nothing. -/
theorem C30_iis_timer_dma_request_witness :
    (∃ st' calls,
      s3c240x_iis_timer_exp example_space example_ch_int 31 (example_dma_ch2 0x4C00000 2)
        = some (st', calls) ∧
      (gp32_call.dma_trigger 2 ∈ calls ↔
        (BIT ((example_dma_ch2 0x4C00000 2).s3c240x_dma_regs (0x48 / 4)) 23 = 1 ∧
         BITS ((example_dma_ch2 0x4C00000 2).s3c240x_dma_regs (0x48 / 4)) 25 24 = 0 ∧
         BIT ((example_dma_ch2 0x4C00000 2).s3c240x_dma_regs (0x58 / 4)) 1 = 1))) ∧
    (s3c240x_iis_timer_exp example_space example_ch_int 31 (example_dma_ch2 0x4C00000 2)).map
      (fun p => (p.2, (List.range 5).map (fun a => p.1.space (0x200 + a))))
      = some ([gp32_call.dma_trigger 2, gp32_call.dma_copy 0 0x100 0x200,
               gp32_call.dma_copy 0 0x101 0x201, gp32_call.dma_copy 0 0x102 0x202,
               gp32_call.dma_copy 0 0x103 0x203], [0x10, 0x11, 0x12, 0x13, 0]) ∧
    (s3c240x_iis_timer_exp example_space example_ch_int 31 (example_dma_ch2 0x4400000 2)).map
      (fun p => (p.2, (List.range 5).map (fun a => p.1.space (0x200 + a)),
        (List.range 32).map p.1.s3c240x_dma_regs))
      = some ([], [0, 0, 0, 0, 0],
          (List.range 32).map (example_dma_ch2 0x4400000 2).s3c240x_dma_regs) := by
  refine ⟨?_, by decide, by decide⟩
  obtain ⟨st', calls, h, hm, _⟩ := C30_iis_timer_dma_request example_space
    example_ch_int 31 (by decide) (example_dma_ch2 0x4C00000 2) (by decide) (by decide)
  exact ⟨st', calls, h, hm⟩

/-! ## GP32 PWM timers -/

theorem mux_table_get (m : Nat) (hm : m ≤ 3) :
    mux_table[m]? = some (2 ^ (m + 1)) := by
  interval_cases m <;> rfl

/-- The function `s3c240x_pwm_start` for a timer in 0..4 whose mux field is at
most 3: the divisor is `mux_table[mux] = 2^(mux+1)`, one of 2, 4, 8, 16, and the
timer is programmed with the rate `freq / (cnt - cmp + 1)`,
`freq = pclk / (prescaler + 1) / divisor`, periodically when the auto-reload bit
is set and one-shot otherwise. -/
theorem s3c240x_pwm_start_run (clkpow : Nat → Nat) (st : s3c240x_pwm) (timer : Nat)
    (ht : timer ≤ 4) (hm : pwm_mux st timer ≤ 3) :
    s3c240x_pwm_start clkpow st timer
      = some { st with s3c240x_pwm_timer :=
          (arraySet st.s3c240x_pwm_timer timer
            (if pwm_auto_reload st timer ≠ 0 then
              timer_adjust_periodic
                (attotime.in_hz
                  (s3c240x_get_pclk clkpow MPLLCON / (pwm_prescaler st timer + 1)
                    / 2 ^ (pwm_mux st timer + 1))
                  (wrapU32 (pwm_cnt st timer + 4294967296 - pwm_cmp st timer + 1)))
                timer
                (attotime.in_hz
                  (s3c240x_get_pclk clkpow MPLLCON / (pwm_prescaler st timer + 1)
                    / 2 ^ (pwm_mux st timer + 1))
                  (wrapU32 (pwm_cnt st timer + 4294967296 - pwm_cmp st timer + 1)))
            else
              timer_adjust_oneshot
                (attotime.in_hz
                  (s3c240x_get_pclk clkpow MPLLCON / (pwm_prescaler st timer + 1)
                    / 2 ^ (pwm_mux st timer + 1))
                  (wrapU32 (pwm_cnt st timer + 4294967296 - pwm_cmp st timer + 1)))
                timer)) } := by
  have hmt := mux_table_get (pwm_mux st timer) hm
  interval_cases timer <;>
    (simp only [pwm_mux, mux_shift, List.getD_cons_zero, List.getD_cons_succ] at hmt
     simp only [s3c240x_pwm_start, prescaler_shift, mux_shift, tcon_shift, pwm_mux, pwm_prescaler,
       pwm_cnt, pwm_cmp, pwm_auto_reload, List.getElem?_cons_zero, List.getElem?_cons_succ,
       List.getD_cons_zero, List.getD_cons_succ, Option.bind_eq_bind, Option.some_bind,
       Option.pure_def, hmt, bind, pure]
     split_ifs <;> rfl)

/-- The function `s3c240x_pwm_recalc` returns and leaves the registers as they
are, for a timer in 0..4 whose mux field is at most 3. -/
theorem s3c240x_pwm_recalc_run (clkpow : Nat → Nat) (st : s3c240x_pwm) (timer : Nat)
    (ht : timer ≤ 4) (hm : pwm_mux st timer ≤ 3) :
    ∃ st', s3c240x_pwm_recalc clkpow st timer = some st' ∧
      st'.s3c240x_pwm_regs = st.s3c240x_pwm_regs := by
  have hstart := s3c240x_pwm_start_run clkpow st timer ht hm
  have hts : ∃ s, tcon_shift[timer]? = some s := by
    interval_cases timer <;> exact ⟨_, rfl⟩
  obtain ⟨s, hs⟩ := hts
  by_cases hc : st.s3c240x_pwm_regs 2 &&& (1 <<< s) ≠ 0
  · have e : s3c240x_pwm_recalc clkpow st timer = s3c240x_pwm_start clkpow st timer := by
      simp only [s3c240x_pwm_recalc, hs, Option.bind_eq_bind, Option.some_bind, bind, if_pos hc]
    rw [e, hstart]
    exact ⟨_, rfl, rfl⟩
  · have e : s3c240x_pwm_recalc clkpow st timer = some (s3c240x_pwm_stop st timer) := by
      simp only [s3c240x_pwm_recalc, hs, Option.bind_eq_bind, Option.some_bind, bind, if_neg hc]
    rw [e]
    exact ⟨_, rfl, rfl⟩

/-- One edge test of the `TCON` case: it returns, keeps the registers and
records the recalc call exactly when the written bit differs from the old one. -/
theorem pwm_w_edge_run (clkpow : Nat → Nat) (data old_value bit timer : Nat)
    (s : s3c240x_pwm) (cs : List gp32_call) (ht : timer ≤ 4) (hm : pwm_mux s timer ≤ 3) :
    ∃ s', pwm_w_edge clkpow data old_value bit timer (s, cs)
        = some (s', cs ++ pwm_edge_calls data old_value bit timer) ∧
      s'.s3c240x_pwm_regs = s.s3c240x_pwm_regs := by
  by_cases hc : data &&& bit ≠ old_value &&& bit
  · obtain ⟨s', hr, hregs⟩ := s3c240x_pwm_recalc_run clkpow s timer ht hm
    refine ⟨s', ?_, hregs⟩
    simp only [pwm_w_edge, pwm_edge_calls, if_pos hc, hr]
  · refine ⟨s, ?_, rfl⟩
    simp only [pwm_w_edge, pwm_edge_calls, if_neg hc, List.append_nil]

theorem pwm_mux_congr (st st' : s3c240x_pwm) (timer : Nat)
    (h : st'.s3c240x_pwm_regs = st.s3c240x_pwm_regs) : pwm_mux st' timer = pwm_mux st timer := by
  unfold pwm_mux
  rw [h]

/-- The handler `s3c240x_pwm_w`: it returns; the addressed word holds the merged
value and the other words are unchanged; the recorded calls are those of the
edge tests, made for a write to `TCON` only. -/
theorem s3c240x_pwm_w_run (clkpow : Nat → Nat) (st : s3c240x_pwm)
    (offset data mem_mask : Nat)
    (hmux : offset = 0x08 / 4 → ∀ t, t ≤ 4 → pwm_mux st t ≤ 3) :
    ∃ st' calls, s3c240x_pwm_w clkpow st offset data mem_mask = some (st', calls) ∧
      st'.s3c240x_pwm_regs = arraySet st.s3c240x_pwm_regs offset
        (COMBINE_DATA (st.s3c240x_pwm_regs offset) data mem_mask) ∧
      calls = (if offset = 0x08 / 4 then
          ((pwm_tcon_bits.filter (fun p =>
              decide (data &&& p.1 ≠ st.s3c240x_pwm_regs offset &&& p.1))).map
            (fun p => gp32_call.pwm_recalc p.2))
        else []) := by
  by_cases ho : offset = 0x08 / 4
  · have hm := hmux ho
    have hm1 : ∀ t, t ≤ 4 → pwm_mux { st with s3c240x_pwm_regs :=
        (arraySet st.s3c240x_pwm_regs offset
          (COMBINE_DATA (st.s3c240x_pwm_regs offset) data mem_mask)) } t ≤ 3 := by
      intro t ht
      have e : pwm_mux { st with s3c240x_pwm_regs :=
        (arraySet st.s3c240x_pwm_regs offset
          (COMBINE_DATA (st.s3c240x_pwm_regs offset) data mem_mask)) } t = pwm_mux st t := by
        unfold pwm_mux
        rw [ho]
        rfl
      rw [e]
      exact hm t ht
    obtain ⟨s0, h0, r0⟩ := pwm_w_edge_run clkpow data (st.s3c240x_pwm_regs offset) 1 0
      _ [] (by decide) (hm1 0 (by decide))
    obtain ⟨s1, h1, r1⟩ := pwm_w_edge_run clkpow data (st.s3c240x_pwm_regs offset) 0x100 1
      s0 ([] ++ pwm_edge_calls data (st.s3c240x_pwm_regs offset) 1 0) (by decide)
      (by rw [pwm_mux_congr _ s0 1 r0]; exact hm1 1 (by decide))
    obtain ⟨s2, h2, r2⟩ := pwm_w_edge_run clkpow data (st.s3c240x_pwm_regs offset) 0x1000 2
      s1 ([] ++ pwm_edge_calls data (st.s3c240x_pwm_regs offset) 1 0
        ++ pwm_edge_calls data (st.s3c240x_pwm_regs offset) 0x100 1) (by decide)
      (by rw [pwm_mux_congr _ s1 2 (r1.trans r0)]; exact hm1 2 (by decide))
    obtain ⟨s3, h3, r3⟩ := pwm_w_edge_run clkpow data (st.s3c240x_pwm_regs offset) 0x10000 3
      s2 ([] ++ pwm_edge_calls data (st.s3c240x_pwm_regs offset) 1 0
        ++ pwm_edge_calls data (st.s3c240x_pwm_regs offset) 0x100 1
        ++ pwm_edge_calls data (st.s3c240x_pwm_regs offset) 0x1000 2) (by decide)
      (by rw [pwm_mux_congr _ s2 3 (r2.trans (r1.trans r0))]; exact hm1 3 (by decide))
    obtain ⟨s4, h4, r4⟩ := pwm_w_edge_run clkpow data (st.s3c240x_pwm_regs offset) 0x100000 4
      s3 ([] ++ pwm_edge_calls data (st.s3c240x_pwm_regs offset) 1 0
        ++ pwm_edge_calls data (st.s3c240x_pwm_regs offset) 0x100 1
        ++ pwm_edge_calls data (st.s3c240x_pwm_regs offset) 0x1000 2
        ++ pwm_edge_calls data (st.s3c240x_pwm_regs offset) 0x10000 3) (by decide)
      (by rw [pwm_mux_congr _ s3 4 (r3.trans (r2.trans (r1.trans r0)))]
          exact hm1 4 (by decide))
    refine ⟨s4, [] ++ pwm_edge_calls data (st.s3c240x_pwm_regs offset) 1 0
        ++ pwm_edge_calls data (st.s3c240x_pwm_regs offset) 0x100 1
        ++ pwm_edge_calls data (st.s3c240x_pwm_regs offset) 0x1000 2
        ++ pwm_edge_calls data (st.s3c240x_pwm_regs offset) 0x10000 3
        ++ pwm_edge_calls data (st.s3c240x_pwm_regs offset) 0x100000 4, ?_,
      r4.trans (r3.trans (r2.trans (r1.trans r0))), ?_⟩
    · simp only [s3c240x_pwm_w, if_pos ho, Option.some_bind, h0, h1, h2, h3, h4]
    · rw [if_pos ho]
      clear h0 h1 h2 h3 h4 r0 r1 r2 r3 r4 hm1 hm hmux
      have hstep : ∀ (c : Prop) [Decidable c] (x : Nat × Nat) (l : List (Nat × Nat)),
          List.map (fun p => gp32_call.pwm_recalc p.2) (if decide c = true then x :: l else l)
            = (if c then [gp32_call.pwm_recalc x.2] else [])
              ++ List.map (fun p => gp32_call.pwm_recalc p.2) l := by
        intro c _ x l
        by_cases hc : c <;> simp [hc]
      simp only [pwm_tcon_bits, pwm_edge_calls, List.filter_cons, List.filter_nil,
        List.nil_append, hstep, List.map_nil, List.append_nil, List.append_assoc]
  · refine ⟨{ st with s3c240x_pwm_regs := (arraySet st.s3c240x_pwm_regs offset
        (COMBINE_DATA (st.s3c240x_pwm_regs offset) data mem_mask)) }, [], ?_, rfl, ?_⟩
    · simp only [s3c240x_pwm_w, if_neg ho]
    · rw [if_neg ho]

/-- Claim C24 at a failing input: with the mux field of timer 0 equal to 4
(`TCFG1 = 4`) the index into the four-entry table `mux_table` is outside the
table, so `s3c240x_pwm_start` has no defined divisor and programmes no rate;
with the mux field 3 (`TCFG1 = 3`) the divisor is 16 and timer 0 is programmed
periodically with `freq = 25000000 / 16 / 16 = 97656` over `1000 - 500 + 1`. -/
theorem C24_pwm_start_mux_outside_table :
    pwm_mux (example_pwm 0x0f0f 0x4 0x9) 0 = 4 ∧
    mux_table.length = 4 ∧
    mux_table[pwm_mux (example_pwm 0x0f0f 0x4 0x9) 0]? = none ∧
    s3c240x_pwm_start example_clkpow (example_pwm 0x0f0f 0x4 0x9) 0 = none ∧
    (s3c240x_pwm_start example_clkpow (example_pwm 0x0f0f 0x3 0x9) 0).map
        (fun s => s.s3c240x_pwm_timer 0)
      = some (timer_adjust_periodic (attotime.in_hz 97656 501) 0 (attotime.in_hz 97656 501)) := by
  refine ⟨by decide, by decide, by decide, ?_, by decide⟩
  rfl

/-! ## GP32 address map and plain register banks -/

theorem not32_full : not32 0xffffffff = 0 := by decide

theorem COMBINE_DATA_full (reg v : Nat) (hv : v < 4294967296) :
    COMBINE_DATA reg v 0xffffffff = v := by
  unfold COMBINE_DATA
  rw [not32_full, Nat.and_zero, Nat.zero_or]
  have h : (0xffffffff : Nat) = 2 ^ 32 - 1 := by decide
  rw [h, Nat.and_pow_two_sub_one_eq_mod]
  exact Nat.mod_eq_of_lt hv

/-- Claim C26: for the PWM bank (a plain bank), every in-range offset, value `v`
and mask `m`, the write handler returns with `register' = (register AND NOT m)
OR (v AND m)` and every other register of the bank unchanged; the read handler
returns the stored value (a read has no effect on the state); hence a full-mask
write of a 32-bit `v` followed by a read of the same offset returns `v`. The
same holds for the memory-controller bank at every offset inside its array. A
write to `TCON` also runs the start or stop of the timers whose start bit is
written differently, which is defined when the mux fields index inside the
divisor table. -/
theorem C26_plain_bank_write_read (clkpow : Nat → Nat) (st : s3c240x_pwm)
    (offset v m : Nat) (_hoff : offset < 0x44 / 4)
    (hmux : offset = 0x08 / 4 → ∀ t, t ≤ 4 → pwm_mux st t ≤ 3) :
    (∃ st' calls, s3c240x_pwm_w clkpow st offset v m = some (st', calls) ∧
      st'.s3c240x_pwm_regs offset = (st.s3c240x_pwm_regs offset &&& not32 m) ||| (v &&& m) ∧
      (∀ j, j ≠ offset → st'.s3c240x_pwm_regs j = st.s3c240x_pwm_regs j) ∧
      s3c240x_pwm_r st offset = st.s3c240x_pwm_regs offset ∧
      (m = 0xffffffff → v < 4294967296 → s3c240x_pwm_r st' offset = v)) ∧
    (∀ (regs : Nat → Nat) (k : Nat), k < 0x34 / 4 →
      ∃ regs', s3c240x_memcon_w regs k v m = some regs' ∧
        regs' k = (regs k &&& not32 m) ||| (v &&& m) ∧
        (∀ j, j ≠ k → regs' j = regs j) ∧
        s3c240x_memcon_r regs k = some (regs k) ∧
        (m = 0xffffffff → v < 4294967296 → s3c240x_memcon_r regs' k = some v)) := by
  constructor
  · obtain ⟨st', calls, hrun, hregs, _⟩ := s3c240x_pwm_w_run clkpow st offset v m hmux
    refine ⟨st', calls, hrun, ?_, ?_, rfl, ?_⟩
    · rw [hregs, arraySet_same]; rfl
    · intro j hj
      rw [hregs, arraySet_other _ _ _ _ hj]
    · intro hm hv
      unfold s3c240x_pwm_r
      rw [hregs, arraySet_same, hm]
      exact COMBINE_DATA_full _ v hv
  · intro regs k hk
    refine ⟨arraySet regs k (COMBINE_DATA (regs k) v m), ?_, ?_, ?_, ?_, ?_⟩
    · simp only [s3c240x_memcon_w, array_read, array_write, if_pos hk]
    · rw [arraySet_same]; rfl
    · intro j hj
      exact arraySet_other _ _ _ _ hj
    · simp only [s3c240x_memcon_r, array_read, if_pos hk]
    · intro hm hv
      simp only [s3c240x_memcon_r, array_read, if_pos hk, arraySet_same]
      rw [hm, COMBINE_DATA_full _ v hv]

/-- Witness for C26: a full-mask write of `0x1234` to the count buffer of timer 1
(offset 6) is read back; a write of `0xff00` under the mask `0x0ff0` to a word
holding 1000 leaves `(1000 AND NOT 0x0ff0) OR 0x0f00`. -/
theorem C26_plain_bank_write_read_witness :
    (∃ st' calls,
      s3c240x_pwm_w example_clkpow (example_pwm 0x0f0f 0x3 0) 6 0x1234 0xffffffff
        = some (st', calls) ∧
      (0xffffffff = 0xffffffff → 0x1234 < 4294967296 → s3c240x_pwm_r st' 6 = 0x1234)) ∧
    (s3c240x_pwm_w example_clkpow (example_pwm 0x0f0f 0x3 0) 6 0x1234 0xffffffff).map
      (fun p => (s3c240x_pwm_r p.1 6, s3c240x_pwm_r p.1 3, p.2)) = some (0x1234, 1000, []) ∧
    (s3c240x_pwm_w example_clkpow (example_pwm 0x0f0f 0x3 0) 3 0xff00 0x0ff0).map
      (fun p => s3c240x_pwm_r p.1 3) = some 3848 := by
  refine ⟨?_, by decide, by decide⟩
  obtain ⟨st', calls, h, _, _, _, hfull⟩ := (C26_plain_bank_write_read example_clkpow
    (example_pwm 0x0f0f 0x3 0) 6 0x1234 0xffffffff (by decide) (by decide)).1
  exact ⟨st', calls, h, hfull⟩

/-- Claim C27 at a failing input: the window of the memory controller,
`0x14000000 .. 0x1400003b`, has 15 words, the array `s3c240x_memcon_regs` has
13; the word offsets 13 and 14 (byte addresses `0x14000034`, `0x14000038`) lie
inside the window and outside the array, so both handlers index past the end of
the array there. Every other window of the map fits its array. -/
theorem C27_memcon_window_exceeds_array :
    memcon_entry ∈ gp32_map ∧
    window_words memcon_entry = 15 ∧ memcon_entry.words = 13 ∧
    window_offset memcon_entry 0x14000034 = 13 ∧
    (∀ regs : Nat → Nat, s3c240x_memcon_r regs (window_offset memcon_entry 0x14000034) = none) ∧
    (∀ (regs : Nat → Nat) (data mem_mask : Nat),
      s3c240x_memcon_w regs (window_offset memcon_entry 0x14000038) data mem_mask = none) ∧
    gp32_map.filter (fun e => decide (e.words < window_words e)) = [memcon_entry] := by
  refine ⟨by decide, by decide, by decide, by decide, fun _ => rfl, fun _ _ _ => rfl, by decide⟩

/-! ## GP32 LCD controller -/

theorem not32_line_counter : not32 0xFFFC0000 = 2 ^ 18 - 1 := by decide

/-- The word returned for `LCDCON1`, in arithmetic form: the low 18 bits of the
stored word plus `2^18` times the line counter. -/
theorem s3c240x_lcd_r_lcdcon1 (st : lcd_state) (screen_vpos : Nat) :
    s3c240x_lcd_r st screen_vpos 0
      = 2 ^ 18 * ((BITS (st.s3c240x_lcd_regs 1) 23 14 + 4294967296 - screen_vpos % 4294967296)
          % 2 ^ 14) + st.s3c240x_lcd_regs 0 % 2 ^ 18 := by
  have hlo : st.s3c240x_lcd_regs 0 % 2 ^ 18 < 2 ^ 18 := Nat.mod_lt _ (Nat.pow_pos (by decide))
  have hsh : ∀ x, wrapU32 (wrapU32 x <<< 18) = 2 ^ 18 * (x % 2 ^ 14) := by
    intro x
    unfold wrapU32
    rw [Nat.shiftLeft_eq]
    have e : (4294967296 : Nat) = 2 ^ 14 * 2 ^ 18 := by decide
    rw [e, Nat.mul_mod_mul_right, Nat.mod_mul_right_mod, Nat.mul_comm]
  simp only [s3c240x_lcd_r, Nat.zero_div, if_true, not32_line_counter,
    Nat.and_pow_two_sub_one_eq_mod, hsh]
  rw [Nat.lor_comm, wrapU32]
  exact (Nat.mul_add_lt_is_or hlo _).symm

/-- Claim C28: for every LCD register state and current scan line `vpos`, a read
of `LCDCON1` returns the low 18 bits of the stored word unchanged, with bits
31..18 replaced by `(lineval - vpos) mod 2^14`, `lineval` being bits 23..14 of
`LCDCON2`; a read of any other offset returns the stored word. The handler does
not change the state. -/
theorem C28_lcd_line_counter_read (st : lcd_state) (screen_vpos offset : Nat) :
    BITS (s3c240x_lcd_r st screen_vpos 0) 17 0 = BITS (st.s3c240x_lcd_regs 0) 17 0 ∧
    ((BITS (s3c240x_lcd_r st screen_vpos 0) 31 18 : Nat) : Int)
      = ((BITS (st.s3c240x_lcd_regs 1) 23 14 : Int) - (screen_vpos : Int)) % 2 ^ 14 ∧
    s3c240x_lcd_r st screen_vpos 0 < 2 ^ 32 ∧
    (offset ≠ 0 → s3c240x_lcd_r st screen_vpos offset = st.s3c240x_lcd_regs offset) := by
  have hr := s3c240x_lcd_r_lcdcon1 st screen_vpos
  have hlo : st.s3c240x_lcd_regs 0 % 2 ^ 18 < 2 ^ 18 := Nat.mod_lt _ (Nat.pow_pos (by decide))
  have hY : (BITS (st.s3c240x_lcd_regs 1) 23 14 + 4294967296 - screen_vpos % 4294967296)
      % 2 ^ 14 < 2 ^ 14 := Nat.mod_lt _ (Nat.pow_pos (by decide))
  have hInt : (((BITS (st.s3c240x_lcd_regs 1) 23 14 + 4294967296 - screen_vpos % 4294967296)
      % 2 ^ 14 : Nat) : Int)
        = ((BITS (st.s3c240x_lcd_regs 1) 23 14 : Int) - (screen_vpos : Int)) % 2 ^ 14 := by
    omega
  generalize (BITS (st.s3c240x_lcd_regs 1) 23 14 + 4294967296 - screen_vpos % 4294967296)
      % 2 ^ 14 = Y at hr hY hInt
  have hdiv : s3c240x_lcd_r st screen_vpos 0 / 2 ^ 18 = Y := by
    rw [hr, Nat.mul_add_div (Nat.pow_pos (by decide)), Nat.div_eq_of_lt hlo, Nat.add_zero]
  have hmod : s3c240x_lcd_r st screen_vpos 0 % 2 ^ 18 = st.s3c240x_lcd_regs 0 % 2 ^ 18 := by
    rw [hr, Nat.mul_add_mod, Nat.mod_mod]
  refine ⟨?_, ?_, ?_, ?_⟩
  · rw [BITS_low, BITS_low]
    exact hmod
  · rw [← hInt]
    congr 1
    have e : BITS (s3c240x_lcd_r st screen_vpos 0) 31 18
        = (s3c240x_lcd_r st screen_vpos 0 / 2 ^ 18) % 2 ^ 14 := by
      unfold BITS
      rw [Nat.shiftRight_eq_div_pow]
      have e1 : (1 <<< (31 - 18 + 1) - 1 : Nat) = 2 ^ 14 - 1 := by decide
      rw [e1, Nat.and_pow_two_sub_one_eq_mod]
    rw [e, hdiv]
    exact Nat.mod_eq_of_lt hY
  · rw [hr]
    have e14 : (2 : Nat) ^ 14 = 16384 := by decide
    have e18 : (2 : Nat) ^ 18 = 262144 := by decide
    have e32 : (2 : Nat) ^ 32 = 4294967296 := by decide
    rw [e14] at hY
    rw [e18] at hlo ⊢
    rw [e32]
    omega
  · intro ho
    simp only [s3c240x_lcd_r, Nat.zero_div, if_neg ho]

/-- For a bit-depth mode without a rendering routine the `switch` does nothing. -/
theorem lcd_render_switch_unsupported (core : lcd_core) (ram : Int → Nat)
    (s : s3c240x_lcd × (Nat → Nat → Nat))
    (hmode : s.1.bppmode ≠ BPPMODE_TFT_01 ∧ s.1.bppmode ≠ BPPMODE_TFT_04 ∧
      s.1.bppmode ≠ BPPMODE_TFT_08 ∧ s.1.bppmode ≠ BPPMODE_TFT_16) :
    lcd_render_switch core ram s = s := by
  simp only [lcd_render_switch, if_neg hmode.1, if_neg hmode.2.1, if_neg hmode.2.2.1,
    if_neg hmode.2.2.2]

/-- With an unsupported mode, a cursor below the end address and a scan position
other than `(0, 0)`, no number of passes leaves the rendering loop. -/
theorem lcd_render_loop_stuck (core : lcd_core) (ram : Int → Nat)
    (s : s3c240x_lcd × (Nat → Nat → Nat))
    (hmode : s.1.bppmode ≠ BPPMODE_TFT_01 ∧ s.1.bppmode ≠ BPPMODE_TFT_04 ∧
      s.1.bppmode ≠ BPPMODE_TFT_08 ∧ s.1.bppmode ≠ BPPMODE_TFT_16)
    (hcur : s.1.vramaddr_cur < s.1.vramaddr_max) (hpos : ¬ (s.1.vpos = 0 ∧ s.1.hpos = 0)) :
    ∀ fuel, lcd_render_loop core ram fuel s = none := by
  intro fuel
  induction fuel with
  | zero => simp only [lcd_render_loop, if_pos hcur]
  | succ fuel ih =>
    rw [lcd_render_loop]
    simp only [if_pos hcur, lcd_render_switch_unsupported core ram s hmode, if_neg hpos, ih]

/-- With an unsupported mode the rendering loop is left after at most one pass,
with nothing changed, when the window is empty or the scan position is
`(0, 0)`. -/
theorem lcd_render_loop_skip (core : lcd_core) (ram : Int → Nat)
    (s : s3c240x_lcd × (Nat → Nat → Nat))
    (hmode : s.1.bppmode ≠ BPPMODE_TFT_01 ∧ s.1.bppmode ≠ BPPMODE_TFT_04 ∧
      s.1.bppmode ≠ BPPMODE_TFT_08 ∧ s.1.bppmode ≠ BPPMODE_TFT_16)
    (hleft : (s.1.vpos = 0 ∧ s.1.hpos = 0) ∨ s.1.vramaddr_max ≤ s.1.vramaddr_cur)
    (fuel : Nat) (hfuel : 1 ≤ fuel) :
    lcd_render_loop core ram fuel s = some s := by
  obtain ⟨f, rfl⟩ : ∃ f, fuel = f + 1 := ⟨fuel - 1, by omega⟩
  rw [lcd_render_loop]
  by_cases hcur : s.1.vramaddr_cur < s.1.vramaddr_max
  · have hpos : s.1.vpos = 0 ∧ s.1.hpos = 0 := by
      rcases hleft with h | h
      · exact h
      · omega
    simp only [if_pos hcur, lcd_render_switch_unsupported core ram s hmode, if_pos hpos]
  · simp only [if_neg hcur]

theorem lcd_reload_check_frame (st : lcd_state) (v h : Nat) :
    (lcd_reload_check st v h).bppmode = st.lcd.bppmode ∧
    (lcd_reload_check st v h).vpos = v ∧ (lcd_reload_check st v h).hpos = h := by
  unfold lcd_reload_check
  simp only []
  split_ifs <;> exact ⟨rfl, rfl, rfl⟩

/-- Claim C29 at a failing input: the sample state with the mode `0x09` (2 bpp,
which has a `#define` but no rendering routine), the DMA read cursor
`0x0C000000` below the end address `0x0C000010` and the scan position `(1, 0)`.
The `default` case of the `switch` leaves the cursor where it is and the exit
test of the loop holds only at the scan position `(0, 0)`, so the loop condition
`vramaddr_cur < vramaddr_max` never changes: the callback returns for no number
of loop passes. -/
theorem C29_unsupported_mode_never_returns :
    (example_lcd 0x19 0x09 0x0C000000).lcd.bppmode = BPPMODE_TFT_02 ∧
    (example_lcd 0x19 0x09 0x0C000000).lcd.vramaddr_cur = 0x0C000000 ∧
    (example_lcd 0x19 0x09 0x0C000000).lcd.vramaddr_max = 0x0C000010 ∧
    (¬ ∃ fuel, (s3c240x_lcd_timer_exp example_lcd_core example_ram fuel
        (example_lcd 0x19 0x09 0x0C000000) 1 0).isSome = true) ∧
    (∀ fuel, s3c240x_lcd_timer_exp example_lcd_core example_ram fuel
        (example_lcd 0x19 0x09 0x0C000000) 1 0 = none) := by
  have hnone : ∀ fuel, s3c240x_lcd_timer_exp example_lcd_core example_ram fuel
      (example_lcd 0x19 0x09 0x0C000000) 1 0 = none := by
    intro fuel
    have hstuck := lcd_render_loop_stuck example_lcd_core example_ram
      (lcd_reload_check (example_lcd 0x19 0x09 0x0C000000) 1 0,
        (example_lcd 0x19 0x09 0x0C000000).tmpbitmap)
      (by decide) (by decide) (by decide) fuel
    simp only [s3c240x_lcd_timer_exp, hstuck]
  refine ⟨rfl, rfl, rfl, ?_, hnone⟩
  rintro ⟨fuel, h⟩
  have hstuck := lcd_render_loop_stuck example_lcd_core example_ram
    (lcd_reload_check (example_lcd 0x19 0x09 0x0C000000) 1 0,
      (example_lcd 0x19 0x09 0x0C000000).tmpbitmap)
    (by decide) (by decide) (by decide) fuel
  simp only [s3c240x_lcd_timer_exp, hstuck] at h
  exact absurd h (by decide)

/-- Where the callback does skip an unsupported mode: for every LCD state whose
bit-depth mode is none of `0x08`, `0x0A`, `0x0B`, `0x0C` and every scan position
such that the scan position is `(0, 0)` or the DMA window is empty after the
reload check, the callback returns (one loop pass suffices) and renders
nothing: the bitmap is unchanged; the DMA read cursor is unchanged if it was
below the end address at entry, and otherwise it is the reloaded window start
`LCDSADDR1 << 1`; the timer is re-armed for the scan position. -/
theorem s3c240x_lcd_timer_exp_skip (core : lcd_core) (ram : Int → Nat) (fuel : Nat)
    (hfuel : 1 ≤ fuel) (st : lcd_state) (screen_vpos screen_hpos : Nat)
    (hmode : st.lcd.bppmode ≠ BPPMODE_TFT_01 ∧ st.lcd.bppmode ≠ BPPMODE_TFT_04 ∧
      st.lcd.bppmode ≠ BPPMODE_TFT_08 ∧ st.lcd.bppmode ≠ BPPMODE_TFT_16)
    (hleft : (screen_vpos = 0 ∧ screen_hpos = 0) ∨
      (lcd_reload_check st screen_vpos screen_hpos).vramaddr_max
        ≤ (lcd_reload_check st screen_vpos screen_hpos).vramaddr_cur) :
    ∃ st', s3c240x_lcd_timer_exp core ram fuel st screen_vpos screen_hpos = some st' ∧
      st'.tmpbitmap = st.tmpbitmap ∧
      st'.s3c240x_lcd_regs = st.s3c240x_lcd_regs ∧
      (st.lcd.vramaddr_cur < st.lcd.vramaddr_max →
        st'.lcd.vramaddr_cur = st.lcd.vramaddr_cur) ∧
      (st.lcd.vramaddr_max ≤ st.lcd.vramaddr_cur →
        st'.lcd.vramaddr_cur = wrapU32 (st.s3c240x_lcd_regs 5 <<< 1)) ∧
      st'.lcd.vpos = screen_vpos ∧ st'.lcd.hpos = screen_hpos ∧
      st'.s3c240x_lcd_timer
        = timer_adjust_oneshot (attotime.until_pos screen_vpos screen_hpos) 0 := by
  obtain ⟨hb, hv, hh⟩ := lcd_reload_check_frame st screen_vpos screen_hpos
  have hloop := lcd_render_loop_skip core ram
    (lcd_reload_check st screen_vpos screen_hpos, st.tmpbitmap)
    (by simpa only [hb] using hmode)
    (by
      rcases hleft with h | h
      · exact Or.inl ⟨by rw [hv]; exact h.1, by rw [hh]; exact h.2⟩
      · exact Or.inr h)
    fuel hfuel
  refine ⟨{ st with
      lcd := lcd_reload_check st screen_vpos screen_hpos
      tmpbitmap := st.tmpbitmap
      s3c240x_lcd_timer := timer_adjust_oneshot (attotime.until_pos
        (lcd_reload_check st screen_vpos screen_hpos).vpos
        (lcd_reload_check st screen_vpos screen_hpos).hpos) 0 },
    by simp only [s3c240x_lcd_timer_exp, hloop], rfl, rfl, ?_, ?_, hv, hh, ?_⟩
  · intro hlt
    show (lcd_reload_check st screen_vpos screen_hpos).vramaddr_cur = _
    unfold lcd_reload_check
    simp only []
    rw [if_neg (by simpa using hlt)]
  · intro hge
    show (lcd_reload_check st screen_vpos screen_hpos).vramaddr_cur = _
    unfold lcd_reload_check
    simp only []
    rw [if_pos (by simpa using hge)]
    rfl
  · show timer_adjust_oneshot (attotime.until_pos
      (lcd_reload_check st screen_vpos screen_hpos).vpos
      (lcd_reload_check st screen_vpos screen_hpos).hpos) 0 = _
    rw [hv, hh]

/-- An instance of the skip: the sample state in the 2 bpp mode at the scan
position `(0, 0)`: the callback returns with the blank bitmap and the cursor
`0x0C000000` it had at entry. -/
theorem s3c240x_lcd_timer_exp_skip_example :
    (∃ st', s3c240x_lcd_timer_exp example_lcd_core example_ram 1
        (example_lcd 0x19 0x09 0x0C000000) 0 0 = some st' ∧
      st'.tmpbitmap = (example_lcd 0x19 0x09 0x0C000000).tmpbitmap) ∧
    (s3c240x_lcd_timer_exp example_lcd_core example_ram 1
        (example_lcd 0x19 0x09 0x0C000000) 0 0).map
      (fun s => (s.lcd.vramaddr_cur, (List.range 4).map (fun x => s.tmpbitmap 0 x)))
      = some (0x0C000000, [0, 0, 0, 0]) := by
  refine ⟨?_, by decide⟩
  obtain ⟨st', h, hb, _⟩ := s3c240x_lcd_timer_exp_skip example_lcd_core example_ram 1
    (by decide) (example_lcd 0x19 0x09 0x0C000000) 0 0 (by decide) (Or.inl ⟨rfl, rfl⟩)
  exact ⟨st', h, hb⟩

/-! ## Edge detection in the control-register writes -/

/-- The buffer after `accumulate` when it holds at least as many entries as
there are samples: the first entries are the wrapped sums, the others are the
old ones. -/
theorem accumulate_eq : ∀ (bs ss : List Int), ss.length ≤ bs.length →
    accumulate bs ss
      = List.zipWith (fun b s => wrapS 32 (b + s)) bs ss ++ bs.drop ss.length
  | [], [], _ => rfl
  | _ :: _, [], _ => rfl
  | [], _ :: _, h => by simp at h
  | b :: bs, s :: ss, h => by
    have h2 : ss.length ≤ bs.length := by simpa using h
    simp only [accumulate, List.zipWith_cons_cons, List.length_cons, List.drop_succ_cons,
      List.cons_append, accumulate_eq bs ss h2]

namespace adpcm_stateCopy

/-- Claim C31: after a first call of `compute_tables` the flag
`s_tables_computed` is set, and a second call (with any `pow`) returns the
tables exactly as the first call left them: every entry of `s_diff_lookup` and
the flag are unchanged, the second call taking the early return without a
table write. -/
theorem C31_compute_tables_second_call (pw pw2 : Nat → ℚ) (T : adpcm_tables) :
    (compute_tables pw T).s_tables_computed = true ∧
    compute_tables pw2 (compute_tables pw T) = compute_tables pw T ∧
    (∀ i, (compute_tables pw2 (compute_tables pw T)).s_diff_lookup i
      = (compute_tables pw T).s_diff_lookup i) := by
  have h1 : (compute_tables pw T).s_tables_computed = true := by
    unfold compute_tables
    by_cases h : T.s_tables_computed = true
    · rw [if_pos h]; exact h
    · rw [if_neg h]
  have h2 : compute_tables pw2 (compute_tables pw T) = compute_tables pw T := by
    generalize compute_tables pw T = U at h1
    unfold compute_tables
    rw [if_pos h1]
  exact ⟨h1, h2, fun i => by rw [h2]⟩

end adpcm_stateCopy

namespace okim_voice

/-- Claim C36: for a playing voice with cursor `k` below its count and a
request of `n` samples (any `n`, so also every `n ≥ 1`) into a buffer of at
least `n` entries, one
`generate_adpcm` call produces exactly `min(n, count - k)` samples, adds them to
the first buffer positions and leaves the other positions as they were; the
count is kept; a looping voice stays playing with its cursor at 0 when the
count was reached and at `k + n` otherwise. -/
theorem C36_samples_added_per_call (T : adpcm_tables) (direct : Nat → Nat)
    (v : okim_voice) (buffer : List Int) (n : Nat)
    (hp : v.m_playing = true) (hk : v.m_sample < v.m_count)
    (hc : v.m_count < 4294967296) (hb : n ≤ buffer.length) :
    (generate_adpcm_samples T direct v n).2.length = min n (v.m_count - v.m_sample) ∧
    (generate_adpcm T direct v buffer n).2
      = List.zipWith (fun b s => wrapS 32 (b + s)) buffer
          (generate_adpcm_samples T direct v n).2
        ++ buffer.drop (min n (v.m_count - v.m_sample)) ∧
    (generate_adpcm T direct v buffer n).2.length = buffer.length ∧
    (generate_adpcm T direct v buffer n).2.drop (min n (v.m_count - v.m_sample))
      = buffer.drop (min n (v.m_count - v.m_sample)) ∧
    (generate_adpcm T direct v buffer n).1.m_count = v.m_count ∧
    (v.m_looping = true →
      (generate_adpcm T direct v buffer n).1.m_playing = true ∧
      (generate_adpcm T direct v buffer n).1.m_sample
        = (if n < v.m_count - v.m_sample then v.m_sample + n else 0)) := by
  have hs : generate_adpcm_samples T direct v n = generate_loop T direct v n := by
    simp [generate_adpcm_samples, hp]
  have hlen : (generate_loop T direct v n).2.length = min n (v.m_count - v.m_sample) := by
    cases hl : v.m_looping with
    | false => exact (generate_loop_nonloop T direct n v hp hl hk hc).1
    | true => exact (generate_loop_looping T direct n v hp hl hk hc).1
  have hcount : (generate_loop T direct v n).1.m_count = v.m_count := by
    cases hl : v.m_looping with
    | false => exact (generate_loop_nonloop T direct n v hp hl hk hc).2.2.1
    | true => exact (generate_loop_looping T direct n v hp hl hk hc).2.2.2.1
  have hle : (generate_loop T direct v n).2.length ≤ buffer.length := by
    rw [hlen]; omega
  have hacc := accumulate_eq buffer (generate_loop T direct v n).2 hle
  rw [hlen] at hacc
  have hzl : (List.zipWith (fun b s => wrapS 32 (b + s)) buffer
      (generate_loop T direct v n).2).length = min n (v.m_count - v.m_sample) := by
    rw [List.length_zipWith, hlen]; omega
  simp only [generate_adpcm, hs]
  refine ⟨hlen, hacc, ?_, ?_, hcount, ?_⟩
  · rw [hacc, List.length_append, hzl, List.length_drop]; omega
  · rw [hacc, List.drop_append_of_le_length (by rw [hzl]), List.drop_of_length_le (by rw [hzl]),
      List.nil_append]
  · intro hl
    have h := generate_loop_looping T direct n v hp hl hk hc
    exact ⟨h.2.1, h.2.2.2.2.2⟩

/-- Witness for C36: the looping example voice at cursor 10 of 12, asked for 5
samples into a six-entry buffer, produces 2 samples, leaves the last four
entries as they were and ends with its cursor at 0, still playing. -/
theorem C36_samples_added_per_call_witness :
    (generate_adpcm_samples example_tables example_rom (example_voice 10 true) 5).2.length = 2 ∧
    (generate_adpcm example_tables example_rom (example_voice 10 true)
        [10, 20, 30, 40, 50, 60] 5).2.drop 2 = [30, 40, 50, 60] ∧
    (generate_adpcm example_tables example_rom (example_voice 10 true)
        [10, 20, 30, 40, 50, 60] 5).1.m_sample = 0 ∧
    (generate_adpcm example_tables example_rom (example_voice 10 true)
        [10, 20, 30, 40, 50, 60] 5).1.m_playing = true :=
  have h := C36_samples_added_per_call example_tables example_rom (example_voice 10 true)
    [10, 20, 30, 40, 50, 60] 5 rfl (by decide) (by decide) (by decide)
  ⟨h.1, h.2.2.2.1, (h.2.2.2.2.2 rfl).2, (h.2.2.2.2.2 rfl).1⟩

end okim_voice

/-! ## Draw calls per tile, decoded priority and zoom -/

/-- A list of tiles with four calls each holds four times as many calls. -/
theorem length_flatMap_four {α β : Type} (f : α → List β) :
    ∀ l : List α, (∀ t ∈ l, (f t).length = 4) → (l.flatMap f).length = 4 * l.length
  | [], _ => rfl
  | a :: l, h => by
    have h1 := h a (List.mem_cons_self a l)
    have h2 := length_flatMap_four f l (fun t ht => h t (List.mem_cons_of_mem a ht))
    rw [List.flatMap_cons, List.length_append, h1, h2, List.length_cons]
    omega

namespace vsystem_spr_device

/-- Claim C32: for a sprite record with sizes in 0..7 (map pointer at least 64
below `2^32`), in priority-draw mode and in plain mode alike,
`common_sprite_drawgfx` issues for every tile exactly four draw calls: the
first at the tile's computed position `(x, y)` and the others equal to it in
every argument (tile number, colour, flip flags, scale, mask) except the
position, which is `(x-512, y)`, `(x, y-512)` and `(x-512, y-512)`; a call takes
a priority mask exactly in priority-draw mode; the sprite has
`(xsize+1)*(ysize+1)` tiles and issues `4*(xsize+1)*(ysize+1)` draw calls. -/
theorem C32_four_draw_calls_per_tile (fuel : Nat) (g : Int) (dev : vsystem_spr_device)
    (cx cy : Nat) (hx : dev.curr_sprite.xsize = (cx : Int))
    (hy : dev.curr_sprite.ysize = (cy : Int)) (hcx : cx ≤ 7) (hcy : cy ≤ 7)
    (hfuel : 8 ≤ fuel) (hmap : dev.curr_sprite.map + 64 < 4294967296) :
    ∃ r, common_sprite_drawgfx fuel g dev = some r ∧
      (∀ t ∈ r.2, ∃ c : tile_draw,
        t.calls = [c, { c with sx := c.sx - 512 }, { c with sy := c.sy - 512 },
                   { c with sx := c.sx - 512, sy := c.sy - 512 }] ∧
        c.sx = dev.curr_sprite.ox + dev.m_xoffs
                + (t.xcnt * (32 - dev.curr_sprite.zoomx)).tdiv 2 ∧
        c.sy = dev.curr_sprite.oy + dev.m_yoffs
                + (t.ycnt * (32 - dev.curr_sprite.zoomy)).tdiv 2 ∧
        c.priority_mask.isSome = dev.m_pdraw) ∧
      r.2.length = (cx + 1) * (cy + 1) ∧
      (r.2.flatMap (fun t => t.calls)).length = 4 * ((cx + 1) * (cy + 1)) := by
  have hN := grid_size_le cx cy hcx hcy
  have hrun := common_sprite_drawgfx_run fuel g dev cx cy hx hy (by omega) (by omega)
    (by omega)
  have htile : ∀ t ∈ (List.range ((cy + 1) * (cx + 1))).map
      (nth_tile (prepared dev) g (priority_mask_of dev.m_pdraw dev.curr_sprite.pri) cx),
      ∃ c : tile_draw,
        t.calls = [c, { c with sx := c.sx - 512 }, { c with sy := c.sy - 512 },
                   { c with sx := c.sx - 512, sy := c.sy - 512 }] ∧
        c.sx = dev.curr_sprite.ox + dev.m_xoffs
                + (t.xcnt * (32 - dev.curr_sprite.zoomx)).tdiv 2 ∧
        c.sy = dev.curr_sprite.oy + dev.m_yoffs
                + (t.ycnt * (32 - dev.curr_sprite.zoomy)).tdiv 2 ∧
        c.priority_mask.isSome = dev.m_pdraw := by
    intro t ht
    obtain ⟨k, hk, rfl⟩ := mem_tiles _ _ _ _ _ _ ht
    refine ⟨{ gfxrgn := g
              code := wrapS 32 ((wrapU32 (dev.m_newtilecb
                (wrapU32 (dev.curr_sprite.map + k))) : Nat) : Int)
              color := dev.curr_sprite.color + dev.m_pal_base
              flipx := dev.curr_sprite.flipx
              flipy := dev.curr_sprite.flipy
              sx := dev.curr_sprite.ox + dev.m_xoffs
                + (grid_col (prepared dev) (k % (cx + 1)) * (32 - dev.curr_sprite.zoomx)).tdiv 2
              sy := dev.curr_sprite.oy + dev.m_yoffs
                + (grid_row (prepared dev) (k / (cx + 1)) * (32 - dev.curr_sprite.zoomy)).tdiv 2
              scalex := (32 - dev.curr_sprite.zoomx) * 2048
              scaley := (32 - dev.curr_sprite.zoomy) * 2048
              priority_mask := if dev.m_pdraw = true then
                some (priority_mask_of dev.m_pdraw dev.curr_sprite.pri) else none
              transpen := dev.m_transpen }, ?_, rfl, rfl, ?_⟩
    · simp only [nth_tile, tile_body, tile_calls, with_map, prepared]
      have e1 : ∀ a b : Int, -0x200 + a + b = a + b - 512 := by intro a b; omega
      simp only [e1]
    · show (if dev.m_pdraw = true then
          some (priority_mask_of dev.m_pdraw dev.curr_sprite.pri) else none).isSome = _
      cases dev.m_pdraw <;> rfl
  refine ⟨_, hrun, htile, ?_, ?_⟩
  · simp only [List.length_map, List.length_range]
    exact Nat.mul_comm _ _
  · rw [length_flatMap_four _ _ (fun t ht => by
      obtain ⟨c, hc, _⟩ := htile t ht
      rw [hc]; rfl)]
    simp only [List.length_map, List.length_range]
    rw [Nat.mul_comm (cy + 1)]

/-- Witness for C32: the example sprite of 3 by 2 tiles issues 6 tiles and 24
draw calls, in plain mode. -/
theorem C32_four_draw_calls_per_tile_witness :
    ∃ r, common_sprite_drawgfx 8 2 (example_sprite_dev false) = some r ∧
      r.2.length = 6 ∧ (r.2.flatMap (fun t => t.calls)).length = 24 ∧
      ∀ t ∈ r.2, ∃ c : tile_draw,
        t.calls = [c, { c with sx := c.sx - 512 }, { c with sy := c.sy - 512 },
                   { c with sx := c.sx - 512, sy := c.sy - 512 }] ∧
        c.priority_mask.isSome = false :=
  (C32_four_draw_calls_per_tile 8 2 (example_sprite_dev false) 2 1 rfl rfl (by decide)
    (by decide) (by decide) (by decide)).imp
    (fun _ h => ⟨h.1, h.2.2.1, h.2.2.2, fun t ht =>
      (h.2.1 t ht).imp (fun _ hc => ⟨hc.1, hc.2.2.2⟩)⟩)

/-- Claim C34: for every four-word sprite record, the priority decoded by
`get_sprite_attributes` is the decoded colour shifted right by four bits, the
colour being a 6-bit value and the priority its top two bits. -/
theorem C34_priority_overlaps_colour (dev : vsystem_spr_device) (ram : Nat → Nat)
    (base : Nat) :
    (get_sprite_attributes dev ram base).curr_sprite.pri
      = (get_sprite_attributes dev ram base).curr_sprite.color >>> (4 : Nat) ∧
    (get_sprite_attributes dev ram base).curr_sprite.pri
      = (get_sprite_attributes dev ram base).curr_sprite.color / 16 ∧
    0 ≤ (get_sprite_attributes dev ram base).curr_sprite.color ∧
    (get_sprite_attributes dev ram base).curr_sprite.color < 64 ∧
    0 ≤ (get_sprite_attributes dev ram base).curr_sprite.pri ∧
    (get_sprite_attributes dev ram base).curr_sprite.pri ≤ 3 := by
  have hn : (read_word ram (base + 2) &&& 0x3000) >>> 12
      = ((read_word ram (base + 2) &&& 0x3f00) >>> 8) >>> 4 := by
    have e : (read_word ram (base + 2) &&& 0x3f00) >>> 8 >>> 4
        = (read_word ram (base + 2) &&& 0x3f00) >>> 12 := by
      rw [← Nat.shiftRight_add]
    rw [e, and_shiftRight, and_shiftRight]
    rfl
  have hc : (read_word ram (base + 2) &&& 0x3f00) >>> 8 ≤ 63 := by
    rw [and_shiftRight]; exact Nat.and_le_right
  have hp : (read_word ram (base + 2) &&& 0x3000) >>> 12 ≤ 3 := by
    rw [and_shiftRight]; exact Nat.and_le_right
  have hdiv : (get_sprite_attributes dev ram base).curr_sprite.pri
      = (get_sprite_attributes dev ram base).curr_sprite.color / 16 := by
    show (((read_word ram (base + 2) &&& 0x3000) >>> 12 : Nat) : Int)
      = (((read_word ram (base + 2) &&& 0x3f00) >>> 8 : Nat) : Int) / 16
    rw [hn, Nat.shiftRight_eq_div_pow]
    push_cast
    rfl
  refine ⟨?_, hdiv, ?_, ?_, ?_, ?_⟩
  · rw [Int.shiftRight_eq_div_pow]
    exact hdiv
  · exact Int.ofNat_nonneg _
  · show (((read_word ram (base + 2) &&& 0x3f00) >>> 8 : Nat) : Int) < 64
    omega
  · exact Int.ofNat_nonneg _
  · show (((read_word ram (base + 2) &&& 0x3000) >>> 12 : Nat) : Int) ≤ 3
    omega

/-- Claim C35: for every four-word sprite record decoded by
`get_sprite_attributes`, each stored zoom lies in 0..15; `common_sprite_drawgfx`
(8 iterations per loop suffice) then runs with the effective zooms `32 - raw`,
which lie in 17..32, and every draw call has its scale factors in
`0x8800 .. 0x10000`: no decoded record is drawn with an effective zoom of 16 or
below. -/
theorem C35_decoded_zoom_range (fuel : Nat) (hfuel : 8 ≤ fuel) (g : Int)
    (dev : vsystem_spr_device) (ram : Nat → Nat) (base : Nat) :
    0 ≤ (get_sprite_attributes dev ram base).curr_sprite.zoomx ∧
    (get_sprite_attributes dev ram base).curr_sprite.zoomx ≤ 15 ∧
    0 ≤ (get_sprite_attributes dev ram base).curr_sprite.zoomy ∧
    (get_sprite_attributes dev ram base).curr_sprite.zoomy ≤ 15 ∧
    ∃ r, common_sprite_drawgfx fuel g (get_sprite_attributes dev ram base) = some r ∧
      r.1.curr_sprite.zoomx
        = 32 - (get_sprite_attributes dev ram base).curr_sprite.zoomx ∧
      r.1.curr_sprite.zoomy
        = 32 - (get_sprite_attributes dev ram base).curr_sprite.zoomy ∧
      17 ≤ r.1.curr_sprite.zoomx ∧ r.1.curr_sprite.zoomx ≤ 32 ∧
      17 ≤ r.1.curr_sprite.zoomy ∧ r.1.curr_sprite.zoomy ≤ 32 ∧
      r.2 ≠ [] ∧
      ∀ t ∈ r.2, ∀ c ∈ t.calls,
        0x8800 ≤ c.scalex ∧ c.scalex ≤ 0x10000 ∧
        0x8800 ≤ c.scaley ∧ c.scaley ≤ 0x10000 := by
  have hzx : (read_word ram (base + 1) &&& 0xf000) >>> 12 ≤ 15 := by
    rw [and_shiftRight]; exact Nat.and_le_right
  have hzy : (read_word ram (base + 0) &&& 0xf000) >>> 12 ≤ 15 := by
    rw [and_shiftRight]; exact Nat.and_le_right
  have ex : (get_sprite_attributes dev ram base).curr_sprite.zoomx
      = (((read_word ram (base + 1) &&& 0xf000) >>> 12 : Nat) : Int) := rfl
  have ey : (get_sprite_attributes dev ram base).curr_sprite.zoomy
      = (((read_word ram (base + 0) &&& 0xf000) >>> 12 : Nat) : Int) := rfl
  obtain ⟨cx, cy, hcx, hcy, hx, hy, hm⟩ := decoded_sizes dev ram base
  have hN := grid_size_le cx cy hcx hcy
  have hrun := common_sprite_drawgfx_run fuel g (get_sprite_attributes dev ram base) cx cy
    hx hy (by omega) (by omega) (by omega)
  refine ⟨by omega, by omega, by omega, by omega, _, hrun, rfl, rfl, ?_, ?_, ?_, ?_, ?_, ?_⟩
  · show 17 ≤ 32 - (get_sprite_attributes dev ram base).curr_sprite.zoomx
    omega
  · show 32 - (get_sprite_attributes dev ram base).curr_sprite.zoomx ≤ 32
    omega
  · show 17 ≤ 32 - (get_sprite_attributes dev ram base).curr_sprite.zoomy
    omega
  · show 32 - (get_sprite_attributes dev ram base).curr_sprite.zoomy ≤ 32
    omega
  · intro h
    have hl := congrArg List.length h
    simp only [List.length_map, List.length_range, List.length_nil] at hl
    have : 0 < (cy + 1) * (cx + 1) := Nat.mul_pos (Nat.succ_pos _) (Nat.succ_pos _)
    omega
  · intro t ht c hc
    obtain ⟨k, hk, rfl⟩ := mem_tiles _ _ _ _ _ _ ht
    simp only [nth_tile, tile_body, tile_calls, List.mem_cons, List.mem_singleton,
      List.not_mem_nil, or_false] at hc
    rcases hc with rfl | rfl | rfl | rfl <;>
      (show 0x8800 ≤ (32 - (get_sprite_attributes dev ram base).curr_sprite.zoomx) * 2048 ∧
          (32 - (get_sprite_attributes dev ram base).curr_sprite.zoomx) * 2048 ≤ 0x10000 ∧
          0x8800 ≤ (32 - (get_sprite_attributes dev ram base).curr_sprite.zoomy) * 2048 ∧
          (32 - (get_sprite_attributes dev ram base).curr_sprite.zoomy) * 2048 ≤ 0x10000
       omega)

/-- Witness for C35: the example record has the stored zooms 1 (x) and 0 (y);
it is drawn with the effective zooms 31 and 32. -/
theorem C35_decoded_zoom_range_witness :
    ∃ r, common_sprite_drawgfx 8 2
        (get_sprite_attributes init example_sprite_ram 0) = some r ∧
      r.1.curr_sprite.zoomx = 31 ∧ r.1.curr_sprite.zoomy = 32 :=
  (C35_decoded_zoom_range 8 (by decide) 2 init example_sprite_ram 0).2.2.2.2.imp
    (fun _ h => ⟨h.1, h.2.1.trans (by decide), h.2.2.1.trans (by decide)⟩)

end vsystem_spr_device

/-! ## Byte order of `s3c240x_lcd_dma_read` -/

/-- Four bytes combined with shifts and `|` form the word with these bytes. -/
theorem bytes_or (a b c d : Nat) (hb : b < 256) (hc : c < 256) (hd : d < 256) :
    (a <<< 24) ||| (b <<< 16) ||| (c <<< 8) ||| (d <<< 0) = word_of_bytes a b c d := by
  have h1 : 2 ^ 8 * c + d = 2 ^ 8 * c ||| d := Nat.mul_add_lt_is_or (by omega) c
  have h2 : 2 ^ 16 * b + (2 ^ 8 * c + d) = 2 ^ 16 * b ||| (2 ^ 8 * c + d) :=
    Nat.mul_add_lt_is_or (by omega) b
  have h3 : 2 ^ 24 * a + (2 ^ 16 * b + (2 ^ 8 * c + d))
      = 2 ^ 24 * a ||| (2 ^ 16 * b + (2 ^ 8 * c + d)) :=
    Nat.mul_add_lt_is_or (by omega) a
  rw [Nat.lor_assoc, Nat.lor_assoc, Nat.shiftLeft_eq, Nat.shiftLeft_eq, Nat.shiftLeft_eq,
    Nat.shiftLeft_eq, Nat.mul_comm a, Nat.mul_comm b, Nat.mul_comm c, Nat.pow_zero,
    Nat.mul_one, ← h1, ← h2, ← h3]
  unfold word_of_bytes
  omega

/-- The bytes read and the cursor movement of one pass do not depend on the
swap flags. -/
theorem lcd_dma_read_pair_flags (ram : Int → Nat) (l : s3c240x_lcd) (h b : Nat) :
    lcd_dma_read_pair ram { l with hwswp := h, bswp := b }
      = ({ (lcd_dma_read_pair ram l).1 with hwswp := h, bswp := b },
          (lcd_dma_read_pair ram l).2) := by
  unfold lcd_dma_read_pair
  simp only
  split_ifs <;> rfl

theorem lcd_dma_read_pair_lt (ram : Int → Nat) (l : s3c240x_lcd) :
    (lcd_dma_read_pair ram l).2.1 < 256 ∧ (lcd_dma_read_pair ram l).2.2 < 256 := by
  unfold lcd_dma_read_pair
  simp only
  split_ifs <;> exact ⟨Nat.mod_lt _ (by decide), Nat.mod_lt _ (by decide)⟩

/-- The word returned by `s3c240x_lcd_dma_read` for each setting of the flags,
`d0 .. d3` being the bytes in the order fetched. -/
theorem s3c240x_lcd_dma_read_word (ram : Int → Nat) (l : s3c240x_lcd) (h b : Nat) :
    (s3c240x_lcd_dma_read ram { l with hwswp := h, bswp := b }).2
      = if h = 0 then
          if b = 0 then
            word_of_bytes (lcd_dma_read_pair ram (lcd_dma_read_pair ram l).1).2.2
              (lcd_dma_read_pair ram (lcd_dma_read_pair ram l).1).2.1
              (lcd_dma_read_pair ram l).2.2 (lcd_dma_read_pair ram l).2.1
          else
            word_of_bytes (lcd_dma_read_pair ram l).2.1 (lcd_dma_read_pair ram l).2.2
              (lcd_dma_read_pair ram (lcd_dma_read_pair ram l).1).2.1
              (lcd_dma_read_pair ram (lcd_dma_read_pair ram l).1).2.2
        else
          if b = 0 then
            word_of_bytes (lcd_dma_read_pair ram l).2.2 (lcd_dma_read_pair ram l).2.1
              (lcd_dma_read_pair ram (lcd_dma_read_pair ram l).1).2.2
              (lcd_dma_read_pair ram (lcd_dma_read_pair ram l).1).2.1
          else
            word_of_bytes (lcd_dma_read_pair ram (lcd_dma_read_pair ram l).1).2.1
              (lcd_dma_read_pair ram (lcd_dma_read_pair ram l).1).2.2
              (lcd_dma_read_pair ram l).2.1 (lcd_dma_read_pair ram l).2.2 := by
  obtain ⟨h0, h1⟩ := lcd_dma_read_pair_lt ram l
  obtain ⟨h2, h3⟩ := lcd_dma_read_pair_lt ram (lcd_dma_read_pair ram l).1
  unfold s3c240x_lcd_dma_read
  simp only [lcd_dma_read_pair_flags]
  by_cases hh : h = 0
  · by_cases hb : b = 0
    · simp only [hh, hb, if_true]
      exact bytes_or _ _ _ _ h2 h1 h0
    · simp only [hh, hb, if_true, if_false]
      exact bytes_or _ _ _ _ h1 h2 h3
  · by_cases hb : b = 0
    · simp only [hh, hb, if_true, if_false]
      exact bytes_or _ _ _ _ h0 h3 h2
    · simp only [hh, hb, if_false]
      exact bytes_or _ _ _ _ h3 h0 h1

theorem byte_reverse32_word (a b c d : Nat) (ha : a < 256) (hb : b < 256) (hc : c < 256)
    (hd : d < 256) : byte_reverse32 (word_of_bytes a b c d) = word_of_bytes d c b a := by
  unfold byte_reverse32 word_of_bytes
  omega

theorem halves_exchange32_word (a b c d : Nat) (ha : a < 256) (hb : b < 256)
    (hc : c < 256) (hd : d < 256) :
    halves_exchange32 (word_of_bytes a b c d) = word_of_bytes c d a b := by
  unfold halves_exchange32 word_of_bytes
  omega

/-- Claim C33: for one `s3c240x_lcd_dma_read` call fetching the bytes
`d0, d1, d2, d3` in this order: they are bytes (below 256); with `hwswp = 0` and
`bswp = 0` the returned word is `d3:d2:d1:d0`, most significant byte first;
the word returned with `bswp` set is the `bswp = 0` word with its four bytes
reversed, for either setting of `hwswp`; the word returned with `hwswp` set is
the `hwswp = 0` word with its 16-bit halves exchanged, for either setting of
`bswp`; and when the page does not end between the two byte pairs the four
bytes are those at four consecutive framebuffer addresses. -/
theorem C33_lcd_dma_read_byte_order (ram : Int → Nat) (l : s3c240x_lcd) (h b : Nat) :
    (s3c240x_lcd_dma_read ram { l with hwswp := 0, bswp := 0 }).2
      = (lcd_dma_read_pair ram (lcd_dma_read_pair ram l).1).2.2 * 16777216
        + (lcd_dma_read_pair ram (lcd_dma_read_pair ram l).1).2.1 * 65536
        + (lcd_dma_read_pair ram l).2.2 * 256 + (lcd_dma_read_pair ram l).2.1 ∧
    (s3c240x_lcd_dma_read ram { l with hwswp := h, bswp := b + 1 }).2
      = byte_reverse32 (s3c240x_lcd_dma_read ram { l with hwswp := h, bswp := 0 }).2 ∧
    (s3c240x_lcd_dma_read ram { l with hwswp := h + 1, bswp := b }).2
      = halves_exchange32 (s3c240x_lcd_dma_read ram { l with hwswp := 0, bswp := b }).2 ∧
    (s3c240x_lcd_dma_read ram { l with hwswp := h, bswp := b }).2 < 4294967296 ∧
    (l.pagewidth_cur + 1 < l.pagewidth_max → l.vramaddr_cur + 2 < 4294967296 →
      (lcd_dma_read_pair ram l).2.1 = ram ((l.vramaddr_cur : Int) - 0x0C000000) % 256 ∧
      (lcd_dma_read_pair ram l).2.2 = ram ((l.vramaddr_cur : Int) - 0x0C000000 + 1) % 256 ∧
      (lcd_dma_read_pair ram (lcd_dma_read_pair ram l).1).2.1
        = ram ((l.vramaddr_cur : Int) - 0x0C000000 + 2) % 256 ∧
      (lcd_dma_read_pair ram (lcd_dma_read_pair ram l).1).2.2
        = ram ((l.vramaddr_cur : Int) - 0x0C000000 + 3) % 256) := by
  obtain ⟨h0, h1⟩ := lcd_dma_read_pair_lt ram l
  obtain ⟨h2, h3⟩ := lcd_dma_read_pair_lt ram (lcd_dma_read_pair ram l).1
  refine ⟨?_, ?_, ?_, ?_, ?_⟩
  · rw [s3c240x_lcd_dma_read_word]
    simp only [if_true]
    rfl
  · rw [s3c240x_lcd_dma_read_word, s3c240x_lcd_dma_read_word]
    by_cases hh : h = 0
    · simp only [hh, if_true, Nat.succ_ne_zero, if_false]
      rw [byte_reverse32_word _ _ _ _ h3 h2 h1 h0]
    · simp only [hh, if_true, Nat.succ_ne_zero, if_false]
      rw [byte_reverse32_word _ _ _ _ h1 h0 h3 h2]
  · rw [s3c240x_lcd_dma_read_word, s3c240x_lcd_dma_read_word]
    by_cases hb : b = 0
    · simp only [hb, if_true, Nat.succ_ne_zero, if_false]
      rw [halves_exchange32_word _ _ _ _ h3 h2 h1 h0]
    · simp only [hb, if_true, Nat.succ_ne_zero, if_false]
      rw [halves_exchange32_word _ _ _ _ h0 h1 h2 h3]
  · rw [s3c240x_lcd_dma_read_word]
    unfold word_of_bytes
    split_ifs <;> omega
  · intro hpw hcur
    have hw1 : ¬ wrapU32 (l.pagewidth_cur + 1) ≥ l.pagewidth_max := by
      have : wrapU32 (l.pagewidth_cur + 1) ≤ l.pagewidth_cur + 1 := Nat.mod_le _ _
      omega
    have hw2 : wrapU32 (l.vramaddr_cur + 2) = l.vramaddr_cur + 2 := by
      unfold wrapU32
      exact Nat.mod_eq_of_lt hcur
    have e1 : lcd_dma_read_pair ram l
        = ({ l with vramaddr_cur := l.vramaddr_cur + 2,
                    pagewidth_cur := wrapU32 (l.pagewidth_cur + 1) },
            ram ((l.vramaddr_cur : Int) - 0x0C000000) % 256,
            ram ((l.vramaddr_cur : Int) - 0x0C000000 + 1) % 256) := by
      unfold lcd_dma_read_pair
      simp only [if_neg hw1, hw2]
    have e2 : (((l.vramaddr_cur + 2 : Nat) : Int) - 0x0C000000)
        = (l.vramaddr_cur : Int) - 0x0C000000 + 2 := by
      push_cast; ring
    have e3 : (l.vramaddr_cur : Int) - 0x0C000000 + 2 + 1
        = (l.vramaddr_cur : Int) - 0x0C000000 + 3 := by ring
    rw [e1]
    refine ⟨rfl, rfl, ?_, ?_⟩
    · unfold lcd_dma_read_pair
      simp only [e2]
      split_ifs <;> rfl
    · unfold lcd_dma_read_pair
      simp only [e2, e3]
      split_ifs <;> rfl

/-- Witness for C33: on the sample RAM (bytes 0, 1, 2, 3 at the start of the
frame buffer) the four settings of the flags give the words `0x03020100`,
`0x00010203`, `0x01000302` and `0x02030001`. -/
theorem C33_lcd_dma_read_byte_order_witness :
    (s3c240x_lcd_dma_read example_ram
      { (example_lcd 0 0 0x0C000000).lcd with hwswp := 0, bswp := 0 }).2 = 0x03020100 ∧
    (s3c240x_lcd_dma_read example_ram
      { (example_lcd 0 0 0x0C000000).lcd with hwswp := 0, bswp := 1 }).2 = 0x00010203 ∧
    (s3c240x_lcd_dma_read example_ram
      { (example_lcd 0 0 0x0C000000).lcd with hwswp := 1, bswp := 0 }).2 = 0x01000302 ∧
    (s3c240x_lcd_dma_read example_ram
      { (example_lcd 0 0 0x0C000000).lcd with hwswp := 1, bswp := 1 }).2 = 0x02030001 ∧
    (lcd_dma_read_pair example_ram (lcd_dma_read_pair example_ram
      (example_lcd 0 0 0x0C000000).lcd).1).2.2 = example_ram 3 % 256 :=
  have h00 := C33_lcd_dma_read_byte_order example_ram (example_lcd 0 0 0x0C000000).lcd 0 0
  have h11 := C33_lcd_dma_read_byte_order example_ram (example_lcd 0 0 0x0C000000).lcd 1 0
  ⟨h00.1.trans (by decide), h00.2.1.trans (by decide), h00.2.2.1.trans (by decide),
    h11.2.1.trans (by decide), ((h00.2.2.2.2 (by decide) (by decide)).2.2.2).trans (by decide)⟩

/-! ## Single-mode and whole-mode DMA service -/

theorem BITS_or_high (x m n b : Nat) (h : m < b) (hn : n ≤ m) :
    BITS (x ||| (1 <<< b)) m n = BITS x m n := by
  unfold BITS
  apply Nat.eq_of_testBit_eq
  intro i
  simp only [Nat.testBit_and, Nat.testBit_shiftRight, Nat.testBit_or, Nat.one_shiftLeft,
    Nat.testBit_two_pow_sub_one, Nat.testBit_two_pow]
  by_cases hi : i < m - n + 1
  · have : ¬ b = n + i := by omega
    simp [this]
  · simp [hi]

theorem BIT_or_other (x n b : Nat) (h : n ≠ b) : BIT (x ||| (1 <<< b)) n = BIT x n := by
  unfold BIT
  apply Nat.eq_of_testBit_eq
  intro i
  simp only [Nat.testBit_and, Nat.testBit_shiftRight, Nat.testBit_or, Nat.one_shiftLeft,
    Nat.testBit_two_pow]
  by_cases hi : i = 0
  · subst hi
    have : ¬ b = n := fun e => h e.symm
    simp [this]
  · have : (1 : Nat).testBit i = false := by
      rw [show (1 : Nat) = 2 ^ 0 by rfl, Nat.testBit_two_pow]
      simp; omega
    simp [this]

theorem BIT_or_same (x b : Nat) : BIT (x ||| (1 <<< b)) b = 1 := by
  unfold BIT
  apply Nat.eq_of_testBit_eq
  intro i
  simp only [Nat.testBit_and, Nat.testBit_shiftRight, Nat.testBit_or, Nat.one_shiftLeft,
    Nat.testBit_two_pow]
  by_cases hi : i = 0
  · subst hi
    simp
  · have : (1 : Nat).testBit i = false := by
      rw [show (1 : Nat) = 2 ^ 0 by rfl, Nat.testBit_two_pow]
      simp; omega
    simp [this]

/-- A merged low field does not reach the bits kept by the mask. -/
theorem merge_absorb (x y c k : Nat) (hy : y < 2 ^ k) :
    ((x &&& (c <<< k)) ||| y) &&& (c <<< k) = x &&& (c <<< k) := by
  apply Nat.eq_of_testBit_eq
  intro i
  simp only [Nat.testBit_and, Nat.testBit_or, Nat.testBit_shiftLeft]
  by_cases hi : k ≤ i
  · have : y.testBit i = false :=
      Nat.testBit_lt_two_pow (lt_of_lt_of_le hy (Nat.pow_le_pow_right (by decide) hi))
    simp [this]
  · simp [hi]

theorem merge_absorb_addr (x y : Nat) (hy : y < 2 ^ 29) :
    ((x &&& not32 0x1FFFFFFF) ||| y) &&& not32 0x1FFFFFFF = x &&& not32 0x1FFFFFFF := by
  rw [not32_src_mask]
  exact merge_absorb x y 7 29 hy

theorem merge_absorb_tc (x y : Nat) (hy : y < 2 ^ 20) :
    ((x &&& not32 0x000FFFFF) ||| y) &&& not32 0x000FFFFF = x &&& not32 0x000FFFFF := by
  rw [not32_tc_mask]
  exact merge_absorb x y 4095 20 hy

/-- The register updates after the loop overwrite those of an earlier pass whose
values lay inside their fields. -/
theorem dma_update_regs_absorb (regs : Nat → Nat) (dma a b c a2 b2 c2 : Nat)
    (ha : a < 2 ^ 29) (hb : b < 2 ^ 29) (hc : c < 2 ^ 20) :
    dma_update_regs (dma_update_regs regs dma a b c) dma a2 b2 c2
      = dma_update_regs regs dma a2 b2 c2 := by
  funext j
  simp only [dma_update_regs]
  generalize dma <<< 3 = base
  by_cases h3 : j = base + 3
  · subst h3
    simp only [arraySet_same, arraySet_other _ _ _ _ (show base + 3 ≠ base + 4 by omega),
      arraySet_other _ _ _ _ (show base + 3 ≠ base + 5 by omega), merge_absorb_tc _ _ hc]
  · by_cases h4 : j = base + 4
    · subst h4
      simp only [arraySet_same, arraySet_other _ _ _ _ (show base + 4 ≠ base + 3 by omega),
        arraySet_other _ _ _ _ (show base + 4 ≠ base + 5 by omega), merge_absorb_addr _ _ ha]
    · by_cases h5 : j = base + 5
      · subst h5
        simp only [arraySet_same, arraySet_other _ _ _ _ (show base + 5 ≠ base + 3 by omega),
          arraySet_other _ _ _ _ (show base + 5 ≠ base + 4 by omega), merge_absorb_addr _ _ hb]
      · simp only [arraySet_other _ _ _ _ h3, arraySet_other _ _ _ _ h4,
          arraySet_other _ _ _ _ h5]

/-- Setting the service-mode bit commutes with the register updates after the
loop. -/
theorem dma_update_regs_set_servmode (regs : Nat → Nat) (dma a b c : Nat) :
    dma_update_regs (arraySet regs ((dma <<< 3) + 2) (regs ((dma <<< 3) + 2) ||| (1 <<< 26)))
        dma a b c
      = arraySet (dma_update_regs regs dma a b c) ((dma <<< 3) + 2)
          (dma_update_regs regs dma a b c ((dma <<< 3) + 2) ||| (1 <<< 26)) := by
  funext j
  simp only [dma_update_regs]
  generalize dma <<< 3 = base
  by_cases h3 : j = base + 3
  · subst h3
    simp only [arraySet_same, arraySet_other _ _ _ _ (show base + 3 ≠ base + 4 by omega),
      arraySet_other _ _ _ _ (show base + 3 ≠ base + 5 by omega),
      arraySet_other _ _ _ _ (show base + 3 ≠ base + 2 by omega)]
  · by_cases h4 : j = base + 4
    · subst h4
      simp only [arraySet_same, arraySet_other _ _ _ _ (show base + 4 ≠ base + 3 by omega),
        arraySet_other _ _ _ _ (show base + 4 ≠ base + 5 by omega),
        arraySet_other _ _ _ _ (show base + 4 ≠ base + 2 by omega)]
    · by_cases h5 : j = base + 5
      · subst h5
        simp only [arraySet_same, arraySet_other _ _ _ _ (show base + 5 ≠ base + 3 by omega),
          arraySet_other _ _ _ _ (show base + 5 ≠ base + 4 by omega),
          arraySet_other _ _ _ _ (show base + 5 ≠ base + 2 by omega)]
      · by_cases h2 : j = base + 2
        · subst h2
          simp only [arraySet_same, arraySet_other _ _ _ _ (show base + 2 ≠ base + 3 by omega),
            arraySet_other _ _ _ _ (show base + 2 ≠ base + 4 by omega),
            arraySet_other _ _ _ _ (show base + 2 ≠ base + 5 by omega)]
        · simp only [arraySet_other _ _ _ _ h3, arraySet_other _ _ _ _ h4,
            arraySet_other _ _ _ _ h5, arraySet_other _ _ _ _ h2]

theorem s3c240x_dma_trigger_eq_finish {σ : Type} (as : address_space σ) (ch_int : Nat → Nat)
    (fuel : Nat) (st : s3c240x_dma σ) (dma : Nat) :
    s3c240x_dma_trigger as ch_int fuel st dma
      = dma_finish ch_int fuel dma
          { s3c240x_dma_regs := dma_update_regs st.s3c240x_dma_regs dma
              (dma_loop_of as st dma).curr_src (dma_loop_of as st dma).curr_dst
              (dma_loop_of as st dma).curr_tc
            space := (dma_loop_of as st dma).space
            irq := st.irq }
          (dma_loop_of as st dma).curr_tc (dma_loop_of as st dma).calls := rfl

theorem dma_finish_prepend {σ : Type} (ch_int : Nat → Nat) (fuel dma : Nat)
    (st1 : s3c240x_dma σ) (tc : Nat) (pre calls : List gp32_call) :
    dma_finish ch_int fuel dma st1 tc (pre ++ calls)
      = (dma_finish ch_int fuel dma st1 tc calls).map (fun r => (r.1, pre ++ r.2)) := by
  unfold dma_finish
  by_cases h0 : tc = 0
  · simp only [if_pos h0]
    by_cases h28 : BIT ((dma_completion st1 dma).s3c240x_dma_regs ((dma <<< 3) + 2)) 28 ≠ 0
    · simp only [if_pos h28]
      cases s3c240x_request_irq fuel (dma_completion st1 dma).irq (ch_int dma) with
      | none => rfl
      | some irq1 => simp only [Option.map_some', List.append_assoc]
    · simp only [if_neg h28, Option.map_some']
  · simp only [if_neg h0, Option.map_some']

/-- The reload of a channel commutes with setting its service-mode bit. -/
theorem s3c240x_dma_reload_set_servmode {σ : Type} (st : s3c240x_dma σ) (dma : Nat) :
    s3c240x_dma_reload (dma_set_servmode st dma) dma
      = dma_set_servmode (s3c240x_dma_reload st dma) dma := by
  unfold s3c240x_dma_reload dma_set_servmode
  simp only
  generalize dma <<< 3 = base
  congr 1
  funext j
  have e2 : BITS (st.s3c240x_dma_regs (base + 2) ||| 1 <<< 26) 19 0
      = BITS (st.s3c240x_dma_regs (base + 2)) 19 0 := BITS_or_high _ 19 0 26 (by decide) (by decide)
  by_cases h3 : j = base + 3
  · subst h3
    simp only [arraySet_same, arraySet_other _ _ _ _ (show base + 3 ≠ base + 4 by omega),
      arraySet_other _ _ _ _ (show base + 3 ≠ base + 5 by omega),
      arraySet_other _ _ _ _ (show base + 3 ≠ base + 2 by omega), e2]
  · by_cases h4 : j = base + 4
    · subst h4
      simp only [arraySet_same, arraySet_other _ _ _ _ (show base + 4 ≠ base + 3 by omega),
        arraySet_other _ _ _ _ (show base + 4 ≠ base + 5 by omega),
        arraySet_other _ _ _ _ (show base + 4 ≠ base + 2 by omega),
        arraySet_other _ _ _ _ (show base + 0 ≠ base + 3 by omega),
        arraySet_other _ _ _ _ (show base + 0 ≠ base + 2 by omega)]
    · by_cases h5 : j = base + 5
      · subst h5
        simp only [arraySet_same, arraySet_other _ _ _ _ (show base + 5 ≠ base + 3 by omega),
          arraySet_other _ _ _ _ (show base + 5 ≠ base + 4 by omega),
          arraySet_other _ _ _ _ (show base + 5 ≠ base + 2 by omega),
          arraySet_other _ _ _ _ (show base + 1 ≠ base + 3 by omega),
          arraySet_other _ _ _ _ (show base + 1 ≠ base + 4 by omega),
          arraySet_other _ _ _ _ (show base + 1 ≠ base + 2 by omega)]
      · by_cases h2 : j = base + 2
        · subst h2
          simp only [arraySet_same, arraySet_other _ _ _ _ (show base + 2 ≠ base + 3 by omega),
            arraySet_other _ _ _ _ (show base + 2 ≠ base + 4 by omega),
            arraySet_other _ _ _ _ (show base + 2 ≠ base + 5 by omega)]
        · simp only [arraySet_other _ _ _ _ h3, arraySet_other _ _ _ _ h4,
            arraySet_other _ _ _ _ h5, arraySet_other _ _ _ _ h2]

/-- The completion handling commutes with setting the service-mode bit. -/
theorem dma_completion_set_servmode {σ : Type} (st : s3c240x_dma σ) (dma : Nat) :
    dma_completion (dma_set_servmode st dma) dma
      = dma_set_servmode (dma_completion st dma) dma := by
  have e22 : BIT ((dma_set_servmode st dma).s3c240x_dma_regs ((dma <<< 3) + 2)) 22
      = BIT (st.s3c240x_dma_regs ((dma <<< 3) + 2)) 22 := by
    simp only [dma_set_servmode, arraySet_same]
    exact BIT_or_other _ 22 26 (by decide)
  unfold dma_completion
  simp only [e22]
  by_cases hr : BIT (st.s3c240x_dma_regs ((dma <<< 3) + 2)) 22 = 0
  · simp only [if_pos hr]
    exact s3c240x_dma_reload_set_servmode st dma
  · simp only [if_neg hr]
    unfold dma_set_servmode
    simp only
    generalize dma <<< 3 = base
    congr 1
    funext j
    by_cases h6 : j = base + 6
    · subst h6
      simp only [arraySet_same, arraySet_other _ _ _ _ (show base + 6 ≠ base + 2 by omega)]
    · by_cases h2 : j = base + 2
      · subst h2
        simp only [arraySet_same, arraySet_other _ _ _ _ (show base + 2 ≠ base + 6 by omega)]
      · simp only [arraySet_other _ _ _ _ h6, arraySet_other _ _ _ _ h2]

theorem dma_finish_set_servmode {σ : Type} (ch_int : Nat → Nat) (fuel dma : Nat)
    (st1 : s3c240x_dma σ) (tc : Nat) (calls : List gp32_call) :
    dma_finish ch_int fuel dma (dma_set_servmode st1 dma) tc calls
      = (dma_finish ch_int fuel dma st1 tc calls).map
          (fun r => (dma_set_servmode r.1 dma, r.2)) := by
  unfold dma_finish
  by_cases h0 : tc = 0
  · simp only [if_pos h0, dma_completion_set_servmode]
    have e28 : BIT ((dma_set_servmode (dma_completion st1 dma) dma).s3c240x_dma_regs
        ((dma <<< 3) + 2)) 28
        = BIT ((dma_completion st1 dma).s3c240x_dma_regs ((dma <<< 3) + 2)) 28 := by
      simp only [dma_set_servmode, arraySet_same]
      exact BIT_or_other _ 28 26 (by decide)
    have eirq : (dma_set_servmode (dma_completion st1 dma) dma).irq
        = (dma_completion st1 dma).irq := rfl
    simp only [e28, eirq]
    by_cases h28 : BIT ((dma_completion st1 dma).s3c240x_dma_regs ((dma <<< 3) + 2)) 28 ≠ 0
    · simp only [if_pos h28]
      cases s3c240x_request_irq fuel (dma_completion st1 dma).irq (ch_int dma) with
      | none => rfl
      | some irq1 => rfl
    · simp only [if_neg h28, Option.map_some']
  · simp only [if_neg h0, Option.map_some']

/-- The locals read at entry, for the state with the service-mode bit set. -/
theorem dma_set_servmode_locals {σ : Type} (st : s3c240x_dma σ) (dma : Nat) :
    dma_curr_tc (dma_set_servmode st dma) dma = dma_curr_tc st dma ∧
    dma_curr_src (dma_set_servmode st dma) dma = dma_curr_src st dma ∧
    dma_curr_dst (dma_set_servmode st dma) dma = dma_curr_dst st dma ∧
    dma_inc_src (dma_set_servmode st dma) dma = dma_inc_src st dma ∧
    dma_inc_dst (dma_set_servmode st dma) dma = dma_inc_dst st dma ∧
    dma_dsz (dma_set_servmode st dma) dma = dma_dsz st dma ∧
    dma_servmode (dma_set_servmode st dma) dma = 1 := by
  unfold dma_curr_tc dma_curr_src dma_curr_dst dma_inc_src dma_inc_dst dma_dsz dma_servmode
    dma_set_servmode
  generalize dma <<< 3 = base
  simp only [arraySet_same, arraySet_other _ _ _ _ (show base + 3 ≠ base + 2 by omega),
    arraySet_other _ _ _ _ (show base + 4 ≠ base + 2 by omega),
    arraySet_other _ _ _ _ (show base + 5 ≠ base + 2 by omega),
    arraySet_other _ _ _ _ (show base + 0 ≠ base + 2 by omega),
    arraySet_other _ _ _ _ (show base + 1 ≠ base + 2 by omega)]
  exact ⟨trivial, trivial, trivial, trivial, trivial,
    BITS_or_high _ 21 20 26 (by decide) (by decide), BIT_or_same _ 26⟩

theorem dma_update_regs_dcon (regs : Nat → Nat) (dma a b c k : Nat) (h3 : k ≠ 3) (h4 : k ≠ 4)
    (h5 : k ≠ 5) :
    dma_update_regs regs dma a b c ((dma <<< 3) + k) = regs ((dma <<< 3) + k) := by
  simp only [dma_update_regs]
  rw [arraySet_other _ _ _ _ (by omega), arraySet_other _ _ _ _ (by omega),
    arraySet_other _ _ _ _ (by omega)]

/-- The locals read at entry after a pass that left the values `a`, `b`, `c`
in the current-address and count fields. -/
theorem dma_update_regs_locals {σ : Type} (st : s3c240x_dma σ) (dma a b c : Nat) (sp : σ)
    (ha : a < 2 ^ 29) (hb : b < 2 ^ 29) (hc : c < 2 ^ 20) :
    dma_curr_tc { s3c240x_dma_regs := dma_update_regs st.s3c240x_dma_regs dma a b c,
                  space := sp, irq := st.irq } dma = c ∧
    dma_curr_src { s3c240x_dma_regs := dma_update_regs st.s3c240x_dma_regs dma a b c,
                   space := sp, irq := st.irq } dma = a ∧
    dma_curr_dst { s3c240x_dma_regs := dma_update_regs st.s3c240x_dma_regs dma a b c,
                   space := sp, irq := st.irq } dma = b ∧
    dma_inc_src { s3c240x_dma_regs := dma_update_regs st.s3c240x_dma_regs dma a b c,
                  space := sp, irq := st.irq } dma = dma_inc_src st dma ∧
    dma_inc_dst { s3c240x_dma_regs := dma_update_regs st.s3c240x_dma_regs dma a b c,
                  space := sp, irq := st.irq } dma = dma_inc_dst st dma ∧
    dma_dsz { s3c240x_dma_regs := dma_update_regs st.s3c240x_dma_regs dma a b c,
              space := sp, irq := st.irq } dma = dma_dsz st dma ∧
    dma_servmode { s3c240x_dma_regs := dma_update_regs st.s3c240x_dma_regs dma a b c,
                   space := sp, irq := st.irq } dma = dma_servmode st dma := by
  unfold dma_curr_tc dma_curr_src dma_curr_dst dma_inc_src dma_inc_dst dma_dsz dma_servmode
  simp only [dma_update_regs_dcon _ _ _ _ _ 0 (by decide) (by decide) (by decide),
    dma_update_regs_dcon _ _ _ _ _ 1 (by decide) (by decide) (by decide),
    dma_update_regs_dcon _ _ _ _ _ 2 (by decide) (by decide) (by decide)]
  refine ⟨?_, ?_, ?_, trivial, trivial, trivial, trivial⟩
  · simp only [dma_update_regs, arraySet_same]
    exact merge_tc _ _ hc
  · simp only [dma_update_regs]
    rw [arraySet_other _ _ _ _ (by omega), arraySet_other _ _ _ _ (by omega), arraySet_same]
    exact merge_addr _ _ ha
  · simp only [dma_update_regs]
    rw [arraySet_other _ _ _ _ (by omega), arraySet_same,
      arraySet_other _ _ _ _ (by omega)]
    exact merge_addr _ _ hb

theorem dma_set_servmode_update {σ : Type} (st : s3c240x_dma σ) (dma a b c : Nat) (sp : σ) :
    dma_set_servmode { s3c240x_dma_regs := dma_update_regs st.s3c240x_dma_regs dma a b c,
                       space := sp, irq := st.irq } dma
      = { s3c240x_dma_regs := dma_update_regs (dma_set_servmode st dma).s3c240x_dma_regs
            dma a b c,
          space := sp, irq := st.irq } := by
  unfold dma_set_servmode
  simp only [dma_update_regs_set_servmode]

/-- One step of the block-mode loop from the locals of a state. -/
theorem s3c240x_dma_loop_step {σ : Type} (as : address_space σ)
    (dsz inc_src inc_dst n src dst : Nat) (sp : σ)
    (hs : src + (1 <<< dsz) < 4294967296) (hd : dst + (1 <<< dsz) < 4294967296) :
    s3c240x_dma_loop as dsz inc_src inc_dst 1 (n + 1) src dst sp
      = { s3c240x_dma_loop as dsz inc_src inc_dst 1 n (dma_addr inc_src src dsz 1)
            (dma_addr inc_dst dst dsz 1) (dma_unit_copy as dsz sp src dst) with
          calls := dma_unit_calls dsz src dst
            ++ (s3c240x_dma_loop as dsz inc_src inc_dst 1 n (dma_addr inc_src src dsz 1)
                  (dma_addr inc_dst dst dsz 1) (dma_unit_copy as dsz sp src dst)).calls } := by
  have es : (if inc_src = 0 then wrapU32 (src + (1 <<< dsz)) else src)
      = dma_addr inc_src src dsz 1 := by
    unfold dma_addr wrapU32
    by_cases h : inc_src = 0
    · rw [if_pos h, if_pos h, Nat.mod_eq_of_lt hs, Nat.one_mul]
    · rw [if_neg h, if_neg h]
  have ed : (if inc_dst = 0 then wrapU32 (dst + (1 <<< dsz)) else dst)
      = dma_addr inc_dst dst dsz 1 := by
    unfold dma_addr wrapU32
    by_cases h : inc_dst = 0
    · rw [if_pos h, if_pos h, Nat.mod_eq_of_lt hd, Nat.one_mul]
    · rw [if_neg h, if_neg h]
  rw [s3c240x_dma_loop]
  simp only [es, ed, if_neg (show (1 : Nat) ≠ 0 by decide)]

/-- The recursion of `dma_triggers` when the first call is known. -/
theorem dma_triggers_succ {σ : Type} (as : address_space σ) (ch_int : Nat → Nat)
    (fuel dma n : Nat) (st st1 : s3c240x_dma σ) (calls : List gp32_call)
    (h : s3c240x_dma_trigger as ch_int fuel st dma = some (st1, calls)) :
    dma_triggers as ch_int fuel dma (n + 1) st
      = (dma_triggers as ch_int fuel dma n st1).map (fun r => (r.1, calls ++ r.2)) := by
  rw [dma_triggers]
  simp only [h]
  cases dma_triggers as ch_int fuel dma n st1 with
  | none => rfl
  | some r2 => rfl

theorem dma_step_bound (s u n : Nat) (hu : 1 ≤ u) (h : s + (n + 1 + 1) * u ≤ 2 ^ 29) :
    s + 1 * u < 2 ^ 29 ∧ s + 1 * u + (n + 1) * u ≤ 2 ^ 29 := by
  have e : (n + 1 + 1) * u = (n + 1) * u + u := by ring
  have e2 : u ≤ (n + 1) * u := Nat.le_mul_of_pos_left u (Nat.succ_pos n)
  omega

/-- As many single-mode calls as the count says act as one whole-mode call, when
the addresses stay inside the 29-bit fields. -/
theorem dma_triggers_single_block {σ : Type} (as : address_space σ) (ch_int : Nat → Nat)
    (fuel dma : Nat) :
    ∀ (n : Nat) (st : s3c240x_dma σ), dma_servmode st dma = 0 → dma_curr_tc st dma = n + 1 →
      (dma_inc_src st dma = 0 →
        dma_curr_src st dma + (n + 1) * (1 <<< dma_dsz st dma) ≤ 2 ^ 29) →
      (dma_inc_dst st dma = 0 →
        dma_curr_dst st dma + (n + 1) * (1 <<< dma_dsz st dma) ≤ 2 ^ 29) →
      (dma_triggers as ch_int fuel dma (n + 1) st).map
          (fun r => (dma_set_servmode r.1 dma, r.2))
        = s3c240x_dma_trigger as ch_int fuel (dma_set_servmode st dma) dma := by
  intro n
  induction n with
  | zero =>
    intro st hserv htc hsrc hdst
    obtain ⟨l1, l2, l3, l4, l5, l6, l7⟩ := dma_set_servmode_locals st dma
    have hsl : dma_curr_src st dma < 2 ^ 29 := BITS_low_lt _ 28
    have hdl : dma_curr_dst st dma < 2 ^ 29 := BITS_low_lt _ 28
    have hu := one_shiftLeft_dsz_le (dma_dsz st dma) (dma_dsz_le _)
    have hL := dma_loop_of_single as st dma hserv (by omega)
    have hB : dma_loop_of as (dma_set_servmode st dma) dma
        = { curr_tc := 0
            curr_src := dma_addr (dma_inc_src st dma) (dma_curr_src st dma) (dma_dsz st dma) 1
            curr_dst := dma_addr (dma_inc_dst st dma) (dma_curr_dst st dma) (dma_dsz st dma) 1
            space := dma_unit_copy as (dma_dsz st dma) st.space (dma_curr_src st dma)
              (dma_curr_dst st dma)
            calls := dma_unit_calls (dma_dsz st dma) (dma_curr_src st dma)
              (dma_curr_dst st dma) } := by
      unfold dma_loop_of
      rw [l1, l2, l3, l4, l5, l6, l7, htc]
      show s3c240x_dma_loop as _ _ _ 1 (0 + 1) _ _ st.space = _
      rw [s3c240x_dma_loop_step as _ _ _ 0 _ _ _ (by omega) (by omega)]
      simp only [s3c240x_dma_loop, List.append_nil]
    have hT := s3c240x_dma_trigger_eq_finish as ch_int fuel st dma
    rw [hL, htc] at hT
    have hTB := s3c240x_dma_trigger_eq_finish as ch_int fuel (dma_set_servmode st dma) dma
    rw [hB] at hTB
    simp only [Nat.zero_add, Nat.sub_self] at hT
    have hX := dma_set_servmode_update st dma
      (dma_addr (dma_inc_src st dma) (dma_curr_src st dma) (dma_dsz st dma) 1)
      (dma_addr (dma_inc_dst st dma) (dma_curr_dst st dma) (dma_dsz st dma) 1) 0
      (dma_unit_copy as (dma_dsz st dma) st.space (dma_curr_src st dma) (dma_curr_dst st dma))
    have hirq : (dma_set_servmode st dma).irq = st.irq := rfl
    rw [hirq, ← hX, dma_finish_set_servmode, ← hT] at hTB
    rw [hTB]
    cases hr : s3c240x_dma_trigger as ch_int fuel st dma with
    | none =>
      rw [dma_triggers]
      simp only [hr, Option.map_none']
    | some r =>
      rw [dma_triggers_succ as ch_int fuel dma 0 st r.1 r.2 hr]
      simp only [dma_triggers, Option.map_some', List.append_nil]
  | succ n ih =>
    intro st hserv htc hsrc hdst
    obtain ⟨l1, l2, l3, l4, l5, l6, l7⟩ := dma_set_servmode_locals st dma
    have hsl : dma_curr_src st dma < 2 ^ 29 := BITS_low_lt _ 28
    have hdl : dma_curr_dst st dma < 2 ^ 29 := BITS_low_lt _ 28
    have htl : dma_curr_tc st dma < 2 ^ 20 := BITS_low_lt _ 19
    have hu := one_shiftLeft_dsz_le (dma_dsz st dma) (dma_dsz_le _)
    have hu1 : 1 ≤ 1 <<< dma_dsz st dma := by
      rw [Nat.one_shiftLeft]; exact Nat.one_le_two_pow
    have hL := dma_loop_of_single as st dma hserv (by omega)
    generalize hsrc1 : dma_addr (dma_inc_src st dma) (dma_curr_src st dma) (dma_dsz st dma) 1
      = src1 at hL
    generalize hdst1 : dma_addr (dma_inc_dst st dma) (dma_curr_dst st dma) (dma_dsz st dma) 1
      = dst1 at hL
    generalize hsp1 : dma_unit_copy as (dma_dsz st dma) st.space (dma_curr_src st dma)
      (dma_curr_dst st dma) = sp1 at hL
    have hs1 : src1 < 2 ^ 29 := by
      rw [← hsrc1, dma_addr]
      by_cases h : dma_inc_src st dma = 0
      · rw [if_pos h]
        exact (dma_step_bound _ _ n hu1 (hsrc h)).1
      · rw [if_neg h]; exact hsl
    have hd1 : dst1 < 2 ^ 29 := by
      rw [← hdst1, dma_addr]
      by_cases h : dma_inc_dst st dma = 0
      · rw [if_pos h]
        exact (dma_step_bound _ _ n hu1 (hdst h)).1
      · rw [if_neg h]; exact hdl
    -- the first single-mode call
    have hT := s3c240x_dma_trigger_eq_finish as ch_int fuel st dma
    rw [hL, htc] at hT
    simp only [Nat.add_sub_cancel] at hT
    have hT1 : s3c240x_dma_trigger as ch_int fuel st dma
        = some ({ s3c240x_dma_regs := dma_update_regs st.s3c240x_dma_regs dma src1 dst1 (n + 1),
                  space := sp1, irq := st.irq },
                dma_unit_calls (dma_dsz st dma) (dma_curr_src st dma) (dma_curr_dst st dma)) := by
      rw [hT, dma_finish, if_neg (Nat.succ_ne_zero n)]
    obtain ⟨x1, x2, x3, x4, x5, x6, x7⟩ := dma_update_regs_locals st dma src1 dst1 (n + 1) sp1
      hs1 hd1 (by omega)
    have hih := ih { s3c240x_dma_regs := dma_update_regs st.s3c240x_dma_regs dma src1 dst1 (n + 1),
                     space := sp1, irq := st.irq }
      (by rw [x7]; exact hserv) x1
      (by
        rw [x4, x2, x6]
        intro h
        rw [← hsrc1, dma_addr, if_pos h]
        exact (dma_step_bound _ _ n hu1 (hsrc h)).2)
      (by
        rw [x5, x3, x6]
        intro h
        rw [← hdst1, dma_addr, if_pos h]
        exact (dma_step_bound _ _ n hu1 (hdst h)).2)
    rw [dma_triggers_succ as ch_int fuel dma (n + 1) st _ _ hT1, Option.map_map]
    -- the whole-mode call from the same state
    obtain ⟨y1, y2, y3, y4, y5, y6, y7⟩ := dma_set_servmode_locals
      { s3c240x_dma_regs := dma_update_regs st.s3c240x_dma_regs dma src1 dst1 (n + 1),
        space := sp1, irq := st.irq } dma
    have hB : dma_loop_of as (dma_set_servmode st dma) dma
        = { dma_loop_of as (dma_set_servmode
              { s3c240x_dma_regs := dma_update_regs st.s3c240x_dma_regs dma src1 dst1 (n + 1),
                space := sp1, irq := st.irq } dma) dma with
            calls := dma_unit_calls (dma_dsz st dma) (dma_curr_src st dma) (dma_curr_dst st dma)
              ++ (dma_loop_of as (dma_set_servmode
                { s3c240x_dma_regs := dma_update_regs st.s3c240x_dma_regs dma src1 dst1 (n + 1),
                  space := sp1, irq := st.irq } dma) dma).calls } := by
      unfold dma_loop_of
      rw [l1, l2, l3, l4, l5, l6, l7, htc, y1, y2, y3, y4, y5, y6, y7, x1, x2, x3, x4, x5, x6]
      show s3c240x_dma_loop as _ _ _ 1 (n + 1 + 1) _ _ st.space = _
      rw [s3c240x_dma_loop_step as _ _ _ (n + 1) _ _ _ (by omega) (by omega), hsrc1, hdst1,
        hsp1]
      rfl
    have hTB := s3c240x_dma_trigger_eq_finish as ch_int fuel (dma_set_servmode st dma) dma
    have hTX := s3c240x_dma_trigger_eq_finish as ch_int fuel (dma_set_servmode
      { s3c240x_dma_regs := dma_update_regs st.s3c240x_dma_regs dma src1 dst1 (n + 1),
        space := sp1, irq := st.irq } dma) dma
    rw [hB] at hTB
    simp only at hTB
    rw [dma_finish_prepend] at hTB
    have hregs : (dma_set_servmode
        { s3c240x_dma_regs := dma_update_regs st.s3c240x_dma_regs dma src1 dst1 (n + 1),
          space := sp1, irq := st.irq } dma).s3c240x_dma_regs
        = dma_update_regs (dma_set_servmode st dma).s3c240x_dma_regs dma src1 dst1 (n + 1) := by
      rw [dma_set_servmode_update]
    rw [hregs, dma_update_regs_absorb _ _ _ _ _ _ _ _ hs1 hd1 (by omega)] at hTX
    have hirq : (dma_set_servmode
        { s3c240x_dma_regs := dma_update_regs st.s3c240x_dma_regs dma src1 dst1 (n + 1),
          space := sp1, irq := st.irq } dma).irq = (dma_set_servmode st dma).irq := rfl
    rw [hirq] at hTX
    rw [hTB, ← hTX, ← hih, Option.map_map]
    rfl

/-- Claim C37 at a failing input: channel 0 with count 2, byte units and the
source `0x1FFFFFFF`, the last address of the 29-bit current-source field. Two
single-mode calls read the second byte at address 0 (the stored current source
is read back through the 29-bit field), one whole-mode call reads it at
`0x20000000`: the final memories differ at `0x201`. -/
theorem C37_address_range_end_counterexample :
    (dma_triggers example_space example_ch_int 31 0 2 (example_dma_edge 0)).map
        (fun r => (r.1.space 0x200, r.1.space 0x201, r.2))
      = some (0x55, 0x00,
          [gp32_call.dma_copy 0 0x1FFFFFFF 0x200, gp32_call.dma_copy 0 0 0x201]) ∧
    (s3c240x_dma_trigger example_space example_ch_int 31
        (dma_set_servmode (example_dma_edge 0) 0) 0).map
        (fun r => (r.1.space 0x200, r.1.space 0x201, r.2))
      = some (0x55, 0xAA,
          [gp32_call.dma_copy 0 0x1FFFFFFF 0x200, gp32_call.dma_copy 0 0x20000000 0x201]) ∧
    dma_servmode (example_dma_edge 0) 0 = 0 ∧ dma_curr_tc (example_dma_edge 0) 0 = 2 := by
  refine ⟨by decide, by decide, by decide, by decide⟩

/-- Claim C37, amended: for every DMA channel state with the service-mode bit
clear and current count `c ≥ 1` whose incrementing addresses stay inside the
29-bit current-address fields over the transfer (`address + c * unit ≤ 2^29`),
and every memory content, `c` successive `s3c240x_dma_trigger` calls and one
call from the same state with the service-mode bit set both return, with the
same recorded copies and interrupt requests in the same order, the same final
memory, the same interrupt-controller state and the same registers except for
the service-mode bit of the channel's `DCON`. -/
theorem C37_single_calls_equal_block_amended {σ : Type} (as : address_space σ)
    (ch_int : Nat → Nat) (fuel : Nat) (hfuel : 31 ≤ fuel) (st : s3c240x_dma σ) (dma c : Nat)
    (hserv : dma_servmode st dma = 0) (hc : dma_curr_tc st dma = c) (h1 : 1 ≤ c)
    (hsrc : dma_inc_src st dma = 0 →
      dma_curr_src st dma + c * (1 <<< dma_dsz st dma) ≤ 2 ^ 29)
    (hdst : dma_inc_dst st dma = 0 →
      dma_curr_dst st dma + c * (1 <<< dma_dsz st dma) ≤ 2 ^ 29)
    (hirq : st.irq.s3c240x_irq_regs 0 < 4294967296) (hint : ch_int dma ≤ 31) :
    ∃ s1 s2 calls,
      dma_triggers as ch_int fuel dma c st = some (s1, calls) ∧
      s3c240x_dma_trigger as ch_int fuel (dma_set_servmode st dma) dma = some (s2, calls) ∧
      s2.space = s1.space ∧ s2.irq = s1.irq ∧
      (∀ j, j ≠ (dma <<< 3) + 2 → s2.s3c240x_dma_regs j = s1.s3c240x_dma_regs j) ∧
      s2.s3c240x_dma_regs ((dma <<< 3) + 2)
        = s1.s3c240x_dma_regs ((dma <<< 3) + 2) ||| (1 <<< 26) := by
  obtain ⟨n, rfl⟩ : ∃ n, c = n + 1 := ⟨c - 1, by omega⟩
  have heq := dma_triggers_single_block as ch_int fuel dma n st hserv hc hsrc hdst
  obtain ⟨s2, calls, hrun, -⟩ := s3c240x_dma_trigger_run as ch_int fuel hfuel
    (dma_set_servmode st dma) dma hirq hint
  rw [hrun] at heq
  obtain ⟨r, hr, hr2⟩ := Option.map_eq_some'.mp heq
  have e1 : dma_set_servmode r.1 dma = s2 := congrArg Prod.fst hr2
  have e2 : r.2 = calls := congrArg Prod.snd hr2
  refine ⟨r.1, s2, calls, ?_, hrun, ?_, ?_, ?_, ?_⟩
  · rw [hr, ← e2]
  · rw [← e1]; rfl
  · rw [← e1]; rfl
  · intro j hj
    rw [← e1]
    exact arraySet_other _ _ _ _ hj
  · rw [← e1]
    exact arraySet_same _ _ _

/-- Witness for C37: the sample channel (count 4, byte units, source `0x100`,
destination `0x200`, interrupt bit set): four single-mode calls and one
whole-mode call copy the same four bytes and request interrupt 17 once. -/
theorem C37_single_calls_equal_block_amended_witness :
    (∃ s1 s2 calls,
      dma_triggers example_space example_ch_int 31 0 4 (example_dma 0x10000000) = some (s1, calls) ∧
      s3c240x_dma_trigger example_space example_ch_int 31
        (dma_set_servmode (example_dma 0x10000000) 0) 0 = some (s2, calls) ∧
      s2.space = s1.space ∧ s2.irq = s1.irq ∧
      (∀ j, j ≠ (0 <<< 3) + 2 → s2.s3c240x_dma_regs j = s1.s3c240x_dma_regs j) ∧
      s2.s3c240x_dma_regs ((0 <<< 3) + 2)
        = s1.s3c240x_dma_regs ((0 <<< 3) + 2) ||| (1 <<< 26)) ∧
    (dma_triggers example_space example_ch_int 31 0 4 (example_dma 0x10000000)).map
        (fun r => (r.2, r.1.space 0x203))
      = some ([gp32_call.dma_copy 0 0x100 0x200, gp32_call.dma_copy 0 0x101 0x201,
          gp32_call.dma_copy 0 0x102 0x202, gp32_call.dma_copy 0 0x103 0x203,
          gp32_call.request_irq 17], 0x13) :=
  ⟨C37_single_calls_equal_block_amended example_space example_ch_int 31 (by decide)
    (example_dma 0x10000000) 0 4 (by decide) (by decide) (by decide) (by decide) (by decide)
    (by decide) (by decide), by decide⟩

/-! ## Bounds of the mux table, the IIS FIFO and the IIC data buffer -/

/-- Claim C38 at a failing input: with `TCFG1 = 0x54321` the mux fields of the
timers 0..4 are 1, 2, 3, 4, 5. For the timers 0, 1, 2 the field is inside the
four-entry table (divisors 4, 8, 16); for the timers 3 and 4 it is 4 and 5,
outside the table, the lookup has no entry and `s3c240x_pwm_start` has no
defined divisor. The field is extracted with the mask `0x0F`, so it reaches 15
(`TCFG1 = 0xFFFFF`). -/
theorem C38_mux_field_exceeds_table :
    [0, 1, 2, 3, 4].map (pwm_mux (example_pwm 0 0x54321 0)) = [1, 2, 3, 4, 5] ∧
    [0, 1, 2, 3, 4].map (fun t => mux_table[pwm_mux (example_pwm 0 0x54321 0) t]?)
      = [some 4, some 8, some 16, none, none] ∧
    [0, 1, 2, 3, 4].map
        (fun t => (s3c240x_pwm_start example_clkpow (example_pwm 0 0x54321 0) t).isSome)
      = [true, true, true, false, false] ∧
    [0, 1, 2, 3, 4].map (pwm_mux (example_pwm 0 0xFFFFF 0)) = [15, 15, 15, 15, 15] ∧
    mux_table.length = 4 := by
  refine ⟨by decide, by decide, by decide, by decide, by decide⟩

/-- Claim C39 at a failing input: from machine reset, a write to `IISFIF`
(word `0x10/4`) with the access mask of the upper half leaves the FIFO index at
1; a following write with the full mask stores at the indices 1 and 2 and
leaves the index at 3, which the test `fifo_index == 2` does not reset; the
index is 5 and 7 after the next two full writes, and the fifth write stores at
the indices 7 and 8, the second one outside the 8-entry FIFO. -/
theorem C39_fifo_index_passes_two :
    (s3c240x_machine_reset (example_iis 0, iic_state_init)).1.iis.fifo_index = 0 ∧
    [1, 2, 3, 4].map (fun n =>
        (iis_writes example_clkpow (s3c240x_machine_reset (example_iis 0, iic_state_init)).1
          (List.take n [(0x10 / 4, 0x11110000, 0xffff0000), (0x10 / 4, 0x22223333, 0xffffffff),
            (0x10 / 4, 0x44445555, 0xffffffff), (0x10 / 4, 0x66667777, 0xffffffff)])).map
          (fun s => s.iis.fifo_index))
      = [some 1, some 3, some 5, some 7] ∧
    (iis_writes example_clkpow (s3c240x_machine_reset (example_iis 0, iic_state_init)).1
        [(0x10 / 4, 0x11110000, 0xffff0000), (0x10 / 4, 0x22223333, 0xffffffff),
         (0x10 / 4, 0x44445555, 0xffffffff), (0x10 / 4, 0x66667777, 0xffffffff),
         (0x10 / 4, 0x88889999, 0xffffffff)]).isSome = false := by
  refine ⟨by decide, by decide, by decide⟩

/-- Claim C40 at a failing input: from machine reset, a write of `0xF0` to
`IICSTAT` selects master transmit and starts a transfer (index 0, timer armed);
each timer expiry stores one byte and each following write of 0 to `IICCON`
re-arms the timer without resetting the index. After four expiries the index
is 4, and the fifth expiry stores at index 4, outside the 4-byte buffer. -/
theorem C40_data_index_passes_three :
    (s3c240x_machine_reset (example_iis 0, iic_state_init)).2.iic.data_index = 0 ∧
    [1, 2, 4, 6, 8, 9].map (fun n =>
        (iic_run 27 31 (s3c240x_machine_reset (example_iis 0, iic_state_init)).2
          (List.take n [iic_event.write 1 0xF0 0xffffffff,
            iic_event.timer_expiry, iic_event.write 0 0 0xffffffff,
            iic_event.timer_expiry, iic_event.write 0 0 0xffffffff,
            iic_event.timer_expiry, iic_event.write 0 0 0xffffffff,
            iic_event.timer_expiry, iic_event.write 0 0 0xffffffff])).map
          (fun s => (s.iic.data_index, s.s3c240x_iic_timer.duration)))
      = [some (0, attotime.in_msec 1), some (1, attotime.never), some (2, attotime.never),
         some (3, attotime.never), some (4, attotime.never), some (4, attotime.in_msec 1)] ∧
    (iic_run 27 31 (s3c240x_machine_reset (example_iis 0, iic_state_init)).2
        [iic_event.write 1 0xF0 0xffffffff,
         iic_event.timer_expiry, iic_event.write 0 0 0xffffffff,
         iic_event.timer_expiry, iic_event.write 0 0 0xffffffff,
         iic_event.timer_expiry, iic_event.write 0 0 0xffffffff,
         iic_event.timer_expiry, iic_event.write 0 0 0xffffffff,
         iic_event.timer_expiry]).isSome = false := by
  refine ⟨by decide, by decide, by decide⟩
